import Mathlib

/-! # Ledger transaction engine: shallow embedding and verified properties

The definitions below embed the transactional core of the banking backend:

* `internal/db/db.go`: the retrying executor `WithTx`;
* `internal/services/transaction_service.go`: `Transfer`, `Exchange` and their helpers;
* `internal/store/*.go`: the store methods the service calls, as an interface record
  (`Stores`) with one in-memory instance used to run concrete scenarios.

Conventions of the embedding:

* Go `int64` values are integers (`Int`); every `int64` operation of the source is
  written with `add64`, `sub64` or `neg64`, which reduce the exact result into the
  range `[-2^63, 2^63)` the way the Go operators wrap.
* Go `error` values are the inductive type `Error`; a method returning `(T, error)`
  returns `Except Error T`.
* Stateful code is a function from a `World` (backing state, call log, local variables
  captured by the unit-of-work closure) to a result and a new `World`.
* Every call through a store interface, the transaction handle or the hub is appended to
  the call log together with what it returned.
-/

namespace Banking

/-! ## int64 arithmetic -/

/-- Reduction of an exact integer into the `int64` range, as Go arithmetic wraps. -/
def wrapInt64 (x : Int) : Int := (x + 2 ^ 63) % 2 ^ 64 - 2 ^ 63

/-- Go `a + b` on `int64`. -/
def add64 (a b : Int) : Int := wrapInt64 (a + b)

/-- Go `a - b` on `int64`. -/
def sub64 (a b : Int) : Int := wrapInt64 (a - b)

/-- Go unary `-a` on `int64`. -/
def neg64 (a : Int) : Int := wrapInt64 (-a)

/-- The value is representable as an `int64`. -/
def isInt64 (x : Int) : Prop := -2 ^ 63 ≤ x ∧ x < 2 ^ 63

instance (x : Int) : Decidable (isInt64 x) := by
  unfold isInt64; exact inferInstance

/-! ## String order

Go compares strings bytewise. Identifiers are compared here by code point, position by
position; on valid UTF-8 text the two orders coincide. -/

/-- Lexicographic `<=` on character lists. -/
def charsLE : List Char → List Char → Bool
  | [], _ => true
  | _ :: _, [] => false
  | a :: as, b :: bs =>
    if a.toNat < b.toNat then true
    else if b.toNat < a.toNat then false
    else charsLE as bs

/-- Go `a <= b` on strings. -/
def strLE (a b : String) : Bool := charsLE a.data b.data

/-! ## Errors -/

/-- Go `error` values that reach the engine: the service sentinels, a PostgreSQL driver
error (`*pq.Error`) with its SQLSTATE code, and any other error identified by its message. -/
inductive Error where
  | ErrInsufficientFunds
  | ErrCurrencyMismatch
  | ErrExchangeRateNotSet
  | ErrInvalidAmount
  | ErrSameAccountTransfer
  | ErrUnauthorizedAccount
  | ErrInvalidExchangeRequest
  | ErrQuoteNotFound
  | ErrQuoteExpired
  | ErrQuoteConsumed
  | ErrRateMismatch
  | pq (code : String)
  | other (msg : String)
  deriving DecidableEq, Repr

deriving instance DecidableEq for Except

/-! ## Decimal numbers (`github.com/shopspring/decimal`)

A decimal is `value * 10 ^ exp` with an arbitrary-precision coefficient. The operations
below follow the library's documented behaviour for the calls the service makes. -/

/-- Decimal number `value * 10 ^ exp`. -/
structure Decimal where
  value : Int
  exp : Int
  deriving DecidableEq, Repr

namespace Decimal

/-- Library `NewFromInt`. -/
def NewFromInt (v : Int) : Decimal := { value := v, exp := 0 }

/-- Library `rescale`: same number at exponent `e`, truncating toward zero when digits are dropped. -/
def rescale (d : Decimal) (e : Int) : Decimal :=
  if d.exp = e then d
  else if d.exp < e then { value := Int.tdiv d.value (10 ^ (e - d.exp).toNat), exp := e }
  else { value := d.value * 10 ^ (d.exp - e).toNat, exp := e }

/-- Library `Cmp`: `-1`, `0` or `1`, comparing the two numbers at their smaller exponent. -/
def Cmp (a b : Decimal) : Int :=
  let m := min a.exp b.exp
  let x := (a.rescale m).value
  let y := (b.rescale m).value
  if x < y then -1 else if x = y then 0 else 1

/-- Library `Equal`: numeric equality. -/
def Equal (a b : Decimal) : Bool := decide (a.Cmp b = 0)

/-- Library `Mul`. -/
def Mul (a b : Decimal) : Decimal := { value := a.value * b.value, exp := a.exp + b.exp }

/-- Library `Sub`. -/
def Sub (a b : Decimal) : Decimal :=
  let m := min a.exp b.exp
  { value := (a.rescale m).value - (b.rescale m).value, exp := m }

/-- Library `Abs`. -/
def Abs (a : Decimal) : Decimal := { value := |a.value|, exp := a.exp }

/-- Library `Round`: rounding to `places` decimals, a half going away from zero. -/
def Round (d : Decimal) (places : Int) : Decimal :=
  if d.exp = -places then d
  else
    let r := d.rescale (-places - 1)
    let v := if r.value < 0 then r.value - 5 else r.value + 5
    { value := Int.tdiv v 10, exp := -places }

/-- Library `RoundBank`: rounding to `places` decimals, an exact half going to the even neighbour. -/
def RoundBank (d : Decimal) (places : Int) : Decimal :=
  let round := d.Round places
  let remainder := (d.Sub round).Abs
  let half : Decimal := { value := 5, exp := -places - 1 }
  if remainder.Cmp half = 0 ∧ round.value % 2 ≠ 0 then
    if round.value < 0 then { round with value := round.value + 1 }
    else { round with value := round.value - 1 }
  else round

/-- Library `IntPart`: the integer part, returned through `big.Int.Int64`. -/
def IntPart (d : Decimal) : Int := wrapInt64 (d.rescale 0).value

/-- Library `Div`, which is `DivRound` at 16 decimals: the quotient truncated at 16 decimals,
moved one unit away from zero when twice the remainder reaches the divisor. Division by zero
panics in the library; the model returns zero there. -/
def Div (a b : Decimal) : Decimal :=
  if b.value = 0 then { value := 0, exp := -16 }
  else
    let e := a.exp - b.exp + 16
    let aa := if e < 0 then a.value else a.value * 10 ^ e.toNat
    let bb := if e < 0 then b.value * 10 ^ (-e).toNat else b.value
    let q := Int.tdiv aa bb
    let r := Int.tmod aa bb
    if 2 * |r| < |bb| then { value := q, exp := -16 }
    else if a.value.sign * b.value.sign < 0 then { value := q - 1, exp := -16 }
    else { value := q + 1, exp := -16 }

/-- Decimal digits of a natural number (Go `%d` on a non-negative value). -/
def natStr (n : Nat) : String := toString n

/-- Go `strconv.ParseInt(s, 10, _)` and `big.Int.SetString(s, 10)` on an unsigned digit run:
at least one character, decimal digits only. -/
def parseDigits : List Char → Option Nat
  | [] => none
  | cs =>
    if cs.all (fun c => decide (48 ≤ c.toNat) && decide (c.toNat ≤ 57)) then
      some (cs.foldl (fun acc c => acc * 10 + (c.toNat - 48)) 0)
    else none

/-- Base-10 integer text: an optional sign followed by a digit run. -/
def parseSigned : List Char → Option Int
  | '+' :: rest => (parseDigits rest).map Int.ofNat
  | '-' :: rest => (parseDigits rest).map (fun n => -Int.ofNat n)
  | cs => (parseDigits cs).map Int.ofNat

/-- Library `NewFromString`: an optional `e`/`E` exponent (a 32-bit integer) is split off,
at most one `.` is allowed, and the remaining characters must form a base-10 integer; the
exponent is lowered by the number of characters after the `.`. `none` stands for the error. -/
def NewFromString (value : String) : Option Decimal :=
  let sp := value.data.span (fun c => c != 'e' && c != 'E')
  let expo : Option Int :=
    match sp.2 with
    | [] => some 0
    | _ :: ex => (parseSigned ex).bind (fun e => if -2 ^ 31 ≤ e ∧ e < 2 ^ 31 then some e else none)
  match expo with
  | none => none
  | some e0 =>
    if 1 < sp.1.count '.' then none
    else
      let parts := sp.1.span (fun c => c != '.')
      let frac := parts.2.drop 1
      match parseSigned (parts.1 ++ frac) with
      | none => none
      | some v =>
        let e := e0 - frac.length
        if e < -2 ^ 31 ∨ 2 ^ 31 ≤ e then none else some { value := v, exp := e }

/-- Library `String` without trimming: all digits of the coefficient, with the point placed
by the exponent. -/
def toText (d : Decimal) : String :=
  if 0 ≤ d.exp then
    (if (d.rescale 0).value < 0 then "-" else "") ++ natStr (d.rescale 0).value.natAbs
  else
    let str := (natStr d.value.natAbs).data
    let n := (-d.exp).toNat
    let intPart := if n < str.length then str.take (str.length - n) else ['0']
    let fractionalPart :=
      if n < str.length then str.drop (str.length - n)
      else List.replicate (n - str.length) '0' ++ str
    let number := intPart ++ '.' :: fractionalPart
    String.mk (if d.value < 0 then '-' :: number else number)

/-- Library `StringFixedBank`: the number rounded half-to-even to `places` decimals, printed
with exactly that many decimals (`places` positive). -/
def StringFixedBank (d : Decimal) (places : Int) : String := (d.RoundBank places).toText

end Decimal

/-! ## Money codec (`internal/money`) -/

/-- Go `fmt.Sprintf("%d", n)`. -/
def fmtD (n : Int) : String := (if n < 0 then "-" else "") ++ Decimal.natStr n.natAbs

/-- Go `fmt.Sprintf("%02d", n)`: zero padding to two columns, the sign taking one. -/
def fmt02d (n : Int) : String :=
  if n < 0 then "-" ++ Decimal.natStr n.natAbs
  else if n < 10 then "0" ++ Decimal.natStr n.natAbs
  else Decimal.natStr n.natAbs

/-- Source `money.FormatMinor`. -/
def FormatMinor (value : Int) : String :=
  let negative := decide (value < 0)
  let value := if negative then neg64 value else value
  let whole := Int.tdiv value 100
  let frac := Int.tmod value 100
  let formatted := fmtD whole ++ "." ++ fmt02d frac
  if negative then "-" ++ formatted else formatted

/-! ## Rows and inputs (`internal/store`) -/

/-- Row of `accounts` as scanned by the account store (`store.Account`). -/
structure Account where
  ID : String := ""
  UserID : Option String := none
  Currency : String := ""
  Balance : Int := 0
  IsSystem : Bool := false
  deriving DecidableEq, Repr

/-- Input of `LedgerStore.InsertEntries` (`store.LedgerEntryInput`). -/
structure LedgerEntryInput where
  ID : String := ""
  TransactionID : String := ""
  AccountID : String := ""
  Amount : Int := 0
  Currency : String := ""
  Description : String := ""
  deriving DecidableEq, Repr

/-- Input of `TransactionStore.Create` (`store.TransactionInput`). `Metadata` holds the
key/value pairs, in key order, whose JSON encoding the source stores; `TxType` is the
field `Type` of the source. -/
structure TransactionInput where
  ID : String := ""
  UserID : String := ""
  TxType : String := ""
  Status : String := ""
  Amount : Int := 0
  Currency : String := ""
  FromAccountID : Option String := none
  ToAccountID : Option String := none
  ExchangeRateID : Option String := none
  Metadata : List (String × String) := []
  ClientRequestID : Option String := none
  deriving DecidableEq, Repr

/-- Row of `exchange_quotes` (`store.ExchangeQuote`); times are instants on an integer clock. -/
structure ExchangeQuote where
  ID : String := ""
  UserID : String := ""
  FromAccountID : String := ""
  ToAccountID : String := ""
  AmountMinor : Int := 0
  ConvertedMinor : Int := 0
  Rate : String := ""
  BaseCurrency : String := ""
  QuoteCurrency : String := ""
  ExpiresAt : Int := 0
  ConsumedAt : Option Int := none
  deriving DecidableEq, Repr

/-- Input of `ExchangeQuoteStore.Create` (`store.ExchangeQuoteInput`). -/
structure ExchangeQuoteInput where
  ID : String := ""
  UserID : String := ""
  FromAccountID : String := ""
  ToAccountID : String := ""
  AmountMinor : Int := 0
  ConvertedMinor : Int := 0
  Rate : String := ""
  BaseCurrency : String := ""
  QuoteCurrency : String := ""
  ExpiresAt : Int := 0
  deriving DecidableEq, Repr

/-- Message pushed to the hub (`websocket.BalanceUpdate`). -/
structure BalanceUpdate where
  AccountID : String := ""
  Balance : String := ""
  Currency : String := ""
  deriving DecidableEq, Repr

/-! ## Call log -/

/-- One call made through a store interface, the transaction handle or the hub, with the
arguments passed and the result returned. -/
inductive Call where
  | BeginTxx (res : Except Error Unit)
  | Commit (res : Except Error Unit)
  | Rollback (res : Except Error Unit)
  | Sleep (attempt : Nat)
  | GetByID (accountID : String) (res : Except Error Account)
  | GetForUpdate (accountID : String) (res : Except Error Account)
  | UpdateBalance (accountID : String) (balance : Int) (res : Except Error Unit)
  | GetSystemAccount (currency : String) (res : Except Error String)
  | InsertEntries (entries : List LedgerEntryInput) (res : Except Error Unit)
  | TxCreate (input : TransactionInput) (res : Except Error Unit)
  | QuoteCreate (input : ExchangeQuoteInput) (res : Except Error Unit)
  | QuoteGetByID (quoteID : String) (res : Except Error ExchangeQuote)
  | QuoteConsume (quoteID : String) (res : Except Error Int)
  | AuditLog (actorID action entityType entityID : String) (data : List (String × String))
      (res : Except Error Unit)
  | BroadcastBalance (userID : String) (update : BalanceUpdate)
  deriving DecidableEq

/-! ## Collaborator interfaces

`Stores σ` gathers the methods the engine calls on its collaborators, each as a transition
of a backing state `σ`: the database handle (`BeginTxx`, `Commit`, `Rollback`), the
`AccountStore`, `LedgerStore`, `TransactionStore`, `ExchangeQuoteStore` and `AuditStore`
interfaces of the service, the `BalanceHub`, and the two ambient sources `uuid.NewString`
and `time.Now`. -/

/-- Collaborators of the engine over a backing state `σ`. -/
structure Stores (σ : Type) where
  BeginTxx : σ → Except Error Unit × σ
  Commit : σ → Except Error Unit × σ
  Rollback : σ → Except Error Unit × σ
  GetByID : String → σ → Except Error Account × σ
  GetForUpdate : String → σ → Except Error Account × σ
  UpdateBalance : String → Int → σ → Except Error Unit × σ
  GetSystemAccount : String → σ → Except Error String × σ
  InsertEntries : List LedgerEntryInput → σ → Except Error Unit × σ
  TxCreate : TransactionInput → σ → Except Error Unit × σ
  QuoteCreate : ExchangeQuoteInput → σ → Except Error Unit × σ
  QuoteGetByID : String → σ → Except Error ExchangeQuote × σ
  QuoteConsume : String → σ → Except Error Int × σ
  AuditLog : String → String → String → String → List (String × String) → σ → Except Error Unit × σ
  BroadcastBalance : String → BalanceUpdate → σ → σ
  NewString : σ → String × σ
  Now : σ → Int × σ

/-! ## Worlds and operations -/

/-- State threaded through the engine: backing state, call log, and the local variables
captured by the closure currently running. -/
structure World (σ ν : Type) where
  db : σ
  log : List Call
  vars : ν

/-- Operation of the engine returning `α` or an error. -/
def Op (σ ν α : Type) : Type := World σ ν → Except Error α × World σ ν

namespace Op

variable {σ ν μ α β : Type}

/-- Run an operation from a world. -/
def run (m : Op σ ν α) (w : World σ ν) : Except Error α × World σ ν := m w

/-- Return a value. -/
def ret (a : α) : Op σ ν α := fun w => (.ok a, w)

/-- Return an error (Go `return err`). -/
def fail (e : Error) : Op σ ν α := fun w => (.error e, w)

/-- Sequencing: the rest runs only when the first part returned no error. -/
def andThen (m : Op σ ν α) (f : α → Op σ ν β) : Op σ ν β := fun w =>
  match m w with
  | (.ok a, w1) => f a w1
  | (.error e, w1) => (.error e, w1)

instance : Monad (Op σ ν) where
  pure := ret
  bind := andThen

/-- Call a collaborator method and append the call, with its result, to the log. -/
def call (f : σ → Except Error α × σ) (ev : Except Error α → Call) : Op σ ν α := fun w =>
  ((f w.db).1, { w with db := (f w.db).2, log := w.log ++ [ev (f w.db).1] })

/-- Read an ambient source that cannot fail and is not logged. -/
def ambient (f : σ → α × σ) : Op σ ν α := fun w =>
  (.ok (f w.db).1, { w with db := (f w.db).2 })

/-- Read the captured local variables. -/
def getVars : Op σ ν ν := fun w => (.ok w.vars, w)

/-- Assign captured local variables. -/
def modifyVars (f : ν → ν) : Op σ ν Unit := fun w => (.ok (), { w with vars := f w.vars })

/-- Run `m` with its own local variables, initially `init`; on success return the result
together with the final value of those variables. -/
def withVars (init : ν) (m : Op σ ν α) : Op σ μ (α × ν) := fun w =>
  match m { db := w.db, log := w.log, vars := init } with
  | (.ok a, w1) => (.ok (a, w1.vars), { db := w1.db, log := w1.log, vars := w.vars })
  | (.error e, w1) => (.error e, { db := w1.db, log := w1.log, vars := w.vars })

/-- Go `if c { return e }`. -/
def failIf (c : Prop) [Decidable c] (e : Error) : Op σ ν Unit :=
  if c then fail e else ret ()

/-- Go `if c { ... }` around statements that may return an error. -/
def onlyIf (c : Prop) [Decidable c] (m : Op σ ν Unit) : Op σ ν Unit :=
  if c then m else ret ()

/-- Result of a function that touches no state (Go `if err := f(x); err != nil { return err }`). -/
def ofExcept (r : Except Error α) : Op σ ν α := fun w => (r, w)

/-- Replace whatever error `m` returns by `e` (Go `if err != nil { return e }`). -/
def replaceError (m : Op σ ν α) (e : Error) : Op σ ν α := fun w =>
  match m w with
  | (.ok a, w1) => (.ok a, w1)
  | (.error _, w1) => (.error e, w1)

end Op

section Calls

variable {σ ν : Type} (S : Stores σ)

/-- Logged `db.BeginTxx`. -/
def BeginTxx : Op σ ν Unit := Op.call S.BeginTxx Call.BeginTxx

/-- Logged `tx.Commit`. -/
def Commit : Op σ ν Unit := Op.call S.Commit Call.Commit

/-- Logged `tx.Rollback`, whose result the source discards. -/
def Rollback : Op σ ν Unit := fun w =>
  (.ok (), { w with db := (S.Rollback w.db).2, log := w.log ++ [Call.Rollback (S.Rollback w.db).1] })

/-- Logged `AccountStore.GetByID`. -/
def GetByID (accountID : String) : Op σ ν Account :=
  Op.call (S.GetByID accountID) (Call.GetByID accountID)

/-- Logged `AccountStore.GetForUpdate`. -/
def GetForUpdate (accountID : String) : Op σ ν Account :=
  Op.call (S.GetForUpdate accountID) (Call.GetForUpdate accountID)

/-- Logged `AccountStore.UpdateBalance`. -/
def UpdateBalance (accountID : String) (balance : Int) : Op σ ν Unit :=
  Op.call (S.UpdateBalance accountID balance) (Call.UpdateBalance accountID balance)

/-- Logged `AccountStore.GetSystemAccount`. -/
def GetSystemAccount (currency : String) : Op σ ν String :=
  Op.call (S.GetSystemAccount currency) (Call.GetSystemAccount currency)

/-- Logged `LedgerStore.InsertEntries`. -/
def InsertEntries (entries : List LedgerEntryInput) : Op σ ν Unit :=
  Op.call (S.InsertEntries entries) (Call.InsertEntries entries)

/-- Logged `TransactionStore.Create`. -/
def TxCreate (input : TransactionInput) : Op σ ν Unit :=
  Op.call (S.TxCreate input) (Call.TxCreate input)

/-- Logged `ExchangeQuoteStore.Create`. -/
def QuoteCreate (input : ExchangeQuoteInput) : Op σ ν Unit :=
  Op.call (S.QuoteCreate input) (Call.QuoteCreate input)

/-- Logged `ExchangeQuoteStore.GetByID`. -/
def QuoteGetByID (quoteID : String) : Op σ ν ExchangeQuote :=
  Op.call (S.QuoteGetByID quoteID) (Call.QuoteGetByID quoteID)

/-- Logged `ExchangeQuoteStore.Consume`. -/
def QuoteConsume (quoteID : String) : Op σ ν Int :=
  Op.call (S.QuoteConsume quoteID) (Call.QuoteConsume quoteID)

/-- Logged `AuditStore.Log`. -/
def AuditLog (actorID action entityType entityID : String) (data : List (String × String)) :
    Op σ ν Unit :=
  Op.call (S.AuditLog actorID action entityType entityID data)
    (Call.AuditLog actorID action entityType entityID data)

/-- Logged `BalanceHub.BroadcastBalance`, which returns nothing. -/
def BroadcastBalance (userID : String) (update : BalanceUpdate) : Op σ ν Unit := fun w =>
  (.ok (), { w with db := S.BroadcastBalance userID update w.db,
                    log := w.log ++ [Call.BroadcastBalance userID update] })

/-- Ambient `uuid.NewString`. -/
def NewString : Op σ ν String := Op.ambient S.NewString

/-- Ambient `time.Now`. -/
def Now : Op σ ν Int := Op.ambient S.Now

end Calls

/-! ## Retrying executor (`internal/db/db.go`) -/

/-- Source constant `maxAttempts` of `WithTx`. -/
def maxAttempts : Nat := 5

/-- Source `isRetryablePGError`: a driver error whose code is `40001` or `40P01`. -/
def isRetryablePGError : Error → Bool
  | .pq code => code == "40001" || code == "40P01"
  | _ => false

section Executor

variable {σ ν : Type} (S : Stores σ)

/-- Source `sleepWithBackoff`; the pause itself is outside the model, the call is logged. -/
def sleepWithBackoff (attempt : Nat) : Op σ ν Unit := fun w =>
  (.ok (), { w with log := w.log ++ [Call.Sleep attempt] })

/-- Loop of `WithTx`, entered with loop variable `attempt` and with `remaining` iterations
left before the loop condition `attempt <= maxAttempts` fails, which is where the source
falls through to its last `return`. -/
def WithTxLoop (fn : Op σ ν Unit) : Nat → Nat → Op σ ν Unit
  | 0, _ => Op.fail (.other "transaction retry limit exceeded")
  | remaining + 1, attempt => fun w =>
    match BeginTxx S w with
    | (.error err, w1) => (.error err, w1)
    | (.ok _, w1) =>
      match fn w1 with
      | (.error err, w2) =>
        let w3 := (Rollback S w2).2
        if isRetryablePGError err && decide (attempt < maxAttempts) then
          WithTxLoop fn remaining (attempt + 1) (sleepWithBackoff attempt w3).2
        else (.error err, w3)
      | (.ok _, w2) =>
        match Commit S w2 with
        | (.error err, w3) =>
          if isRetryablePGError err && decide (attempt < maxAttempts) then
            WithTxLoop fn remaining (attempt + 1) (sleepWithBackoff attempt w3).2
          else (.error err, w3)
        | (.ok _, w3) => (.ok (), w3)

/-- Source `WithTx`: `for attempt := 1; attempt <= maxAttempts; attempt++`. -/
def WithTx (fn : Op σ ν Unit) : Op σ ν Unit := WithTxLoop S fn maxAttempts 1

end Executor

/-! ## Transaction service (`internal/services/transaction_service.go`) -/

/-- Source `orderedIDs`. -/
def orderedIDs (firstID secondID : String) : String × String :=
  if strLE firstID secondID then (firstID, secondID) else (secondID, firstID)

/-- Source `ensureBalanced`. -/
def ensureBalanced (entries : List LedgerEntryInput) : Except Error Unit :=
  let sum := entries.foldl (fun sum entry => add64 sum entry.Amount) 0
  if sum ≠ 0 then .error (.other "ledger entries are not balanced") else .ok ()

/-- Go `sums[currency] += amount` on a map held as an association list. -/
def addSum (currency : String) (amount : Int) : List (String × Int) → List (String × Int)
  | [] => [(currency, add64 0 amount)]
  | (k, v) :: rest =>
    if k = currency then (k, add64 v amount) :: rest else (k, v) :: addSum currency amount rest

/-- Source `ensureBalancedByCurrency`. -/
def ensureBalancedByCurrency (entries : List LedgerEntryInput) : Except Error Unit :=
  let sums := entries.foldl (fun sums entry => addSum entry.Currency entry.Amount sums) []
  if sums.any (fun kv => decide (kv.2 ≠ 0)) then
    .error (.other "ledger entries are not balanced per currency")
  else .ok ()

/-- Source `convertMinor`. -/
def convertMinor (amountMinor : Int) (rate : Decimal) : Int :=
  (((Decimal.NewFromInt amountMinor).Mul rate).RoundBank 0).IntPart

/-- Source `fixedUSDEURRate`; the fallback `NewFromFloat(0.92)` is the same number. -/
def fixedUSDEURRate : Decimal :=
  match Decimal.NewFromString "0.92" with
  | some rate => rate
  | none => { value := 92, exp := -2 }

/-- Source `isExchangePairAllowed`. -/
def isExchangePairAllowed (fromCurrency toCurrency : String) : Bool :=
  (fromCurrency == "USD" && toCurrency == "EUR") || (fromCurrency == "EUR" && toCurrency == "USD")

/-- Rate applied from `fromCurrency` to `toCurrency`, as both `QuoteExchange` and `Exchange`
compute it from `fixedUSDEURRate`. -/
def directionalRate (fromCurrency toCurrency : String) : Decimal :=
  if fromCurrency = "EUR" ∧ toCurrency = "USD" then
    ((Decimal.NewFromInt 1).Div fixedUSDEURRate).RoundBank 6
  else fixedUSDEURRate

/-- Source test `account.UserID == nil || *account.UserID != userID`. -/
def notOwnedBy (owner : Option String) (userID : String) : Bool :=
  match owner with
  | none => true
  | some u => u != userID

/-- Source `TransferRequest`. -/
structure TransferRequest where
  UserID : String := ""
  FromAccountID : String := ""
  ToAccountID : String := ""
  AmountMinor : Int := 0
  ClientRequestID : Option String := none
  deriving DecidableEq, Repr

/-- Local variables of `Transfer` that its closure assigns. -/
structure TransferVars where
  transactionID : String := ""
  toUserID : String := ""
  fromBalanceAfter : Int := 0
  toBalanceAfter : Int := 0
  currency : String := ""
  deriving DecidableEq, Repr

/-- Source `ExchangeRequest`. -/
structure ExchangeRequest where
  UserID : String := ""
  FromAccountID : String := ""
  ToAccountID : String := ""
  AmountMinor : Int := 0
  ClientRequestID : Option String := none
  QuoteID : Option String := none
  QuotedRate : Option String := none
  deriving DecidableEq, Repr

/-- Local variables of `Exchange`: those fixed before the closure runs (`rate`, `quoteID`,
`expectedConverted`) and those the closure assigns. -/
structure ExchangeVars where
  transactionID : String := ""
  fromBalanceAfter : Int := 0
  toBalanceAfter : Int := 0
  toCurrency : String := ""
  fromCurrency : String := ""
  rate : Decimal := { value := 0, exp := 0 }
  quoteID : String := ""
  expectedConverted : Int := 0
  deriving DecidableEq, Repr

/-- Ledger entries that `Transfer` builds: the debit of the source account, then the credit
of the destination account. -/
def transferEntries (req : TransferRequest) (transactionID debitID creditID currency : String) :
    List LedgerEntryInput := [
  { ID := debitID
    TransactionID := transactionID
    AccountID := req.FromAccountID
    Amount := neg64 req.AmountMinor
    Currency := currency
    Description := "Transfer debit" },
  { ID := creditID
    TransactionID := transactionID
    AccountID := req.ToAccountID
    Amount := req.AmountMinor
    Currency := currency
    Description := "Transfer credit" }]

/-- Ledger entries that `Exchange` builds, in the order of the source. -/
def exchangeEntries (req : ExchangeRequest) (transactionID id1 id2 id3 id4 : String)
    (systemFromID systemToID fromCurrency toCurrency : String) (convertedMinor : Int) :
    List LedgerEntryInput := [
  { ID := id1
    TransactionID := transactionID
    AccountID := req.FromAccountID
    Amount := neg64 req.AmountMinor
    Currency := fromCurrency
    Description := "Exchange debit" },
  { ID := id2
    TransactionID := transactionID
    AccountID := systemFromID
    Amount := req.AmountMinor
    Currency := fromCurrency
    Description := "Exchange system credit" },
  { ID := id3
    TransactionID := transactionID
    AccountID := systemToID
    Amount := neg64 convertedMinor
    Currency := toCurrency
    Description := "Exchange system debit" },
  { ID := id4
    TransactionID := transactionID
    AccountID := req.ToAccountID
    Amount := convertedMinor
    Currency := toCurrency
    Description := "Exchange credit" }]

section Service

variable {σ ν : Type} (S : Stores σ)

/-- Source `lockTwoAccounts`. -/
def lockTwoAccounts (firstID secondID : String) : Op σ ν (Account × Account) := do
  let leftID := (orderedIDs firstID secondID).1
  let rightID := (orderedIDs firstID secondID).2
  let leftAccount ← GetForUpdate S leftID
  let rightAccount ← GetForUpdate S rightID
  if firstID = leftID then
    return (leftAccount, rightAccount)
  else
    return (rightAccount, leftAccount)

/-- Closure that `Transfer` passes to `WithTx`. -/
def transferWork (req : TransferRequest) : Op σ TransferVars Unit := do
  let locked ← lockTwoAccounts S req.FromAccountID req.ToAccountID
  let fromAccount := locked.1
  let toAccount := locked.2
  Op.failIf (notOwnedBy fromAccount.UserID req.UserID) .ErrUnauthorizedAccount
  Op.failIf (fromAccount.Currency ≠ toAccount.Currency) .ErrCurrencyMismatch
  let currency := fromAccount.Currency
  Op.modifyVars (fun v => { v with currency := currency })
  Op.modifyVars (fun v =>
    match toAccount.UserID with
    | some u => { v with toUserID := u }
    | none => v)
  let fromBalance := fromAccount.Balance
  Op.failIf (fromBalance < req.AmountMinor) .ErrInsufficientFunds
  let newFrom := sub64 fromBalance req.AmountMinor
  let toBalance := toAccount.Balance
  let newTo := add64 toBalance req.AmountMinor
  Op.modifyVars (fun v => { v with fromBalanceAfter := newFrom, toBalanceAfter := newTo })
  UpdateBalance S req.FromAccountID newFrom
  UpdateBalance S req.ToAccountID newTo
  let transactionID ← NewString S
  Op.modifyVars (fun v => { v with transactionID := transactionID })
  TxCreate S {
    ID := transactionID
    UserID := req.UserID
    TxType := "transfer"
    Status := "completed"
    Amount := req.AmountMinor
    Currency := currency
    FromAccountID := some req.FromAccountID
    ToAccountID := some req.ToAccountID
    Metadata := []
    ClientRequestID := req.ClientRequestID }
  let debitID ← NewString S
  let creditID ← NewString S
  let entries := transferEntries req transactionID debitID creditID currency
  Op.ofExcept (ensureBalanced entries)
  InsertEntries S entries
  AuditLog S req.UserID "transfer" "transaction" transactionID [("transaction_id", transactionID)]

/-- Source `TransactionService.Transfer`. -/
def Transfer (req : TransferRequest) : Op σ Unit String := do
  Op.failIf (req.AmountMinor ≤ 0) .ErrInvalidAmount
  Op.failIf (req.FromAccountID = req.ToAccountID) .ErrSameAccountTransfer
  let done ← Op.withVars ({} : TransferVars) (WithTx S (transferWork S req))
  let v := done.2
  BroadcastBalance S req.UserID {
    AccountID := req.FromAccountID
    Balance := FormatMinor v.fromBalanceAfter
    Currency := v.currency }
  Op.onlyIf (v.toUserID ≠ "") (BroadcastBalance S v.toUserID {
    AccountID := req.ToAccountID
    Balance := FormatMinor v.toBalanceAfter
    Currency := v.currency })
  return v.transactionID

/-- What `Exchange` fixes before it opens a transaction: the committed rate, the quote id
(empty without a quote), the quote's converted amount (zero without a quote) and the quote's
currencies. -/
def exchangeCommitment (req : ExchangeRequest) : Op σ ν ExchangeVars :=
  match req.QuoteID with
  | some quoteID => do
    let quote ← (QuoteGetByID S quoteID).replaceError .ErrQuoteNotFound
    Op.failIf (quote.ConsumedAt.isSome) .ErrQuoteConsumed
    let now ← Now S
    Op.failIf (quote.ExpiresAt < now) .ErrQuoteExpired
    Op.failIf (quote.UserID ≠ req.UserID ∨ quote.FromAccountID ≠ req.FromAccountID
      ∨ quote.ToAccountID ≠ req.ToAccountID) .ErrInvalidExchangeRequest
    Op.failIf (quote.AmountMinor ≠ req.AmountMinor) .ErrInvalidExchangeRequest
    match Decimal.NewFromString quote.Rate with
    | none => Op.fail .ErrInvalidExchangeRequest
    | some rate =>
      return ({
        rate := rate
        quoteID := quoteID
        expectedConverted := quote.ConvertedMinor
        fromCurrency := quote.BaseCurrency
        toCurrency := quote.QuoteCurrency } : ExchangeVars)
  | none =>
    match req.QuotedRate with
    | some quotedRate =>
      match Decimal.NewFromString quotedRate with
      | none => Op.fail .ErrInvalidExchangeRequest
      | some parsed => pure { rate := parsed }
    | none => Op.fail .ErrInvalidExchangeRequest

/-- Closure that `Exchange` passes to `WithTx`; `rate`, `quoteID` and `expectedConverted` are
the captured values fixed by `exchangeCommitment`. -/
def exchangeWork (req : ExchangeRequest) (rate : Decimal) (quoteID : String)
    (expectedConverted : Int) : Op σ ExchangeVars Unit := do
  let locked ← lockTwoAccounts S req.FromAccountID req.ToAccountID
  let fromAccount := locked.1
  let toAccount := locked.2
  Op.failIf (notOwnedBy fromAccount.UserID req.UserID) .ErrUnauthorizedAccount
  let fromCurrency := fromAccount.Currency
  let toCurrency := toAccount.Currency
  Op.modifyVars (fun v => { v with fromCurrency := fromCurrency, toCurrency := toCurrency })
  Op.failIf (fromCurrency = toCurrency ∨ isExchangePairAllowed fromCurrency toCurrency = false)
    .ErrInvalidExchangeRequest
  let directional := directionalRate fromCurrency toCurrency
  Op.failIf (rate.Equal directional = false) .ErrRateMismatch
  let convertedMinor := convertMinor req.AmountMinor directional
  Op.failIf (expectedConverted ≠ 0 ∧ expectedConverted ≠ convertedMinor) .ErrRateMismatch
  let fromBalance := fromAccount.Balance
  Op.failIf (fromBalance < req.AmountMinor) .ErrInsufficientFunds
  let toBalance := toAccount.Balance
  let newFrom := sub64 fromBalance req.AmountMinor
  let newTo := add64 toBalance convertedMinor
  Op.modifyVars (fun v => { v with fromBalanceAfter := newFrom, toBalanceAfter := newTo })
  let systemFromID ← GetSystemAccount S fromCurrency
  let systemToID ← GetSystemAccount S toCurrency
  let system ← lockTwoAccounts S systemFromID systemToID
  let systemFromBalance := system.1.Balance
  let systemToBalance := system.2.Balance
  let newSystemFrom := add64 systemFromBalance req.AmountMinor
  let newSystemTo := sub64 systemToBalance convertedMinor
  Op.failIf (newSystemTo < 0) .ErrInsufficientFunds
  UpdateBalance S req.FromAccountID newFrom
  UpdateBalance S req.ToAccountID newTo
  UpdateBalance S systemFromID newSystemFrom
  UpdateBalance S systemToID newSystemTo
  let transactionID ← NewString S
  Op.modifyVars (fun v => { v with transactionID := transactionID })
  let metadata := [("quote_id", quoteID), ("rate", directional.StringFixedBank 6)]
  TxCreate S {
    ID := transactionID
    UserID := req.UserID
    TxType := "exchange"
    Status := "completed"
    Amount := req.AmountMinor
    Currency := fromCurrency
    FromAccountID := some req.FromAccountID
    ToAccountID := some req.ToAccountID
    ExchangeRateID := none
    Metadata := metadata
    ClientRequestID := req.ClientRequestID }
  let id1 ← NewString S
  let id2 ← NewString S
  let id3 ← NewString S
  let id4 ← NewString S
  let entries := exchangeEntries req transactionID id1 id2 id3 id4 systemFromID systemToID
    fromCurrency toCurrency convertedMinor
  Op.ofExcept (ensureBalancedByCurrency entries)
  InsertEntries S entries
  AuditLog S req.UserID "exchange" "transaction" transactionID metadata
  Op.onlyIf (quoteID ≠ "") (do
    let consumed ← QuoteConsume S quoteID
    Op.failIf (consumed = 0) .ErrQuoteConsumed)

/-- Source `TransactionService.Exchange`. -/
def Exchange (req : ExchangeRequest) : Op σ Unit String := do
  Op.failIf (req.AmountMinor ≤ 0) .ErrInvalidAmount
  let pre ← exchangeCommitment S req
  let done ← Op.withVars pre
    (WithTx S (exchangeWork S req pre.rate pre.quoteID pre.expectedConverted))
  let v := done.2
  BroadcastBalance S req.UserID {
    AccountID := req.FromAccountID
    Balance := FormatMinor v.fromBalanceAfter
    Currency := v.fromCurrency }
  BroadcastBalance S req.UserID {
    AccountID := req.ToAccountID
    Balance := FormatMinor v.toBalanceAfter
    Currency := v.toCurrency }
  return v.transactionID

end Service

/-! ## In-memory collaborators

An instance of `Stores` that keeps the tables in memory and follows the SQL of
`internal/store`: point reads by id, unconditional balance update, first system account of a
currency, appended ledger, transaction and audit rows, the conditional quote consumption,
and a unique `client_request_id`. A transaction works on a copy of the tables that `Commit`
publishes and `Rollback` drops; `commitErrors` lists the errors the next commits return. -/

/-- Row of `audit_logs` as `AuditStore.Log` receives it. -/
structure AuditRow where
  actorID : String := ""
  action : String := ""
  entityType : String := ""
  entityID : String := ""
  data : List (String × String) := []
  deriving DecidableEq, Repr

/-- Tables of the backing database. -/
structure Tables where
  accounts : List Account := []
  ledger : List LedgerEntryInput := []
  transactions : List TransactionInput := []
  quotes : List ExchangeQuote := []
  audit : List AuditRow := []
  deriving DecidableEq, Repr

/-- In-memory backing state. -/
structure MemDB where
  committed : Tables := {}
  working : Option Tables := none
  sent : List (String × BalanceUpdate) := []
  nextID : Nat := 0
  clock : Int := 0
  commitErrors : List Error := []
  deriving DecidableEq, Repr

namespace MemDB

/-- Tables seen by statements running on the transaction handle. -/
def current (d : MemDB) : Tables := d.working.getD d.committed

/-- Apply a write made on the transaction handle. -/
def write (d : MemDB) (f : Tables → Tables) : MemDB :=
  match d.working with
  | some t => { d with working := some (f t) }
  | none => { d with committed := f d.committed }

/-- Error of a point read that finds no row (`sql.ErrNoRows`). -/
def noRows : Error := .other "sql: no rows in result set"

/-- SQL `UPDATE accounts SET balance = $1 WHERE id = $2`. -/
def setBalance (accountID : String) (balance : Int) (accounts : List Account) : List Account :=
  accounts.map (fun a => if a.ID = accountID then { a with Balance := balance } else a)

/-- SQL `UPDATE exchange_quotes SET consumed_at = NOW()` on the rows selected by `hit`. -/
def markConsumed (hit : ExchangeQuote → Bool) (now : Int) (quotes : List ExchangeQuote) :
    List ExchangeQuote :=
  quotes.map (fun q => if hit q then { q with ConsumedAt := some now } else q)

/-- The in-memory collaborators. -/
def stores : Stores MemDB where
  BeginTxx d := (.ok (), { d with working := some d.committed })
  Commit d :=
    match d.commitErrors with
    | err :: rest => (.error err, { d with working := none, commitErrors := rest })
    | [] => (.ok (), { d with committed := d.current, working := none })
  Rollback d := (.ok (), { d with working := none })
  GetByID accountID d :=
    match d.committed.accounts.find? (fun a => a.ID == accountID) with
    | some a => (.ok a, d)
    | none => (.error noRows, d)
  GetForUpdate accountID d :=
    match d.current.accounts.find? (fun a => a.ID == accountID) with
    | some a => (.ok a, d)
    | none => (.error noRows, d)
  UpdateBalance accountID balance d :=
    (.ok (), d.write (fun t => { t with accounts := setBalance accountID balance t.accounts }))
  GetSystemAccount currency d :=
    match d.committed.accounts.find? (fun a => a.IsSystem && a.Currency == currency) with
    | some a => (.ok a.ID, d)
    | none => (.error noRows, d)
  InsertEntries entries d := (.ok (), d.write (fun t => { t with ledger := t.ledger ++ entries }))
  TxCreate input d :=
    if input.ClientRequestID.isSome ∧
        d.current.transactions.any (fun t => t.ClientRequestID == input.ClientRequestID) then
      (.error (.pq "23505"), d)
    else (.ok (), d.write (fun t => { t with transactions := t.transactions ++ [input] }))
  QuoteCreate input d :=
    (.ok (), { d with committed := { d.committed with quotes := d.committed.quotes ++ [{
      ID := input.ID
      UserID := input.UserID
      FromAccountID := input.FromAccountID
      ToAccountID := input.ToAccountID
      AmountMinor := input.AmountMinor
      ConvertedMinor := input.ConvertedMinor
      Rate := input.Rate
      BaseCurrency := input.BaseCurrency
      QuoteCurrency := input.QuoteCurrency
      ExpiresAt := input.ExpiresAt
      ConsumedAt := none }] } })
  QuoteGetByID quoteID d :=
    match d.committed.quotes.find? (fun q => q.ID == quoteID) with
    | some q => (.ok q, d)
    | none => (.error noRows, d)
  QuoteConsume quoteID d :=
    let hit := fun (q : ExchangeQuote) =>
      q.ID == quoteID && q.ConsumedAt.isNone && decide (d.clock < q.ExpiresAt)
    (.ok (d.current.quotes.countP hit),
      d.write (fun t => { t with quotes := markConsumed hit d.clock t.quotes }))
  AuditLog actorID action entityType entityID data d :=
    (.ok (), d.write (fun t => { t with audit := t.audit ++ [{
      actorID := actorID
      action := action
      entityType := entityType
      entityID := entityID
      data := data }] }))
  BroadcastBalance userID update d := { d with sent := d.sent ++ [(userID, update)] }
  NewString d := ("id-" ++ Decimal.natStr d.nextID, { d with nextID := d.nextID + 1 })
  Now d := (d.clock, d)

/-- World over the in-memory state with an empty call log. -/
def world (d : MemDB) : World MemDB Unit := { db := d, log := [], vars := () }

/-- Stored balance of an account in the committed tables. -/
def balanceOf (d : MemDB) (accountID : String) : Option Int :=
  (d.committed.accounts.find? (fun a => a.ID == accountID)).map (fun a => a.Balance)

/-- Sum of the committed ledger amounts of an account (`LedgerStore.SumByAccount`). -/
def ledgerSum (d : MemDB) (accountID : String) : Int :=
  ((d.committed.ledger.filter (fun e => e.AccountID == accountID)).map (fun e => e.Amount)).sum

end MemDB

/-! ## Scenarios -/

/-- Two USD accounts with balances 10000 and 5000, owned by two users. -/
def transferDB : MemDB :=
  { committed := { accounts := [
      { ID := "from", UserID := some "user-1", Currency := "USD", Balance := 10000 },
      { ID := "to", UserID := some "user-2", Currency := "USD", Balance := 5000 }] } }

/-- A user's USD and EUR accounts and the two system accounts. -/
def exchangeDB : MemDB :=
  { committed := { accounts := [
      { ID := "from", UserID := some "user-1", Currency := "USD", Balance := 10000 },
      { ID := "to", UserID := some "user-1", Currency := "EUR", Balance := 1000 },
      { ID := "sys-usd", Currency := "USD", Balance := 100000, IsSystem := true },
      { ID := "sys-eur", Currency := "EUR", Balance := 100000, IsSystem := true }] } }

/-! ## Observations on call logs -/

/-- Account ids of the `GetForUpdate` calls of a log, in call order. -/
def lockedIDs : List Call → List String
  | [] => []
  | Call.GetForUpdate accountID _ :: rest => accountID :: lockedIDs rest
  | _ :: rest => lockedIDs rest

/-- The call is a `BeginTxx`: one per attempt of `WithTx`. -/
def isBegin : Call → Bool
  | Call.BeginTxx _ => true
  | _ => false

/-- The call is a `Commit` that returned no error. -/
def isCommitOK : Call → Bool
  | Call.Commit (.ok _) => true
  | _ => false

/-- Number of attempts (transactions begun) recorded in a log. -/
def attemptsIn (log : List Call) : Nat := log.countP isBegin

/-- Number of successful commits recorded in a log. -/
def commitsIn (log : List Call) : Nat := log.countP isCommitOK

section Attempts

variable {σ ν : Type} (S : Stores σ)

/-- One iteration of the loop of `WithTx` up to its retry decision: begin, run the work, then
roll back when the work failed and commit when it succeeded. -/
def attemptOnce (fn : Op σ ν Unit) : Op σ ν Unit := fun w =>
  match BeginTxx S w with
  | (.error err, w1) => (.error err, w1)
  | (.ok _, w1) =>
    match fn w1 with
    | (.error err, w2) => (.error err, (Rollback S w2).2)
    | (.ok _, w2) => Commit S w2

/-- Behaviour of the attempts made from world `w`, the next one being numbered `attempt`:
each of the first `k` begins its transaction and fails with a retryable conflict raised by
the work or by the commit, each is followed by the backoff pause, and the attempt after
them succeeds. -/
def ConflictsThenSuccess (fn : Op σ ν Unit) : Nat → Nat → World σ ν → Prop
  | 0, _, w => (attemptOnce S fn w).1 = .ok ()
  | k + 1, attempt, w =>
    (BeginTxx S w).1 = .ok ()
    ∧ (∃ e, (attemptOnce S fn w).1 = .error e ∧ isRetryablePGError e = true)
    ∧ ConflictsThenSuccess fn k (attempt + 1) (sleepWithBackoff attempt (attemptOnce S fn w).2).2

end Attempts

/-- The operation only appends to the call log, and every call it appends satisfies `Q`,
whatever the outcome. -/
def Op.Emits {σ ν α : Type} (Q : Call → Prop) (m : Op σ ν α) : Prop :=
  ∀ w, ∃ evs, (m w).2.log = w.log ++ evs ∧ ∀ e ∈ evs, Q e

/-- Calls of the attempt of `Transfer` that commits, for a request that created transaction
`tid` with ledger entry ids `debitID` and `creditID`, when the locked accounts are `accFrom`
and `accTo`: the transaction begins, the two rows are locked in id order, both balances are
written, the transaction row and the two ledger entries are inserted, the audit row is
written, and the transaction commits. -/
def transferCalls (req : TransferRequest) (accFrom accTo : Account)
    (tid debitID creditID : String) : List Call := [
  Call.BeginTxx (.ok ()),
  Call.GetForUpdate (orderedIDs req.FromAccountID req.ToAccountID).1
    (.ok (if req.FromAccountID = (orderedIDs req.FromAccountID req.ToAccountID).1
      then accFrom else accTo)),
  Call.GetForUpdate (orderedIDs req.FromAccountID req.ToAccountID).2
    (.ok (if req.FromAccountID = (orderedIDs req.FromAccountID req.ToAccountID).1
      then accTo else accFrom)),
  Call.UpdateBalance req.FromAccountID (sub64 accFrom.Balance req.AmountMinor) (.ok ()),
  Call.UpdateBalance req.ToAccountID (add64 accTo.Balance req.AmountMinor) (.ok ()),
  Call.TxCreate {
    ID := tid
    UserID := req.UserID
    TxType := "transfer"
    Status := "completed"
    Amount := req.AmountMinor
    Currency := accFrom.Currency
    FromAccountID := some req.FromAccountID
    ToAccountID := some req.ToAccountID
    Metadata := []
    ClientRequestID := req.ClientRequestID } (.ok ()),
  Call.InsertEntries [
    { ID := debitID
      TransactionID := tid
      AccountID := req.FromAccountID
      Amount := neg64 req.AmountMinor
      Currency := accFrom.Currency
      Description := "Transfer debit" },
    { ID := creditID
      TransactionID := tid
      AccountID := req.ToAccountID
      Amount := req.AmountMinor
      Currency := accFrom.Currency
      Description := "Transfer credit" }] (.ok ()),
  Call.AuditLog req.UserID "transfer" "transaction" tid [("transaction_id", tid)] (.ok ()),
  Call.Commit (.ok ())]

/-- Balance passed by the last `UpdateBalance` call for `accountID` in a list of calls: the
balance those calls leave written on that row. -/
def lastWrite (accountID : String) : List Call → Option Int
  | [] => none
  | Call.UpdateBalance i balance _ :: rest =>
    match lastWrite accountID rest with
    | some b => some b
    | none => if i = accountID then some balance else none
  | _ :: rest => lastWrite accountID rest

/-- Calls of the attempt of `Exchange` that commits, for a request that created transaction
`tid` with ledger entry ids `id1` to `id4`, when the locked user accounts are `accFrom` and
`accTo`, the system account ids are `systemFromID` and `systemToID`, and the locked system
accounts are `sysFrom` and `sysTo`; `consume` is the call that consumes the quote, present
only when a quote is used, and `c` abbreviates the converted amount. -/
def exchangeCalls (req : ExchangeRequest) (accFrom accTo sysFrom sysTo : Account)
    (systemFromID systemToID tid id1 id2 id3 id4 quoteID : String) (consume : List Call) :
    List Call :=
  let c := convertMinor req.AmountMinor (directionalRate accFrom.Currency accTo.Currency)
  let metadata := [("quote_id", quoteID),
    ("rate", (directionalRate accFrom.Currency accTo.Currency).StringFixedBank 6)]
  [ Call.BeginTxx (.ok ()),
    Call.GetForUpdate (orderedIDs req.FromAccountID req.ToAccountID).1
      (.ok (if req.FromAccountID = (orderedIDs req.FromAccountID req.ToAccountID).1
        then accFrom else accTo)),
    Call.GetForUpdate (orderedIDs req.FromAccountID req.ToAccountID).2
      (.ok (if req.FromAccountID = (orderedIDs req.FromAccountID req.ToAccountID).1
        then accTo else accFrom)),
    Call.GetSystemAccount accFrom.Currency (.ok systemFromID),
    Call.GetSystemAccount accTo.Currency (.ok systemToID),
    Call.GetForUpdate (orderedIDs systemFromID systemToID).1
      (.ok (if systemFromID = (orderedIDs systemFromID systemToID).1 then sysFrom else sysTo)),
    Call.GetForUpdate (orderedIDs systemFromID systemToID).2
      (.ok (if systemFromID = (orderedIDs systemFromID systemToID).1 then sysTo else sysFrom)),
    Call.UpdateBalance req.FromAccountID (sub64 accFrom.Balance req.AmountMinor) (.ok ()),
    Call.UpdateBalance req.ToAccountID (add64 accTo.Balance c) (.ok ()),
    Call.UpdateBalance systemFromID (add64 sysFrom.Balance req.AmountMinor) (.ok ()),
    Call.UpdateBalance systemToID (sub64 sysTo.Balance c) (.ok ()),
    Call.TxCreate {
      ID := tid
      UserID := req.UserID
      TxType := "exchange"
      Status := "completed"
      Amount := req.AmountMinor
      Currency := accFrom.Currency
      FromAccountID := some req.FromAccountID
      ToAccountID := some req.ToAccountID
      ExchangeRateID := none
      Metadata := metadata
      ClientRequestID := req.ClientRequestID } (.ok ()),
    Call.InsertEntries [
      { ID := id1
        TransactionID := tid
        AccountID := req.FromAccountID
        Amount := neg64 req.AmountMinor
        Currency := accFrom.Currency
        Description := "Exchange debit" },
      { ID := id2
        TransactionID := tid
        AccountID := systemFromID
        Amount := req.AmountMinor
        Currency := accFrom.Currency
        Description := "Exchange system credit" },
      { ID := id3
        TransactionID := tid
        AccountID := systemToID
        Amount := neg64 c
        Currency := accTo.Currency
        Description := "Exchange system debit" },
      { ID := id4
        TransactionID := tid
        AccountID := req.ToAccountID
        Amount := c
        Currency := accTo.Currency
        Description := "Exchange credit" }] (.ok ()),
    Call.AuditLog req.UserID "exchange" "transaction" tid metadata (.ok ()) ]
  ++ consume ++ [Call.Commit (.ok ())]

/-- Stores that do not fail: beginning and committing a transaction, locking an account,
writing a balance, creating the transaction row, inserting ledger entries and writing the
audit row return no error, in every backing state. -/
def Reliable {σ : Type} (S : Stores σ) : Prop :=
  (∀ d, (S.BeginTxx d).1 = .ok ())
  ∧ (∀ d, (S.Commit d).1 = .ok ())
  ∧ (∀ accountID d, ∃ a, (S.GetForUpdate accountID d).1 = .ok a)
  ∧ (∀ accountID balance d, (S.UpdateBalance accountID balance d).1 = .ok ())
  ∧ (∀ input d, (S.TxCreate input d).1 = .ok ())
  ∧ (∀ entries d, (S.InsertEntries entries d).1 = .ok ())
  ∧ (∀ actorID action entityType entityID data d,
      (S.AuditLog actorID action entityType entityID data d).1 = .ok ())

/-- Stub collaborators in the manner of the service's unit tests: locked reads and the
system-account lookup answer from the given functions, every write succeeds and changes
nothing, quote lookups fail, and the backing state only counts the ids handed out. -/
def stubStores (getForUpdate : String → Account) (getSystemAccount : String → String) :
    Stores Nat where
  BeginTxx d := (.ok (), d)
  Commit d := (.ok (), d)
  Rollback d := (.ok (), d)
  GetByID accountID d := (.ok (getForUpdate accountID), d)
  GetForUpdate accountID d := (.ok (getForUpdate accountID), d)
  UpdateBalance _ _ d := (.ok (), d)
  GetSystemAccount currency d := (.ok (getSystemAccount currency), d)
  InsertEntries _ d := (.ok (), d)
  TxCreate _ d := (.ok (), d)
  QuoteCreate _ d := (.ok (), d)
  QuoteGetByID _ d := (.error (.other "missing"), d)
  QuoteConsume _ d := (.ok 1, d)
  AuditLog _ _ _ _ _ d := (.ok (), d)
  BroadcastBalance _ _ d := d
  NewString d := ("id-" ++ Decimal.natStr d, d + 1)
  Now d := (0, d)

/-- Decision of `Transfer` under lock, for locked rows `accFrom` and `accTo`: the first
failing check, in the order of the source, determines the error returned; when all three
checks pass the call returns a transaction id after exactly the calls `transferCalls`
followed by the balance broadcasts, and nothing was retried. -/
def TransferDecision {σ : Type} (S : Stores σ) (req : TransferRequest) (w : World σ Unit)
    (accFrom accTo : Account) : Prop :=
  (notOwnedBy accFrom.UserID req.UserID = true →
    (Transfer S req w).1 = .error .ErrUnauthorizedAccount)
  ∧ (notOwnedBy accFrom.UserID req.UserID = false → accFrom.Currency ≠ accTo.Currency →
    (Transfer S req w).1 = .error .ErrCurrencyMismatch)
  ∧ (notOwnedBy accFrom.UserID req.UserID = false → accFrom.Currency = accTo.Currency →
    ((Transfer S req w).1 = .error .ErrInsufficientFunds ↔ accFrom.Balance < req.AmountMinor))
  ∧ (notOwnedBy accFrom.UserID req.UserID = false → accFrom.Currency = accTo.Currency →
    req.AmountMinor ≤ accFrom.Balance →
    ∃ (tid debitID creditID : String) (post : List Call),
      (Transfer S req w).1 = .ok tid
      ∧ (Transfer S req w).2.log
          = w.log ++ transferCalls req accFrom accTo tid debitID creditID ++ post
      ∧ (∀ e ∈ post, ∃ userID update, e = Call.BroadcastBalance userID update)
      ∧ (accFrom.Balance = req.AmountMinor →
          sub64 accFrom.Balance req.AmountMinor = 0))

/-- The operation returns a value, not an error, from every world. -/
def Op.Total {σ ν α : Type} (m : Op σ ν α) : Prop := ∀ w, ∃ a w', m w = (.ok a, w')

/-- Sum of the amounts of ledger entries in int64 arithmetic, as `ensureBalanced` adds them. -/
def sum64 (entries : List LedgerEntryInput) : Int :=
  entries.foldl (fun sum entry => add64 sum entry.Amount) 0

/-- Sum, in int64 arithmetic, of the amounts of the ledger entries of one currency. -/
def sum64In (currency : String) (entries : List LedgerEntryInput) : Int :=
  sum64 (entries.filter (fun entry => entry.Currency = currency))

/-- The ids are in non-decreasing order: each is `<=` the next. -/
def nonDecreasing : List String → Bool
  | a :: b :: rest => strLE a b && nonDecreasing (b :: rest)
  | _ => true

/-- The operation only appends to the call log, and the ids of the rows it locks, in call
order, satisfy `P`, whatever the outcome. -/
def Op.LocksSatisfy {σ ν α : Type} (P : List String → Prop) (m : Op σ ν α) : Prop :=
  ∀ w, ∃ evs, (m w).2.log = w.log ++ evs ∧ P (lockedIDs evs)

/-- Request of the service's transfer tests: 1000 minor units from `from` to `to`. -/
def transferRequest : TransferRequest :=
  { UserID := "user-1", FromAccountID := "from", ToAccountID := "to", AmountMinor := 1000 }

/-- Request of the service's exchange tests: 1000 minor units from the user's USD account to
the user's EUR account at the inline rate `0.92`. -/
def exchangeRequest : ExchangeRequest :=
  { UserID := "user-1", FromAccountID := "from", ToAccountID := "to", AmountMinor := 1000,
    QuotedRate := some "0.92" }

/-- Exchange request whose destination is the EUR system account itself: the service checks
the ownership of the source account only, so the request passes every check. -/
def exchangeIntoSystemRequest : ExchangeRequest :=
  { UserID := "user-1", FromAccountID := "from", ToAccountID := "sys-eur", AmountMinor := 1000,
    QuotedRate := some "0.92" }

/-- Transfer request for more than the source account holds. -/
def overdraftRequest : TransferRequest :=
  { UserID := "user-1", FromAccountID := "from", ToAccountID := "to", AmountMinor := 20000 }

/-- Backing state whose first commit fails with a serialization conflict. -/
def conflictOnceDB : MemDB :=
  { transferDB with commitErrors := [.pq "40001"] }

/-- Row served by the stub for every id: owned by `user-1`, in USD, holding exactly 1000. -/
def stubAccount (accountID : String) : Account :=
  { ID := accountID, UserID := some "user-1", Currency := "USD", Balance := 1000 }

/-- System account id served by the stub for a currency. -/
def stubSystemAccount (currency : String) : String := "sys-" ++ currency

/-- Balances passed by the `UpdateBalance` calls for `accountID` in a log, in call order. -/
def balanceWrites (accountID : String) : List Call → List Int
  | [] => []
  | Call.UpdateBalance i balance _ :: rest =>
    if i = accountID then balance :: balanceWrites accountID rest
    else balanceWrites accountID rest
  | _ :: rest => balanceWrites accountID rest

/-- Results of the `GetForUpdate` calls for `accountID` in a log, in call order. -/
def lockedReads (accountID : String) : List Call → List (Except Error Account)
  | [] => []
  | Call.GetForUpdate i r :: rest =>
    if i = accountID then r :: lockedReads accountID rest else lockedReads accountID rest
  | _ :: rest => lockedReads accountID rest

/-- Error of the last `return` of `WithTx`, after its loop. -/
def retryLimitExceeded : Error := .other "transaction retry limit exceeded"

/-- Backing state of the retry-cap test: every commit fails with a deadlock report. -/
def retryCapDB : MemDB :=
  { commitErrors := List.replicate 10 (.pq "40P01") }

/-! ## Money parsing (`internal/money`)

Go strings are byte sequences; inputs are modelled as Unicode text (valid UTF-8), whose
length in bytes is `byteLen`. -/

/-- Go `a * b` on `int64`. -/
def mul64 (a b : Int) : Int := wrapInt64 (a * b)

/-- Sentinel errors of package `money`. -/
inductive MoneyError where
  | ErrInvalidAmount
  | ErrTooManyDecimals
  deriving DecidableEq, Repr

/-- Go `unicode.IsSpace`: the Latin-1 spaces and the code points with the property
`White_Space`. -/
def isSpace (c : Char) : Bool :=
  let n := c.toNat
  n == 0x09 || n == 0x0A || n == 0x0B || n == 0x0C || n == 0x0D || n == 0x20 || n == 0x85
    || n == 0xA0 || n == 0x1680 || (decide (0x2000 ≤ n) && decide (n ≤ 0x200A)) || n == 0x2028
    || n == 0x2029 || n == 0x202F || n == 0x205F || n == 0x3000

/-- Go `strings.TrimSpace`. -/
def TrimSpace (s : List Char) : List Char :=
  ((s.dropWhile isSpace).reverse.dropWhile isSpace).reverse

/-- Source `isDigits`: no rune is below `'0'` or above `'9'`. -/
def isDigits (value : List Char) : Bool :=
  value.all (fun r => !(decide (r.toNat < 48) || decide (57 < r.toNat)))

/-- Go `len(s)`: the number of bytes of the UTF-8 encoding. -/
def byteLen (s : List Char) : Nat :=
  (s.map (fun c =>
    if c.toNat ≤ 0x7F then 1 else if c.toNat ≤ 0x7FF then 2 else if c.toNat ≤ 0xFFFF then 3
    else 4)).sum

/-- Go `strings.SplitN(s, ".", 2)`: the text before the first `.` and, when there is one, the
text after it. -/
def splitDot : List Char → List Char × Option (List Char)
  | [] => ([], none)
  | c :: rest =>
    if c = '.' then ([], some rest)
    else ((c :: (splitDot rest).1), (splitDot rest).2)

/-- Go `strconv.ParseInt(s, 10, 64)`: an optional sign and a digit run whose value is an
`int64`; `none` stands for the error. -/
def ParseInt (s : List Char) : Option Int :=
  match Decimal.parseSigned s with
  | some v => if -2 ^ 63 ≤ v ∧ v < 2 ^ 63 then some v else none
  | none => none

/-- Source `ParseMinor` after the sign has been read: `sign` is `1` or `-1` and `trimmed` is
the text that follows the sign. -/
def parseAfterSign (sign : Int) (trimmed : List Char) : Except MoneyError Int :=
  let parts := splitDot trimmed
  let wholePart := if parts.1 = [] then ['0'] else parts.1
  if isDigits wholePart = false then .error .ErrInvalidAmount
  else
    let fracPart := parts.2.getD []
    if 2 < byteLen fracPart then .error .ErrTooManyDecimals
    else if fracPart ≠ [] ∧ isDigits fracPart = false then .error .ErrInvalidAmount
    else
      match ParseInt wholePart with
      | none => .error .ErrInvalidAmount
      | some whole =>
        if byteLen fracPart = 1 then
          .ok (mul64 sign (add64 (mul64 whole 100) (mul64 (((fracPart.headD '0').toNat : Int) - 48) 10)))
        else if byteLen fracPart = 2 then
          match ParseInt fracPart with
          | none => .error .ErrInvalidAmount
          | some value => .ok (mul64 sign (add64 (mul64 whole 100) value))
        else .ok (mul64 sign (add64 (mul64 whole 100) 0))

/-- Source `money.ParseMinor`. -/
def ParseMinor (input : String) : Except MoneyError Int :=
  match TrimSpace input.data with
  | [] => .error .ErrInvalidAmount
  | c :: rest =>
    if c = '-' then parseAfterSign (-1) rest
    else if c = '+' then parseAfterSign 1 rest
    else parseAfterSign 1 (c :: rest)

/-! ### Shape of an amount text -/

/-- The character is a decimal digit, `'0'` to `'9'`. -/
def isDigit (c : Char) : Prop := 48 ≤ c.toNat ∧ c.toNat ≤ 57

instance (c : Char) : Decidable (isDigit c) := by
  unfold isDigit; exact inferInstance

/-- Value of a run of decimal digits, the empty run counting as zero. -/
def digitsValue (ws : List Char) : Nat :=
  ws.foldl (fun acc c => acc * 10 + (c.toNat - 48)) 0

/-- Fractional digits read as hundredths: none is `0`, one digit `d` is `10 * d`, two digits
are their value. -/
def hundredths : List Char → Int
  | [] => 0
  | [d] => 10 * ((d.toNat : Int) - 48)
  | [d1, d2] => 10 * ((d1.toNat : Int) - 48) + ((d2.toNat : Int) - 48)
  | _ => 0

/-- Factor of a sign text: `-1` for `-`, `1` for `+` and for no sign. -/
def signValue (sgn : List Char) : Int := if sgn = ['-'] then -1 else 1

/-- Text of a fraction: nothing, or a `.` and what follows it. -/
def fractionText : Option (List Char) → List Char
  | none => []
  | some f => '.' :: f

/-- Reading of a non-empty text `t` as a sign `sgn` (one leading `+` or `-`, if there is
one), the integer part `ws` (what follows up to the first `.`) and the fraction `fs` (what
follows the first `.`, if there is one). -/
structure SplitsAs (t sgn ws : List Char) (fs : Option (List Char)) : Prop where
  text : t = sgn ++ (ws ++ fractionText fs)
  sign : sgn = ['+'] ∨ sgn = ['-'] ∨
    (sgn = [] ∧ t ≠ [] ∧ ∀ rest, t ≠ '+' :: rest ∧ t ≠ '-' :: rest)
  whole : '.' ∉ ws

/-- Text of a number below 100 as two decimal digits. -/
def twoDigits (n : Nat) : String :=
  String.mk [Char.ofNat (48 + n / 10), Char.ofNat (48 + n % 10)]

/-- The integer `k` is nearest to the fraction `num / den` (`den` positive), an exact half
going to the even neighbour: round-half-to-even of `num / den`. -/
def IsNearestEven (num den k : Int) : Prop :=
  2 * |num - k * den| < den ∨ (2 * |num - k * den| = den ∧ k % 2 = 0)

instance (num den k : Int) : Decidable (IsNearestEven num den k) := by
  unfold IsNearestEven; exact inferInstance

/-- Coefficient that `RoundBank 0` computes for a number `N * 10 ^ (-n - 1)` with at least
one decimal, where `D = 10 ^ n`: the coefficient cut to one decimal, moved by five tenths
away from zero and cut to an integer, then moved back by one when the distance to `N` is
exactly a half and the integer is odd. -/
def bankCore (N D : Int) : Int :=
  let t := Int.tdiv N D
  let v := if t < 0 then t - 5 else t + 5
  let round := Int.tdiv v 10
  if |N - round * (10 * D)| = 5 * D ∧ round % 2 ≠ 0 then
    if round < 0 then round + 1 else round - 1
  else round

/-! ## Quotes (`TransactionService.QuoteExchange`)

Instants and durations are integers counting nanoseconds, as Go's `time.Duration` does. -/

/-- Go `time.Minute`. -/
def Minute : Int := 60 * 1000000000

/-- Source `ExchangeQuoteRequest`. -/
structure ExchangeQuoteRequest where
  UserID : String := ""
  FromAccountID : String := ""
  ToAccountID : String := ""
  AmountMinor : Int := 0
  deriving DecidableEq, Repr

/-- Source `services.ExchangeQuote`, the result of `QuoteExchange`. -/
structure services.ExchangeQuote where
  ID : String := ""
  Rate : String := ""
  ConvertedMinor : Int := 0
  ExpiresAt : Int := 0
  deriving DecidableEq, Repr

section Quotes

variable {σ ν : Type} (S : Stores σ)

/-- Source `TransactionService.QuoteExchange`. -/
def QuoteExchange (req : ExchangeQuoteRequest) : Op σ ν services.ExchangeQuote := do
  Op.failIf (req.AmountMinor ≤ 0) .ErrInvalidAmount
  Op.failIf (req.FromAccountID = req.ToAccountID) .ErrInvalidExchangeRequest
  let fromAccount ← GetByID S req.FromAccountID
  let toAccount ← GetByID S req.ToAccountID
  Op.failIf (notOwnedBy fromAccount.UserID req.UserID) .ErrUnauthorizedAccount
  let fromCurrency := fromAccount.Currency
  let toCurrency := toAccount.Currency
  Op.failIf (fromCurrency = toCurrency ∨ isExchangePairAllowed fromCurrency toCurrency = false)
    .ErrInvalidExchangeRequest
  let rate := directionalRate fromCurrency toCurrency
  let convertedMinor := convertMinor req.AmountMinor rate
  let quoteID ← NewString S
  let now ← Now S
  let expiresAt := now + 2 * Minute
  QuoteCreate S {
    ID := quoteID
    UserID := req.UserID
    FromAccountID := req.FromAccountID
    ToAccountID := req.ToAccountID
    AmountMinor := req.AmountMinor
    ConvertedMinor := convertedMinor
    Rate := rate.StringFixedBank 6
    BaseCurrency := fromCurrency
    QuoteCurrency := toCurrency
    ExpiresAt := expiresAt }
  return {
    ID := quoteID
    Rate := rate.StringFixedBank 6
    ConvertedMinor := convertedMinor
    ExpiresAt := expiresAt }

end Quotes

/-- Request of the quote test: 1000 minor units from the user's USD account to the user's
EUR account. -/
def quoteRequest : ExchangeQuoteRequest :=
  { UserID := "user-1", FromAccountID := "from", ToAccountID := "to", AmountMinor := 1000 }

/-- Backing state of the exchange scenario holding one open quote `q-1` for `exchangeRequest`
whose stored converted amount is `0`. -/
def zeroQuoteDB : MemDB :=
  { exchangeDB with
    committed := { exchangeDB.committed with quotes := [{
      ID := "q-1"
      UserID := "user-1"
      FromAccountID := "from"
      ToAccountID := "to"
      AmountMinor := 1000
      ConvertedMinor := 0
      Rate := "0.920000"
      BaseCurrency := "USD"
      QuoteCurrency := "EUR"
      ExpiresAt := 2 * Minute }] } }

/-- Exchange request that names the quote `q-1`. -/
def quotedExchangeRequest : ExchangeRequest :=
  { UserID := "user-1", FromAccountID := "from", ToAccountID := "to", AmountMinor := 1000,
    QuoteID := some "q-1" }

/-- Backing state of the exchange scenario holding one open quote `q-1` for `exchangeRequest`
whose stored converted amount, 919, is not the converted amount of 1000 at 0.92. -/
def staleQuoteDB : MemDB :=
  { exchangeDB with
    committed := { exchangeDB.committed with quotes := [{
      ID := "q-1"
      UserID := "user-1"
      FromAccountID := "from"
      ToAccountID := "to"
      AmountMinor := 1000
      ConvertedMinor := 919
      Rate := "0.920000"
      BaseCurrency := "USD"
      QuoteCurrency := "EUR"
      ExpiresAt := 2 * Minute }] } }

/-! ## Request validation (`internal/handlers/validation.go`) -/

/-- Errors of the handlers' validation helpers. -/
inductive HandlerError where
  | errInvalidAmount
  | errInvalidRate
  deriving DecidableEq, Repr

/-- Source `parseAmountMinor`: the parsed amount, which must be positive. -/
def parseAmountMinor (raw : String) : Except HandlerError Int :=
  match ParseMinor raw with
  | .error _ => .error .errInvalidAmount
  | .ok amount => if amount ≤ 0 then .error .errInvalidAmount else .ok amount

/-! ## Notification hub (`internal/websocket/hub.go`)

A client, a pointer in the source, is identified by a number. The registry maps a user id to
the set of its clients, held as a list in which each client occurs once; an absent key and an
empty set are the same. The lock of the hub is outside the model. -/

/-- Buffered channel `chan []byte`: the queued payloads, oldest first, and the capacity. -/
structure Chan where
  queue : List String := []
  cap : Nat := 10
  deriving DecidableEq, Repr

/-- Source `Hub`, with the channel `send` of every client. -/
structure Hub where
  clients : String → List Nat
  send : Nat → Chan

/-- Source `NewHub`. -/
def NewHub : Hub := { clients := fun _ => [], send := fun _ => {} }

/-- Go `select { case ch <- payload: default: }`: the payload is queued unless the buffer is
full, in which case nothing happens. -/
def trySend (ch : Chan) (payload : String) : Chan :=
  if ch.queue.length < ch.cap then { ch with queue := ch.queue ++ [payload] } else ch

namespace Hub

/-- Source `Hub.Register`. -/
def Register (h : Hub) (userID : String) (client : Nat) : Hub :=
  { h with clients := fun u =>
      if u = userID then
        (if client ∈ h.clients u then h.clients u else h.clients u ++ [client])
      else h.clients u }

/-- Source `Hub.Unregister`. -/
def Unregister (h : Hub) (userID : String) (client : Nat) : Hub :=
  { h with clients := fun u =>
      if u = userID then (h.clients u).filter (fun c => c != client) else h.clients u }

/-- One iteration of the loop of `BroadcastBalance`: the non-blocking send to one client. -/
def sendTo (payload : String) (h : Hub) (client : Nat) : Hub :=
  { h with send := fun c => if c = client then trySend (h.send c) payload else h.send c }

/-- Source `Hub.BroadcastBalance`; `marshal` stands for `json.Marshal`, called once. -/
def BroadcastBalance (marshal : BalanceUpdate → String) (h : Hub) (userID : String)
    (update : BalanceUpdate) : Hub :=
  let payload := marshal update
  (h.clients userID).foldl (sendTo payload) h

end Hub

/-- Every user's clients are a set: no client occurs twice. -/
def Hub.WellFormed (h : Hub) : Prop := ∀ userID, (h.clients userID).Nodup

/-- Hub of the broadcast scenario: user `u1` has clients 1 and 2, user `u2` has client 3;
the buffer of client 2 is full. -/
def sampleHub : Hub :=
  { clients := fun u => if u = "u1" then [1, 2] else if u = "u2" then [3] else []
    send := fun c => if c = 2 then { queue := ["old"], cap := 1 } else {} }

/-- Serializer of the broadcast scenario. -/
def sampleMarshal (update : BalanceUpdate) : String :=
  update.AccountID ++ ":" ++ update.Balance ++ ":" ++ update.Currency

/-- Accounts of the exchange scenario in which the EUR account `to` belongs to another user,
`user-2`. -/
def foreignAccountDB : MemDB :=
  { committed := { accounts := [
      { ID := "from", UserID := some "user-1", Currency := "USD", Balance := 10000 },
      { ID := "to", UserID := some "user-2", Currency := "EUR", Balance := 1000 },
      { ID := "sys-usd", Currency := "USD", Balance := 100000, IsSystem := true },
      { ID := "sys-eur", Currency := "EUR", Balance := 100000, IsSystem := true }] } }

/-- Owner of an account in the committed tables. -/
def MemDB.ownerOf (d : MemDB) (accountID : String) : Option String :=
  (d.committed.accounts.find? (fun a => a.ID == accountID)).bind (fun a => a.UserID)

/-- Transfer request carrying the client request id `req-1`. -/
def repeatedRequest : TransferRequest :=
  { UserID := "user-1", FromAccountID := "from", ToAccountID := "to", AmountMinor := 1000,
    ClientRequestID := some "req-1" }

/-- Backing state left by a first, committed `repeatedRequest`: the balances after it and its
transaction row and ledger entries. -/
def afterFirstRequestDB : MemDB :=
  (Transfer MemDB.stores repeatedRequest transferDB.world).2.db

/-- Sentinel errors declared by the service (`var Err... = errors.New(...)`). -/
def Error.isSentinel : Error → Bool
  | .pq _ => false
  | .other _ => false
  | _ => true

/-- Stub collaborators whose transaction store rejects every row carrying the client request
id `req-1` with the driver's uniqueness error, as the unique index does once that id is
stored. -/
def rejectingStores : Stores Nat :=
  { stubStores stubAccount stubSystemAccount with
    TxCreate := fun input d =>
      if input.ClientRequestID = some "req-1" then (.error (.pq "23505"), d) else (.ok (), d) }

/-- Calls a unit of work makes on the stores: locked reads, the system-account lookup, the
balance writes, the inserts of the transaction row, the ledger entries and the audit row,
and the consumption of a quote. -/
def Call.isWork : Call → Bool
  | .GetForUpdate _ _ => true
  | .GetSystemAccount _ _ => true
  | .UpdateBalance _ _ _ => true
  | .TxCreate _ _ => true
  | .InsertEntries _ _ => true
  | .AuditLog _ _ _ _ _ _ => true
  | .QuoteConsume _ _ => true
  | _ => false

/-- The call is `ExchangeQuoteStore.Consume`. -/
def Call.isConsume : Call → Bool
  | .QuoteConsume _ _ => true
  | _ => false

/-- The call is `BalanceHub.BroadcastBalance`. -/
def Call.isBroadcast : Call → Bool
  | .BroadcastBalance _ _ => true
  | _ => false

/-- Number of `ExchangeQuoteStore.Consume` calls in a log. -/
def consumesIn (log : List Call) : Nat := log.countP Call.isConsume

/-- Number of `BroadcastBalance` calls in a log. -/
def broadcastsIn (log : List Call) : Nat := log.countP Call.isBroadcast

/-- Calls with which an attempt of `Exchange` begins when it reaches the check of the system
account's funds: the transaction begins, the two user rows are locked in id order, the two
system account ids are looked up and the two system rows are locked in id order. -/
def exchangeReads (req : ExchangeRequest) (accFrom accTo sysFrom sysTo : Account)
    (systemFromID systemToID : String) : List Call :=
  [ Call.BeginTxx (.ok ()),
    Call.GetForUpdate (orderedIDs req.FromAccountID req.ToAccountID).1
      (.ok (if req.FromAccountID = (orderedIDs req.FromAccountID req.ToAccountID).1
        then accFrom else accTo)),
    Call.GetForUpdate (orderedIDs req.FromAccountID req.ToAccountID).2
      (.ok (if req.FromAccountID = (orderedIDs req.FromAccountID req.ToAccountID).1
        then accTo else accFrom)),
    Call.GetSystemAccount accFrom.Currency (.ok systemFromID),
    Call.GetSystemAccount accTo.Currency (.ok systemToID),
    Call.GetForUpdate (orderedIDs systemFromID systemToID).1
      (.ok (if systemFromID = (orderedIDs systemFromID systemToID).1 then sysFrom else sysTo)),
    Call.GetForUpdate (orderedIDs systemFromID systemToID).2
      (.ok (if systemFromID = (orderedIDs systemFromID systemToID).1 then sysTo else sysFrom)) ]

/-- Rows served by the stub of the exchange scenario: the user's EUR account `to` holding
1000, the EUR system account holding exactly 920, the USD system account, and for every
other id a USD account of `user-1` holding exactly 1000. -/
def exchangeStubAccount (accountID : String) : Account :=
  if accountID = "to" then
    { ID := accountID, UserID := some "user-1", Currency := "EUR", Balance := 1000 }
  else if accountID = "sys-EUR" then
    { ID := accountID, Currency := "EUR", Balance := 920, IsSystem := true }
  else if accountID = "sys-USD" then
    { ID := accountID, Currency := "USD", Balance := 100000, IsSystem := true }
  else { ID := accountID, UserID := some "user-1", Currency := "USD", Balance := 1000 }

/-- Stub collaborators of the exchange scenario in which every quote id is found as an open
quote for `quotedExchangeRequest`, and `Consume` reports no affected row, as it does when
another exchange consumed the quote after the lookup. -/
def consumedQuoteStores : Stores Nat :=
  { stubStores exchangeStubAccount stubSystemAccount with
    QuoteGetByID := fun quoteID d => (.ok {
      ID := quoteID
      UserID := "user-1"
      FromAccountID := "from"
      ToAccountID := "to"
      AmountMinor := 1000
      ConvertedMinor := 920
      Rate := "0.920000"
      BaseCurrency := "USD"
      QuoteCurrency := "EUR"
      ExpiresAt := 2 * Minute }, d)
    QuoteConsume := fun _ d => (.ok 0, d) }

/-- The stores return driver and database errors, never one of the service's sentinels:
every error returned by beginning or committing a transaction, by a locked read, a balance
write, the system-account lookup, an insert of ledger entries, of the transaction row or of
the audit row, or by the consumption of a quote is not a sentinel. -/
def NoSentinel {σ : Type} (S : Stores σ) : Prop :=
  (∀ d e, (S.BeginTxx d).1 = .error e → e.isSentinel = false)
  ∧ (∀ d e, (S.Commit d).1 = .error e → e.isSentinel = false)
  ∧ (∀ accountID d e, (S.GetForUpdate accountID d).1 = .error e → e.isSentinel = false)
  ∧ (∀ accountID balance d e,
      (S.UpdateBalance accountID balance d).1 = .error e → e.isSentinel = false)
  ∧ (∀ currency d e, (S.GetSystemAccount currency d).1 = .error e → e.isSentinel = false)
  ∧ (∀ entries d e, (S.InsertEntries entries d).1 = .error e → e.isSentinel = false)
  ∧ (∀ input d e, (S.TxCreate input d).1 = .error e → e.isSentinel = false)
  ∧ (∀ quoteID d e, (S.QuoteConsume quoteID d).1 = .error e → e.isSentinel = false)
  ∧ (∀ actorID action entityType entityID data d e,
      (S.AuditLog actorID action entityType entityID data d).1 = .error e →
        e.isSentinel = false)

/-- The operation never returns an error of the set `L`. -/
def Op.Avoids {σ ν α : Type} (L : Error → Prop) (m : Op σ ν α) : Prop :=
  ∀ w e, (m w).1 = .error e → ¬ L e

/-- Stub collaborators of the exchange scenario in which every quote id is found as an open
quote for `quotedExchangeRequest` and `Consume` reports one affected row. -/
def openQuoteStores : Stores Nat :=
  { consumedQuoteStores with QuoteConsume := fun _ d => (.ok 1, d) }

/-- The call is one of the writes and notifications of a transfer or exchange: a balance
write, the insert of the transaction row, of the ledger entries or of the audit row, the
consumption of a quote, or a balance broadcast. -/
def Call.isEffect : Call → Bool
  | .UpdateBalance _ _ _ => true
  | .TxCreate _ _ => true
  | .InsertEntries _ _ => true
  | .AuditLog _ _ _ _ _ _ => true
  | .QuoteConsume _ _ => true
  | .BroadcastBalance _ _ => true
  | _ => false

/-- Number of writes and notifications (`Call.isEffect`) in a log. -/
def effectsIn (log : List Call) : Nat := log.countP Call.isEffect

/-- Sentinels that `Transfer` returns from its own checks. -/
def transferSentinels : List Error :=
  [.ErrInvalidAmount, .ErrSameAccountTransfer, .ErrUnauthorizedAccount, .ErrCurrencyMismatch,
    .ErrInsufficientFunds]

/-- Sentinels that `Exchange` returns from its own checks made before any write. -/
def exchangeSentinels : List Error :=
  [.ErrInvalidAmount, .ErrInvalidExchangeRequest, .ErrQuoteNotFound, .ErrQuoteExpired,
    .ErrUnauthorizedAccount, .ErrRateMismatch, .ErrInsufficientFunds]

/-- When the operation returns an error of the set `L`, none of the calls it made is a write
or a notification. -/
def Op.CleanOn {σ ν α : Type} (L : Error → Prop) (m : Op σ ν α) : Prop :=
  ∀ w e, (m w).1 = .error e → L e →
    ∃ evs, (m w).2.log = w.log ++ evs ∧ ∀ ev ∈ evs, ev.isEffect = false

/-- Shape of the calls `final` made from the log `start` by a call that returned a sentinel:
the lookup of the quote (`before`), then the attempts that ended in a retried conflict
(`retried`, empty or ending with the backoff pause), then the calls of the checks or of the
attempt that returned the error (`last`). `last` holds no write and no notification, and no
commit succeeded and nothing was broadcast in `retried` or `last`. -/
def FailedBeforeWrites (start final : List Call) : Prop :=
  ∃ before retried last : List Call,
    final = start ++ before ++ retried ++ last
    ∧ (∀ ev ∈ before, ∃ quoteID r, ev = Call.QuoteGetByID quoteID r)
    ∧ (retried = [] ∨ ∃ p k, retried = p ++ [Call.Sleep k])
    ∧ (∀ ev ∈ last, ev.isEffect = false)
    ∧ (∀ ev ∈ retried ++ last, isCommitOK ev = false ∧ ev.isBroadcast = false)

/-- Stub collaborators under contention; the backing state counts the identifiers handed
out. Every row holds 1000 until the first attempt has run; by then a concurrent transfer has
committed and emptied the rows, and the commit of the first attempt fails with the
serialization failure `40001`. -/
def contendedStores : Stores Nat :=
  { stubStores stubAccount stubSystemAccount with
    GetForUpdate := fun accountID d =>
      (.ok (if d = 0 then stubAccount accountID
        else { stubAccount accountID with Balance := 0 }), d)
    Commit := fun d => if d ≤ 3 then (.error (.pq "40001"), d) else (.ok (), d) }

/-! ## Attempts of the retrying executor, as the call log shows them -/

/-- Method a call was made on, under the name of its `Call` constructor. -/
def Call.method : Call → String
  | .BeginTxx _ => "BeginTxx"
  | .Commit _ => "Commit"
  | .Rollback _ => "Rollback"
  | .Sleep _ => "Sleep"
  | .GetByID _ _ => "GetByID"
  | .GetForUpdate _ _ => "GetForUpdate"
  | .UpdateBalance _ _ _ => "UpdateBalance"
  | .GetSystemAccount _ _ => "GetSystemAccount"
  | .InsertEntries _ _ => "InsertEntries"
  | .TxCreate _ _ => "TxCreate"
  | .QuoteCreate _ _ => "QuoteCreate"
  | .QuoteGetByID _ _ => "QuoteGetByID"
  | .QuoteConsume _ _ => "QuoteConsume"
  | .AuditLog _ _ _ _ _ _ => "AuditLog"
  | .BroadcastBalance _ _ => "BroadcastBalance"

/-- Number of calls of the method `name` recorded in a log. -/
def callsOf (name : String) (log : List Call) : Nat :=
  log.countP (fun ev => ev.method == name)

/-- Methods the unit of work of `Transfer` calls, in order, when it runs to its end. -/
def transferMethods : List String :=
  ["GetForUpdate", "GetForUpdate", "UpdateBalance", "UpdateBalance", "TxCreate",
    "InsertEntries", "AuditLog"]

/-- Methods the unit of work of `Exchange` calls, in order, when it runs to its end; the
quote is consumed only for a non-empty captured quote id. -/
def exchangeMethods (quoteID : String) : List String :=
  "GetForUpdate" :: "GetForUpdate" :: "GetSystemAccount" :: "GetSystemAccount"
    :: "GetForUpdate" :: "GetForUpdate" :: "UpdateBalance" :: "UpdateBalance"
    :: "UpdateBalance" :: "UpdateBalance" :: "TxCreate" :: "InsertEntries" :: "AuditLog"
    :: (if quoteID = "" then [] else ["QuoteConsume"])

/-- Every run of the operation only appends calls to the log, and the calls `evs` it appends
satisfy `P` together with the result of the run. -/
def Op.Runs {σ ν α : Type} (P : Except Error α → List Call → Prop) (m : Op σ ν α) : Prop :=
  ∀ w, ∃ evs, (m w).2.log = w.log ++ evs ∧ P (m w).1 evs

/-- The methods called by a run are, in order, an initial part of `ks`, and all of `ks` when
the run returns no error. -/
def Op.Follows {σ ν α : Type} (ks : List String) (m : Op σ ν α) : Prop :=
  Op.Runs (fun r evs => evs.map Call.method <+: ks
    ∧ ∀ a, r = .ok a → evs.map Call.method = ks) m

/-- Calls `evs` of one run of the unit of work of `Transfer` that returned `r`: the methods
of `transferMethods` in order, up to the call that failed, and all of them when `r` is no
error. -/
def transferAttempt (r : Except Error Unit) (evs : List Call) : Prop :=
  evs.map Call.method <+: transferMethods
  ∧ (r = .ok () → evs.map Call.method = transferMethods)

/-- Calls `evs` of one run of the unit of work of `Exchange` that returned `r`, for the
captured quote id `quoteID`: the methods of `exchangeMethods` in order, up to the call that
failed, and all of them when `r` is no error; and a run in which `Consume` reported no
affected row returned `ErrQuoteConsumed`. -/
def exchangeAttempt (quoteID : String) (r : Except Error Unit) (evs : List Call) : Prop :=
  evs.map Call.method <+: exchangeMethods quoteID
  ∧ (r = .ok () → evs.map Call.method = exchangeMethods quoteID)
  ∧ (∀ q, Call.QuoteConsume q (.ok 0) ∈ evs → r = .error .ErrQuoteConsumed)

/-- Calls of the attempts of `WithTx` that were retried, the first of them numbered
`attempt`: each began its transaction, ran the unit of work, whose calls `evs` satisfy `P`
with its result, then either rolled back because the work returned a retryable conflict or
failed to commit with one, and paused before the next attempt. Attempt `maxAttempts` is
never retried. -/
inductive Retried (P : Except Error Unit → List Call → Prop) : Nat → List Call → Prop where
  | none (attempt : Nat) : Retried P attempt []
  | rolledBack (attempt : Nat) (evs rest : List Call) (e : Error) (r : Except Error Unit) :
      attempt < maxAttempts → isRetryablePGError e = true → P (.error e) evs →
      Retried P (attempt + 1) rest →
      Retried P attempt
        (Call.BeginTxx (.ok ()) :: evs ++ [Call.Rollback r, Call.Sleep attempt] ++ rest)
  | commitFailed (attempt : Nat) (evs rest : List Call) (e : Error) :
      attempt < maxAttempts → isRetryablePGError e = true → P (.ok ()) evs →
      Retried P (attempt + 1) rest →
      Retried P attempt
        (Call.BeginTxx (.ok ()) :: evs ++ [Call.Commit (.error e), Call.Sleep attempt] ++ rest)

/-- Calls of the attempt of `WithTx` that was not retried, by the result `r` that `WithTx`
returned: a committed attempt when `r` is no error; otherwise a transaction that failed to
begin, a unit of work that failed and was rolled back, or a commit that failed. -/
def LastAttempt (P : Except Error Unit → List Call → Prop) (r : Except Error Unit)
    (last : List Call) : Prop :=
  match r with
  | .ok _ => ∃ evs, P (.ok ()) evs
      ∧ last = Call.BeginTxx (.ok ()) :: evs ++ [Call.Commit (.ok ())]
  | .error e =>
    last = [Call.BeginTxx (.error e)]
    ∨ (∃ evs rb, P (.error e) evs
        ∧ last = Call.BeginTxx (.ok ()) :: evs ++ [Call.Rollback rb])
    ∨ (∃ evs, P (.ok ()) evs
        ∧ last = Call.BeginTxx (.ok ()) :: evs ++ [Call.Commit (.error e)])

/-- Outcome of a `Transfer` that returned transaction id `tid` from world `w`: the calls made
are those of earlier attempts that were retried (`pre`), then exactly `transferCalls` for the
attempt that committed, then the balance broadcasts (`post`). `accFrom` and `accTo` are the
rows read under lock by the attempt that committed; they satisfy the three checks made under
lock. Each retried attempt began a transaction, made calls of the unit of work in its order
(at most two `UpdateBalance`, one `Create`, one `InsertEntries`), and was rolled back or
failed to commit; none of them committed or broadcast anything, at most four were made, and
there is none when the call began a single transaction. -/
def TransferCommitted {σ : Type} (S : Stores σ) (req : TransferRequest) (w : World σ Unit)
    (tid : String) : Prop :=
  ∃ (pre post : List Call) (accFrom accTo : Account) (debitID creditID : String),
    0 < req.AmountMinor
    ∧ req.FromAccountID ≠ req.ToAccountID
    ∧ accFrom.UserID = some req.UserID
    ∧ accFrom.Currency = accTo.Currency
    ∧ req.AmountMinor ≤ accFrom.Balance
    ∧ (Transfer S req w).2.log
        = w.log ++ pre ++ transferCalls req accFrom accTo tid debitID creditID ++ post
    ∧ (pre = [] ∨ ∃ p k, pre = p ++ [Call.Sleep k])
    ∧ Retried transferAttempt 1 pre
    ∧ commitsIn pre = 0
    ∧ broadcastsIn pre = 0
    ∧ attemptsIn pre ≤ 4
    ∧ callsOf "UpdateBalance" pre ≤ 2 * attemptsIn pre
    ∧ callsOf "TxCreate" pre ≤ attemptsIn pre
    ∧ callsOf "InsertEntries" pre ≤ attemptsIn pre
    ∧ (attemptsIn (Transfer S req w).2.log = attemptsIn w.log + 1 → pre = [])
    ∧ (∀ e ∈ post, ∃ userID update, e = Call.BroadcastBalance userID update)
    ∧ (isInt64 accFrom.Balance → isInt64 req.AmountMinor →
        sub64 accFrom.Balance req.AmountMinor = accFrom.Balance - req.AmountMinor
        ∧ neg64 req.AmountMinor = -req.AmountMinor)
    ∧ (isInt64 (accTo.Balance + req.AmountMinor) →
        add64 accTo.Balance req.AmountMinor = accTo.Balance + req.AmountMinor)

/-- Final state of the transfer scenario: the balances 9000 and 6000, the transaction row,
the two ledger entries, the audit row and the two balance messages. -/
def transferredDB : MemDB :=
  { committed := {
      accounts := [
        { ID := "from", UserID := some "user-1", Currency := "USD", Balance := 9000 },
        { ID := "to", UserID := some "user-2", Currency := "USD", Balance := 6000 }]
      ledger := [
        { ID := "id-1", TransactionID := "id-0", AccountID := "from", Amount := -1000,
          Currency := "USD", Description := "Transfer debit" },
        { ID := "id-2", TransactionID := "id-0", AccountID := "to", Amount := 1000,
          Currency := "USD", Description := "Transfer credit" }]
      transactions := [
        { ID := "id-0", UserID := "user-1", TxType := "transfer", Status := "completed",
          Amount := 1000, Currency := "USD", FromAccountID := some "from",
          ToAccountID := some "to" }]
      audit := [
        { actorID := "user-1", action := "transfer", entityType := "transaction",
          entityID := "id-0", data := [("transaction_id", "id-0")] }] }
    sent := [
      ("user-1", { AccountID := "from", Balance := "90.00", Currency := "USD" }),
      ("user-2", { AccountID := "to", Balance := "60.00", Currency := "USD" })]
    nextID := 3 }

/-- Outcome of an `Exchange` that returned transaction id `tid` from world `w`: the calls
made are the quote lookup when a quote is named (`lookup`), the earlier attempts that were
retried (`retried`), then exactly `exchangeCalls` for the attempt that committed, then the two
balance broadcasts to the requesting user (`post`). The rows read under lock by the attempt
that committed satisfy the checks made under lock, and when the four account ids are pairwise
distinct the balances left written are `F - a`, `T + c`, `SF + a` and `ST - c` in int64
arithmetic. The captured quote id is the one of the request, empty without a quote, and the
quote is consumed exactly when it is not empty. Each retried attempt began a transaction,
made calls of the unit of work in its order (at most four `UpdateBalance`, one
`InsertEntries`, one `Consume`), and was rolled back or failed to commit; none of them
committed or broadcast anything, at most four were made, and there is none when the call
began a single transaction. -/
def ExchangeCommitted {σ : Type} (S : Stores σ) (req : ExchangeRequest) (w : World σ Unit)
    (tid : String) : Prop :=
  ∃ (lookup retried post consume : List Call) (accFrom accTo sysFrom sysTo : Account)
      (systemFromID systemToID id1 id2 id3 id4 quoteID : String),
    0 < req.AmountMinor
    ∧ accFrom.UserID = some req.UserID
    ∧ accFrom.Currency ≠ accTo.Currency
    ∧ isExchangePairAllowed accFrom.Currency accTo.Currency = true
    ∧ req.AmountMinor ≤ accFrom.Balance
    ∧ 0 ≤ sub64 sysTo.Balance
        (convertMinor req.AmountMinor (directionalRate accFrom.Currency accTo.Currency))
    ∧ (Exchange S req w).2.log = w.log ++ lookup ++ retried
        ++ exchangeCalls req accFrom accTo sysFrom sysTo systemFromID systemToID tid
            id1 id2 id3 id4 quoteID consume
        ++ post
    ∧ quoteID = req.QuoteID.getD ""
    ∧ ((req.QuoteID = none ∧ lookup = [])
        ∨ ∃ quote, req.QuoteID = some quoteID
            ∧ lookup = [Call.QuoteGetByID quoteID (.ok quote)])
    ∧ ((quoteID = "" ∧ consume = [])
        ∨ (quoteID ≠ "" ∧ ∃ n : Int, n ≠ 0 ∧ consume = [Call.QuoteConsume quoteID (.ok n)]))
    ∧ Retried (exchangeAttempt quoteID) 1 retried
    ∧ commitsIn retried = 0
    ∧ broadcastsIn retried = 0
    ∧ attemptsIn retried ≤ 4
    ∧ callsOf "UpdateBalance" retried ≤ 4 * attemptsIn retried
    ∧ callsOf "InsertEntries" retried ≤ attemptsIn retried
    ∧ callsOf "QuoteConsume" retried ≤ attemptsIn retried
    ∧ (attemptsIn (Exchange S req w).2.log = attemptsIn w.log + 1 → retried = [])
    ∧ (∃ b1 b2, post = [Call.BroadcastBalance req.UserID b1, Call.BroadcastBalance req.UserID b2])
    ∧ (req.FromAccountID ≠ req.ToAccountID → req.FromAccountID ≠ systemFromID →
        req.FromAccountID ≠ systemToID → req.ToAccountID ≠ systemFromID →
        req.ToAccountID ≠ systemToID → systemFromID ≠ systemToID →
        let calls := exchangeCalls req accFrom accTo sysFrom sysTo systemFromID systemToID tid
          id1 id2 id3 id4 quoteID consume
        let c := convertMinor req.AmountMinor (directionalRate accFrom.Currency accTo.Currency)
        lastWrite req.FromAccountID calls = some (sub64 accFrom.Balance req.AmountMinor)
        ∧ lastWrite systemFromID calls = some (add64 sysFrom.Balance req.AmountMinor)
        ∧ lastWrite systemToID calls = some (sub64 sysTo.Balance c)
        ∧ lastWrite req.ToAccountID calls = some (add64 accTo.Balance c))

/-- Final state of the exchange scenario: the four balances, the transaction row, the four
ledger entries, the audit row and the two balance messages. -/
def exchangedDB : MemDB :=
  { committed := {
      accounts := [
        { ID := "from", UserID := some "user-1", Currency := "USD", Balance := 9000 },
        { ID := "to", UserID := some "user-1", Currency := "EUR", Balance := 1920 },
        { ID := "sys-usd", Currency := "USD", Balance := 101000, IsSystem := true },
        { ID := "sys-eur", Currency := "EUR", Balance := 99080, IsSystem := true }]
      ledger := [
        { ID := "id-1", TransactionID := "id-0", AccountID := "from", Amount := -1000,
          Currency := "USD", Description := "Exchange debit" },
        { ID := "id-2", TransactionID := "id-0", AccountID := "sys-usd", Amount := 1000,
          Currency := "USD", Description := "Exchange system credit" },
        { ID := "id-3", TransactionID := "id-0", AccountID := "sys-eur", Amount := -920,
          Currency := "EUR", Description := "Exchange system debit" },
        { ID := "id-4", TransactionID := "id-0", AccountID := "to", Amount := 920,
          Currency := "EUR", Description := "Exchange credit" }]
      transactions := [
        { ID := "id-0", UserID := "user-1", TxType := "exchange", Status := "completed",
          Amount := 1000, Currency := "USD", FromAccountID := some "from",
          ToAccountID := some "to", Metadata := [("quote_id", ""), ("rate", "0.920000")] }]
      audit := [
        { actorID := "user-1", action := "exchange", entityType := "transaction",
          entityID := "id-0", data := [("quote_id", ""), ("rate", "0.920000")] }] }
    sent := [
      ("user-1", { AccountID := "from", Balance := "90.00", Currency := "USD" }),
      ("user-1", { AccountID := "to", Balance := "19.20", Currency := "EUR" })]
    nextID := 5 }

/-- Backing state of the exchange scenario whose first commit fails with a serialization
conflict. -/
def exchangeConflictDB : MemDB :=
  { exchangeDB with commitErrors := [.pq "40001"] }

/-- Ledger entries passed to the `InsertEntries` calls of a log, in call order. -/
def entriesInserted : List Call → List LedgerEntryInput
  | [] => []
  | Call.InsertEntries entries _ :: rest => entries ++ entriesInserted rest
  | _ :: rest => entriesInserted rest

/-- Backing state of the exchange scenario holding one open quote with the given id for the
exchange of 1000 USD, converted to 920 EUR at 0.92. -/
def quotedDB (quoteID : String) : MemDB :=
  { exchangeDB with
    committed := { exchangeDB.committed with quotes := [{
      ID := quoteID
      UserID := "user-1"
      FromAccountID := "from"
      ToAccountID := "to"
      AmountMinor := 1000
      ConvertedMinor := 920
      Rate := "0.920000"
      BaseCurrency := "USD"
      QuoteCurrency := "EUR"
      ExpiresAt := 2 * Minute }] } }

/-- Exchange request that names the quote whose id is the empty string. -/
def emptyQuoteRequest : ExchangeRequest :=
  { UserID := "user-1", FromAccountID := "from", ToAccountID := "to", AmountMinor := 1000,
    QuoteID := some "" }

/-- Backing state holding the open quote `q-1` whose first commit fails with a serialization
conflict. -/
def quotedConflictDB : MemDB :=
  { quotedDB "q-1" with commitErrors := [.pq "40001"] }

/-- Backing state left by the duplicate of `repeatedRequest` at the point where the
transaction store rejects it: the transaction of the second attempt is open and holds the
two balance writes made before the rejected insert, and one id has been drawn. -/
def rejectedDuplicateDB : MemDB :=
  (transferWork MemDB.stores repeatedRequest
    (BeginTxx MemDB.stores
      ({ db := afterFirstRequestDB, log := [], vars := {} } : World MemDB TransferVars)).2).2.db

/-! # Verified properties -/

/-! ### int64 -/
theorem wrapInt64_of_isInt64 {x : Int} (h : isInt64 x) : wrapInt64 x = x := by
  unfold isInt64 at h
  unfold wrapInt64
  omega

theorem isInt64_wrapInt64 (x : Int) : isInt64 (wrapInt64 x) := by
  unfold isInt64 wrapInt64
  omega

theorem add64_neg64_self (s a : Int) : add64 (add64 s (neg64 a)) a = wrapInt64 s := by
  unfold add64 neg64 wrapInt64
  omega

theorem sub64_self (a : Int) : sub64 a a = 0 := by
  unfold sub64 wrapInt64
  omega

theorem sub64_add64_cancel (t a : Int) : sub64 (add64 t a) t = wrapInt64 a := by
  unfold sub64 add64 wrapInt64
  omega

/-! ### string order -/

theorem charsLE_total (a b : List Char) : charsLE a b = true ∨ charsLE b a = true := by
  induction a generalizing b with
  | nil => left; simp [charsLE]
  | cons x xs ih =>
    cases b with
    | nil => right; simp [charsLE]
    | cons y ys =>
      simp only [charsLE]
      by_cases h1 : x.toNat < y.toNat
      · simp [h1]
      · by_cases h2 : y.toNat < x.toNat
        · simp [h2]
        · simp only [h1, h2, if_false]
          exact ih ys

theorem charsLE_antisymm (a b : List Char) (h1 : charsLE a b = true) (h2 : charsLE b a = true) :
    a = b := by
  induction a generalizing b with
  | nil =>
    cases b with
    | nil => rfl
    | cons y ys => simp [charsLE] at h2
  | cons x xs ih =>
    cases b with
    | nil => simp [charsLE] at h1
    | cons y ys =>
      simp only [charsLE] at h1 h2
      by_cases hxy : x.toNat < y.toNat
      · have : ¬ y.toNat < x.toNat := by omega
        simp [hxy, this] at h2
      · by_cases hyx : y.toNat < x.toNat
        · simp [hxy, hyx] at h1
        · simp only [hxy, hyx, if_false] at h1 h2
          have hx : x = y := by
            apply Char.ext
            apply UInt32.ext
            have : x.toNat = y.toNat := by omega
            exact this
          rw [hx, ih ys h1 h2]

theorem strLE_total (a b : String) : strLE a b = true ∨ strLE b a = true :=
  charsLE_total a.data b.data

theorem strLE_antisymm {a b : String} (h1 : strLE a b = true) (h2 : strLE b a = true) : a = b := by
  have := charsLE_antisymm a.data b.data h1 h2
  exact String.ext this

theorem strLE_refl (a : String) : strLE a a = true := by
  rcases strLE_total a a with h | h <;> exact h

theorem orderedIDs_le (a b : String) : strLE (orderedIDs a b).1 (orderedIDs a b).2 = true := by
  unfold orderedIDs
  by_cases h : strLE a b = true
  · simp [h]
  · simp only [h]
    rcases strLE_total a b with h' | h'
    · exact absurd h' h
    · simpa using h'

theorem orderedIDs_comm (a b : String) : orderedIDs b a = orderedIDs a b := by
  unfold orderedIDs
  by_cases h : strLE a b = true
  · by_cases h' : strLE b a = true
    · have := strLE_antisymm h h'
      subst this
      simp
    · simp [h, h']
  · rcases strLE_total a b with h' | h'
    · exact absurd h' h
    · simp [h, h']

/-! ### Operations: evaluation and inversion -/

namespace Op

variable {σ ν μ α β : Type}

theorem bind_apply (m : Op σ ν α) (f : α → Op σ ν β) (w : World σ ν) :
    (m >>= f) w = match m w with
      | (.ok a, w1) => f a w1
      | (.error e, w1) => (.error e, w1) := rfl

theorem pure_apply (a : α) (w : World σ ν) : (pure a : Op σ ν α) w = (.ok a, w) := rfl

theorem bind_of_ok {m : Op σ ν α} {f : α → Op σ ν β} {w w1 : World σ ν} {a : α}
    (h : m w = (.ok a, w1)) : (m >>= f) w = f a w1 := by
  rw [bind_apply, h]

theorem bind_of_error {m : Op σ ν α} {f : α → Op σ ν β} {w w1 : World σ ν} {e : Error}
    (h : m w = (.error e, w1)) : (m >>= f) w = (.error e, w1) := by
  rw [bind_apply, h]

theorem bind_ok_iff {m : Op σ ν α} {f : α → Op σ ν β} {w w' : World σ ν} {b : β} :
    (m >>= f) w = (.ok b, w') ↔ ∃ a w1, m w = (.ok a, w1) ∧ f a w1 = (.ok b, w') := by
  rw [bind_apply]
  rcases hm : m w with ⟨r, w1⟩
  cases r with
  | error e => simp
  | ok a =>
    constructor
    · intro h
      exact ⟨a, w1, rfl, h⟩
    · rintro ⟨a', w1', h1, h2⟩
      simp only [Prod.mk.injEq, Except.ok.injEq] at h1
      obtain ⟨rfl, rfl⟩ := h1
      exact h2

theorem failIf_of_true {c : Prop} [Decidable c] (e : Error) (w : World σ ν) (hc : c) :
    failIf c e w = (.error e, w) := by
  simp [failIf, hc, fail]

theorem failIf_of_false {c : Prop} [Decidable c] (e : Error) (w : World σ ν) (hc : ¬ c) :
    failIf c e w = (.ok (), w) := by
  simp [failIf, hc, ret]

theorem failIf_ok_iff {c : Prop} [Decidable c] {e : Error} {w w' : World σ ν} {u : Unit} :
    failIf c e w = (.ok u, w') ↔ ¬ c ∧ w' = w := by
  unfold failIf
  by_cases hc : c <;> simp [hc, fail, ret, eq_comm]

theorem call_ok_iff {f : σ → Except Error α × σ} {ev : Except Error α → Call}
    {w w' : World σ ν} {a : α} :
    call f ev w = (.ok a, w') ↔
      (f w.db).1 = .ok a ∧ w' = { w with db := (f w.db).2, log := w.log ++ [ev (.ok a)] } := by
  unfold call
  constructor
  · intro h
    simp only [Prod.mk.injEq] at h
    obtain ⟨h1, h2⟩ := h
    refine ⟨h1, ?_⟩
    rw [← h2, h1]
  · rintro ⟨h1, h2⟩
    rw [h2, h1]

theorem ambient_ok_iff {f : σ → α × σ} {w w' : World σ ν} {a : α} :
    ambient f w = (.ok a, w') ↔ a = (f w.db).1 ∧ w' = { w with db := (f w.db).2 } := by
  unfold ambient
  simp [eq_comm]

theorem modifyVars_ok_iff {f : ν → ν} {w w' : World σ ν} {u : Unit} :
    modifyVars f w = (.ok u, w') ↔ w' = { w with vars := f w.vars } := by
  unfold modifyVars
  simp [eq_comm]

theorem ofExcept_ok_iff {r : Except Error α} {w w' : World σ ν} {a : α} :
    ofExcept r w = (.ok a, w') ↔ r = .ok a ∧ w' = w := by
  unfold ofExcept
  simp [eq_comm]

theorem pure_ok_iff {a b : α} {w w' : World σ ν} :
    (pure a : Op σ ν α) w = (.ok b, w') ↔ b = a ∧ w' = w := by
  rw [pure_apply]; simp [eq_comm]

end Op

section Locking

variable {σ ν : Type} (S : Stores σ)

theorem lockTwoAccounts_ok {firstID secondID : String} {w w' : World σ ν} {p : Account × Account}
    (h : lockTwoAccounts S firstID secondID w = (.ok p, w')) :
    ∃ l r, w'.log = w.log ++ [Call.GetForUpdate (orderedIDs firstID secondID).1 (.ok l),
                             Call.GetForUpdate (orderedIDs firstID secondID).2 (.ok r)]
      ∧ p = (if firstID = (orderedIDs firstID secondID).1 then (l, r) else (r, l))
      ∧ w'.vars = w.vars := by
  simp only [lockTwoAccounts, GetForUpdate, Op.bind_ok_iff, Op.call_ok_iff] at h
  obtain ⟨l, w1, ⟨hl, rfl⟩, r, w2, ⟨hr, rfl⟩, h⟩ := h
  refine ⟨l, r, ?_⟩
  by_cases hc : firstID = (orderedIDs firstID secondID).1
  · rw [if_pos hc, Op.pure_ok_iff] at h
    obtain ⟨rfl, rfl⟩ := h
    exact ⟨by simp, by rw [if_pos hc], rfl⟩
  · rw [if_neg hc, Op.pure_ok_iff] at h
    obtain ⟨rfl, rfl⟩ := h
    exact ⟨by simp, by rw [if_neg hc], rfl⟩

theorem orderedIDs_cases (a b : String) :
    (a = (orderedIDs a b).1 ∧ b = (orderedIDs a b).2) ∨
    (a ≠ (orderedIDs a b).1 ∧ a = (orderedIDs a b).2 ∧ b = (orderedIDs a b).1) := by
  unfold orderedIDs
  by_cases h : strLE a b = true
  · left; simp [h]
  · by_cases hab : a = b
    · subst hab; exact absurd (strLE_refl a) h
    · right; simp [h, hab]

theorem lockTwoAccounts_world (a b : String) (w : World σ ν) :
    (lockTwoAccounts S b a w).2 = (lockTwoAccounts S a b w).2 := by
  simp only [lockTwoAccounts, orderedIDs_comm a b, Op.bind_apply]
  rcases h1 : GetForUpdate S (orderedIDs a b).1 w with ⟨r1, w1⟩
  cases r1 with
  | error e => rfl
  | ok l =>
    simp only []
    rcases h2 : GetForUpdate S (orderedIDs a b).2 w1 with ⟨r2, w2⟩
    cases r2 with
    | error e => rfl
    | ok r =>
      simp only []
      split <;> split <;> rfl

end Locking

theorem lockedIDs_append (xs ys : List Call) :
    lockedIDs (xs ++ ys) = lockedIDs xs ++ lockedIDs ys := by
  induction xs with
  | nil => rfl
  | cons x xs ih =>
    cases x <;> simp [lockedIDs, ih]

section LockingOrder

variable {σ ν : Type} (S : Stores σ)

/-- C8: `lockTwoAccounts(a, b)` and `lockTwoAccounts(b, a)` lock the same ids in the same order,
the smaller id first (`orderedIDs` returns the pair in `<=` order, whichever way it is called),
so both calls make the same calls and leave the same state; and a successful call returns as
first result the account read for its first argument and as second result the account read
for its second argument. -/
theorem lockTwoAccounts_deterministic_order (a b : String) (w : World σ ν) :
    strLE (orderedIDs a b).1 (orderedIDs a b).2 = true
    ∧ orderedIDs b a = orderedIDs a b
    ∧ (lockTwoAccounts S b a w).2 = (lockTwoAccounts S a b w).2
    ∧ (∃ ids, ids <+: [(orderedIDs a b).1, (orderedIDs a b).2] ∧
        lockedIDs (lockTwoAccounts S a b w).2.log = lockedIDs w.log ++ ids)
    ∧ (∀ p, (lockTwoAccounts S a b w).1 = .ok p →
        ∃ l r, (lockTwoAccounts S a b w).2.log = w.log ++
            [Call.GetForUpdate (orderedIDs a b).1 (.ok l),
             Call.GetForUpdate (orderedIDs a b).2 (.ok r)]
          ∧ ((a = (orderedIDs a b).1 ∧ b = (orderedIDs a b).2 ∧ p = (l, r))
            ∨ (a = (orderedIDs a b).2 ∧ b = (orderedIDs a b).1 ∧ p = (r, l)))) := by
  refine ⟨orderedIDs_le a b, orderedIDs_comm a b, lockTwoAccounts_world S a b w, ?_, ?_⟩
  · simp only [lockTwoAccounts, Op.bind_apply, GetForUpdate, Op.call]
    cases h1 : (S.GetForUpdate (orderedIDs a b).1 w.db).1 with
    | error e =>
      refine ⟨[(orderedIDs a b).1], ?_, ?_⟩
      · exact ⟨[(orderedIDs a b).2], rfl⟩
      · simp [lockedIDs_append, lockedIDs]
    | ok l =>
      simp only []
      cases h2 : (S.GetForUpdate (orderedIDs a b).2 (S.GetForUpdate (orderedIDs a b).1 w.db).2).1 with
      | error e =>
        refine ⟨[(orderedIDs a b).1, (orderedIDs a b).2], List.prefix_refl _, ?_⟩
        simp [lockedIDs_append, lockedIDs]
      | ok r =>
        refine ⟨[(orderedIDs a b).1, (orderedIDs a b).2], List.prefix_refl _, ?_⟩
        simp only []
        split <;> simp [Op.pure_apply, lockedIDs_append, lockedIDs]
  · intro p hp
    rcases hrun : lockTwoAccounts S a b w with ⟨res, w'⟩
    rw [hrun] at hp
    simp only at hp
    subst hp
    obtain ⟨l, r, hlog, hp, -⟩ := lockTwoAccounts_ok S hrun
    refine ⟨l, r, hlog, ?_⟩
    rcases orderedIDs_cases a b with ⟨h1, h2⟩ | ⟨h1, h2, h3⟩
    · left
      rw [if_pos h1] at hp
      exact ⟨h1, h2, hp⟩
    · right
      rw [if_neg h1] at hp
      exact ⟨h2, h3, hp⟩

/-- C6: a non-positive amount is rejected with `ErrInvalidAmount` and, for a positive
amount, equal account ids are rejected with `ErrSameAccountTransfer`; in both cases the world
is returned unchanged: no transaction was begun and no store call appears in the log. -/
theorem transfer_static_rejections (req : TransferRequest) (w : World σ Unit) :
    (req.AmountMinor ≤ 0 → Transfer S req w = (.error .ErrInvalidAmount, w))
    ∧ (0 < req.AmountMinor → req.FromAccountID = req.ToAccountID →
        Transfer S req w = (.error .ErrSameAccountTransfer, w)) := by
  constructor
  · intro h
    unfold Transfer
    rw [Op.bind_of_error (Op.failIf_of_true _ _ h)]
  · intro h1 h2
    unfold Transfer
    rw [Op.bind_of_ok (Op.failIf_of_false _ _ (not_le.mpr h1)),
      Op.bind_of_error (Op.failIf_of_true _ _ h2)]

end LockingOrder

section ExecutorProofs

variable {σ ν : Type} (S : Stores σ)


theorem WithTxLoop_succ (fn : Op σ ν Unit) (remaining attempt : Nat) (w : World σ ν) :
    WithTxLoop S fn (remaining + 1) attempt w =
      match BeginTxx S w with
      | (.error err, w1) => (.error err, w1)
      | (.ok _, w1) =>
        match fn w1 with
        | (.error err, w2) =>
          if isRetryablePGError err && decide (attempt < maxAttempts) then
            WithTxLoop S fn remaining (attempt + 1) (sleepWithBackoff attempt (Rollback S w2).2).2
          else (.error err, (Rollback S w2).2)
        | (.ok _, w2) =>
          match Commit S w2 with
          | (.error err, w3) =>
            if isRetryablePGError err && decide (attempt < maxAttempts) then
              WithTxLoop S fn remaining (attempt + 1) (sleepWithBackoff attempt w3).2
            else (.error err, w3)
          | (.ok _, w3) => (.ok (), w3) := rfl

theorem attemptsIn_append (xs ys : List Call) :
    attemptsIn (xs ++ ys) = attemptsIn xs + attemptsIn ys := by
  simp [attemptsIn, List.countP_append]

theorem commitsIn_append (xs ys : List Call) :
    commitsIn (xs ++ ys) = commitsIn xs + commitsIn ys := by
  simp [commitsIn, List.countP_append]

theorem BeginTxx_log (w : World σ ν) :
    (BeginTxx S w).2.log = w.log ++ [Call.BeginTxx (BeginTxx S w).1] := rfl

theorem Commit_log (w : World σ ν) :
    (Commit S w).2.log = w.log ++ [Call.Commit (Commit S w).1] := rfl

theorem Rollback_log (w : World σ ν) :
    (Rollback S w).2.log = w.log ++ [Call.Rollback (S.Rollback w.db).1] := rfl

theorem sleepWithBackoff_log (attempt : Nat) (w : World σ ν) :
    (sleepWithBackoff attempt w).2.log = w.log ++ [Call.Sleep attempt] := rfl

theorem WithTxLoop_conflicts (fn : Op σ ν Unit)
    (hfn : ∀ w, attemptsIn (fn w).2.log = attemptsIn w.log ∧ commitsIn (fn w).2.log = commitsIn w.log) :
    ∀ (n k attempt : Nat) (w : World σ ν), attempt + n = maxAttempts + 1 →
      ConflictsThenSuccess S fn k attempt w →
      (k < n → (WithTxLoop S fn n attempt w).1 = .ok ()
        ∧ attemptsIn (WithTxLoop S fn n attempt w).2.log = attemptsIn w.log + (k + 1)
        ∧ commitsIn (WithTxLoop S fn n attempt w).2.log = commitsIn w.log + 1)
      ∧ (n ≤ k → 1 ≤ n → (∃ e, (WithTxLoop S fn n attempt w).1 = .error e)
        ∧ attemptsIn (WithTxLoop S fn n attempt w).2.log = attemptsIn w.log + n) := by
  intro n
  induction n with
  | zero =>
    intro k attempt w _ _
    exact ⟨fun h => absurd h (Nat.not_lt_zero _), fun _ h => absurd h (by omega)⟩
  | succ n ih =>
    intro k attempt w hn hk
    have hlt : (decide (attempt < maxAttempts)) = decide (1 ≤ n) := by
      unfold maxAttempts at hn ⊢
      by_cases h : 1 ≤ n
      · have : attempt < 5 := by omega
        simp [h, this]
      · have : ¬ attempt < 5 := by omega
        simp [h, this]
    rw [WithTxLoop_succ]
    have hbl := BeginTxx_log S w
    rcases hb : BeginTxx S w with ⟨rb, w1⟩
    rw [hb] at hbl
    cases k with
    | zero =>
      -- the attempt succeeds
      simp only [ConflictsThenSuccess, attemptOnce, hb] at hk
      cases rb with
      | error e => simp at hk
      | ok u =>
        simp only [] at hk ⊢
        have hf := hfn w1
        rcases hw : fn w1 with ⟨rf, w2⟩
        rw [hw] at hk hf
        cases rf with
        | error e => simp at hk
        | ok u2 =>
          simp only [] at hk hf ⊢
          have hcl := Commit_log S w2
          rcases hc : Commit S w2 with ⟨rc, w3⟩
          rw [hc] at hk hcl
          simp only at hk hcl
          subst hk
          simp only at hbl
          refine ⟨fun _ => ⟨rfl, ?_, ?_⟩, fun h => absurd h (by omega)⟩
          · simp only [hcl, attemptsIn_append, hf.1, hbl]
            simp [attemptsIn, isBegin]
          · simp only [hcl, commitsIn_append, hf.2, hbl]
            simp [commitsIn, isCommitOK]
    | succ k =>
      simp only [ConflictsThenSuccess, attemptOnce, hb] at hk
      obtain ⟨hbok, ⟨e, he, hre⟩, hrest⟩ := hk
      cases rb with
      | error eb => simp at hbok
      | ok u =>
      simp only [] at he hrest hbl ⊢
      have hf := hfn w1
      rcases hw : fn w1 with ⟨rf, w2⟩
      rw [hw] at he hrest hf
      cases rf with
      | error e' =>
        simp only [] at he hrest hf ⊢
        cases he
        simp only [hre, hlt, Bool.true_and]
        by_cases h1 : 1 ≤ n
        · simp only [h1, decide_True, if_true]
          have := ih k (attempt + 1) _ (by omega) hrest
          have hlog : attemptsIn (sleepWithBackoff attempt (Rollback S w2).2).2.log
              = attemptsIn w.log + 1 ∧ commitsIn (sleepWithBackoff attempt (Rollback S w2).2).2.log
              = commitsIn w.log := by
            simp only [sleepWithBackoff_log, Rollback_log, attemptsIn_append, commitsIn_append,
              hf.1, hf.2, hbl]
            simp [attemptsIn, commitsIn, isBegin, isCommitOK]
          refine ⟨fun hkn => ?_, fun hkn _ => ?_⟩
          · obtain ⟨h1', h2', h3'⟩ := this.1 (by omega)
            exact ⟨h1', by rw [h2', hlog.1]; omega, by rw [h3', hlog.2]⟩
          · obtain ⟨h1', h2'⟩ := this.2 (by omega) h1
            exact ⟨h1', by rw [h2', hlog.1]; omega⟩
        · simp only [h1, decide_False, if_false, Bool.false_eq_true]
          have hn0 : n = 0 := by omega
          subst hn0
          refine ⟨fun hkn => absurd hkn (by omega), fun _ _ => ⟨⟨e, rfl⟩, ?_⟩⟩
          simp only [Rollback_log, attemptsIn_append, hf.1, hbl]
          simp [attemptsIn, isBegin]
      | ok u2 =>
        simp only [] at he hrest hf ⊢
        have hcl := Commit_log S w2
        rcases hc : Commit S w2 with ⟨rc, w3⟩
        rw [hc] at he hrest hcl
        simp only at he hcl
        subst he
        simp only [hre, hlt, Bool.true_and]
        have hlog3 : attemptsIn w3.log = attemptsIn w.log + 1 ∧ commitsIn w3.log = commitsIn w.log := by
          simp only [hcl, attemptsIn_append, commitsIn_append, hf.1, hf.2, hbl]
          simp [attemptsIn, commitsIn, isBegin, isCommitOK]
        by_cases h1 : 1 ≤ n
        · simp only [h1, decide_True, if_true]
          have := ih k (attempt + 1) _ (by omega) hrest
          have hlog : attemptsIn (sleepWithBackoff attempt w3).2.log
              = attemptsIn w.log + 1 ∧ commitsIn (sleepWithBackoff attempt w3).2.log
              = commitsIn w.log := by
            simp only [sleepWithBackoff_log, attemptsIn_append, commitsIn_append, hlog3.1, hlog3.2]
            simp [attemptsIn, commitsIn, isBegin, isCommitOK]
          refine ⟨fun hkn => ?_, fun hkn _ => ?_⟩
          · obtain ⟨h1', h2', h3'⟩ := this.1 (by omega)
            exact ⟨h1', by rw [h2', hlog.1]; omega, by rw [h3', hlog.2]⟩
          · obtain ⟨h1', h2'⟩ := this.2 (by omega) h1
            exact ⟨h1', by rw [h2', hlog.1]; omega⟩
        · simp only [h1, decide_False, if_false, Bool.false_eq_true]
          have hn0 : n = 0 := by omega
          subst hn0
          refine ⟨fun hkn => absurd hkn (by omega), fun _ _ => ⟨⟨e, rfl⟩, ?_⟩⟩
          exact hlog3.1

/-- C10: when the first `k` attempts each begin and then fail with a retryable conflict
(raised by the work or by the commit) and the next attempt would succeed, `WithTx` makes
exactly `min (k + 1) 5` attempts, returns no error exactly when `k < 5`, and in that case
exactly one commit succeeds. The work itself begins and commits nothing (`hfn`). -/
theorem withTx_attempts (fn : Op σ ν Unit)
    (hfn : ∀ w, attemptsIn (fn w).2.log = attemptsIn w.log ∧ commitsIn (fn w).2.log = commitsIn w.log)
    (k : Nat) (w : World σ ν) (h : ConflictsThenSuccess S fn k 1 w) :
    attemptsIn (WithTx S fn w).2.log = attemptsIn w.log + min (k + 1) 5
    ∧ ((WithTx S fn w).1 = .ok () ↔ k < 5)
    ∧ (k < 5 → commitsIn (WithTx S fn w).2.log = commitsIn w.log + 1) := by
  have key := WithTxLoop_conflicts S fn hfn 5 k 1 w (by unfold maxAttempts; rfl) h
  unfold WithTx maxAttempts
  by_cases hk : k < 5
  · obtain ⟨h1, h2, h3⟩ := key.1 hk
    refine ⟨?_, ⟨fun _ => hk, fun _ => h1⟩, fun _ => h3⟩
    rw [h2, Nat.min_eq_left (by omega)]
  · obtain ⟨⟨e, h1⟩, h2⟩ := key.2 (by omega) (by omega)
    refine ⟨?_, ⟨fun hok => ?_, fun hlt => absurd hlt hk⟩, fun hlt => absurd hlt hk⟩
    · rw [h2, Nat.min_eq_right (by omega)]
    · rw [h1] at hok
      cases hok

end ExecutorProofs

/-! ### Calls appended to the log -/

namespace Op

variable {σ ν μ α β : Type} {Q : Call → Prop}

theorem Emits.of_log_eq {m : Op σ ν α} (h : ∀ w, (m w).2.log = w.log) : Emits Q m :=
  fun w => ⟨[], by simp [h w], by simp⟩

theorem Emits.ret (a : α) : Emits Q (Op.ret a : Op σ ν α) := Emits.of_log_eq fun _ => rfl

theorem Emits.pure (a : α) : Emits Q (Pure.pure a : Op σ ν α) := Emits.of_log_eq fun _ => rfl

theorem Emits.fail (e : Error) : Emits Q (Op.fail e : Op σ ν α) := Emits.of_log_eq fun _ => rfl

theorem Emits.failIf (c : Prop) [Decidable c] (e : Error) :
    Emits Q (Op.failIf c e : Op σ ν Unit) := by
  unfold Op.failIf
  split
  · exact Emits.fail e
  · exact Emits.ret ()

theorem Emits.ofExcept (r : Except Error α) : Emits Q (Op.ofExcept r : Op σ ν α) :=
  Emits.of_log_eq fun _ => rfl

theorem Emits.modifyVars (f : ν → ν) : Emits Q (Op.modifyVars f : Op σ ν Unit) :=
  Emits.of_log_eq fun _ => rfl

theorem Emits.ambient (f : σ → α × σ) : Emits Q (Op.ambient f : Op σ ν α) :=
  Emits.of_log_eq fun _ => rfl

theorem Emits.call (f : σ → Except Error α × σ) (ev : Except Error α → Call)
    (h : ∀ r, Q (ev r)) : Emits Q (Op.call f ev : Op σ ν α) :=
  fun w => ⟨[ev (f w.db).1], rfl, by simpa using h _⟩

theorem Emits.bind {m : Op σ ν α} {f : α → Op σ ν β} (hm : Emits Q m)
    (hf : ∀ a, Emits Q (f a)) : Emits Q (m >>= f) := by
  intro w
  obtain ⟨evs1, h1, hq1⟩ := hm w
  rw [bind_apply]
  rcases hmw : m w with ⟨r, w1⟩
  rw [hmw] at h1
  cases r with
  | error e => exact ⟨evs1, h1, hq1⟩
  | ok a =>
    obtain ⟨evs2, h2, hq2⟩ := hf a w1
    refine ⟨evs1 ++ evs2, ?_, ?_⟩
    · simp only [h2]
      simp only at h1
      rw [h1, List.append_assoc]
    · intro e he
      rcases List.mem_append.mp he with h | h
      · exact hq1 e h
      · exact hq2 e h

theorem Emits.onlyIf (c : Prop) [Decidable c] {m : Op σ ν Unit} (hm : Emits Q m) :
    Emits Q (Op.onlyIf c m) := by
  unfold Op.onlyIf
  split
  · exact hm
  · exact Emits.ret ()

theorem Emits.replaceError {m : Op σ ν α} (e : Error) (hm : Emits Q m) :
    Emits Q (Op.replaceError m e) := by
  intro w
  obtain ⟨evs, h, hq⟩ := hm w
  refine ⟨evs, ?_, hq⟩
  unfold Op.replaceError
  rcases hmw : m w with ⟨r, w1⟩
  rw [hmw] at h
  cases r <;> exact h

theorem Emits.withVars (init : ν) {m : Op σ ν α} (hm : Emits Q m) :
    Emits Q (Op.withVars init m : Op σ μ (α × ν)) := by
  intro w
  obtain ⟨evs, h, hq⟩ := hm { db := w.db, log := w.log, vars := init }
  refine ⟨evs, ?_, hq⟩
  unfold Op.withVars
  rcases hmw : m { db := w.db, log := w.log, vars := init } with ⟨r, w1⟩
  rw [hmw] at h
  cases r <;> exact h

theorem Emits.mono {Q' : Call → Prop} {m : Op σ ν α} (hm : Emits Q m)
    (h : ∀ e, Q e → Q' e) : Emits Q' m := by
  intro w
  obtain ⟨evs, h1, hq⟩ := hm w
  exact ⟨evs, h1, fun e he => h e (hq e he)⟩

end Op

section EmitsCalls

variable {σ ν : Type} (S : Stores σ) {Q : Call → Prop}

theorem Rollback_emits (h : ∀ r, Q (Call.Rollback r)) : Op.Emits Q (Rollback S : Op σ ν Unit) :=
  fun w => ⟨[Call.Rollback (S.Rollback w.db).1], rfl, by simpa using h _⟩

theorem BroadcastBalance_emits (userID : String) (update : BalanceUpdate)
    (h : Q (Call.BroadcastBalance userID update)) :
    Op.Emits Q (BroadcastBalance S userID update : Op σ ν Unit) :=
  fun _ => ⟨[Call.BroadcastBalance userID update], rfl, by simpa using h⟩

theorem sleepWithBackoff_emits (attempt : Nat) (h : Q (Call.Sleep attempt)) :
    Op.Emits Q (sleepWithBackoff attempt : Op σ ν Unit) :=
  fun _ => ⟨[Call.Sleep attempt], rfl, by simpa using h⟩

theorem lockTwoAccounts_emits (a b : String) (h : ∀ i r, Q (Call.GetForUpdate i r)) :
    Op.Emits Q (lockTwoAccounts S a b : Op σ ν (Account × Account)) := by
  unfold lockTwoAccounts GetForUpdate
  refine Op.Emits.bind (Op.Emits.call _ _ (h _)) fun l => ?_
  refine Op.Emits.bind (Op.Emits.call _ _ (h _)) fun r => ?_
  split <;> exact Op.Emits.pure _

end EmitsCalls

section WorkEmits

variable {σ ν : Type} (S : Stores σ) {Q : Call → Prop}

theorem WithTxLoop_emits (fn : Op σ ν Unit) (hfn : Op.Emits Q fn)
    (hQ : ∀ e, (∀ entries r, e ≠ Call.InsertEntries entries r) → Q e) :
    ∀ remaining attempt, Op.Emits Q (WithTxLoop S fn remaining attempt) := by
  intro remaining
  induction remaining with
  | zero => intro attempt; exact Op.Emits.fail _
  | succ n ih =>
    intro attempt w
    have hB : Op.Emits Q (BeginTxx S : Op σ ν Unit) :=
      Op.Emits.call _ _ fun r => hQ _ (by intro _ _ h; cases h)
    have hC : Op.Emits Q (Commit S : Op σ ν Unit) :=
      Op.Emits.call _ _ fun r => hQ _ (by intro _ _ h; cases h)
    have hR : Op.Emits Q (Rollback S : Op σ ν Unit) :=
      Rollback_emits S fun r => hQ _ (by intro _ _ h; cases h)
    have hS : Op.Emits Q (sleepWithBackoff attempt : Op σ ν Unit) :=
      sleepWithBackoff_emits attempt (hQ _ (by intro _ _ h; cases h))
    rw [WithTxLoop_succ]
    obtain ⟨e1, h1, q1⟩ := hB w
    rcases hb : BeginTxx S w with ⟨rb, w1⟩
    rw [hb] at h1
    cases rb with
    | error e => exact ⟨e1, h1, q1⟩
    | ok u =>
      simp only at h1 ⊢
      obtain ⟨e2, h2, q2⟩ := hfn w1
      rcases hw : fn w1 with ⟨rf, w2⟩
      rw [hw] at h2
      simp only at h2
      cases rf with
      | error e =>
        simp only
        obtain ⟨e3, h3, q3⟩ := hR w2
        split
        · obtain ⟨e4, h4, q4⟩ := hS (Rollback S w2).2
          obtain ⟨e5, h5, q5⟩ := ih (attempt + 1) (sleepWithBackoff attempt (Rollback S w2).2).2
          refine ⟨e1 ++ e2 ++ e3 ++ e4 ++ e5, ?_, ?_⟩
          · rw [h5, h4, h3, h2, h1]; simp only [List.append_assoc]
          · intro e he
            simp only [List.mem_append] at he
            rcases he with (((h | h) | h) | h) | h
            exacts [q1 e h, q2 e h, q3 e h, q4 e h, q5 e h]
        · refine ⟨e1 ++ e2 ++ e3, ?_, ?_⟩
          · simp only [h3, h2, h1, List.append_assoc]
          · intro e he
            simp only [List.mem_append] at he
            rcases he with (h | h) | h
            exacts [q1 e h, q2 e h, q3 e h]
      | ok u2 =>
        simp only
        obtain ⟨e3, h3, q3⟩ := hC w2
        rcases hc : Commit S w2 with ⟨rc, w3⟩
        rw [hc] at h3
        simp only at h3
        cases rc with
        | error e =>
          simp only
          split
          · obtain ⟨e4, h4, q4⟩ := hS w3
            obtain ⟨e5, h5, q5⟩ := ih (attempt + 1) (sleepWithBackoff attempt w3).2
            refine ⟨e1 ++ e2 ++ e3 ++ e4 ++ e5, ?_, ?_⟩
            · rw [h5, h4, h3, h2, h1]; simp only [List.append_assoc]
            · intro e he
              simp only [List.mem_append] at he
              rcases he with (((h | h) | h) | h) | h
              exacts [q1 e h, q2 e h, q3 e h, q4 e h, q5 e h]
          · refine ⟨e1 ++ e2 ++ e3, ?_, ?_⟩
            · simp only [h3, h2, h1, List.append_assoc]
            · intro e he
              simp only [List.mem_append] at he
              rcases he with (h | h) | h
              exacts [q1 e h, q2 e h, q3 e h]
        | ok u3 =>
          refine ⟨e1 ++ e2 ++ e3, ?_, ?_⟩
          · simp only [h3, h2, h1, List.append_assoc]
          · intro e he
            simp only [List.mem_append] at he
            rcases he with (h | h) | h
            exacts [q1 e h, q2 e h, q3 e h]

theorem transferWork_emits (req : TransferRequest)
    (hQ : ∀ e, (∀ entries r, e ≠ Call.InsertEntries entries r) → Q e)
    (hI : ∀ tid d c cur r, Q (Call.InsertEntries (transferEntries req tid d c cur) r)) :
    Op.Emits Q (transferWork S req) := by
  have hq : ∀ {e : Call}, (∀ entries r, e ≠ Call.InsertEntries entries r) → Q e := fun h => hQ _ h
  unfold transferWork UpdateBalance TxCreate InsertEntries AuditLog NewString
  refine Op.Emits.bind (lockTwoAccounts_emits S _ _ fun _ _ => hq (by intro _ _ h; cases h)) fun _ => ?_
  refine Op.Emits.bind (Op.Emits.failIf _ _) fun _ => ?_
  refine Op.Emits.bind (Op.Emits.failIf _ _) fun _ => ?_
  refine Op.Emits.bind (Op.Emits.modifyVars _) fun _ => ?_
  refine Op.Emits.bind (Op.Emits.modifyVars _) fun _ => ?_
  refine Op.Emits.bind (Op.Emits.failIf _ _) fun _ => ?_
  refine Op.Emits.bind (Op.Emits.modifyVars _) fun _ => ?_
  refine Op.Emits.bind (Op.Emits.call _ _ fun _ => hq (by intro _ _ h; cases h)) fun _ => ?_
  refine Op.Emits.bind (Op.Emits.call _ _ fun _ => hq (by intro _ _ h; cases h)) fun _ => ?_
  refine Op.Emits.bind (Op.Emits.ambient _) fun _ => ?_
  refine Op.Emits.bind (Op.Emits.modifyVars _) fun _ => ?_
  refine Op.Emits.bind (Op.Emits.call _ _ fun _ => hq (by intro _ _ h; cases h)) fun _ => ?_
  refine Op.Emits.bind (Op.Emits.ambient _) fun _ => ?_
  refine Op.Emits.bind (Op.Emits.ambient _) fun _ => ?_
  refine Op.Emits.bind (Op.Emits.ofExcept _) fun _ => ?_
  refine Op.Emits.bind (Op.Emits.call _ _ fun _ => hI _ _ _ _ _) fun _ => ?_
  exact Op.Emits.call _ _ fun _ => hq (by intro _ _ h; cases h)

theorem exchangeWork_emits (req : ExchangeRequest) (rate : Decimal) (quoteID : String)
    (expectedConverted : Int)
    (hQ : ∀ e, (∀ entries r, e ≠ Call.InsertEntries entries r) → Q e)
    (hI : ∀ tid i1 i2 i3 i4 sf st fc tc c r,
      Q (Call.InsertEntries (exchangeEntries req tid i1 i2 i3 i4 sf st fc tc c) r)) :
    Op.Emits Q (exchangeWork S req rate quoteID expectedConverted) := by
  have hq : ∀ {e : Call}, (∀ entries r, e ≠ Call.InsertEntries entries r) → Q e := fun h => hQ _ h
  unfold exchangeWork UpdateBalance TxCreate InsertEntries AuditLog NewString GetSystemAccount
    QuoteConsume
  refine Op.Emits.bind (lockTwoAccounts_emits S _ _ fun _ _ => hq (by intro _ _ h; cases h)) fun _ => ?_
  refine Op.Emits.bind (Op.Emits.failIf _ _) fun _ => ?_
  refine Op.Emits.bind (Op.Emits.modifyVars _) fun _ => ?_
  refine Op.Emits.bind (Op.Emits.failIf _ _) fun _ => ?_
  refine Op.Emits.bind (Op.Emits.failIf _ _) fun _ => ?_
  refine Op.Emits.bind (Op.Emits.failIf _ _) fun _ => ?_
  refine Op.Emits.bind (Op.Emits.failIf _ _) fun _ => ?_
  refine Op.Emits.bind (Op.Emits.modifyVars _) fun _ => ?_
  refine Op.Emits.bind (Op.Emits.call _ _ fun _ => hq (by intro _ _ h; cases h)) fun _ => ?_
  refine Op.Emits.bind (Op.Emits.call _ _ fun _ => hq (by intro _ _ h; cases h)) fun _ => ?_
  refine Op.Emits.bind (lockTwoAccounts_emits S _ _ fun _ _ => hq (by intro _ _ h; cases h)) fun _ => ?_
  refine Op.Emits.bind (Op.Emits.failIf _ _) fun _ => ?_
  refine Op.Emits.bind (Op.Emits.call _ _ fun _ => hq (by intro _ _ h; cases h)) fun _ => ?_
  refine Op.Emits.bind (Op.Emits.call _ _ fun _ => hq (by intro _ _ h; cases h)) fun _ => ?_
  refine Op.Emits.bind (Op.Emits.call _ _ fun _ => hq (by intro _ _ h; cases h)) fun _ => ?_
  refine Op.Emits.bind (Op.Emits.call _ _ fun _ => hq (by intro _ _ h; cases h)) fun _ => ?_
  refine Op.Emits.bind (Op.Emits.ambient _) fun _ => ?_
  refine Op.Emits.bind (Op.Emits.modifyVars _) fun _ => ?_
  refine Op.Emits.bind (Op.Emits.call _ _ fun _ => hq (by intro _ _ h; cases h)) fun _ => ?_
  refine Op.Emits.bind (Op.Emits.ambient _) fun _ => ?_
  refine Op.Emits.bind (Op.Emits.ambient _) fun _ => ?_
  refine Op.Emits.bind (Op.Emits.ambient _) fun _ => ?_
  refine Op.Emits.bind (Op.Emits.ambient _) fun _ => ?_
  refine Op.Emits.bind (Op.Emits.ofExcept _) fun _ => ?_
  refine Op.Emits.bind (Op.Emits.call _ _ fun _ => hI _ _ _ _ _ _ _ _ _ _ _) fun _ => ?_
  refine Op.Emits.bind (Op.Emits.call _ _ fun _ => hq (by intro _ _ h; cases h)) fun _ => ?_
  refine Op.Emits.onlyIf _ ?_
  refine Op.Emits.bind (Op.Emits.call _ _ fun _ => hq (by intro _ _ h; cases h)) fun _ => ?_
  exact Op.Emits.failIf _ _

theorem exchangeCommitment_emits (req : ExchangeRequest)
    (hQ : ∀ e, (∀ entries r, e ≠ Call.InsertEntries entries r) → Q e) :
    Op.Emits Q (exchangeCommitment S req : Op σ ν ExchangeVars) := by
  have hq : ∀ {e : Call}, (∀ entries r, e ≠ Call.InsertEntries entries r) → Q e := fun h => hQ _ h
  unfold exchangeCommitment QuoteGetByID Now
  split
  · refine Op.Emits.bind (Op.Emits.replaceError _
      (Op.Emits.call _ _ fun _ => hq (by intro _ _ h; cases h))) fun _ => ?_
    refine Op.Emits.bind (Op.Emits.failIf _ _) fun _ => ?_
    refine Op.Emits.bind (Op.Emits.ambient _) fun _ => ?_
    refine Op.Emits.bind (Op.Emits.failIf _ _) fun _ => ?_
    refine Op.Emits.bind (Op.Emits.failIf _ _) fun _ => ?_
    refine Op.Emits.bind (Op.Emits.failIf _ _) fun _ => ?_
    split
    · exact Op.Emits.fail _
    · exact Op.Emits.pure _
  · split
    · split
      · exact Op.Emits.fail _
      · exact Op.Emits.pure _
    · exact Op.Emits.fail _

theorem Transfer_emits (req : TransferRequest)
    (hQ : ∀ e, (∀ entries r, e ≠ Call.InsertEntries entries r) → Q e)
    (hI : ∀ tid d c cur r, Q (Call.InsertEntries (transferEntries req tid d c cur) r)) :
    Op.Emits Q (Transfer S req) := by
  have hq : ∀ {e : Call}, (∀ entries r, e ≠ Call.InsertEntries entries r) → Q e := fun h => hQ _ h
  unfold Transfer WithTx
  refine Op.Emits.bind (Op.Emits.failIf _ _) fun _ => ?_
  refine Op.Emits.bind (Op.Emits.failIf _ _) fun _ => ?_
  refine Op.Emits.bind (Op.Emits.withVars _
    (WithTxLoop_emits S _ (transferWork_emits S req hQ hI) hQ _ _)) fun _ => ?_
  refine Op.Emits.bind (BroadcastBalance_emits S _ _ (hq (by intro _ _ h; cases h))) fun _ => ?_
  refine Op.Emits.bind (Op.Emits.onlyIf _
    (BroadcastBalance_emits S _ _ (hq (by intro _ _ h; cases h)))) fun _ => ?_
  exact Op.Emits.pure _

theorem Exchange_emits (req : ExchangeRequest)
    (hQ : ∀ e, (∀ entries r, e ≠ Call.InsertEntries entries r) → Q e)
    (hI : ∀ tid i1 i2 i3 i4 sf st fc tc c r,
      Q (Call.InsertEntries (exchangeEntries req tid i1 i2 i3 i4 sf st fc tc c) r)) :
    Op.Emits Q (Exchange S req) := by
  have hq : ∀ {e : Call}, (∀ entries r, e ≠ Call.InsertEntries entries r) → Q e := fun h => hQ _ h
  unfold Exchange WithTx
  refine Op.Emits.bind (Op.Emits.failIf _ _) fun _ => ?_
  refine Op.Emits.bind (exchangeCommitment_emits S req hQ) fun _ => ?_
  refine Op.Emits.bind (Op.Emits.withVars _
    (WithTxLoop_emits S _ (exchangeWork_emits S req _ _ _ hQ hI) hQ _ _)) fun _ => ?_
  refine Op.Emits.bind (BroadcastBalance_emits S _ _ (hq (by intro _ _ h; cases h))) fun _ => ?_
  refine Op.Emits.bind (BroadcastBalance_emits S _ _ (hq (by intro _ _ h; cases h))) fun _ => ?_
  exact Op.Emits.pure _

end WorkEmits

section Committed

variable {σ ν : Type} (S : Stores σ)

theorem bind_ok_elim {α β : Type} {m : Op σ ν α} {f : α → Op σ ν β} {w w' : World σ ν} {b : β}
    (h : (m >>= f) w = (.ok b, w')) : ∃ a w1, m w = (.ok a, w1) ∧ f a w1 = (.ok b, w') :=
  Op.bind_ok_iff.mp h

theorem failIf_ok_elim {c : Prop} [Decidable c] {e : Error} {w w' : World σ ν} {u : Unit}
    (h : Op.failIf c e w = (.ok u, w')) :
    ¬ c ∧ w'.db = w.db ∧ w'.log = w.log ∧ w'.vars = w.vars := by
  obtain ⟨h1, rfl⟩ := Op.failIf_ok_iff.mp h
  exact ⟨h1, rfl, rfl, rfl⟩

theorem call_ok_elim {α : Type} {f : σ → Except Error α × σ} {ev : Except Error α → Call}
    {w w' : World σ ν} {a : α} (h : Op.call f ev w = (.ok a, w')) :
    (f w.db).1 = .ok a ∧ w'.db = (f w.db).2 ∧ w'.log = w.log ++ [ev (.ok a)]
      ∧ w'.vars = w.vars := by
  obtain ⟨h1, rfl⟩ := Op.call_ok_iff.mp h
  exact ⟨h1, rfl, rfl, rfl⟩

theorem ambient_ok_elim {α : Type} {f : σ → α × σ} {w w' : World σ ν} {a : α}
    (h : Op.ambient f w = (.ok a, w')) :
    a = (f w.db).1 ∧ w'.db = (f w.db).2 ∧ w'.log = w.log ∧ w'.vars = w.vars := by
  obtain ⟨h1, rfl⟩ := Op.ambient_ok_iff.mp h
  exact ⟨h1, rfl, rfl, rfl⟩

theorem modifyVars_ok_elim {f : ν → ν} {w w' : World σ ν} {u : Unit}
    (h : Op.modifyVars f w = (.ok u, w')) :
    w'.db = w.db ∧ w'.log = w.log ∧ w'.vars = f w.vars := by
  have := Op.modifyVars_ok_iff.mp h
  subst this
  exact ⟨rfl, rfl, rfl⟩

theorem ofExcept_ok_elim {α : Type} {r : Except Error α} {w w' : World σ ν} {a : α}
    (h : Op.ofExcept r w = (.ok a, w')) :
    r = .ok a ∧ w'.db = w.db ∧ w'.log = w.log ∧ w'.vars = w.vars := by
  obtain ⟨h1, rfl⟩ := Op.ofExcept_ok_iff.mp h
  exact ⟨h1, rfl, rfl, rfl⟩

theorem transferWork_ok {req : TransferRequest} {w w' : World σ TransferVars} {u : Unit}
    (h : transferWork S req w = (.ok u, w')) :
    ∃ (accFrom accTo : Account) (tid debitID creditID : String),
      (lockTwoAccounts S req.FromAccountID req.ToAccountID w).1 = .ok (accFrom, accTo)
      ∧ accFrom.UserID = some req.UserID
      ∧ accFrom.Currency = accTo.Currency
      ∧ req.AmountMinor ≤ accFrom.Balance
      ∧ w'.log = w.log ++ ((transferCalls req accFrom accTo tid debitID creditID).tail.dropLast)
      ∧ w'.vars = {
          transactionID := tid
          toUserID := match accTo.UserID with
            | some x => x
            | none => w.vars.toUserID
          fromBalanceAfter := sub64 accFrom.Balance req.AmountMinor
          toBalanceAfter := add64 accTo.Balance req.AmountMinor
          currency := accFrom.Currency } := by
  unfold transferWork at h
  obtain ⟨p, w1, s1, h1⟩ := bind_ok_elim h
  obtain ⟨pl, pr, hl1, peq, hv1⟩ := lockTwoAccounts_ok S s1
  obtain ⟨_, w2, s2, h2⟩ := bind_ok_elim h1
  obtain ⟨hown, -, hl2, hv2⟩ := failIf_ok_elim s2
  obtain ⟨_, w3, s3, h3⟩ := bind_ok_elim h2
  obtain ⟨hcur, -, hl3, hv3⟩ := failIf_ok_elim s3
  obtain ⟨_, w4, s4, h4⟩ := bind_ok_elim h3
  obtain ⟨-, hl4, hv4⟩ := modifyVars_ok_elim s4
  obtain ⟨_, w5, s5, h5⟩ := bind_ok_elim h4
  obtain ⟨-, hl5, hv5⟩ := modifyVars_ok_elim s5
  obtain ⟨_, w6, s6, h6⟩ := bind_ok_elim h5
  obtain ⟨hbal, -, hl6, hv6⟩ := failIf_ok_elim s6
  obtain ⟨_, w7, s7, h7⟩ := bind_ok_elim h6
  obtain ⟨-, hl7, hv7⟩ := modifyVars_ok_elim s7
  obtain ⟨_, w8, s8, h8⟩ := bind_ok_elim h7
  obtain ⟨-, -, hl8, hv8⟩ := call_ok_elim s8
  obtain ⟨_, w9, s9, h9⟩ := bind_ok_elim h8
  obtain ⟨-, -, hl9, hv9⟩ := call_ok_elim s9
  obtain ⟨tid, w10, s10, h10⟩ := bind_ok_elim h9
  obtain ⟨-, -, hl10, hv10⟩ := ambient_ok_elim s10
  obtain ⟨_, w11, s11, h11⟩ := bind_ok_elim h10
  obtain ⟨-, hl11, hv11⟩ := modifyVars_ok_elim s11
  obtain ⟨_, w12, s12, h12⟩ := bind_ok_elim h11
  obtain ⟨-, -, hl12, hv12⟩ := call_ok_elim s12
  obtain ⟨d, w13, s13, h13⟩ := bind_ok_elim h12
  obtain ⟨-, -, hl13, hv13⟩ := ambient_ok_elim s13
  obtain ⟨c, w14, s14, h14⟩ := bind_ok_elim h13
  obtain ⟨-, -, hl14, hv14⟩ := ambient_ok_elim s14
  obtain ⟨_, w15, s15, h15⟩ := bind_ok_elim h14
  obtain ⟨-, -, hl15, hv15⟩ := ofExcept_ok_elim s15
  obtain ⟨_, w16, s16, h16⟩ := bind_ok_elim h15
  obtain ⟨-, -, hl16, hv16⟩ := call_ok_elim s16
  obtain ⟨-, -, hl17, hv17⟩ := call_ok_elim h16
  refine ⟨p.1, p.2, tid, d, c, by rw [s1], ?_, ?_, ?_, ?_, ?_⟩
  · cases hu : p.1.UserID with
    | none => simp [notOwnedBy, hu] at hown
    | some x => simpa [notOwnedBy, hu] using hown
  · simpa using hcur
  · exact not_lt.mp hbal
  · rw [hl17, hl16, hl15, hl14, hl13, hl12, hl11, hl10, hl9, hl8, hl7, hl6, hl5, hl4, hl3, hl2, hl1]
    simp only [transferCalls, transferEntries, List.tail_cons, List.dropLast, peq,
      List.append_assoc, List.cons_append, List.nil_append]
    by_cases hfirst : req.FromAccountID = (orderedIDs req.FromAccountID req.ToAccountID).1
    · simp only [if_pos hfirst]
    · simp only [if_neg hfirst]
  · rw [hv17, hv16, hv15, hv14, hv13, hv12, hv11, hv10, hv9, hv8, hv7, hv6, hv5, hv4, hv3, hv2, hv1]
    cases p.2.UserID <;> rfl

theorem withVars_ok_elim {μ α : Type} {init : ν} {m : Op σ ν α} {w w' : World σ μ} {a : α} {v : ν}
    (h : Op.withVars init m w = (.ok (a, v), w')) :
    ∃ wi, m { db := w.db, log := w.log, vars := init } = (.ok a, wi) ∧ v = wi.vars
      ∧ w'.db = wi.db ∧ w'.log = wi.log ∧ w'.vars = w.vars := by
  unfold Op.withVars at h
  rcases hm : m { db := w.db, log := w.log, vars := init } with ⟨r, wi⟩
  rw [hm] at h
  cases r with
  | error e => simp at h
  | ok a' =>
    simp only [Prod.mk.injEq, Except.ok.injEq] at h
    obtain ⟨⟨rfl, rfl⟩, rfl⟩ := h
    exact ⟨wi, rfl, rfl, rfl, rfl, rfl⟩

theorem BroadcastBalance_elim {userID : String} {update : BalanceUpdate} {w w' : World σ ν}
    {u : Unit} (h : BroadcastBalance S userID update w = (.ok u, w')) :
    w'.log = w.log ++ [Call.BroadcastBalance userID update] ∧ w'.vars = w.vars := by
  unfold BroadcastBalance at h
  simp only [Prod.mk.injEq] at h
  obtain ⟨-, rfl⟩ := h
  exact ⟨rfl, rfl⟩

end Committed

section ExchangeCommittedProofs

variable {σ ν : Type} (S : Stores σ)

theorem lockTwoAccounts_log {firstID secondID : String} {w w' : World σ ν}
    {p : Account × Account} (h : lockTwoAccounts S firstID secondID w = (.ok p, w')) :
    w'.log = w.log ++ [
      Call.GetForUpdate (orderedIDs firstID secondID).1
        (.ok (if firstID = (orderedIDs firstID secondID).1 then p.1 else p.2)),
      Call.GetForUpdate (orderedIDs firstID secondID).2
        (.ok (if firstID = (orderedIDs firstID secondID).1 then p.2 else p.1))]
    ∧ w'.vars = w.vars := by
  obtain ⟨l, r, hlog, hp, hvars⟩ := lockTwoAccounts_ok S h
  refine ⟨?_, hvars⟩
  rw [hlog, hp]
  by_cases hc : firstID = (orderedIDs firstID secondID).1
  · simp only [if_pos hc]
  · simp only [if_neg hc]

theorem tail_dropLast_calls (a : Call) (xs ys : List Call) (c : Call) :
    ((a :: xs) ++ ys ++ [c]).tail.dropLast = xs ++ ys := by
  rw [List.cons_append, List.cons_append, List.tail_cons, List.dropLast_concat]

theorem exchangeWork_ok {req : ExchangeRequest} {rate : Decimal} {quoteID : String}
    {expectedConverted : Int} {w w' : World σ ExchangeVars} {u : Unit}
    (h : exchangeWork S req rate quoteID expectedConverted w = (.ok u, w')) :
    ∃ (accFrom accTo sysFrom sysTo : Account) (systemFromID systemToID tid id1 id2 id3 id4 : String)
        (consume : List Call),
      accFrom.UserID = some req.UserID
      ∧ accFrom.Currency ≠ accTo.Currency
      ∧ isExchangePairAllowed accFrom.Currency accTo.Currency = true
      ∧ rate.Equal (directionalRate accFrom.Currency accTo.Currency) = true
      ∧ (expectedConverted = 0 ∨ expectedConverted
          = convertMinor req.AmountMinor (directionalRate accFrom.Currency accTo.Currency))
      ∧ req.AmountMinor ≤ accFrom.Balance
      ∧ 0 ≤ sub64 sysTo.Balance
          (convertMinor req.AmountMinor (directionalRate accFrom.Currency accTo.Currency))
      ∧ ((quoteID = "" ∧ consume = [])
          ∨ (quoteID ≠ "" ∧ ∃ n : Int, n ≠ 0 ∧ consume = [Call.QuoteConsume quoteID (.ok n)]))
      ∧ w'.log = w.log ++ ((exchangeCalls req accFrom accTo sysFrom sysTo systemFromID
          systemToID tid id1 id2 id3 id4 quoteID consume).tail.dropLast)
      ∧ w'.vars = { w.vars with
          transactionID := tid
          fromBalanceAfter := sub64 accFrom.Balance req.AmountMinor
          toBalanceAfter := add64 accTo.Balance
            (convertMinor req.AmountMinor (directionalRate accFrom.Currency accTo.Currency))
          toCurrency := accTo.Currency
          fromCurrency := accFrom.Currency } := by
  unfold exchangeWork at h
  obtain ⟨p, w1, s1, h1⟩ := bind_ok_elim h
  clear h
  obtain ⟨hl1, hv1⟩ := lockTwoAccounts_log S s1
  obtain ⟨_, w2, s2, h2⟩ := bind_ok_elim h1
  clear h1
  obtain ⟨hown, -, hl2, hv2⟩ := failIf_ok_elim s2
  obtain ⟨_, w3, s3, h3⟩ := bind_ok_elim h2
  clear h2
  obtain ⟨-, hl3, hv3⟩ := modifyVars_ok_elim s3
  obtain ⟨_, w4, s4, h4⟩ := bind_ok_elim h3
  clear h3
  obtain ⟨hpair, -, hl4, hv4⟩ := failIf_ok_elim s4
  obtain ⟨_, w5, s5, h5⟩ := bind_ok_elim h4
  clear h4
  obtain ⟨hrate, -, hl5, hv5⟩ := failIf_ok_elim s5
  obtain ⟨_, w6, s6, h6⟩ := bind_ok_elim h5
  clear h5
  obtain ⟨hexp, -, hl6, hv6⟩ := failIf_ok_elim s6
  obtain ⟨_, w7, s7, h7⟩ := bind_ok_elim h6
  clear h6
  obtain ⟨hbal, -, hl7, hv7⟩ := failIf_ok_elim s7
  obtain ⟨_, w8, s8, h8⟩ := bind_ok_elim h7
  clear h7
  obtain ⟨-, hl8, hv8⟩ := modifyVars_ok_elim s8
  obtain ⟨sf, w9, s9, h9⟩ := bind_ok_elim h8
  clear h8
  obtain ⟨-, -, hl9, hv9⟩ := call_ok_elim s9
  obtain ⟨st, w10, s10, h10⟩ := bind_ok_elim h9
  clear h9
  obtain ⟨-, -, hl10, hv10⟩ := call_ok_elim s10
  obtain ⟨q, w11, s11, h11⟩ := bind_ok_elim h10
  clear h10
  obtain ⟨hl11, hv11⟩ := lockTwoAccounts_log S s11
  obtain ⟨_, w12, s12, h12⟩ := bind_ok_elim h11
  clear h11
  obtain ⟨hsys, -, hl12, hv12⟩ := failIf_ok_elim s12
  obtain ⟨_, w13, s13, h13⟩ := bind_ok_elim h12
  clear h12
  obtain ⟨-, -, hl13, hv13⟩ := call_ok_elim s13
  obtain ⟨_, w14, s14, h14⟩ := bind_ok_elim h13
  clear h13
  obtain ⟨-, -, hl14, hv14⟩ := call_ok_elim s14
  obtain ⟨_, w15, s15, h15⟩ := bind_ok_elim h14
  clear h14
  obtain ⟨-, -, hl15, hv15⟩ := call_ok_elim s15
  obtain ⟨_, w16, s16, h16⟩ := bind_ok_elim h15
  clear h15
  obtain ⟨-, -, hl16, hv16⟩ := call_ok_elim s16
  obtain ⟨tid, w17, s17, h17⟩ := bind_ok_elim h16
  clear h16
  obtain ⟨-, -, hl17, hv17⟩ := ambient_ok_elim s17
  obtain ⟨_, w18, s18, h18⟩ := bind_ok_elim h17
  clear h17
  obtain ⟨-, hl18, hv18⟩ := modifyVars_ok_elim s18
  obtain ⟨_, w19, s19, h19⟩ := bind_ok_elim h18
  clear h18
  obtain ⟨-, -, hl19, hv19⟩ := call_ok_elim s19
  obtain ⟨i1, w20, s20, h20⟩ := bind_ok_elim h19
  clear h19
  obtain ⟨-, -, hl20, hv20⟩ := ambient_ok_elim s20
  obtain ⟨i2, w21, s21, h21⟩ := bind_ok_elim h20
  clear h20
  obtain ⟨-, -, hl21, hv21⟩ := ambient_ok_elim s21
  obtain ⟨i3, w22, s22, h22⟩ := bind_ok_elim h21
  clear h21
  obtain ⟨-, -, hl22, hv22⟩ := ambient_ok_elim s22
  obtain ⟨i4, w23, s23, h23⟩ := bind_ok_elim h22
  clear h22
  obtain ⟨-, -, hl23, hv23⟩ := ambient_ok_elim s23
  obtain ⟨_, w24, s24, h24⟩ := bind_ok_elim h23
  clear h23
  obtain ⟨-, -, hl24, hv24⟩ := ofExcept_ok_elim s24
  obtain ⟨_, w25, s25, h25⟩ := bind_ok_elim h24
  clear h24
  obtain ⟨-, -, hl25, hv25⟩ := call_ok_elim s25
  obtain ⟨_, w26, s26, h26⟩ := bind_ok_elim h25
  clear h25
  obtain ⟨-, -, hl26, hv26⟩ := call_ok_elim s26
  have hlogs : ∀ consume, w26.log ++ consume = w.log ++ ((exchangeCalls req p.1 p.2 q.1 q.2
      sf st tid i1 i2 i3 i4 quoteID consume).tail.dropLast) := by
    intro consume
    rw [hl26, hl25, hl24, hl23, hl22, hl21, hl20, hl19, hl18, hl17, hl16, hl15, hl14, hl13, hl12, hl11, hl10, hl9, hl8, hl7, hl6, hl5, hl4, hl3, hl2, hl1]
    simp only [exchangeCalls, exchangeEntries, tail_dropLast_calls]
    simp only [List.append_assoc, List.cons_append, List.nil_append]
  have hvars : w26.vars = { w.vars with
      transactionID := tid
      fromBalanceAfter := sub64 p.1.Balance req.AmountMinor
      toBalanceAfter := add64 p.2.Balance
        (convertMinor req.AmountMinor (directionalRate p.1.Currency p.2.Currency))
      toCurrency := p.2.Currency
      fromCurrency := p.1.Currency } := by
    rw [hv26, hv25, hv24, hv23, hv22, hv21, hv20, hv19, hv18, hv17, hv16, hv15, hv14, hv13, hv12, hv11, hv10, hv9, hv8, hv7, hv6, hv5, hv4, hv3, hv2, hv1]
  have hown' : p.1.UserID = some req.UserID := by
    cases hu : p.1.UserID with
    | none => simp [notOwnedBy, hu] at hown
    | some x => simpa [notOwnedBy, hu] using hown
  have hpair' : p.1.Currency ≠ p.2.Currency
      ∧ isExchangePairAllowed p.1.Currency p.2.Currency = true := by
    simpa [not_or] using hpair
  have hrate' : rate.Equal (directionalRate p.1.Currency p.2.Currency) = true := by
    simpa using hrate
  have hexp' : expectedConverted = 0 ∨ expectedConverted
      = convertMinor req.AmountMinor (directionalRate p.1.Currency p.2.Currency) := by
    by_cases h0 : expectedConverted = 0
    · exact Or.inl h0
    · right
      by_contra hne
      exact hexp ⟨h0, hne⟩
  refine ⟨p.1, p.2, q.1, q.2, sf, st, tid, i1, i2, i3, i4, ?_⟩
  unfold Op.onlyIf at h26
  split at h26
  · rename_i hq
    obtain ⟨consumed, wc, sc, hc⟩ := bind_ok_elim h26
    obtain ⟨-, -, hlc, hvc⟩ := call_ok_elim sc
    obtain ⟨hnz, -, hlf, hvf⟩ := failIf_ok_elim hc
    refine ⟨[Call.QuoteConsume quoteID (.ok consumed)], hown', hpair'.1, hpair'.2, hrate', hexp',
      not_lt.mp hbal, not_lt.mp hsys, Or.inr ⟨hq, consumed, hnz, rfl⟩, ?_, ?_⟩
    · rw [hlf, hlc, hlogs]
    · rw [hvf, hvc, hvars]
  · rename_i hq
    simp only [Op.ret, Prod.mk.injEq] at h26
    obtain ⟨-, rfl⟩ := h26
    refine ⟨[], hown', hpair'.1, hpair'.2, hrate', hexp', not_lt.mp hbal, not_lt.mp hsys,
      Or.inl ⟨not_not.mp hq, rfl⟩, ?_, hvars⟩
    rw [← hlogs, List.append_nil]

theorem lastWrite_exchangeCalls (req : ExchangeRequest) (accFrom accTo sysFrom sysTo : Account)
    (sf st tid i1 i2 i3 i4 quoteID : String) (consume : List Call)
    (hconsume : consume = [] ∨ ∃ n : Int, consume = [Call.QuoteConsume quoteID (.ok n)])
    (h1 : req.FromAccountID ≠ req.ToAccountID) (h2 : req.FromAccountID ≠ sf)
    (h3 : req.FromAccountID ≠ st) (h4 : req.ToAccountID ≠ sf) (h5 : req.ToAccountID ≠ st)
    (h6 : sf ≠ st) :
    lastWrite req.FromAccountID (exchangeCalls req accFrom accTo sysFrom sysTo sf st tid
        i1 i2 i3 i4 quoteID consume) = some (sub64 accFrom.Balance req.AmountMinor)
    ∧ lastWrite sf (exchangeCalls req accFrom accTo sysFrom sysTo sf st tid
        i1 i2 i3 i4 quoteID consume) = some (add64 sysFrom.Balance req.AmountMinor)
    ∧ lastWrite st (exchangeCalls req accFrom accTo sysFrom sysTo sf st tid
        i1 i2 i3 i4 quoteID consume) = some (sub64 sysTo.Balance
          (convertMinor req.AmountMinor (directionalRate accFrom.Currency accTo.Currency)))
    ∧ lastWrite req.ToAccountID (exchangeCalls req accFrom accTo sysFrom sysTo sf st tid
        i1 i2 i3 i4 quoteID consume) = some (add64 accTo.Balance
          (convertMinor req.AmountMinor (directionalRate accFrom.Currency accTo.Currency))) := by
  have e1 := Ne.symm h1
  have e2 := Ne.symm h2
  have e3 := Ne.symm h3
  have e4 := Ne.symm h4
  have e5 := Ne.symm h5
  have e6 := Ne.symm h6
  rcases hconsume with rfl | ⟨n, rfl⟩
  · simp only [exchangeCalls, lastWrite, List.cons_append, List.nil_append, List.append_nil,
      if_pos, if_neg, h1, h2, h3, h4, h5, h6, e1, e2, e3, e4, e5, e6, and_self,
      not_false_eq_true, if_true, if_false]
  · simp only [exchangeCalls, lastWrite, List.cons_append, List.nil_append, List.append_nil,
      if_pos, if_neg, h1, h2, h3, h4, h5, h6, e1, e2, e3, e4, e5, e6, and_self,
      not_false_eq_true, if_true, if_false]

end ExchangeCommittedProofs

namespace Op

variable {σ ν α β : Type}

theorem Total.total_bind {m : Op σ ν α} {f : α → Op σ ν β} (hm : Total m) (hf : ∀ a, Total (f a)) :
    Total (m >>= f) := by
  intro w
  obtain ⟨a, w1, h1⟩ := hm w
  obtain ⟨b, w2, h2⟩ := hf a w1
  exact ⟨b, w2, by rw [bind_of_ok h1, h2]⟩

theorem Total.total_pure (a : α) : Total (Pure.pure a : Op σ ν α) := fun w => ⟨a, w, rfl⟩

theorem Total.total_modifyVars (f : ν → ν) : Total (Op.modifyVars f : Op σ ν Unit) :=
  fun _ => ⟨(), _, rfl⟩

theorem Total.total_ambient (f : σ → α × σ) : Total (Op.ambient f : Op σ ν α) :=
  fun _ => ⟨_, _, rfl⟩

theorem Total.total_call {f : σ → Except Error α × σ} {ev : Except Error α → Call}
    (h : ∀ d, ∃ a, (f d).1 = .ok a) : Total (Op.call f ev : Op σ ν α) := by
  intro w
  obtain ⟨a, ha⟩ := h w.db
  exact ⟨a, _, call_ok_iff.mpr ⟨ha, rfl⟩⟩

theorem Total.total_ofExcept {r : Except Error α} {a : α} (h : r = .ok a) :
    Total (Op.ofExcept r : Op σ ν α) := fun w => ⟨a, w, by rw [h]; rfl⟩

end Op

section Decision

variable {σ ν : Type} (S : Stores σ)

theorem ensureBalanced_transferEntries (req : TransferRequest) (tid d c cur : String) :
    ensureBalanced (transferEntries req tid d c cur) = .ok () := by
  simp only [ensureBalanced, transferEntries, List.foldl_cons, List.foldl_nil,
    add64_neg64_self]
  rfl

theorem WithTx_of_ok (fn : Op σ ν Unit) {w0 w1 w2 w3 : World σ ν} {u1 u2 u3 : Unit}
    (hb : BeginTxx S w0 = (.ok u1, w1)) (hf : fn w1 = (.ok u2, w2))
    (hc : Commit S w2 = (.ok u3, w3)) : WithTx S fn w0 = (.ok (), w3) := by
  unfold WithTx maxAttempts
  rw [WithTxLoop_succ, hb]
  simp only [hf, hc]

theorem WithTx_of_terminal (fn : Op σ ν Unit) {w0 w1 w2 : World σ ν} {u1 : Unit} {e : Error}
    (hb : BeginTxx S w0 = (.ok u1, w1)) (hf : fn w1 = (.error e, w2))
    (hterm : isRetryablePGError e = false) :
    WithTx S fn w0 = (.error e, (Rollback S w2).2) := by
  unfold WithTx maxAttempts
  rw [WithTxLoop_succ, hb]
  simp only [hf, hterm, Bool.false_and]
  rfl

theorem BeginTxx_of_reliable (hR : Reliable S) (w : World σ ν) :
    BeginTxx S w = (.ok (), (BeginTxx S w).2) := by
  have h := hR.1 w.db
  unfold BeginTxx Op.call
  simp only [h]

theorem Commit_of_reliable (hR : Reliable S) (w : World σ ν) :
    Commit S w = (.ok (), (Commit S w).2) := by
  have h := hR.2.1 w.db
  unfold Commit Op.call
  simp only [h]

theorem transferTail_total (hR : Reliable S) (req : TransferRequest) (newFrom newTo : Int)
    (currency : String) :
    Op.Total (do
      Op.modifyVars (fun v => { v with fromBalanceAfter := newFrom, toBalanceAfter := newTo })
      UpdateBalance S req.FromAccountID newFrom
      UpdateBalance S req.ToAccountID newTo
      let transactionID ← NewString S
      Op.modifyVars (fun v => { v with transactionID := transactionID })
      TxCreate S {
        ID := transactionID
        UserID := req.UserID
        TxType := "transfer"
        Status := "completed"
        Amount := req.AmountMinor
        Currency := currency
        FromAccountID := some req.FromAccountID
        ToAccountID := some req.ToAccountID
        Metadata := []
        ClientRequestID := req.ClientRequestID }
      let debitID ← NewString S
      let creditID ← NewString S
      let entries := transferEntries req transactionID debitID creditID currency
      Op.ofExcept (ensureBalanced entries)
      InsertEntries S entries
      AuditLog S req.UserID "transfer" "transaction" transactionID
        [("transaction_id", transactionID)] : Op σ TransferVars Unit) := by
  obtain ⟨-, -, -, hU, hT, hI, hA⟩ := hR
  unfold UpdateBalance TxCreate InsertEntries AuditLog NewString
  refine Op.Total.total_bind (Op.Total.total_modifyVars _) fun _ => ?_
  refine Op.Total.total_bind (Op.Total.total_call fun d => ⟨(), hU _ _ d⟩) fun _ => ?_
  refine Op.Total.total_bind (Op.Total.total_call fun d => ⟨(), hU _ _ d⟩) fun _ => ?_
  refine Op.Total.total_bind (Op.Total.total_ambient _) fun _ => ?_
  refine Op.Total.total_bind (Op.Total.total_modifyVars _) fun _ => ?_
  refine Op.Total.total_bind (Op.Total.total_call fun d => ⟨(), hT _ d⟩) fun _ => ?_
  refine Op.Total.total_bind (Op.Total.total_ambient _) fun _ => ?_
  refine Op.Total.total_bind (Op.Total.total_ambient _) fun _ => ?_
  refine Op.Total.total_bind (Op.Total.total_ofExcept (ensureBalanced_transferEntries _ _ _ _ _)) fun _ => ?_
  refine Op.Total.total_bind (Op.Total.total_call fun d => ⟨(), hI _ d⟩) fun _ => ?_
  exact Op.Total.total_call fun d => ⟨(), hA _ _ _ _ _ d⟩

theorem transferWork_decision (hR : Reliable S) (req : TransferRequest)
    {w1 w2 : World σ TransferVars} {p : Account × Account}
    (hlock : lockTwoAccounts S req.FromAccountID req.ToAccountID w1 = (.ok p, w2)) :
    (notOwnedBy p.1.UserID req.UserID = true →
      (transferWork S req w1).1 = .error .ErrUnauthorizedAccount)
    ∧ (notOwnedBy p.1.UserID req.UserID = false → p.1.Currency ≠ p.2.Currency →
      (transferWork S req w1).1 = .error .ErrCurrencyMismatch)
    ∧ (notOwnedBy p.1.UserID req.UserID = false → p.1.Currency = p.2.Currency →
      p.1.Balance < req.AmountMinor →
      (transferWork S req w1).1 = .error .ErrInsufficientFunds)
    ∧ (notOwnedBy p.1.UserID req.UserID = false → p.1.Currency = p.2.Currency →
      req.AmountMinor ≤ p.1.Balance → ∃ w3, transferWork S req w1 = (.ok (), w3)) := by
  unfold transferWork
  rw [Op.bind_of_ok hlock]
  refine ⟨fun h1 => ?_, fun h1 h2 => ?_, fun h1 h2 h3 => ?_, fun h1 h2 h3 => ?_⟩
  · rw [Op.bind_of_error (Op.failIf_of_true _ _ h1)]
  · rw [Op.bind_of_ok (Op.failIf_of_false _ _ (by simp [h1])),
      Op.bind_of_error (Op.failIf_of_true _ _ h2)]
  · rw [Op.bind_of_ok (Op.failIf_of_false _ _ (by simp [h1])),
      Op.bind_of_ok (Op.failIf_of_false _ _ (by simpa using h2))]
    simp only [Op.bind_apply, Op.modifyVars]
    rw [Op.failIf_of_true _ _ h3]
  · rw [Op.bind_of_ok (Op.failIf_of_false _ _ (by simp [h1])),
      Op.bind_of_ok (Op.failIf_of_false _ _ (by simpa using h2))]
    simp only [Op.bind_apply (Op.modifyVars _)]
    simp only [Op.modifyVars]
    rw [Op.bind_of_ok (Op.failIf_of_false _ _ (not_lt.mpr h3))]
    obtain ⟨u, w3, h⟩ := transferTail_total S hR req (sub64 p.1.Balance req.AmountMinor)
      (add64 p.2.Balance req.AmountMinor) p.1.Currency _
    exact ⟨w3, h⟩

theorem Transfer_of_work_error (req : TransferRequest) (w : World σ Unit)
    (hpos : 0 < req.AmountMinor) (hne : req.FromAccountID ≠ req.ToAccountID)
    {w1 wx : World σ TransferVars} {u : Unit} {e : Error}
    (hb : BeginTxx S { db := w.db, log := w.log, vars := ({} : TransferVars) } = (.ok u, w1))
    (hf : transferWork S req w1 = (.error e, wx)) (hterm : isRetryablePGError e = false) :
    (Transfer S req w).1 = .error e := by
  unfold Transfer
  rw [Op.bind_of_ok (Op.failIf_of_false _ _ (not_le.mpr hpos)),
    Op.bind_of_ok (Op.failIf_of_false _ _ hne)]
  have hw : Op.withVars ({} : TransferVars) (WithTx S (transferWork S req)) w
      = (.error e, { db := (Rollback S wx).2.db, log := (Rollback S wx).2.log, vars := w.vars }) := by
    unfold Op.withVars
    rw [WithTx_of_terminal S _ hb hf hterm]
  rw [Op.bind_of_error hw]

theorem Transfer_of_work_ok (req : TransferRequest) (w : World σ Unit)
    (hpos : 0 < req.AmountMinor) (hne : req.FromAccountID ≠ req.ToAccountID)
    {w1 w2 w3 : World σ TransferVars} {u1 u2 u3 : Unit}
    (hb : BeginTxx S { db := w.db, log := w.log, vars := ({} : TransferVars) } = (.ok u1, w1))
    (hf : transferWork S req w1 = (.ok u2, w2)) (hc : Commit S w2 = (.ok u3, w3)) :
    ∃ post, (Transfer S req w).1 = .ok w3.vars.transactionID
      ∧ (Transfer S req w).2.log = w3.log ++ post
      ∧ (∀ e ∈ post, ∃ userID update, e = Call.BroadcastBalance userID update) := by
  unfold Transfer
  rw [Op.bind_of_ok (Op.failIf_of_false _ _ (not_le.mpr hpos)),
    Op.bind_of_ok (Op.failIf_of_false _ _ hne)]
  have hw : Op.withVars ({} : TransferVars) (WithTx S (transferWork S req)) w
      = (.ok ((), w3.vars), { db := w3.db, log := w3.log, vars := w.vars }) := by
    unfold Op.withVars
    rw [WithTx_of_ok S _ hb hf hc]
  rw [Op.bind_of_ok hw]
  simp only [Op.bind_apply, BroadcastBalance, Op.onlyIf]
  by_cases hto : w3.vars.toUserID ≠ ""
  · rw [if_pos hto]
    refine ⟨[Call.BroadcastBalance req.UserID {
        AccountID := req.FromAccountID
        Balance := FormatMinor w3.vars.fromBalanceAfter
        Currency := w3.vars.currency },
      Call.BroadcastBalance w3.vars.toUserID {
        AccountID := req.ToAccountID
        Balance := FormatMinor w3.vars.toBalanceAfter
        Currency := w3.vars.currency }], rfl, ?_, ?_⟩
    · simp only [BroadcastBalance, Op.pure_apply, List.append_assoc, List.cons_append,
        List.nil_append]
    · intro e he
      simp only [List.mem_cons, List.mem_singleton, List.not_mem_nil, or_false] at he
      rcases he with rfl | rfl <;> exact ⟨_, _, rfl⟩
  · rw [if_neg hto]
    refine ⟨[Call.BroadcastBalance req.UserID {
        AccountID := req.FromAccountID
        Balance := FormatMinor w3.vars.fromBalanceAfter
        Currency := w3.vars.currency }], rfl, ?_, ?_⟩
    · simp only [Op.pure_apply, Op.ret]
    · intro e he
      simp only [List.mem_singleton] at he
      exact ⟨_, _, he⟩

/-- C5: with a positive amount, distinct account ids and stores that do not fail, the
outcome of `Transfer` is decided by the rows `accFrom`, `accTo` read under lock, in this
order: `ErrUnauthorizedAccount` when the source row has no owner or another owner; otherwise
`ErrCurrencyMismatch` when the currencies differ; otherwise `ErrInsufficientFunds` exactly
when the source balance is below the amount; otherwise success, after one attempt that made
the calls `transferCalls`. A balance equal to the amount succeeds and writes `0`. -/
theorem transfer_decision (hR : Reliable S) (req : TransferRequest) (w : World σ Unit)
    (hpos : 0 < req.AmountMinor) (hne : req.FromAccountID ≠ req.ToAccountID)
    (accFrom accTo : Account)
    (hlock : (lockTwoAccounts S req.FromAccountID req.ToAccountID
      (BeginTxx S { db := w.db, log := w.log, vars := ({} : TransferVars) }).2).1
        = .ok (accFrom, accTo)) :
    TransferDecision S req w accFrom accTo := by
  have hb := BeginTxx_of_reliable S hR { db := w.db, log := w.log, vars := ({} : TransferVars) }
  rcases hl : lockTwoAccounts S req.FromAccountID req.ToAccountID
    (BeginTxx S { db := w.db, log := w.log, vars := ({} : TransferVars) }).2 with ⟨r, w2⟩
  rw [hl] at hlock
  simp only at hlock
  subst hlock
  obtain ⟨d1, d2, d3, d4⟩ := transferWork_decision S hR req hl
  simp only at d1 d2 d3 d4
  have hok : notOwnedBy accFrom.UserID req.UserID = false → accFrom.Currency = accTo.Currency →
      req.AmountMinor ≤ accFrom.Balance →
      ∃ (tid debitID creditID : String) (post : List Call),
        (Transfer S req w).1 = .ok tid
        ∧ (Transfer S req w).2.log
            = w.log ++ transferCalls req accFrom accTo tid debitID creditID ++ post
        ∧ (∀ e ∈ post, ∃ userID update, e = Call.BroadcastBalance userID update)
        ∧ (accFrom.Balance = req.AmountMinor →
            sub64 accFrom.Balance req.AmountMinor = 0) := by
    intro h1 h2 h3
    obtain ⟨w3, hf⟩ := d4 h1 h2 h3
    have hc := Commit_of_reliable S hR w3
    obtain ⟨post, hres, hlog, hpost⟩ := Transfer_of_work_ok S req w hpos hne hb hf hc
    obtain ⟨aF, aT, tid, d, c, hlk, -, -, -, hlf, hvf⟩ := transferWork_ok S hf
    rw [hl] at hlk
    simp only [Except.ok.injEq, Prod.mk.injEq] at hlk
    obtain ⟨rfl, rfl⟩ := hlk
    obtain ⟨-, -, hlc, hvc⟩ := call_ok_elim hc
    obtain ⟨-, -, hlb, -⟩ := call_ok_elim hb
    refine ⟨tid, d, c, post, ?_, ?_, hpost, ?_⟩
    · rw [hres, hvc, hvf]
    · rw [hlog, hlc, hlf, hlb]
      simp only [transferCalls, List.tail_cons, List.dropLast, List.append_assoc,
        List.cons_append, List.nil_append]
    · intro heq
      rw [heq, sub64_self]
  refine ⟨fun h1 => ?_, fun h1 h2 => ?_, fun h1 h2 => ⟨fun herr => ?_, fun h3 => ?_⟩, hok⟩
  · have := d1 h1
    rcases hf : transferWork S req (BeginTxx S _).2 with ⟨rf, wx⟩
    rw [hf] at this
    simp only at this
    subst this
    exact Transfer_of_work_error S req w hpos hne hb hf rfl
  · have := d2 h1 h2
    rcases hf : transferWork S req (BeginTxx S _).2 with ⟨rf, wx⟩
    rw [hf] at this
    simp only at this
    subst this
    exact Transfer_of_work_error S req w hpos hne hb hf rfl
  · by_contra hge
    obtain ⟨tid, _, _, _, hres, -⟩ := hok h1 h2 (not_lt.mp hge)
    rw [hres] at herr
    cases herr
  · have := d3 h1 h2 h3
    rcases hf : transferWork S req (BeginTxx S _).2 with ⟨rf, wx⟩
    rw [hf] at this
    simp only at this
    subst this
    exact Transfer_of_work_error S req w hpos hne hb hf rfl

end Decision

section Balanced

variable {σ : Type} (S : Stores σ)

theorem sum64_transferEntries (req : TransferRequest) (tid d c cur : String) :
    sum64 (transferEntries req tid d c cur) = 0 := by
  simp only [sum64, transferEntries, List.foldl_cons, List.foldl_nil, add64_neg64_self]
  rfl

theorem add64_four (a c : Int) :
    add64 (add64 (add64 (add64 0 (neg64 a)) a) (neg64 c)) c = 0 := by
  rw [add64_neg64_self 0 a]
  have h0 : wrapInt64 0 = 0 := rfl
  rw [h0, add64_neg64_self 0 c, h0]

theorem add64_pair (a : Int) : add64 (add64 0 (neg64 a)) a = 0 := by
  rw [add64_neg64_self 0 a]
  rfl

theorem sum64In_exchangeEntries (req : ExchangeRequest) (tid i1 i2 i3 i4 sf st fc tc : String)
    (c : Int) (currency : String) :
    sum64In currency (exchangeEntries req tid i1 i2 i3 i4 sf st fc tc c) = 0 := by
  unfold sum64In sum64 exchangeEntries
  by_cases h1 : fc = currency <;> by_cases h2 : tc = currency <;>
    simp only [List.filter_cons, List.filter_nil, h1, h2, decide_True, decide_False, if_true,
      if_false, List.foldl_cons, List.foldl_nil, add64_four, add64_pair, Bool.false_eq_true]

theorem ensureBalancedByCurrency_exchangeEntries (req : ExchangeRequest)
    (tid i1 i2 i3 i4 sf st fc tc : String) (c : Int) :
    ensureBalancedByCurrency (exchangeEntries req tid i1 i2 i3 i4 sf st fc tc c) = .ok () := by
  unfold ensureBalancedByCurrency exchangeEntries
  have h0 : wrapInt64 0 = 0 := rfl
  by_cases h : fc = tc
  · subst h
    simp [addSum, add64_neg64_self, h0]
  · simp [addSum, add64_neg64_self, h0, h, add64_pair]

/-- C2: whatever the request and the stores do, every list of ledger entries that `Transfer`
hands to `InsertEntries` sums to zero (int64 sum, as the assertion computes it) and passes
`ensureBalanced`, and every list that `Exchange` hands to `InsertEntries` sums to zero within
each currency and passes `ensureBalancedByCurrency`; so the pre-insert assertion never
returns an error for the lists these operations build. -/
theorem ledger_entries_balanced :
    (∀ (req : TransferRequest) (w : World σ Unit), ∃ evs,
      (Transfer S req w).2.log = w.log ++ evs
      ∧ ∀ entries r, Call.InsertEntries entries r ∈ evs →
          sum64 entries = 0 ∧ ensureBalanced entries = .ok ())
    ∧ (∀ (req : ExchangeRequest) (w : World σ Unit), ∃ evs,
      (Exchange S req w).2.log = w.log ++ evs
      ∧ ∀ entries r, Call.InsertEntries entries r ∈ evs →
          (∀ currency, sum64In currency entries = 0)
          ∧ ensureBalancedByCurrency entries = .ok ())
    ∧ (∀ (req : TransferRequest) (tid debitID creditID currency : String),
      ensureBalanced (transferEntries req tid debitID creditID currency) = .ok ())
    ∧ (∀ (req : ExchangeRequest) (tid id1 id2 id3 id4 sf st fc tc : String) (c : Int),
      ensureBalancedByCurrency (exchangeEntries req tid id1 id2 id3 id4 sf st fc tc c)
        = .ok ()) := by
  refine ⟨fun req w => ?_, fun req w => ?_, ensureBalanced_transferEntries,
    ensureBalancedByCurrency_exchangeEntries⟩
  · have key : Op.Emits (fun e => ∀ entries r, e = Call.InsertEntries entries r →
        sum64 entries = 0 ∧ ensureBalanced entries = .ok ()) (Transfer S req) :=
      Transfer_emits S req
        (fun e hne entries r h => absurd h (hne entries r))
        (fun tid d c cur r entries r' h => by
          simp only [Call.InsertEntries.injEq] at h
          rw [← h.1]
          exact ⟨sum64_transferEntries _ _ _ _ _, ensureBalanced_transferEntries _ _ _ _ _⟩)
    obtain ⟨evs, hlog, hq⟩ := key w
    exact ⟨evs, hlog, fun entries r hmem => hq _ hmem entries r rfl⟩
  · have key : Op.Emits (fun e => ∀ entries r, e = Call.InsertEntries entries r →
        (∀ currency, sum64In currency entries = 0)
        ∧ ensureBalancedByCurrency entries = .ok ()) (Exchange S req) :=
      Exchange_emits S req
        (fun e hne entries r h => absurd h (hne entries r))
        (fun tid i1 i2 i3 i4 sf st fc tc c r entries r' h => by
          simp only [Call.InsertEntries.injEq] at h
          rw [← h.1]
          exact ⟨sum64In_exchangeEntries _ _ _ _ _ _ _ _ _ _ _,
            ensureBalancedByCurrency_exchangeEntries _ _ _ _ _ _ _ _ _ _ _⟩)
    obtain ⟨evs, hlog, hq⟩ := key w
    exact ⟨evs, hlog, fun entries r hmem => hq _ hmem entries r rfl⟩

end Balanced

section LockOrder

variable {σ ν α β : Type} (S : Stores σ)

theorem lockedIDs_of_noLock (evs : List Call)
    (h : ∀ e ∈ evs, ∀ i r, e ≠ Call.GetForUpdate i r) : lockedIDs evs = [] := by
  induction evs with
  | nil => rfl
  | cons x xs ih =>
    have hx := h x (List.mem_cons_self _ _)
    have hxs := ih fun e he => h e (List.mem_cons_of_mem _ he)
    cases x <;> first | exact absurd rfl (hx _ _) | simpa [lockedIDs] using hxs

theorem LocksSatisfy_bind_noLock {m : Op σ ν α} {f : α → Op σ ν β} {P : List String → Prop}
    (hP : P []) (hm : Op.Emits (fun e => ∀ i r, e ≠ Call.GetForUpdate i r) m)
    (hf : ∀ a, Op.LocksSatisfy P (f a)) : Op.LocksSatisfy P (m >>= f) := by
  intro w
  obtain ⟨evs1, h1, hq1⟩ := hm w
  have hno := lockedIDs_of_noLock evs1 hq1
  rw [Op.bind_apply]
  rcases hmw : m w with ⟨r, w1⟩
  rw [hmw] at h1
  cases r with
  | error e => exact ⟨evs1, h1, by rw [hno]; exact hP⟩
  | ok a =>
    obtain ⟨evs2, h2, hp2⟩ := hf a w1
    refine ⟨evs1 ++ evs2, ?_, ?_⟩
    · simp only [h2]
      simp only at h1
      rw [h1, List.append_assoc]
    · rw [lockedIDs_append, hno, List.nil_append]
      exact hp2

theorem LocksSatisfy_of_noLock {m : Op σ ν α} {P : List String → Prop}
    (hP : P []) (hm : Op.Emits (fun e => ∀ i r, e ≠ Call.GetForUpdate i r) m) :
    Op.LocksSatisfy P m := by
  intro w
  obtain ⟨evs1, h1, hq1⟩ := hm w
  exact ⟨evs1, h1, by rw [lockedIDs_of_noLock evs1 hq1]; exact hP⟩

theorem lockTwoAccounts_trace (a b : String) (w : World σ ν) :
    ∃ evs, (lockTwoAccounts S a b w).2.log = w.log ++ evs
      ∧ lockedIDs evs <+: [(orderedIDs a b).1, (orderedIDs a b).2]
      ∧ (∀ p w1, lockTwoAccounts S a b w = (.ok p, w1) →
          lockedIDs evs = [(orderedIDs a b).1, (orderedIDs a b).2]) := by
  simp only [lockTwoAccounts, Op.bind_apply, GetForUpdate, Op.call]
  cases h1 : (S.GetForUpdate (orderedIDs a b).1 w.db).1 with
  | error e =>
    refine ⟨[Call.GetForUpdate (orderedIDs a b).1 (.error e)], rfl, ?_, ?_⟩
    · exact ⟨[(orderedIDs a b).2], rfl⟩
    · intro p w1 h
      simp at h
  | ok l =>
    simp only []
    cases h2 : (S.GetForUpdate (orderedIDs a b).2 (S.GetForUpdate (orderedIDs a b).1 w.db).2).1 with
    | error e =>
      refine ⟨[Call.GetForUpdate (orderedIDs a b).1 (.ok l),
        Call.GetForUpdate (orderedIDs a b).2 (.error e)], ?_, List.prefix_refl _, fun _ _ _ => rfl⟩
      simp only [List.append_assoc, List.cons_append, List.nil_append]
    | ok r =>
      refine ⟨[Call.GetForUpdate (orderedIDs a b).1 (.ok l),
        Call.GetForUpdate (orderedIDs a b).2 (.ok r)], ?_, List.prefix_refl _, fun _ _ _ => rfl⟩
      simp only []
      split <;> simp only [Op.pure_apply, List.append_assoc, List.cons_append, List.nil_append]

theorem LocksSatisfy_lock_then {f : Account × Account → Op σ ν β} (a b : String)
    {P : List String → Prop}
    (hP : ∀ ids, ids <+: [(orderedIDs a b).1, (orderedIDs a b).2] → P ids)
    (hf : ∀ p, Op.Emits (fun e => ∀ i r, e ≠ Call.GetForUpdate i r) (f p)) :
    Op.LocksSatisfy P (lockTwoAccounts S a b >>= f) := by
  intro w
  obtain ⟨evs1, h1, hpre, hfull⟩ := lockTwoAccounts_trace S a b w
  rw [Op.bind_apply]
  rcases hmw : lockTwoAccounts S a b w with ⟨r, w1⟩
  rw [hmw] at h1
  cases r with
  | error e => exact ⟨evs1, h1, hP _ hpre⟩
  | ok p =>
    obtain ⟨evs2, h2, hq2⟩ := hf p w1
    refine ⟨evs1 ++ evs2, ?_, ?_⟩
    · simp only [h2]
      simp only at h1
      rw [h1, List.append_assoc]
    · rw [lockedIDs_append, lockedIDs_of_noLock evs2 hq2, List.append_nil]
      exact hP _ hpre

theorem LocksSatisfy_lock_then_locks {f : Account × Account → Op σ ν β} (a b : String)
    (P2 : List String → Prop) {P : List String → Prop} (hf : ∀ p, Op.LocksSatisfy P2 (f p))
    (h0 : ∀ ids, ids <+: [(orderedIDs a b).1, (orderedIDs a b).2] → P ids)
    (h1 : ∀ ids2, P2 ids2 → P ([(orderedIDs a b).1, (orderedIDs a b).2] ++ ids2)) :
    Op.LocksSatisfy P (lockTwoAccounts S a b >>= f) := by
  intro w
  obtain ⟨evs1, hl1, hpre, hfull⟩ := lockTwoAccounts_trace S a b w
  rw [Op.bind_apply]
  rcases hmw : lockTwoAccounts S a b w with ⟨r, w1⟩
  rw [hmw] at hl1
  cases r with
  | error e => exact ⟨evs1, hl1, h0 _ hpre⟩
  | ok p =>
    obtain ⟨evs2, h2, hp2⟩ := hf p w1
    refine ⟨evs1 ++ evs2, ?_, ?_⟩
    · simp only [h2]
      simp only at hl1
      rw [hl1, List.append_assoc]
    · rw [lockedIDs_append, hfull p w1 hmw]
      exact h1 _ hp2

theorem exchangeWork_lock_phases (req : ExchangeRequest) (rate : Decimal) (quoteID : String)
    (expectedConverted : Int) :
    Op.LocksSatisfy (fun ids => ∃ sf st, ids <+:
        [(orderedIDs req.FromAccountID req.ToAccountID).1,
         (orderedIDs req.FromAccountID req.ToAccountID).2,
         (orderedIDs sf st).1, (orderedIDs sf st).2])
      (exchangeWork S req rate quoteID expectedConverted) := by
  have nl : ∀ {e : Call}, (∀ i r, e ≠ Call.GetForUpdate i r) → ∀ i r, e ≠ Call.GetForUpdate i r :=
    fun h => h
  have hP2 : (fun ids : List String => ∃ sf st, ids <+:
      [(orderedIDs sf st).1, (orderedIDs sf st).2]) [] := ⟨"", "", List.nil_prefix⟩
  unfold exchangeWork UpdateBalance TxCreate InsertEntries AuditLog NewString GetSystemAccount
    QuoteConsume
  refine LocksSatisfy_lock_then_locks S _ _
    (fun ids => ∃ sf st, ids <+: [(orderedIDs sf st).1, (orderedIDs sf st).2])
    (fun p => ?_) (fun ids h => ⟨"", "", h.trans ⟨[_, _], rfl⟩⟩)
    (fun ids2 ⟨sf, st, h⟩ => ⟨sf, st, by
      obtain ⟨t, ht⟩ := h
      exact ⟨t, by rw [← ht]; simp only [List.append_assoc, List.cons_append, List.nil_append]⟩⟩)
  refine LocksSatisfy_bind_noLock hP2 (Op.Emits.failIf _ _) fun _ => ?_
  refine LocksSatisfy_bind_noLock hP2 (Op.Emits.modifyVars _) fun _ => ?_
  refine LocksSatisfy_bind_noLock hP2 (Op.Emits.failIf _ _) fun _ => ?_
  refine LocksSatisfy_bind_noLock hP2 (Op.Emits.failIf _ _) fun _ => ?_
  refine LocksSatisfy_bind_noLock hP2 (Op.Emits.failIf _ _) fun _ => ?_
  refine LocksSatisfy_bind_noLock hP2 (Op.Emits.failIf _ _) fun _ => ?_
  refine LocksSatisfy_bind_noLock hP2 (Op.Emits.modifyVars _) fun _ => ?_
  refine LocksSatisfy_bind_noLock hP2
    (Op.Emits.call _ _ fun _ _ _ h => by cases h) fun sf => ?_
  refine LocksSatisfy_bind_noLock hP2
    (Op.Emits.call _ _ fun _ _ _ h => by cases h) fun st => ?_
  refine LocksSatisfy_lock_then S sf st (fun ids h => ⟨sf, st, h⟩) fun q => ?_
  refine Op.Emits.bind (Op.Emits.failIf _ _) fun _ => ?_
  refine Op.Emits.bind (Op.Emits.call _ _ fun _ _ _ h => by cases h) fun _ => ?_
  refine Op.Emits.bind (Op.Emits.call _ _ fun _ _ _ h => by cases h) fun _ => ?_
  refine Op.Emits.bind (Op.Emits.call _ _ fun _ _ _ h => by cases h) fun _ => ?_
  refine Op.Emits.bind (Op.Emits.call _ _ fun _ _ _ h => by cases h) fun _ => ?_
  refine Op.Emits.bind (Op.Emits.ambient _) fun _ => ?_
  refine Op.Emits.bind (Op.Emits.modifyVars _) fun _ => ?_
  refine Op.Emits.bind (Op.Emits.call _ _ fun _ _ _ h => by cases h) fun _ => ?_
  refine Op.Emits.bind (Op.Emits.ambient _) fun _ => ?_
  refine Op.Emits.bind (Op.Emits.ambient _) fun _ => ?_
  refine Op.Emits.bind (Op.Emits.ambient _) fun _ => ?_
  refine Op.Emits.bind (Op.Emits.ambient _) fun _ => ?_
  refine Op.Emits.bind (Op.Emits.ofExcept _) fun _ => ?_
  refine Op.Emits.bind (Op.Emits.call _ _ fun _ _ _ h => by cases h) fun _ => ?_
  refine Op.Emits.bind (Op.Emits.call _ _ fun _ _ _ h => by cases h) fun _ => ?_
  refine Op.Emits.onlyIf _ ?_
  refine Op.Emits.bind (Op.Emits.call _ _ fun _ _ _ h => by cases h) fun _ => ?_
  exact Op.Emits.failIf _ _

/-- C7: in every run of the unit of work of `Exchange`, whatever its outcome, the rows locked
are, in call order, a prefix of: the two user accounts in non-decreasing id order, then the
two system accounts in non-decreasing id order. Each pair is ordered; the order across the
two pairs is the order of the two `lockTwoAccounts` calls, not the order of the ids. -/
theorem exchange_lock_phases (req : ExchangeRequest) (rate : Decimal) (quoteID : String)
    (expectedConverted : Int) (w : World σ ExchangeVars) :
    ∃ (systemFromID systemToID : String) (evs : List Call),
      (exchangeWork S req rate quoteID expectedConverted w).2.log = w.log ++ evs
      ∧ lockedIDs evs <+:
          [(orderedIDs req.FromAccountID req.ToAccountID).1,
           (orderedIDs req.FromAccountID req.ToAccountID).2,
           (orderedIDs systemFromID systemToID).1, (orderedIDs systemFromID systemToID).2]
      ∧ strLE (orderedIDs req.FromAccountID req.ToAccountID).1
          (orderedIDs req.FromAccountID req.ToAccountID).2 = true
      ∧ strLE (orderedIDs systemFromID systemToID).1
          (orderedIDs systemFromID systemToID).2 = true := by
  obtain ⟨evs, hlog, sf, st, hpre⟩ :=
    exchangeWork_lock_phases S req rate quoteID expectedConverted w
  exact ⟨sf, st, evs, hlog, hpre, orderedIDs_le _ _, orderedIDs_le _ _⟩

end LockOrder

/-! ### Instances -/

theorem stubStores_reliable (f : String → Account) (g : String → String) :
    Reliable (stubStores f g) :=
  ⟨fun _ => rfl, fun _ => rfl, fun _ _ => ⟨_, rfl⟩, fun _ _ _ => rfl, fun _ _ => rfl,
    fun _ _ => rfl, fun _ _ _ _ _ _ => rfl⟩

set_option maxRecDepth 100000 in
/-- C5 on stub stores whose source row holds exactly the amount: the transfer succeeds. -/
theorem transfer_decision_witness :
    Reliable (stubStores stubAccount stubSystemAccount)
    ∧ 0 < transferRequest.AmountMinor
    ∧ transferRequest.FromAccountID ≠ transferRequest.ToAccountID
    ∧ TransferDecision (stubStores stubAccount stubSystemAccount) transferRequest
        { db := 0, log := [], vars := () } (stubAccount "from") (stubAccount "to")
    ∧ (Transfer (stubStores stubAccount stubSystemAccount) transferRequest
        { db := 0, log := [], vars := () }).1 = .ok "id-0" :=
  ⟨stubStores_reliable _ _, by decide, by decide,
    transfer_decision (stubStores stubAccount stubSystemAccount)
      (stubStores_reliable _ _) transferRequest { db := 0, log := [], vars := () }
      (by decide) (by decide) (stubAccount "from") (stubAccount "to") (by decide),
    by decide⟩

set_option maxRecDepth 100000 in
/-- C6 on the transfer scenario: amount 0, and equal account ids. -/
theorem transfer_static_rejections_witness :
    Transfer MemDB.stores { transferRequest with AmountMinor := 0 } transferDB.world
      = (.error .ErrInvalidAmount, transferDB.world)
    ∧ Transfer MemDB.stores { transferRequest with ToAccountID := "from" } transferDB.world
      = (.error .ErrSameAccountTransfer, transferDB.world) :=
  ⟨(transfer_static_rejections MemDB.stores { transferRequest with AmountMinor := 0 }
      transferDB.world).1 (by decide),
   (transfer_static_rejections MemDB.stores { transferRequest with ToAccountID := "from" }
      transferDB.world).2 (by decide) (by decide)⟩

set_option maxRecDepth 100000 in
/-- C10 with `k = 1`: the first commit fails with a serialization conflict, the second
attempt succeeds; two attempts are made and one commit succeeds. -/
theorem withTx_attempts_witness :
    ConflictsThenSuccess MemDB.stores (Op.ret ()) 1 1 conflictOnceDB.world
    ∧ attemptsIn (WithTx MemDB.stores (Op.ret ()) conflictOnceDB.world).2.log = 2
    ∧ (WithTx MemDB.stores (Op.ret ()) conflictOnceDB.world).1 = .ok ()
    ∧ commitsIn (WithTx MemDB.stores (Op.ret ()) conflictOnceDB.world).2.log = 1 := by
  have hk : ConflictsThenSuccess MemDB.stores (Op.ret ()) 1 1 conflictOnceDB.world :=
    ⟨by decide, ⟨.pq "40001", by decide, by decide⟩,
      show (attemptOnce MemDB.stores (Op.ret ()) _).1 = .ok () by decide⟩
  have h := withTx_attempts MemDB.stores (Op.ret ()) (fun _ => ⟨rfl, rfl⟩) 1
    conflictOnceDB.world hk
  exact ⟨hk, h.1, h.2.1.2 (by decide), h.2.2 (by decide)⟩

/-! ### Scenarios evaluated -/

set_option maxRecDepth 100000 in
/-- C7, the scenario of the exchange test: the exchange succeeds and locks `from`, `to`,
`sys-eur`, `sys-usd` in that order, and `to` is greater than `sys-eur`; so the ids locked in
one transaction are not in non-decreasing order over all four accounts. -/
theorem exchange_locks_not_globally_ordered :
    (Exchange MemDB.stores exchangeRequest exchangeDB.world).1 = .ok "id-0"
    ∧ lockedIDs (Exchange MemDB.stores exchangeRequest exchangeDB.world).2.log
        = ["from", "to", "sys-eur", "sys-usd"]
    ∧ strLE "to" "sys-eur" = false
    ∧ nonDecreasing (lockedIDs (Exchange MemDB.stores exchangeRequest exchangeDB.world).2.log)
        = false
    ∧ ¬ (∀ (req : ExchangeRequest) (d : MemDB),
        nonDecreasing (lockedIDs (Exchange MemDB.stores req d.world).2.log) = true) := by
  refine ⟨by decide, by decide, by decide, by decide, fun h => ?_⟩
  have h1 := h exchangeRequest exchangeDB
  revert h1
  decide

set_option maxRecDepth 100000 in
/-- C1, failing input: an exchange of 1000 USD at 0.92 whose destination is the EUR system
account succeeds; the row `sys-eur` is read with balance 100000, written `100000 + 920` as
destination and then `100000 - 920` as paying system account, so 99080 is left stored, while
the two ledger entries inserted for it are `-920` and `+920`: the balance changed by `-920`
and the ledger amounts of the account sum to `0`. -/
theorem exchange_into_system_account_diverges :
    (Exchange MemDB.stores exchangeIntoSystemRequest exchangeDB.world).1 = .ok "id-0"
    ∧ exchangeDB.balanceOf "sys-eur" = some 100000
    ∧ exchangeDB.ledgerSum "sys-eur" = 0
    ∧ (lockedReads "sys-eur"
        (Exchange MemDB.stores exchangeIntoSystemRequest exchangeDB.world).2.log).map
          (fun r => r.toOption.map (fun a => a.Balance)) = [some 100000, some 100000]
    ∧ balanceWrites "sys-eur"
        (Exchange MemDB.stores exchangeIntoSystemRequest exchangeDB.world).2.log
        = [100920, 99080]
    ∧ (Exchange MemDB.stores exchangeIntoSystemRequest exchangeDB.world).2.db.balanceOf "sys-eur"
        = some 99080
    ∧ (((Exchange MemDB.stores exchangeIntoSystemRequest exchangeDB.world).2.db.committed.ledger.filter
        (fun e => e.AccountID == "sys-eur")).map (fun e => e.Amount)) = [-920, 920]
    ∧ (Exchange MemDB.stores exchangeIntoSystemRequest exchangeDB.world).2.db.ledgerSum "sys-eur"
        = 0
    ∧ (99080 : Int) - 100000 ≠ 0 := by
  decide

section RetryLimit

variable {σ ν : Type} (S : Stores σ)

theorem WithTxLoop_error_source (fn : Op σ ν Unit) :
    ∀ (n attempt : Nat) (w : World σ ν), attempt + n = maxAttempts + 1 → 1 ≤ n →
      ∀ e, (WithTxLoop S fn n attempt w).1 = .error e →
        ∃ w1, (BeginTxx S w1).1 = .error e ∨ (fn w1).1 = .error e
          ∨ (Commit S w1).1 = .error e := by
  intro n
  induction n with
  | zero => intro attempt w _ h; omega
  | succ n ih =>
    intro attempt w hn _ e he
    have hlt : attempt < maxAttempts → 1 ≤ n := by
      unfold maxAttempts at hn ⊢
      omega
    rw [WithTxLoop_succ] at he
    rcases hb : BeginTxx S w with ⟨rb, w1⟩
    rw [hb] at he
    cases rb with
    | error eb =>
      simp only at he
      exact ⟨w, Or.inl (by rw [hb]; exact he)⟩
    | ok u =>
      simp only at he
      rcases hw : fn w1 with ⟨rf, w2⟩
      rw [hw] at he
      cases rf with
      | error ef =>
        simp only at he
        split at he
        · rename_i hc
          simp only [Bool.and_eq_true, decide_eq_true_eq] at hc
          exact ih _ _ (by omega) (hlt hc.2) e he
        · exact ⟨w1, Or.inr (Or.inl (by rw [hw]; exact he))⟩
      | ok u2 =>
        simp only at he
        rcases hc : Commit S w2 with ⟨rc, w3⟩
        rw [hc] at he
        cases rc with
        | error ec =>
          simp only at he
          split at he
          · rename_i hcc
            simp only [Bool.and_eq_true, decide_eq_true_eq] at hcc
            exact ih _ _ (by omega) (hlt hcc.2) e he
          · exact ⟨w2, Or.inr (Or.inr (by rw [hc]; exact he))⟩
        | ok u3 => simp at he

end RetryLimit

set_option maxRecDepth 100000 in
/-- C11, failing input: the scenario of the retry-cap test, work that succeeds and a commit
that fails with code `40P01` every time. `WithTx` makes five attempts and returns the
driver error of the fifth commit, not the retry-limit error. In general every error that
`WithTx` returns is one that `BeginTxx`, the work or `Commit` returned: the loop never falls
through to its last `return`. -/
theorem withTx_retry_cap_returns_conflict :
    (WithTx MemDB.stores (Op.ret ()) retryCapDB.world).1 = .error (.pq "40P01")
    ∧ isRetryablePGError (.pq "40P01") = true
    ∧ attemptsIn (WithTx MemDB.stores (Op.ret ()) retryCapDB.world).2.log = 5
    ∧ (WithTx MemDB.stores (Op.ret ()) retryCapDB.world).2.log.count
        (Call.Commit (.error (.pq "40P01"))) = 5
    ∧ (WithTx MemDB.stores (Op.ret ()) retryCapDB.world).1 ≠ .error retryLimitExceeded
    ∧ ∀ (σ ν : Type) (S : Stores σ) (fn : Op σ ν Unit) (w : World σ ν) (e : Error),
        (WithTx S fn w).1 = .error e →
        ∃ w1, (BeginTxx S w1).1 = .error e ∨ (fn w1).1 = .error e
          ∨ (Commit S w1).1 = .error e := by
  refine ⟨by decide, by decide, by decide, by decide, by decide, ?_⟩
  intro σ ν S fn w e he
  exact WithTxLoop_error_source S fn maxAttempts 1 w rfl (by decide) e he

/-! ### Money parsing -/

theorem splitDot_append (ws : List Char) (fs : Option (List Char)) (h : '.' ∉ ws) :
    splitDot (ws ++ fractionText fs) = (ws, fs) := by
  induction ws with
  | nil =>
    cases fs with
    | none => rfl
    | some f => simp [fractionText, splitDot]
  | cons c rest ih =>
    have hc : c ≠ '.' := fun hc => h (by simp [hc])
    have hr : '.' ∉ rest := fun hr => h (List.mem_cons_of_mem _ hr)
    rw [List.cons_append, splitDot, if_neg hc, ih hr]

theorem splitDot_text (t : List Char) :
    t = (splitDot t).1 ++ fractionText (splitDot t).2 ∧ '.' ∉ (splitDot t).1 := by
  induction t with
  | nil => exact ⟨rfl, by simp [splitDot]⟩
  | cons c rest ih =>
    by_cases hc : c = '.'
    · simp [splitDot, hc, fractionText]
    · simp only [splitDot, if_neg hc, List.cons_append, List.mem_cons, not_or]
      exact ⟨by rw [← ih.1], fun h => hc h.symm, ih.2⟩

theorem SplitsAs_exists (t : List Char) (ht : t ≠ []) : ∃ sgn ws fs, SplitsAs t sgn ws fs := by
  cases t with
  | nil => exact absurd rfl ht
  | cons c rest =>
    by_cases hm : c = '-'
    · exact ⟨['-'], (splitDot rest).1, (splitDot rest).2,
        ⟨by rw [← (splitDot_text rest).1, hm]; rfl, Or.inr (Or.inl rfl), (splitDot_text rest).2⟩⟩
    · by_cases hp : c = '+'
      · exact ⟨['+'], (splitDot rest).1, (splitDot rest).2,
          ⟨by rw [← (splitDot_text rest).1, hp]; rfl, Or.inl rfl, (splitDot_text rest).2⟩⟩
      · refine ⟨[], (splitDot (c :: rest)).1, (splitDot (c :: rest)).2,
          ⟨by rw [List.nil_append, ← (splitDot_text (c :: rest)).1], Or.inr (Or.inr ⟨rfl, ht, ?_⟩),
            (splitDot_text (c :: rest)).2⟩⟩
        intro r
        constructor
        · intro h; exact hp (List.cons.inj h).1
        · intro h; exact hm (List.cons.inj h).1

theorem ParseMinor_of_splitsAs (input : String) (sgn ws : List Char) (fs : Option (List Char))
    (h : SplitsAs (TrimSpace input.data) sgn ws fs) :
    ParseMinor input = parseAfterSign (signValue sgn) (ws ++ fractionText fs) := by
  unfold ParseMinor
  rcases h with ⟨htext, hsign, _⟩
  rcases hsign with hs | hs | ⟨hs, hne, hfirst⟩
  · subst hs
    rw [htext]
    simp [signValue]
  · subst hs
    rw [htext]
    simp [signValue]
  · subst hs
    rw [List.nil_append] at htext
    rcases ht : TrimSpace input.data with _ | ⟨c, rest⟩
    · exact absurd ht hne
    · have hm : c ≠ '-' := fun hc => (hfirst rest).2 (by rw [ht, hc])
      have hp : c ≠ '+' := fun hc => (hfirst rest).1 (by rw [ht, hc])
      simp only [if_neg hm, if_neg hp]
      rw [← htext, ht]
      simp [signValue]

theorem isDigits_iff (ws : List Char) : isDigits ws = true ↔ ∀ c ∈ ws, isDigit c := by
  unfold isDigits isDigit
  simp only [List.all_eq_true, Bool.not_eq_true', Bool.or_eq_false_iff, decide_eq_false_iff_not,
    not_lt]

theorem isDigits_false_iff (ws : List Char) : isDigits ws = false ↔ ∃ c ∈ ws, ¬ isDigit c := by
  rw [← Bool.not_eq_true, isDigits_iff]
  push_neg
  rfl

theorem byteLen_of_digits (f : List Char) (h : ∀ c ∈ f, isDigit c) : byteLen f = f.length := by
  induction f with
  | nil => rfl
  | cons c rest ih =>
    have hc : c.toNat ≤ 0x7F := by
      have := (h c (List.mem_cons_self _ _)).2
      omega
    have hr := ih fun d hd => h d (List.mem_cons_of_mem _ hd)
    unfold byteLen at hr ⊢
    simp only [List.map_cons, List.sum_cons, if_pos hc, hr, List.length_cons]
    omega

theorem length_le_byteLen (f : List Char) : f.length ≤ byteLen f := by
  induction f with
  | nil => exact Nat.le_refl _
  | cons c rest ih =>
    unfold byteLen at ih ⊢
    simp only [List.map_cons, List.sum_cons, List.length_cons]
    split_ifs <;> omega

theorem parseDigits_of_digits (ws : List Char) (hne : ws ≠ []) (h : ∀ c ∈ ws, isDigit c) :
    Decimal.parseDigits ws = some (digitsValue ws) := by
  cases ws with
  | nil => exact absurd rfl hne
  | cons c rest =>
    unfold Decimal.parseDigits
    have hall : (c :: rest).all (fun c => decide (48 ≤ c.toNat) && decide (c.toNat ≤ 57)) = true := by
      simp only [List.all_eq_true, Bool.and_eq_true, decide_eq_true_eq]
      exact h
    simp only [hall, if_true]
    rfl

theorem parseSigned_of_digits (ws : List Char) (hne : ws ≠ []) (h : ∀ c ∈ ws, isDigit c) :
    Decimal.parseSigned ws = some (digitsValue ws : Int) := by
  cases ws with
  | nil => exact absurd rfl hne
  | cons c rest =>
    have hc := h c (List.mem_cons_self _ _)
    have hp : c ≠ '+' := by
      intro hc2
      rw [hc2] at hc
      exact absurd hc (by decide)
    have hm : c ≠ '-' := by
      intro hc2
      rw [hc2] at hc
      exact absurd hc (by decide)
    unfold Decimal.parseSigned
    split
    · rename_i heq
      exact absurd (List.cons.inj heq).1 hp
    · rename_i heq
      exact absurd (List.cons.inj heq).1 hm
    · rw [parseDigits_of_digits _ hne h]
      rfl

theorem ParseInt_of_digits (ws : List Char) (hne : ws ≠ []) (h : ∀ c ∈ ws, isDigit c) :
    ParseInt ws = if (digitsValue ws : Int) < 2 ^ 63 then some (digitsValue ws : Int) else none := by
  unfold ParseInt
  rw [parseSigned_of_digits ws hne h]
  simp only
  have h0 : (-2 : Int) ^ 63 ≤ (digitsValue ws : Int) := by
    have : (0 : Int) ≤ (digitsValue ws : Int) := Int.ofNat_nonneg _
    omega
  by_cases hlt : (digitsValue ws : Int) < 2 ^ 63
  · rw [if_pos ⟨h0, hlt⟩, if_pos hlt]
  · rw [if_neg (fun hh => hlt hh.2), if_neg hlt]

theorem wholePart_digits (ws : List Char) (h : ∀ c ∈ ws, isDigit c) :
    (∀ c ∈ (if ws = [] then ['0'] else ws), isDigit c)
    ∧ (if ws = [] then ['0'] else ws) ≠ []
    ∧ digitsValue (if ws = [] then ['0'] else ws) = digitsValue ws := by
  by_cases hw : ws = []
  · subst hw
    refine ⟨?_, by simp, by simp [digitsValue]⟩
    intro c hc
    simp only [if_true, List.mem_singleton] at hc
    rw [hc]
    decide
  · rw [if_neg hw]
    exact ⟨h, hw, rfl⟩

theorem parseAfterSign_whole_invalid (sign : Int) (ws : List Char) (fs : Option (List Char))
    (hdot : '.' ∉ ws) (h : ∃ c ∈ ws, ¬ isDigit c) :
    parseAfterSign sign (ws ++ fractionText fs) = .error .ErrInvalidAmount := by
  have hne : ws ≠ [] := by
    rintro rfl
    obtain ⟨c, hc, _⟩ := h
    cases hc
  unfold parseAfterSign
  simp only [splitDot_append ws fs hdot, if_neg hne]
  rw [if_pos ((isDigits_false_iff ws).2 h)]

theorem parseAfterSign_too_many (sign : Int) (ws f : List Char)
    (hdot : '.' ∉ ws) (hw : ∀ c ∈ ws, isDigit c) (hf : 2 < byteLen f) :
    parseAfterSign sign (ws ++ fractionText (some f)) = .error .ErrTooManyDecimals := by
  obtain ⟨hd, _, _⟩ := wholePart_digits ws hw
  unfold parseAfterSign
  simp only [splitDot_append ws (some f) hdot]
  rw [if_neg (by rw [(isDigits_iff _).2 hd]; simp)]
  simp only [Option.getD_some]
  rw [if_pos hf]

theorem parseAfterSign_fraction_invalid (sign : Int) (ws f : List Char)
    (hdot : '.' ∉ ws) (hw : ∀ c ∈ ws, isDigit c) (hf : byteLen f ≤ 2)
    (h : ∃ c ∈ f, ¬ isDigit c) :
    parseAfterSign sign (ws ++ fractionText (some f)) = .error .ErrInvalidAmount := by
  obtain ⟨hd, _, _⟩ := wholePart_digits ws hw
  have hne : f ≠ [] := by
    rintro rfl
    obtain ⟨c, hc, _⟩ := h
    cases hc
  unfold parseAfterSign
  simp only [splitDot_append ws (some f) hdot]
  rw [if_neg (by rw [(isDigits_iff _).2 hd]; simp)]
  simp only [Option.getD_some]
  rw [if_neg (by omega), if_pos ⟨hne, (isDigits_false_iff f).2 h⟩]

theorem hundredths_range (f : List Char) (hf : ∀ c ∈ f, isDigit c) :
    0 ≤ hundredths f ∧ hundredths f ≤ 99 := by
  match f, hf with
  | [], _ => exact ⟨by decide, by decide⟩
  | [d], hf =>
    have := hf d (by simp)
    unfold isDigit at this
    show 0 ≤ 10 * ((d.toNat : Int) - 48) ∧ 10 * ((d.toNat : Int) - 48) ≤ 99
    omega
  | [d1, d2], hf =>
    have h1 := hf d1 (by simp)
    have h2 := hf d2 (by simp)
    unfold isDigit at h1 h2
    show 0 ≤ 10 * ((d1.toNat : Int) - 48) + ((d2.toNat : Int) - 48)
      ∧ 10 * ((d1.toNat : Int) - 48) + ((d2.toNat : Int) - 48) ≤ 99
    omega
  | _ :: _ :: _ :: _, _ => exact ⟨by simp [hundredths], by simp [hundredths]⟩

theorem parseAfterSign_digits (sign : Int) (ws : List Char) (fs : Option (List Char))
    (hdot : '.' ∉ ws) (hw : ∀ c ∈ ws, isDigit c)
    (hf : ∀ c ∈ fs.getD [], isDigit c) (hlen : (fs.getD []).length ≤ 2) :
    parseAfterSign sign (ws ++ fractionText fs) =
      if (digitsValue ws : Int) < 2 ^ 63 then
        .ok (mul64 sign (add64 (mul64 (digitsValue ws) 100) (hundredths (fs.getD []))))
      else .error .ErrInvalidAmount := by
  obtain ⟨hd, hdne, hdv⟩ := wholePart_digits ws hw
  have hb := byteLen_of_digits _ hf
  unfold parseAfterSign
  simp only [splitDot_append ws fs hdot]
  rw [if_neg (by rw [(isDigits_iff _).2 hd]; simp)]
  rw [if_neg (by omega)]
  rw [if_neg (by
    rintro ⟨_, h2⟩
    rw [(isDigits_iff _).2 hf] at h2
    cases h2)]
  rw [ParseInt_of_digits _ hdne hd, hdv]
  by_cases hlt : (digitsValue ws : Int) < 2 ^ 63
  · simp only [if_pos hlt]
    generalize hfd : fs.getD [] = f at hf hlen hb
    match f, hf, hlen, hb with
    | [], _, _, hb =>
      have h1 : ¬ byteLen ([] : List Char) = 1 := by decide
      have h2 : ¬ byteLen ([] : List Char) = 2 := by decide
      simp only [if_neg h1, if_neg h2, hundredths]
    | [d], hf, _, hb =>
      simp only [List.length_singleton] at hb
      have hdd := hf d (by simp)
      unfold isDigit at hdd
      simp only [if_pos hb, List.headD_cons, hundredths]
      have hm : mul64 ((d.toNat : Int) - 48) 10 = 10 * ((d.toNat : Int) - 48) := by
        unfold mul64
        rw [wrapInt64_of_isInt64]
        · ring
        · unfold isInt64
          omega
      rw [hm]
    | [d1, d2], hf, _, hb =>
      have hb2 : byteLen [d1, d2] = 2 := hb
      have h1 : ¬ byteLen [d1, d2] = 1 := by omega
      simp only [if_neg h1, if_pos hb2]
      have hr := hundredths_range [d1, d2] hf
      rw [ParseInt_of_digits _ (by simp) hf]
      have hv : (digitsValue [d1, d2] : Int) = hundredths [d1, d2] := by
        have h1 := hf d1 (by simp)
        have h2 := hf d2 (by simp)
        unfold isDigit at h1 h2
        simp only [digitsValue, List.foldl_cons, List.foldl_nil, hundredths]
        omega
      rw [hv, if_pos (by omega)]
    | _ :: _ :: _ :: _, _, hlen, _ =>
      simp only [List.length_cons] at hlen
      omega
  · simp only [if_neg hlt]

/-- Outcome of `ParseMinor` by the parts of the trimmed text: one of five cases applies. -/
theorem ParseMinor_cases (input : String) (sgn ws : List Char) (fs : Option (List Char))
    (h : SplitsAs (TrimSpace input.data) sgn ws fs) :
    ((∃ c ∈ ws, ¬ isDigit c) ∧ ParseMinor input = .error .ErrInvalidAmount)
    ∨ ((∀ c ∈ ws, isDigit c) ∧ ∃ f, fs = some f ∧ 2 < byteLen f
        ∧ ParseMinor input = .error .ErrTooManyDecimals)
    ∨ ((∀ c ∈ ws, isDigit c) ∧ ∃ f, fs = some f ∧ byteLen f ≤ 2 ∧ (∃ c ∈ f, ¬ isDigit c)
        ∧ ParseMinor input = .error .ErrInvalidAmount)
    ∨ ((∀ c ∈ ws, isDigit c) ∧ (∀ c ∈ fs.getD [], isDigit c) ∧ (fs.getD []).length ≤ 2
        ∧ ¬ (digitsValue ws : Int) < 2 ^ 63 ∧ ParseMinor input = .error .ErrInvalidAmount)
    ∨ ((∀ c ∈ ws, isDigit c) ∧ (∀ c ∈ fs.getD [], isDigit c) ∧ (fs.getD []).length ≤ 2
        ∧ (digitsValue ws : Int) < 2 ^ 63
        ∧ ParseMinor input = .ok (mul64 (signValue sgn)
            (add64 (mul64 (digitsValue ws) 100) (hundredths (fs.getD []))))) := by
  rw [ParseMinor_of_splitsAs input sgn ws fs h]
  have hdot := h.whole
  by_cases hw : ∀ c ∈ ws, isDigit c
  · have key : ∀ f : List Char, fs.getD [] = f → byteLen f ≤ 2 → (∀ c ∈ f, isDigit c) →
        ((∀ c ∈ fs.getD [], isDigit c) ∧ (fs.getD []).length ≤ 2
          ∧ ¬ (digitsValue ws : Int) < 2 ^ 63
          ∧ parseAfterSign (signValue sgn) (ws ++ fractionText fs) = .error .ErrInvalidAmount)
        ∨ ((∀ c ∈ fs.getD [], isDigit c) ∧ (fs.getD []).length ≤ 2
          ∧ (digitsValue ws : Int) < 2 ^ 63
          ∧ parseAfterSign (signValue sgn) (ws ++ fractionText fs) = .ok (mul64 (signValue sgn)
              (add64 (mul64 (digitsValue ws) 100) (hundredths (fs.getD []))))) := by
      intro f hfd hb hf
      have hlen : (fs.getD []).length ≤ 2 := by
        rw [hfd]
        exact Nat.le_trans (length_le_byteLen f) hb
      have hf2 : ∀ c ∈ fs.getD [], isDigit c := by rw [hfd]; exact hf
      have hev := parseAfterSign_digits (signValue sgn) ws fs hdot hw hf2 hlen
      by_cases hlt : (digitsValue ws : Int) < 2 ^ 63
      · rw [if_pos hlt] at hev
        exact Or.inr ⟨hf2, hlen, hlt, hev⟩
      · rw [if_neg hlt] at hev
        exact Or.inl ⟨hf2, hlen, hlt, hev⟩
    cases fs with
    | none =>
      rcases key [] rfl (by decide) (by intro c hc; cases hc) with h1 | h1
      · exact Or.inr (Or.inr (Or.inr (Or.inl ⟨hw, h1⟩)))
      · exact Or.inr (Or.inr (Or.inr (Or.inr ⟨hw, h1⟩)))
    | some f =>
      by_cases hb : 2 < byteLen f
      · exact Or.inr (Or.inl ⟨hw, f, rfl, hb, parseAfterSign_too_many _ ws f hdot hw hb⟩)
      · have hb2 : byteLen f ≤ 2 := by omega
        by_cases hf : ∀ c ∈ f, isDigit c
        · rcases key f rfl hb2 hf with h1 | h1
          · exact Or.inr (Or.inr (Or.inr (Or.inl ⟨hw, h1⟩)))
          · exact Or.inr (Or.inr (Or.inr (Or.inr ⟨hw, h1⟩)))
        · push_neg at hf
          exact Or.inr (Or.inr (Or.inl ⟨hw, f, rfl, hb2, hf,
            parseAfterSign_fraction_invalid _ ws f hdot hw hb2 hf⟩))
  · push_neg at hw
    exact Or.inl ⟨hw, parseAfterSign_whole_invalid _ ws fs hdot hw⟩

theorem ParseMinor_empty (input : String) (h : TrimSpace input.data = []) :
    ParseMinor input = .error .ErrInvalidAmount := by
  unfold ParseMinor
  rw [h]

theorem signValue_cases (sgn : List Char) : signValue sgn = 1 ∨ signValue sgn = -1 := by
  unfold signValue
  split_ifs
  · exact Or.inr rfl
  · exact Or.inl rfl

theorem amount_exact (sign : Int) (hs : sign = 1 ∨ sign = -1) (W : Nat) (F : Int)
    (hW : W ≤ 92233720368547757) (hF : 0 ≤ F ∧ F ≤ 99) :
    mul64 sign (add64 (mul64 W 100) F) = sign * ((W : Int) * 100 + F) := by
  have h1 : mul64 W 100 = (W : Int) * 100 := by
    unfold mul64
    exact wrapInt64_of_isInt64 (by unfold isInt64; omega)
  have h2 : add64 ((W : Int) * 100) F = (W : Int) * 100 + F := by
    unfold add64
    exact wrapInt64_of_isInt64 (by unfold isInt64; omega)
  rw [h1, h2]
  unfold mul64
  rcases hs with hs | hs <;> subst hs <;>
    exact wrapInt64_of_isInt64 (by unfold isInt64; omega)

/-- C12: `ParseMinor` succeeds exactly on the inputs whose trimmed text is one optional
sign, a run of decimal digits that may be empty, and optionally a `.` followed by at most two
decimal digits, the digit run being at most the largest `int64`. An empty integer part is read
as `0`; only a text that is empty after trimming has no such reading. -/
theorem parseMinor_accepted_shape (input : String) :
    (∃ r, ParseMinor input = .ok r) ↔
      ∃ sgn ws fs, SplitsAs (TrimSpace input.data) sgn ws fs
        ∧ (∀ c ∈ ws, isDigit c)
        ∧ (∀ c ∈ fs.getD [], isDigit c) ∧ (fs.getD []).length ≤ 2
        ∧ digitsValue ws < 2 ^ 63 := by
  constructor
  · rintro ⟨r, hr⟩
    have hne : TrimSpace input.data ≠ [] := by
      intro h0
      rw [ParseMinor_empty input h0] at hr
      cases hr
    obtain ⟨sgn, ws, fs, hs⟩ := SplitsAs_exists _ hne
    refine ⟨sgn, ws, fs, hs, ?_⟩
    rcases ParseMinor_cases input sgn ws fs hs with
      ⟨_, h1⟩ | ⟨_, _, _, _, h1⟩ | ⟨_, _, _, _, _, h1⟩ | ⟨_, _, _, _, h1⟩ | ⟨hw, hf, hlen, hlt, _⟩
    · rw [h1] at hr; cases hr
    · rw [h1] at hr; cases hr
    · rw [h1] at hr; cases hr
    · rw [h1] at hr; cases hr
    · exact ⟨hw, hf, hlen, by exact_mod_cast hlt⟩
  · rintro ⟨sgn, ws, fs, hs, hw, hf, hlen, hlt⟩
    rcases ParseMinor_cases input sgn ws fs hs with
      ⟨⟨c, hc, hnd⟩, _⟩ | ⟨_, f, hfs, hb, _⟩ | ⟨_, f, hfs, _, ⟨c, hc, hnd⟩, _⟩
        | ⟨_, _, _, hge, _⟩ | ⟨_, _, _, _, hok⟩
    · exact absurd (hw c hc) hnd
    · subst hfs
      have := byteLen_of_digits f hf
      simp only [Option.getD_some] at hlen
      omega
    · subst hfs
      exact absurd (hf c hc) hnd
    · exact absurd (by exact_mod_cast hlt) hge
    · exact ⟨_, hok⟩

/-- C12, inputs with an empty integer part: `.5`, `-`, `+` and `.` are accepted, as 50 and 0. -/
theorem parseMinor_accepts_empty_integer_part :
    ParseMinor ".5" = .ok 50 ∧ ParseMinor "-" = .ok 0 ∧ ParseMinor "+" = .ok 0
    ∧ ParseMinor "." = .ok 0 := by
  decide

/-- C13: `ParseMinor` returns `ErrTooManyDecimals` exactly when the integer part of the
trimmed text is empty or all digits and the text after the first `.` is longer than two
bytes, whatever characters it holds: the length is checked before the characters. A text that
is empty after trimming, a non-digit in the integer part, and a non-digit in a fraction of at
most two bytes each give `ErrInvalidAmount`. -/
theorem parseMinor_too_many_decimals (input : String) :
    (ParseMinor input = .error .ErrTooManyDecimals ↔
      ∃ sgn ws f, SplitsAs (TrimSpace input.data) sgn ws (some f)
        ∧ (∀ c ∈ ws, isDigit c) ∧ 2 < byteLen f)
    ∧ (TrimSpace input.data = [] → ParseMinor input = .error .ErrInvalidAmount)
    ∧ (∀ sgn ws fs, SplitsAs (TrimSpace input.data) sgn ws fs → (∃ c ∈ ws, ¬ isDigit c) →
        ParseMinor input = .error .ErrInvalidAmount)
    ∧ (∀ sgn ws f, SplitsAs (TrimSpace input.data) sgn ws (some f) → (∀ c ∈ ws, isDigit c) →
        byteLen f ≤ 2 → (∃ c ∈ f, ¬ isDigit c) →
        ParseMinor input = .error .ErrInvalidAmount) := by
  refine ⟨⟨fun hr => ?_, ?_⟩, ParseMinor_empty input, ?_, ?_⟩
  · have hne : TrimSpace input.data ≠ [] := by
      intro h0
      rw [ParseMinor_empty input h0] at hr
      cases hr
    obtain ⟨sgn, ws, fs, hs⟩ := SplitsAs_exists _ hne
    rcases ParseMinor_cases input sgn ws fs hs with
      ⟨_, h1⟩ | ⟨hw, f, hfs, hb, _⟩ | ⟨_, _, _, _, _, h1⟩ | ⟨_, _, _, _, h1⟩ | ⟨_, _, _, _, h1⟩
    · rw [h1] at hr; cases hr
    · subst hfs
      exact ⟨sgn, ws, f, hs, hw, hb⟩
    · rw [h1] at hr; cases hr
    · rw [h1] at hr; cases hr
    · rw [h1] at hr; cases hr
  · rintro ⟨sgn, ws, f, hs, hw, hb⟩
    rw [ParseMinor_of_splitsAs input sgn ws (some f) hs]
    exact parseAfterSign_too_many _ ws f hs.whole hw hb
  · intro sgn ws fs hs hnd
    rw [ParseMinor_of_splitsAs input sgn ws fs hs]
    exact parseAfterSign_whole_invalid _ ws fs hs.whole hnd
  · intro sgn ws f hs hw hb hnd
    rw [ParseMinor_of_splitsAs input sgn ws (some f) hs]
    exact parseAfterSign_fraction_invalid _ ws f hs.whole hw hb hnd

/-- C13, inputs with a long fraction that is not a digit run: `1.abc` and `1.2.3` give
`ErrTooManyDecimals`, not `ErrInvalidAmount`. -/
theorem parseMinor_long_garbage_fraction :
    ParseMinor "1.abc" = .error .ErrTooManyDecimals
    ∧ ParseMinor "1.2.3" = .error .ErrTooManyDecimals
    ∧ ParseMinor "10.005" = .error .ErrTooManyDecimals
    ∧ ParseMinor "1.a" = .error .ErrInvalidAmount
    ∧ ParseMinor "" = .error .ErrInvalidAmount := by
  decide

/-- C14: when `ParseMinor` accepts an input whose integer part `W` is at most
92233720368547757, the result is exactly `sign * (W * 100 + F)`, with `F` the fractional
digits read as hundredths; the fraction has at most two digits, so nothing is rounded or
cut. -/
theorem parseMinor_value (input : String) (r : Int) (sgn ws : List Char)
    (fs : Option (List Char)) (hacc : ParseMinor input = .ok r)
    (hs : SplitsAs (TrimSpace input.data) sgn ws fs)
    (hW : digitsValue ws ≤ 92233720368547757) :
    r = signValue sgn * ((digitsValue ws : Int) * 100 + hundredths (fs.getD []))
    ∧ (∀ c ∈ ws, isDigit c) ∧ (∀ c ∈ fs.getD [], isDigit c) ∧ (fs.getD []).length ≤ 2 := by
  rcases ParseMinor_cases input sgn ws fs hs with
    ⟨_, h1⟩ | ⟨_, _, _, _, h1⟩ | ⟨_, _, _, _, _, h1⟩ | ⟨_, _, _, _, h1⟩ | ⟨hw, hf, hlen, _, hok⟩
  · rw [h1] at hacc; cases hacc
  · rw [h1] at hacc; cases hacc
  · rw [h1] at hacc; cases hacc
  · rw [h1] at hacc; cases hacc
  · rw [hok] at hacc
    refine ⟨?_, hw, hf, hlen⟩
    rw [← Except.ok.inj hacc]
    exact amount_exact _ (signValue_cases sgn) _ _ hW (hundredths_range _ hf)

/-- C14 on `-5.5`, which gives `-550`, and on `10`, which gives `1000`. -/
theorem parseMinor_value_witness :
    ParseMinor "-5.5" = .ok (-550)
    ∧ SplitsAs (TrimSpace "-5.5".data) ['-'] ['5'] (some ['5'])
    ∧ (-550 : Int) = signValue ['-'] * ((digitsValue ['5'] : Int) * 100 + hundredths ['5'])
    ∧ ParseMinor "10" = .ok 1000 :=
  have hs : SplitsAs (TrimSpace "-5.5".data) ['-'] ['5'] (some ['5']) :=
    ⟨by decide, Or.inr (Or.inl rfl), by decide⟩
  ⟨by decide, hs,
    (parseMinor_value "-5.5" (-550) ['-'] ['5'] (some ['5']) (by decide) hs (by decide)).1,
    by decide⟩

/-! ### Money formatting -/

set_option maxRecDepth 100000 in
theorem fmt02d_twoDigits : ∀ n : Fin 100, fmt02d (n.val : Int) = twoDigits n.val := by
  decide

theorem formatMinor_nonneg (n : Nat) :
    fmtD (Int.tdiv (n : Int) 100) ++ "." ++ fmt02d (Int.tmod (n : Int) 100)
      = Decimal.natStr (n / 100) ++ "." ++ twoDigits (n % 100) := by
  have h1 : Int.tdiv (n : Int) 100 = ((n / 100 : Nat) : Int) := rfl
  have h2 : Int.tmod (n : Int) 100 = ((n % 100 : Nat) : Int) := rfl
  rw [h1, h2]
  have h3 := fmt02d_twoDigits ⟨n % 100, Nat.mod_lt _ (by decide)⟩
  simp only at h3
  rw [h3]
  unfold fmtD
  have h4 : ¬ ((n / 100 : Nat) : Int) < 0 := by omega
  rw [if_neg h4, String.empty_append, Int.natAbs_ofNat]

/-- C15: for every `int64` value other than the smallest one, `FormatMinor` gives a `-`
exactly when the value is negative, then the decimal digits of `|v| / 100`, a `.`, and the
two decimal digits of `|v| % 100`. On the smallest `int64` value the negation wraps back to
the same negative number and the result is `--92233720368547758.-8`: two signs, and a
fraction that is a sign and one digit. -/
theorem formatMinor_text :
    (∀ v : Int, isInt64 v → v ≠ -2 ^ 63 →
      FormatMinor v = (if v < 0 then "-" else "")
        ++ (Decimal.natStr (v.natAbs / 100) ++ "." ++ twoDigits (v.natAbs % 100)))
    ∧ isInt64 (-2 ^ 63)
    ∧ FormatMinor (-2 ^ 63) = "--92233720368547758.-8"
    ∧ FormatMinor (-550) = "-5.50" ∧ FormatMinor 5 = "0.05" ∧ FormatMinor 9000 = "90.00" := by
  refine ⟨?_, by decide, by decide, by decide, by decide, by decide⟩
  intro v hv hmin
  unfold isInt64 at hv
  unfold FormatMinor
  by_cases hneg : v < 0
  · have hn : neg64 v = (v.natAbs : Int) := by
      unfold neg64
      rw [wrapInt64_of_isInt64 (by unfold isInt64; omega)]
      omega
    simp only [hneg, decide_True, if_true, hn]
    rw [formatMinor_nonneg]
  · have hn : v = (v.natAbs : Int) := by omega
    simp only [hneg, decide_False, if_false, Bool.false_eq_true]
    rw [String.empty_append]
    conv_lhs => rw [hn]
    rw [formatMinor_nonneg]

/-! ### Rounding of converted amounts -/

theorem half_bounds (P D : Int) (hP : 0 ≤ P) (hD : 0 < D) :
    0 ≤ (P / D + 5) / 10 ∧ -(5 * D) ≤ P - 10 * (D * ((P / D + 5) / 10))
      ∧ P - 10 * (D * ((P / D + 5) / 10)) ≤ 5 * D - 1 := by
  have ht : 0 ≤ P / D := Int.ediv_nonneg hP (le_of_lt hD)
  have h1 : D * (P / D) ≤ P := Int.mul_ediv_self_le (ne_of_gt hD)
  have h2 : P < D * (P / D) + D := Int.lt_mul_ediv_self_add hD
  generalize P / D = t at *
  have h3 : 10 * ((t + 5) / 10) ≤ t + 5 := by omega
  have h4 : t + 5 ≤ 10 * ((t + 5) / 10) + 9 := by omega
  have hR : 0 ≤ (t + 5) / 10 := by omega
  generalize (t + 5) / 10 = R at *
  have h5 : D * (10 * R) ≤ D * (t + 5) := mul_le_mul_of_nonneg_left h3 (le_of_lt hD)
  have h6 : D * (t + 5) ≤ D * (10 * R + 9) := mul_le_mul_of_nonneg_left h4 (le_of_lt hD)
  refine ⟨hR, ?_, ?_⟩
  · linarith
  · linarith

theorem bankCore_nearest (N D : Int) (hD : 0 < D) : IsNearestEven N (10 * D) (bankCore N D) := by
  unfold bankCore IsNearestEven
  rcases le_or_lt 0 N with hN | hN
  · obtain ⟨hR, hlo, hhi⟩ := half_bounds N D hN hD
    have ht : Int.tdiv N D = N / D := Int.tdiv_eq_ediv hN (le_of_lt hD)
    have ht0 : 0 ≤ N / D := Int.ediv_nonneg hN (le_of_lt hD)
    simp only [ht, if_neg (not_lt.mpr ht0)]
    have hv : Int.tdiv (N / D + 5) 10 = (N / D + 5) / 10 :=
      Int.tdiv_eq_ediv (by omega) (by decide)
    rw [hv]
    generalize (N / D + 5) / 10 = R at *
    have hB : ∀ x : Int, x * (10 * D) = 10 * (D * x) := fun x => by ring
    have hd : N - R * (10 * D) = N - 10 * (D * R) := by rw [hB]
    rw [hd]
    generalize hdiff : N - 10 * (D * R) = diff at *
    by_cases htie : |diff| = 5 * D ∧ R % 2 ≠ 0
    · rw [if_pos htie, if_neg (not_lt.mpr hR)]
      have hdv : diff = -(5 * D) := by
        rcases abs_eq (by omega : (0:Int) ≤ 5 * D) |>.mp htie.1 with h | h
        · omega
        · exact h
      have hk : N - (R - 1) * (10 * D) = 5 * D := by
        rw [hB, mul_sub, mul_one]
        omega
      rw [hk, abs_of_pos (by omega)]
      right
      exact ⟨by ring, by omega⟩
    · rw [if_neg htie, hd]
      have habs : |diff| ≤ 5 * D := abs_le.mpr ⟨hlo, by omega⟩
      by_cases he : |diff| = 5 * D
      · right
        exact ⟨by omega, by
          by_contra hodd
          exact htie ⟨he, hodd⟩⟩
      · left
        omega
  · have hP : 0 ≤ -N := by omega
    obtain ⟨hR, hlo, hhi⟩ := half_bounds (-N) D hP hD
    have ht : Int.tdiv N D = -(-N / D) := by
      rw [← Int.tdiv_eq_ediv hP (le_of_lt hD), Int.neg_tdiv, neg_neg]
    have ht0 : 0 ≤ -N / D := Int.ediv_nonneg hP (le_of_lt hD)
    have hround : Int.tdiv (if -(-N / D) < 0 then -(-N / D) - 5 else -(-N / D) + 5) 10
        = -((-N / D + 5) / 10) := by
      by_cases hz : -(-N / D) < 0
      · rw [if_pos hz]
        have : -(-N / D) - 5 = -((-N / D) + 5) := by ring
        rw [this, Int.neg_tdiv, Int.tdiv_eq_ediv (by omega) (by decide)]
      · rw [if_neg hz]
        have h0 : -N / D = 0 := by omega
        rw [h0]
        decide
    simp only [ht, hround]
    generalize (-N / D + 5) / 10 = R at *
    have hB : ∀ x : Int, x * (10 * D) = 10 * (D * x) := fun x => by ring
    have hd : N - -R * (10 * D) = N + 10 * (D * R) := by
      rw [hB]
      ring
    rw [hd]
    have hlo2 : -(5 * D) ≤ -N - 10 * (D * R) := hlo
    have hhi2 : -N - 10 * (D * R) ≤ 5 * D - 1 := hhi
    generalize hdiff : N + 10 * (D * R) = diff at *
    have hdl : -(5 * D) + 1 ≤ diff := by omega
    have hdh : diff ≤ 5 * D := by omega
    by_cases htie : |diff| = 5 * D ∧ -R % 2 ≠ 0
    · have hRpos : -R < 0 := by omega
      rw [if_pos htie, if_pos hRpos]
      have hdv : diff = 5 * D := by
        rcases abs_eq (by omega : (0:Int) ≤ 5 * D) |>.mp htie.1 with h | h
        · exact h
        · omega
      have hk : N - (-R + 1) * (10 * D) = -(5 * D) := by
        rw [hB, mul_add, mul_one, mul_neg]
        omega
      rw [hk, abs_neg, abs_of_pos (by omega)]
      right
      exact ⟨by ring, by omega⟩
    · rw [if_neg htie, hd]
      have habs : |diff| ≤ 5 * D := abs_le.mpr ⟨by omega, hdh⟩
      by_cases he : |diff| = 5 * D
      · right
        exact ⟨by omega, by
          by_contra hodd
          exact htie ⟨he, hodd⟩⟩
      · left
        omega

theorem rescale_down (N e : Int) (n : Nat) (he : e = -((n : Int) + 1)) :
    ((⟨N, e⟩ : Decimal).rescale (-0 - 1)).value = Int.tdiv N (10 ^ n) := by
  unfold Decimal.rescale
  by_cases h0 : n = 0
  · subst h0
    have : e = -0 - 1 := by omega
    simp [this]
  · have h1 : ¬ e = -0 - 1 := by omega
    have h2 : e < -0 - 1 := by omega
    have h3 : (-0 - 1 - e).toNat = n := by omega
    simp only [if_neg h1, if_pos h2, h3]

theorem rescale_up (R e : Int) (n : Nat) (he : e = -((n : Int) + 1)) :
    ((⟨R, -0⟩ : Decimal).rescale e).value = R * 10 ^ (n + 1) := by
  unfold Decimal.rescale
  have h1 : ¬ (-0 : Int) = e := by omega
  have h2 : ¬ (-0 : Int) < e := by omega
  have h3 : (-0 - e).toNat = n + 1 := by omega
  simp only [if_neg h1, if_neg h2, h3]

theorem rescale_half (e : Int) (n : Nat) (he : e = -((n : Int) + 1)) :
    ((⟨5, -0 - 1⟩ : Decimal).rescale e).value = 5 * 10 ^ n := by
  unfold Decimal.rescale
  by_cases h0 : n = 0
  · subst h0
    have : (-0 - 1 : Int) = e := by omega
    rw [if_pos this]
    decide
  · have h1 : ¬ (-0 - 1 : Int) = e := by omega
    have h2 : ¬ (-0 - 1 : Int) < e := by omega
    have h3 : (-0 - 1 - e).toNat = n := by omega
    simp only [if_neg h1, if_neg h2, h3]

theorem rescale_same (x e : Int) : (⟨x, e⟩ : Decimal).rescale e = ⟨x, e⟩ := by
  unfold Decimal.rescale
  simp

theorem cmp_chain (x y : Int) : (if x < y then (-1 : Int) else if x = y then 0 else 1) = 0 ↔ x = y := by
  split_ifs with h1 h2
  · constructor
    · intro h; cases h
    · intro h; omega
  · simp [h2]
  · simp [h2]

theorem roundBank_neg_exp (N e : Int) (n : Nat) (he : e = -((n : Int) + 1)) :
    (⟨N, e⟩ : Decimal).RoundBank 0 = ⟨bankCore N (10 ^ n), 0⟩ := by
  have hr := rescale_down N e n he
  have h1 : ¬ e = -0 := by omega
  have hm1 : e ⊓ -0 = e := by
    rw [min_eq_left]
    omega
  have hm2 : e ⊓ (-0 - 1) = e := by
    rw [min_eq_left]
    omega
  unfold Decimal.RoundBank Decimal.Round
  simp only [if_neg h1]
  rw [hr]
  unfold Decimal.Sub Decimal.Abs Decimal.Cmp
  simp only [hm1, hm2, rescale_same, rescale_up _ e n he, rescale_half e n he, cmp_chain]
  unfold bankCore
  simp only []
  generalize (if N.tdiv (10 ^ n) < 0 then N.tdiv (10 ^ n) - 5 else N.tdiv (10 ^ n) + 5).tdiv 10
    = R
  have hp : (10 : Int) ^ (n + 1) = 10 * 10 ^ n := by rw [pow_succ]; ring
  rw [hp]
  have hz : (-0 : Int) = 0 := by decide
  rw [hz]
  split_ifs <;> rfl

theorem tdiv_round_ten (M : Int) :
    Int.tdiv (if 10 * M < 0 then 10 * M - 5 else 10 * M + 5) 10 = M := by
  by_cases h : 10 * M < 0
  · rw [if_pos h]
    have h1 : 10 * M - 5 = -(10 * (-M) + 5) := by ring
    rw [h1, Int.neg_tdiv, Int.tdiv_eq_ediv (by omega) (by decide)]
    omega
  · rw [if_neg h, Int.tdiv_eq_ediv (by omega) (by decide)]
    omega

theorem roundBank_nonneg_exp (N e : Int) (he : 0 ≤ e) :
    (((⟨N, e⟩ : Decimal).RoundBank 0).rescale 0).value = N * 10 ^ e.toNat := by
  have hz : (-0 : Int) = 0 := by decide
  by_cases h0 : e = 0
  · subst h0
    unfold Decimal.RoundBank Decimal.Round Decimal.Sub Decimal.Abs Decimal.Cmp
    simp only [hz, if_true, rescale_same, sub_self, abs_zero, cmp_chain, min_self]
    have hx : ((⟨0, 0⟩ : Decimal).rescale (0 ⊓ (0 - 1))).value = 0 := by
      unfold Decimal.rescale
      split_ifs <;> simp
    have hy : ((⟨5, 0 - 1⟩ : Decimal).rescale (0 ⊓ (0 - 1))).value = 5 := by decide
    rw [hx, hy]
    simp [rescale_same]
  · have hpos : 0 < e := by omega
    have h1 : ¬ e = -0 := by omega
    have hresc : ∀ x : Int, ((⟨x, e⟩ : Decimal).rescale 0).value = x * 10 ^ e.toNat := by
      intro x
      unfold Decimal.rescale
      have h2 : ¬ e < 0 := by omega
      simp only [if_neg h0, if_neg h2, sub_zero]
    have hr : ((⟨N, e⟩ : Decimal).rescale (-0 - 1)).value = 10 * (N * 10 ^ e.toNat) := by
      unfold Decimal.rescale
      have h2 : ¬ e = -0 - 1 := by omega
      have h3 : ¬ e < -0 - 1 := by omega
      have h4 : (e - (-0 - 1)).toNat = e.toNat + 1 := by omega
      simp only [if_neg h2, if_neg h3, h4, pow_succ]
      ring
    unfold Decimal.RoundBank Decimal.Round
    simp only [if_neg h1]
    rw [hr, tdiv_round_ten]
    unfold Decimal.Sub Decimal.Abs Decimal.Cmp
    have hm1 : e ⊓ 0 = 0 := by
      rw [min_eq_right]
      omega
    simp only [hz, hm1, hresc, rescale_same, sub_self, abs_zero, cmp_chain]
    have hx : ((⟨0, 0⟩ : Decimal).rescale (0 ⊓ (0 - 1))).value = 0 := by
      unfold Decimal.rescale
      split_ifs <;> simp
    have hy : ((⟨5, 0 - 1⟩ : Decimal).rescale (0 ⊓ (0 - 1))).value = 5 := by decide
    rw [hx, hy]
    simp [rescale_same]

theorem IsNearestEven_range (num den k L U : Int) (hden : 0 < den)
    (h : IsNearestEven num den k) (hL : L * den ≤ num) (hU : num ≤ U * den) :
    L ≤ k ∧ k ≤ U := by
  have hb : 2 * |num - k * den| ≤ den := by
    rcases h with h | h
    · exact le_of_lt h
    · exact le_of_eq h.1
  have h1 := neg_abs_le (num - k * den)
  have h2 := le_abs_self (num - k * den)
  constructor
  · by_contra hc
    have hk : k + 1 ≤ L := by omega
    have := mul_le_mul_of_nonneg_right hk (le_of_lt hden)
    have h3 : (k + 1) * den = k * den + den := by ring
    omega
  · by_contra hc
    have hk : U + 1 ≤ k := by omega
    have := mul_le_mul_of_nonneg_right hk (le_of_lt hden)
    have h3 : (U + 1) * den = U * den + den := by ring
    omega

theorem IsNearestEven_unique (num den k1 k2 : Int) (hden : 0 < den)
    (h1 : IsNearestEven num den k1) (h2 : IsNearestEven num den k2) : k1 = k2 := by
  have key : ∀ a b : Int, IsNearestEven num den a → IsNearestEven num den b → ¬ a < b := by
    intro a b ha hb hlt
    have hk : a + 1 ≤ b := by omega
    have hm := mul_le_mul_of_nonneg_right hk (le_of_lt hden)
    have h3 : (a + 1) * den = a * den + den := by ring
    have a1 := neg_abs_le (num - a * den)
    have a2 := le_abs_self (num - a * den)
    have b1 := neg_abs_le (num - b * den)
    have b2 := le_abs_self (num - b * den)
    rcases ha with ha | ⟨ha, hae⟩
    · rcases hb with hb | ⟨hb, _⟩ <;> omega
    · rcases hb with hb | ⟨hb, hbe⟩
      · omega
      · have hbd : b * den = a * den + den := by omega
        have : (b - a - 1) * den = 0 := by
          have : (b - a - 1) * den = b * den - (a * den + den) := by ring
          omega
        rcases mul_eq_zero.mp this with h | h
        · omega
        · omega
  rcases lt_trichotomy k1 k2 with h | h | h
  · exact absurd h (key k1 k2 h1 h2)
  · exact h
  · exact absurd h (key k2 k1 h2 h1)

theorem convertMinor_neg_exp (a v e : Int) (n : Nat) (he : e = -((n : Int) + 1)) :
    convertMinor a ⟨v, e⟩ = wrapInt64 (bankCore (a * v) (10 ^ n)) := by
  unfold convertMinor Decimal.NewFromInt Decimal.Mul Decimal.IntPart
  simp only [zero_add]
  rw [roundBank_neg_exp (a * v) e n he, rescale_same]

theorem convertMinor_nonneg_exp (a v e : Int) (he : 0 ≤ e) :
    convertMinor a ⟨v, e⟩ = wrapInt64 (a * v * 10 ^ e.toNat) := by
  unfold convertMinor Decimal.NewFromInt Decimal.Mul Decimal.IntPart
  simp only [zero_add]
  rw [roundBank_nonneg_exp (a * v) e he]

/-- C16: write the product `amountMinor * rate` as the fraction `num / den` with
`num = amountMinor * rate.value * 10 ^ exp` and `den = 1` when the rate's exponent is not
negative, and `num = amountMinor * rate.value`, `den = 10 ^ (-exp)` otherwise. When the
product lies between the smallest and the largest `int64`, `convertMinor` returns the
integer nearest to it, an exact half going to the even neighbour (for amounts and rates of
either sign). That integer is unique. -/
theorem convertMinor_round_half_even (amountMinor : Int) (rate : Decimal)
    (hfit : -2 ^ 63 * 10 ^ (-rate.exp).toNat ≤ amountMinor * rate.value * 10 ^ rate.exp.toNat
      ∧ amountMinor * rate.value * 10 ^ rate.exp.toNat ≤ (2 ^ 63 - 1) * 10 ^ (-rate.exp).toNat) :
    IsNearestEven (amountMinor * rate.value * 10 ^ rate.exp.toNat) (10 ^ (-rate.exp).toNat)
      (convertMinor amountMinor rate)
    ∧ isInt64 (convertMinor amountMinor rate)
    ∧ ∀ k, IsNearestEven (amountMinor * rate.value * 10 ^ rate.exp.toNat)
        (10 ^ (-rate.exp).toNat) k → k = convertMinor amountMinor rate := by
  obtain ⟨v, e⟩ := rate
  simp only at hfit ⊢
  have hden : (0 : Int) < 10 ^ (-e).toNat := by positivity
  have main : IsNearestEven (amountMinor * v * 10 ^ e.toNat) (10 ^ (-e).toNat)
      (convertMinor amountMinor ⟨v, e⟩) ∧ isInt64 (convertMinor amountMinor ⟨v, e⟩) := by
    rcases lt_or_le e 0 with he | he
    · obtain ⟨n, hn⟩ : ∃ n : Nat, e = -((n : Int) + 1) := ⟨(-e - 1).toNat, by omega⟩
      have h1 : e.toNat = 0 := by omega
      have h2 : (-e).toNat = n + 1 := by omega
      rw [h1, h2, pow_zero, mul_one] at hfit ⊢
      have hp : (10 : Int) ^ (n + 1) = 10 * 10 ^ n := by rw [pow_succ]; ring
      rw [hp] at hfit ⊢
      have hk := bankCore_nearest (amountMinor * v) (10 ^ n) (by positivity)
      have hr := IsNearestEven_range _ _ _ (-2 ^ 63) (2 ^ 63 - 1) (by positivity) hk
        hfit.1 hfit.2
      rw [convertMinor_neg_exp amountMinor v e n hn,
        wrapInt64_of_isInt64 (by unfold isInt64; omega)]
      exact ⟨hk, by unfold isInt64; omega⟩
    · have h2 : (-e).toNat = 0 := by omega
      rw [h2, pow_zero, mul_one, mul_one] at hfit
      rw [h2, pow_zero]
      rw [convertMinor_nonneg_exp amountMinor v e he,
        wrapInt64_of_isInt64 (by unfold isInt64; omega)]
      refine ⟨Or.inl ?_, by unfold isInt64; omega⟩
      simp
  exact ⟨main.1, main.2, fun k hk => IsNearestEven_unique _ _ _ _ hden hk main.1⟩

set_option maxRecDepth 100000 in
/-- C16 on 1000 at 0.92, which gives 920, with 1 at 0.92 giving 1 and the exact halves 12.5
and 17.5 giving 12 and 18. -/
theorem convertMinor_round_half_even_witness :
    (IsNearestEven (1000 * (⟨92, -2⟩ : Decimal).value * 10 ^ (⟨92, -2⟩ : Decimal).exp.toNat)
        (10 ^ (-(⟨92, -2⟩ : Decimal).exp).toNat) (convertMinor 1000 ⟨92, -2⟩)
      ∧ isInt64 (convertMinor 1000 ⟨92, -2⟩)
      ∧ ∀ k, IsNearestEven (1000 * (⟨92, -2⟩ : Decimal).value * 10 ^ (⟨92, -2⟩ : Decimal).exp.toNat)
          (10 ^ (-(⟨92, -2⟩ : Decimal).exp).toNat) k → k = convertMinor 1000 ⟨92, -2⟩)
    ∧ convertMinor 1000 ⟨92, -2⟩ = 920
    ∧ convertMinor 1 ⟨92, -2⟩ = 1
    ∧ convertMinor 25 ⟨5, -1⟩ = 12
    ∧ convertMinor 35 ⟨5, -1⟩ = 18 :=
  ⟨convertMinor_round_half_even 1000 ⟨92, -2⟩ ⟨by decide, by decide⟩,
    by decide, by decide, by decide, by decide⟩

/-! ### Rates and quotes -/

theorem allowed_pair_cases {fromCurrency toCurrency : String}
    (h : isExchangePairAllowed fromCurrency toCurrency = true) :
    (fromCurrency = "USD" ∧ toCurrency = "EUR") ∨ (fromCurrency = "EUR" ∧ toCurrency = "USD") := by
  unfold isExchangePairAllowed at h
  simp only [Bool.or_eq_true, Bool.and_eq_true, beq_iff_eq] at h
  exact h

set_option maxRecDepth 100000 in
/-- C17: the rate from USD to EUR is 0.92 and the rate from EUR to USD is 1.086957, which is
`1 / 0.92 = 100 / 92` rounded half-to-even to 6 decimals; no other pair is allowed.
`QuoteExchange` and `Exchange` both take the rate of a pair from `directionalRate`, and the
rate text a quote carries, read back as `Exchange` reads it, equals that rate. -/
theorem directional_rate_values :
    directionalRate "USD" "EUR" = ⟨92, -2⟩
    ∧ directionalRate "EUR" "USD" = ⟨1086957, -6⟩
    ∧ IsNearestEven (100 * 10 ^ 6) 92 1086957
    ∧ (∀ fromCurrency toCurrency, isExchangePairAllowed fromCurrency toCurrency = true →
        (fromCurrency = "USD" ∧ toCurrency = "EUR"
          ∧ directionalRate fromCurrency toCurrency = ⟨92, -2⟩
          ∧ (directionalRate fromCurrency toCurrency).StringFixedBank 6 = "0.920000")
        ∨ (fromCurrency = "EUR" ∧ toCurrency = "USD"
          ∧ directionalRate fromCurrency toCurrency = ⟨1086957, -6⟩
          ∧ (directionalRate fromCurrency toCurrency).StringFixedBank 6 = "1.086957"))
    ∧ (∀ fromCurrency toCurrency, isExchangePairAllowed fromCurrency toCurrency = true →
        ∃ rate, Decimal.NewFromString ((directionalRate fromCurrency toCurrency).StringFixedBank 6)
            = some rate
          ∧ rate.Equal (directionalRate fromCurrency toCurrency) = true) := by
  refine ⟨by decide, by decide, by decide, ?_, ?_⟩
  · intro fc tc h
    rcases allowed_pair_cases h with ⟨rfl, rfl⟩ | ⟨rfl, rfl⟩
    · exact Or.inl ⟨rfl, rfl, by decide, by decide⟩
    · exact Or.inr ⟨rfl, rfl, by decide, by decide⟩
  · intro fc tc h
    rcases allowed_pair_cases h with ⟨rfl, rfl⟩ | ⟨rfl, rfl⟩
    · exact ⟨⟨920000, -6⟩, by decide, by decide⟩
    · exact ⟨⟨1086957, -6⟩, by decide, by decide⟩

section QuoteProofs

variable {σ ν : Type} (S : Stores σ)

/-- C18: a `QuoteExchange` that returns a quote made exactly three calls: the two plain
reads of the accounts and one `Create` of a quote carrying the request's user, accounts and
amount, the rate of the pair printed with 6 decimals, the converted amount
`convertMinor amount rate` and the expiry `now + 2 * Minute`, with `now` the reading of the
clock and the id the fresh identifier; the quote returned has the same id, rate text,
converted amount and expiry. No call is a locked read or a balance update. -/
theorem quoteExchange_persists (req : ExchangeQuoteRequest) (w : World σ ν)
    (q : services.ExchangeQuote) (h : (QuoteExchange S req w).1 = .ok q) :
    ∃ (fromAccount toAccount : Account) (quoteID : String) (now : Int)
        (input : ExchangeQuoteInput),
      quoteID = (S.NewString (S.GetByID req.ToAccountID
        (S.GetByID req.FromAccountID w.db).2).2).1
      ∧ now = (S.Now (S.NewString (S.GetByID req.ToAccountID
        (S.GetByID req.FromAccountID w.db).2).2).2).1
      ∧ input = {
          ID := quoteID
          UserID := req.UserID
          FromAccountID := req.FromAccountID
          ToAccountID := req.ToAccountID
          AmountMinor := req.AmountMinor
          ConvertedMinor := convertMinor req.AmountMinor
            (directionalRate fromAccount.Currency toAccount.Currency)
          Rate := (directionalRate fromAccount.Currency toAccount.Currency).StringFixedBank 6
          BaseCurrency := fromAccount.Currency
          QuoteCurrency := toAccount.Currency
          ExpiresAt := now + 2 * Minute }
      ∧ (QuoteExchange S req w).2.log = w.log ++ [
          Call.GetByID req.FromAccountID (.ok fromAccount),
          Call.GetByID req.ToAccountID (.ok toAccount),
          Call.QuoteCreate input (.ok ())]
      ∧ q = { ID := quoteID, Rate := input.Rate, ConvertedMinor := input.ConvertedMinor,
              ExpiresAt := now + 2 * Minute }
      ∧ 2 * Minute = 120 * 1000000000
      ∧ ((fromAccount.Currency = "USD" ∧ toAccount.Currency = "EUR" ∧ q.Rate = "0.920000")
        ∨ (fromAccount.Currency = "EUR" ∧ toAccount.Currency = "USD" ∧ q.Rate = "1.086957"))
      ∧ lockedIDs [
          Call.GetByID req.FromAccountID (.ok fromAccount),
          Call.GetByID req.ToAccountID (.ok toAccount),
          Call.QuoteCreate input (.ok ())] = []
      ∧ ∀ accountID, balanceWrites accountID [
          Call.GetByID req.FromAccountID (.ok fromAccount),
          Call.GetByID req.ToAccountID (.ok toAccount),
          Call.QuoteCreate input (.ok ())] = [] := by
  rcases hrun : QuoteExchange S req w with ⟨res, w'⟩
  rw [hrun] at h
  simp only at h
  subst h
  unfold QuoteExchange GetByID NewString Now QuoteCreate at hrun
  obtain ⟨_, w1, s1, h1⟩ := bind_ok_elim hrun
  obtain ⟨-, hd1, hl1, -⟩ := failIf_ok_elim s1
  obtain ⟨_, w2, s2, h2⟩ := bind_ok_elim h1
  obtain ⟨-, hd2, hl2, -⟩ := failIf_ok_elim s2
  obtain ⟨fa, w3, s3, h3⟩ := bind_ok_elim h2
  obtain ⟨hfa, hd3, hl3, -⟩ := call_ok_elim s3
  obtain ⟨ta, w4, s4, h4⟩ := bind_ok_elim h3
  obtain ⟨hta, hd4, hl4, -⟩ := call_ok_elim s4
  obtain ⟨_, w5, s5, h5⟩ := bind_ok_elim h4
  obtain ⟨-, hd5, hl5, -⟩ := failIf_ok_elim s5
  obtain ⟨_, w6, s6, h6⟩ := bind_ok_elim h5
  obtain ⟨hpair, hd6, hl6, -⟩ := failIf_ok_elim s6
  obtain ⟨qid, w7, s7, h7⟩ := bind_ok_elim h6
  obtain ⟨hqid, hd7, hl7, -⟩ := ambient_ok_elim s7
  obtain ⟨now, w8, s8, h8⟩ := bind_ok_elim h7
  obtain ⟨hnow, hd8, hl8, -⟩ := ambient_ok_elim s8
  obtain ⟨_, w9, s9, h9⟩ := bind_ok_elim h8
  obtain ⟨-, hd9, hl9, -⟩ := call_ok_elim s9
  obtain ⟨hq, hw'⟩ := Op.pure_ok_iff.mp h9
  subst hw'
  have e2 : w2.db = w.db := by rw [hd2, hd1]
  have e4 : w4.db = (S.GetByID req.ToAccountID (S.GetByID req.FromAccountID w.db).2).2 := by
    rw [hd4, hd3, e2]
  have e6 : w6.db = w4.db := by rw [hd6, hd5]
  have hqid2 : qid = (S.NewString (S.GetByID req.ToAccountID
      (S.GetByID req.FromAccountID w.db).2).2).1 := by rw [hqid, e6, e4]
  have hnow2 : now = (S.Now (S.NewString (S.GetByID req.ToAccountID
      (S.GetByID req.FromAccountID w.db).2).2).2).1 := by rw [hnow, hd7, e6, e4]
  have hpair2 : isExchangePairAllowed fa.Currency ta.Currency = true := by
    by_contra hc
    exact hpair (Or.inr (by simpa using hc))
  refine ⟨fa, ta, qid, now, _, hqid2, hnow2, rfl, ?_, hq, by decide, ?_, rfl, fun _ => rfl⟩
  · rw [hl9, hl8, hl7, hl6, hl5, hl4, hl3, hl2, hl1]
    simp only [List.append_assoc, List.singleton_append]
    rfl
  · rw [hq]
    rcases allowed_pair_cases hpair2 with ⟨h1, h2⟩ | ⟨h1, h2⟩
    · refine Or.inl ⟨h1, h2, ?_⟩
      show (directionalRate fa.Currency ta.Currency).StringFixedBank 6 = "0.920000"
      rw [h1, h2]
      decide
    · refine Or.inr ⟨h1, h2, ?_⟩
      show (directionalRate fa.Currency ta.Currency).StringFixedBank 6 = "1.086957"
      rw [h1, h2]
      decide

set_option maxRecDepth 100000 in
/-- C18 on the exchange scenario: the quote for 1000 USD carries rate `0.920000`, converted
amount 920 and an expiry two minutes after the clock reading 0, and is the one row stored. -/
theorem quoteExchange_persists_witness :
    (QuoteExchange MemDB.stores quoteRequest exchangeDB.world).1
      = .ok { ID := "id-0", Rate := "0.920000", ConvertedMinor := 920,
              ExpiresAt := 120000000000 }
    ∧ (QuoteExchange MemDB.stores quoteRequest exchangeDB.world).2.db.committed.quotes.map
        (fun row => (row.ID, row.Rate, row.ConvertedMinor, row.ExpiresAt))
        = [("id-0", "0.920000", 920, 120000000000)]
    ∧ ∃ (fromAccount toAccount : Account) (input : ExchangeQuoteInput),
      (QuoteExchange MemDB.stores quoteRequest exchangeDB.world).2.log
        = exchangeDB.world.log ++ [
          Call.GetByID quoteRequest.FromAccountID (.ok fromAccount),
          Call.GetByID quoteRequest.ToAccountID (.ok toAccount),
          Call.QuoteCreate input (.ok ())] := by
  refine ⟨by decide, by decide, ?_⟩
  obtain ⟨fa, ta, _, _, input, _, _, _, hlog, _⟩ :=
    quoteExchange_persists MemDB.stores quoteRequest exchangeDB.world
      { ID := "id-0", Rate := "0.920000", ConvertedMinor := 920, ExpiresAt := 120000000000 }
      (by decide)
  exact ⟨fa, ta, input, hlog⟩

end QuoteProofs

section QuoteChecks

variable {σ ν : Type} (S : Stores σ)

theorem replaceError_lookup (quoteID : String) (w : World σ ν) (e : Error) :
    ((QuoteGetByID S quoteID).replaceError e) w =
      (match (S.QuoteGetByID quoteID w.db).1 with
        | .ok quote => .ok quote
        | .error _ => .error e,
       { w with db := (S.QuoteGetByID quoteID w.db).2,
                log := w.log ++ [Call.QuoteGetByID quoteID (S.QuoteGetByID quoteID w.db).1] }) := by
  unfold Op.replaceError QuoteGetByID Op.call
  rcases h : (S.QuoteGetByID quoteID w.db).1 with e1 | quote <;> simp [h]

theorem exchangeCommitment_quote (req : ExchangeRequest) (quoteID : String) (w : World σ ν)
    (hq : req.QuoteID = some quoteID) :
    (∀ e, (S.QuoteGetByID quoteID w.db).1 = .error e →
      (exchangeCommitment S req w).1 = .error .ErrQuoteNotFound
      ∧ (exchangeCommitment S req w).2.log = w.log ++ [Call.QuoteGetByID quoteID (.error e)])
    ∧ (∀ quote, (S.QuoteGetByID quoteID w.db).1 = .ok quote →
      ((exchangeCommitment S req w).2.log = w.log ++ [Call.QuoteGetByID quoteID (.ok quote)])
      ∧ (quote.ConsumedAt ≠ none →
          (exchangeCommitment S req w).1 = .error .ErrQuoteConsumed)
      ∧ (quote.ConsumedAt = none →
          quote.ExpiresAt < (S.Now (S.QuoteGetByID quoteID w.db).2).1 →
          (exchangeCommitment S req w).1 = .error .ErrQuoteExpired)
      ∧ (quote.ConsumedAt = none →
          ¬ quote.ExpiresAt < (S.Now (S.QuoteGetByID quoteID w.db).2).1 →
          (quote.UserID ≠ req.UserID ∨ quote.FromAccountID ≠ req.FromAccountID
            ∨ quote.ToAccountID ≠ req.ToAccountID ∨ quote.AmountMinor ≠ req.AmountMinor) →
          (exchangeCommitment S req w).1 = .error .ErrInvalidExchangeRequest)) := by
  unfold exchangeCommitment
  simp only [hq]
  constructor
  · intro e he
    have h1 := replaceError_lookup S quoteID w .ErrQuoteNotFound
    rw [he] at h1
    rw [Op.bind_of_error h1]
    exact ⟨rfl, rfl⟩
  · intro quote hqt
    have h1 := replaceError_lookup S quoteID w .ErrQuoteNotFound
    rw [hqt] at h1
    rw [Op.bind_of_ok h1]
    by_cases hc : quote.ConsumedAt.isSome = true
    · rw [Op.bind_of_error (Op.failIf_of_true _ _ hc)]
      refine ⟨rfl, fun _ => rfl, fun h => ?_, fun h => ?_⟩
      · rw [h] at hc; cases hc
      · rw [h] at hc; cases hc
    · rw [Op.bind_of_ok (Op.failIf_of_false _ _ hc)]
      have hnone : quote.ConsumedAt = none := by
        cases hca : quote.ConsumedAt with
        | none => rfl
        | some t => rw [hca] at hc; exact absurd rfl hc
      have hnow : Now S (⟨(S.QuoteGetByID quoteID w.db).2,
            w.log ++ [Call.QuoteGetByID quoteID (.ok quote)], w.vars⟩ : World σ ν)
          = (.ok (S.Now (S.QuoteGetByID quoteID w.db).2).1,
             ⟨(S.Now (S.QuoteGetByID quoteID w.db).2).2,
              w.log ++ [Call.QuoteGetByID quoteID (.ok quote)], w.vars⟩) := rfl
      rw [Op.bind_of_ok hnow]
      by_cases hexp : quote.ExpiresAt < (S.Now (S.QuoteGetByID quoteID w.db).2).1
      · rw [Op.bind_of_error (Op.failIf_of_true _ _ hexp)]
        exact ⟨rfl, fun h => absurd hnone h, fun _ _ => rfl, fun _ h => absurd hexp h⟩
      · rw [Op.bind_of_ok (Op.failIf_of_false _ _ hexp)]
        by_cases hm : quote.UserID ≠ req.UserID ∨ quote.FromAccountID ≠ req.FromAccountID
            ∨ quote.ToAccountID ≠ req.ToAccountID
        · rw [Op.bind_of_error (Op.failIf_of_true _ _ hm)]
          exact ⟨rfl, fun h => absurd hnone h, fun _ h => absurd h hexp, fun _ _ _ => rfl⟩
        · rw [Op.bind_of_ok (Op.failIf_of_false _ _ hm)]
          by_cases ha : quote.AmountMinor ≠ req.AmountMinor
          · rw [Op.bind_of_error (Op.failIf_of_true _ _ ha)]
            exact ⟨rfl, fun h => absurd hnone h, fun _ h => absurd h hexp, fun _ _ _ => rfl⟩
          · rw [Op.bind_of_ok (Op.failIf_of_false _ _ ha)]
            refine ⟨?_, fun h => absurd hnone h, fun _ h => absurd h hexp, fun _ _ h => ?_⟩
            · cases Decimal.NewFromString quote.Rate <;> rfl
            · exfalso
              rcases h with h | h | h | h
              · exact hm (Or.inl h)
              · exact hm (Or.inr (Or.inl h))
              · exact hm (Or.inr (Or.inr h))
              · exact ha h

theorem Exchange_of_commitment_error (req : ExchangeRequest) (w : World σ Unit)
    (hpos : 0 < req.AmountMinor) {e : Error}
    (h : (exchangeCommitment S req w).1 = .error e) :
    Exchange S req w = (.error e, (exchangeCommitment S req w).2) := by
  unfold Exchange
  rw [Op.bind_of_ok (Op.failIf_of_false _ _ (not_le.mpr hpos))]
  rcases hc : exchangeCommitment S req w with ⟨r, w1⟩
  rw [hc] at h
  simp only at h
  subst h
  rw [Op.bind_of_error hc]

/-- C19: for an `Exchange` with a positive amount that names a quote, the checks made before
any transaction run in this order: a failed lookup gives `ErrQuoteNotFound`; a quote whose
`consumed_at` is set gives `ErrQuoteConsumed`; otherwise an expiry before the current time
gives `ErrQuoteExpired`; otherwise a quote whose user, source account, destination account or
amount differs from the request gives `ErrInvalidExchangeRequest`. In each case the only
call made is the quote lookup: no transaction is begun. -/
theorem exchange_quote_checks (req : ExchangeRequest) (quoteID : String) (w : World σ Unit)
    (hpos : 0 < req.AmountMinor) (hq : req.QuoteID = some quoteID) :
    (∀ e, (S.QuoteGetByID quoteID w.db).1 = .error e →
      (Exchange S req w).1 = .error .ErrQuoteNotFound
      ∧ (Exchange S req w).2.log = w.log ++ [Call.QuoteGetByID quoteID (.error e)])
    ∧ (∀ quote, (S.QuoteGetByID quoteID w.db).1 = .ok quote →
      (quote.ConsumedAt ≠ none →
        (Exchange S req w).1 = .error .ErrQuoteConsumed
        ∧ (Exchange S req w).2.log = w.log ++ [Call.QuoteGetByID quoteID (.ok quote)])
      ∧ (quote.ConsumedAt = none →
          quote.ExpiresAt < (S.Now (S.QuoteGetByID quoteID w.db).2).1 →
        (Exchange S req w).1 = .error .ErrQuoteExpired
        ∧ (Exchange S req w).2.log = w.log ++ [Call.QuoteGetByID quoteID (.ok quote)])
      ∧ (quote.ConsumedAt = none →
          ¬ quote.ExpiresAt < (S.Now (S.QuoteGetByID quoteID w.db).2).1 →
          (quote.UserID ≠ req.UserID ∨ quote.FromAccountID ≠ req.FromAccountID
            ∨ quote.ToAccountID ≠ req.ToAccountID ∨ quote.AmountMinor ≠ req.AmountMinor) →
        (Exchange S req w).1 = .error .ErrInvalidExchangeRequest
        ∧ (Exchange S req w).2.log = w.log ++ [Call.QuoteGetByID quoteID (.ok quote)])) := by
  obtain ⟨h1, h2⟩ := exchangeCommitment_quote S req quoteID w hq
  constructor
  · intro e he
    obtain ⟨a, b⟩ := h1 e he
    rw [Exchange_of_commitment_error S req w hpos a]
    exact ⟨rfl, b⟩
  · intro quote hqt
    obtain ⟨hl, a, b, c⟩ := h2 quote hqt
    refine ⟨fun x => ?_, fun x y => ?_, fun x y z => ?_⟩
    · rw [Exchange_of_commitment_error S req w hpos (a x)]
      exact ⟨rfl, hl⟩
    · rw [Exchange_of_commitment_error S req w hpos (b x y)]
      exact ⟨rfl, hl⟩
    · rw [Exchange_of_commitment_error S req w hpos (c x y z)]
      exact ⟨rfl, hl⟩

end QuoteChecks

set_option maxRecDepth 100000 in
/-- C19 on the exchange scenario: a quote id that is not stored gives `ErrQuoteNotFound`
after the lookup alone, and an open quote read after its expiry gives `ErrQuoteExpired`. -/
theorem exchange_quote_checks_witness :
    (Exchange MemDB.stores quotedExchangeRequest exchangeDB.world).1 = .error .ErrQuoteNotFound
    ∧ (Exchange MemDB.stores quotedExchangeRequest exchangeDB.world).2.log
        = exchangeDB.world.log ++ [Call.QuoteGetByID "q-1" (.error MemDB.noRows)]
    ∧ (Exchange MemDB.stores quotedExchangeRequest
        { zeroQuoteDB with clock := 3 * Minute }.world).1 = .error .ErrQuoteExpired :=
  ⟨((exchange_quote_checks MemDB.stores quotedExchangeRequest "q-1" exchangeDB.world
      (by decide) rfl).1 MemDB.noRows (by decide)).1,
   ((exchange_quote_checks MemDB.stores quotedExchangeRequest "q-1" exchangeDB.world
      (by decide) rfl).1 MemDB.noRows (by decide)).2,
   by decide⟩

/-! ### Rate checks of `Exchange` -/

theorem Decimal.rescale_le (d : Decimal) (m : Int) (h : m ≤ d.exp) :
    (d.rescale m).value = d.value * 10 ^ (d.exp - m).toNat := by
  unfold Decimal.rescale
  by_cases h1 : d.exp = m
  · rw [if_pos h1, h1]
    simp
  · have h2 : ¬ d.exp < m := by omega
    rw [if_neg h1, if_neg h2]

theorem Decimal.Equal_iff (a b : Decimal) :
    a.Equal b = true ↔
      a.value * 10 ^ (a.exp - min a.exp b.exp).toNat
        = b.value * 10 ^ (b.exp - min a.exp b.exp).toNat := by
  unfold Decimal.Equal Decimal.Cmp
  simp only [decide_eq_true_eq]
  rw [Decimal.rescale_le a _ (min_le_left _ _), Decimal.rescale_le b _ (min_le_right _ _)]
  split_ifs with h1 h2
  · constructor
    · intro h; cases h
    · intro h; omega
  · simp [h2]
  · simp [h2]

section RateChecks

variable {σ ν : Type} (S : Stores σ)

theorem exchangeCommitment_ok (req : ExchangeRequest) (w : World σ ν) (pre : ExchangeVars)
    (h : (exchangeCommitment S req w).1 = .ok pre) :
    (∀ quoteID, req.QuoteID = some quoteID →
      ∃ quote, (S.QuoteGetByID quoteID w.db).1 = .ok quote
        ∧ pre.expectedConverted = quote.ConvertedMinor
        ∧ Decimal.NewFromString quote.Rate = some pre.rate)
    ∧ (req.QuoteID = none →
      pre.expectedConverted = 0
        ∧ ∃ text, req.QuotedRate = some text ∧ Decimal.NewFromString text = some pre.rate) := by
  rcases hrun : exchangeCommitment S req w with ⟨res, w'⟩
  rw [hrun] at h
  simp only at h
  subst h
  unfold exchangeCommitment at hrun
  constructor
  · intro quoteID hq
    simp only [hq] at hrun
    obtain ⟨quote, w1, s1, h1⟩ := bind_ok_elim hrun
    have hl := replaceError_lookup S quoteID w .ErrQuoteNotFound
    rw [s1] at hl
    have hq1 : (S.QuoteGetByID quoteID w.db).1 = .ok quote := by
      rcases hr : (S.QuoteGetByID quoteID w.db).1 with e | q2
      · rw [hr] at hl
        simp at hl
      · rw [hr] at hl
        simp only [Prod.mk.injEq, Except.ok.injEq] at hl
        rw [hl.1]
    obtain ⟨_, w2, s2, h2⟩ := bind_ok_elim h1
    obtain ⟨now, w3, s3, h3⟩ := bind_ok_elim h2
    obtain ⟨_, w4, s4, h4⟩ := bind_ok_elim h3
    obtain ⟨_, w5, s5, h5⟩ := bind_ok_elim h4
    obtain ⟨_, w6, s6, h6⟩ := bind_ok_elim h5
    refine ⟨quote, hq1, ?_⟩
    cases hr : Decimal.NewFromString quote.Rate with
    | none =>
      rw [hr] at h6
      simp [Op.fail] at h6
    | some rate =>
      rw [hr] at h6
      obtain ⟨hp, _⟩ := Op.pure_ok_iff.mp h6
      rw [hp]
      exact ⟨rfl, rfl⟩
  · intro hq
    simp only [hq] at hrun
    cases hqr : req.QuotedRate with
    | none =>
      rw [hqr] at hrun
      simp [Op.fail] at hrun
    | some text =>
      rw [hqr] at hrun
      simp only at hrun
      cases hr : Decimal.NewFromString text with
      | none =>
        rw [hr] at hrun
        simp [Op.fail] at hrun
      | some rate =>
        rw [hr] at hrun
        obtain ⟨hp, _⟩ := Op.pure_ok_iff.mp hrun
        rw [hp]
        exact ⟨rfl, text, rfl, hr⟩

theorem exchangeWork_rate_checks (req : ExchangeRequest) (rate : Decimal) (quoteID : String)
    (expectedConverted : Int) {w1 w2 : World σ ExchangeVars} {p : Account × Account}
    (hlock : lockTwoAccounts S req.FromAccountID req.ToAccountID w1 = (.ok p, w2))
    (hown : notOwnedBy p.1.UserID req.UserID = false)
    (hne : p.1.Currency ≠ p.2.Currency)
    (hpair : isExchangePairAllowed p.1.Currency p.2.Currency = true) :
    (rate.Equal (directionalRate p.1.Currency p.2.Currency) = false →
      ∃ wx, exchangeWork S req rate quoteID expectedConverted w1 = (.error .ErrRateMismatch, wx))
    ∧ (expectedConverted ≠ 0 →
        expectedConverted ≠ convertMinor req.AmountMinor (directionalRate p.1.Currency p.2.Currency) →
      ∃ wx, exchangeWork S req rate quoteID expectedConverted w1 = (.error .ErrRateMismatch, wx)) := by
  unfold exchangeWork
  rw [Op.bind_of_ok hlock]
  rw [Op.bind_of_ok (Op.failIf_of_false _ _ (by rw [hown]; simp))]
  have hmod : ∀ (f : ExchangeVars → ExchangeVars) (w : World σ ExchangeVars),
      Op.modifyVars f w = (.ok (), { w with vars := f w.vars }) := fun _ _ => rfl
  rw [Op.bind_of_ok (hmod _ _)]
  have hp : ¬ (p.1.Currency = p.2.Currency
      ∨ isExchangePairAllowed p.1.Currency p.2.Currency = false) := by
    rintro (h | h)
    · exact hne h
    · rw [hpair] at h
      cases h
  rw [Op.bind_of_ok (Op.failIf_of_false _ _ hp)]
  constructor
  · intro hrate
    rw [Op.bind_of_error (Op.failIf_of_true _ _ hrate)]
    exact ⟨_, rfl⟩
  · intro h0 hdiff
    by_cases hrate : rate.Equal (directionalRate p.1.Currency p.2.Currency) = false
    · rw [Op.bind_of_error (Op.failIf_of_true _ _ hrate)]
      exact ⟨_, rfl⟩
    · rw [Op.bind_of_ok (Op.failIf_of_false _ _ hrate)]
      rw [Op.bind_of_error (Op.failIf_of_true _ _ ⟨h0, hdiff⟩)]
      exact ⟨_, rfl⟩

theorem Exchange_of_work_error (req : ExchangeRequest) (w : World σ Unit)
    (hpos : 0 < req.AmountMinor) {pre : ExchangeVars} {w1 : World σ Unit}
    (hc : exchangeCommitment S req w = (.ok pre, w1))
    {w2 wx : World σ ExchangeVars} {u : Unit} {e : Error}
    (hb : BeginTxx S { db := w1.db, log := w1.log, vars := pre } = (.ok u, w2))
    (hf : exchangeWork S req pre.rate pre.quoteID pre.expectedConverted w2 = (.error e, wx))
    (hterm : isRetryablePGError e = false) :
    (Exchange S req w).1 = .error e := by
  unfold Exchange
  rw [Op.bind_of_ok (Op.failIf_of_false _ _ (not_le.mpr hpos)), Op.bind_of_ok hc]
  have hw : Op.withVars pre
      (WithTx S (exchangeWork S req pre.rate pre.quoteID pre.expectedConverted)) w1
      = (.error e, { db := (Rollback S wx).2.db, log := (Rollback S wx).2.log, vars := w1.vars }) := by
    unfold Op.withVars
    rw [WithTx_of_terminal S _ hb hf hterm]
  rw [Op.bind_of_error hw]

/-- C20: for an `Exchange` that reached the checks under lock and passed the ownership and
pair checks, the call fails with `ErrRateMismatch` when the committed rate, parsed from the
quote's rate text or from the inline rate text, is not numerically equal to the rate of the
pair, and also when the quote's stored converted amount is not zero and differs from
`convertMinor amount rate`. A stored amount of zero is what the source keeps for a request
without a quote, and is not compared. -/
theorem exchange_rate_mismatch (req : ExchangeRequest) (w : World σ Unit) (pre : ExchangeVars)
    (accFrom accTo : Account) (hpos : 0 < req.AmountMinor)
    (hc : (exchangeCommitment S req w).1 = .ok pre)
    (hb : (BeginTxx S (⟨(exchangeCommitment S req w).2.db,
        (exchangeCommitment S req w).2.log, pre⟩ : World σ ExchangeVars)).1 = .ok ())
    (hlock : (lockTwoAccounts S req.FromAccountID req.ToAccountID
        (BeginTxx S (⟨(exchangeCommitment S req w).2.db,
          (exchangeCommitment S req w).2.log, pre⟩ : World σ ExchangeVars)).2).1
        = .ok (accFrom, accTo))
    (hown : notOwnedBy accFrom.UserID req.UserID = false)
    (hne : accFrom.Currency ≠ accTo.Currency)
    (hpair : isExchangePairAllowed accFrom.Currency accTo.Currency = true) :
    (pre.rate.Equal (directionalRate accFrom.Currency accTo.Currency) = false →
      (Exchange S req w).1 = .error .ErrRateMismatch)
    ∧ (pre.expectedConverted ≠ 0 →
        pre.expectedConverted
          ≠ convertMinor req.AmountMinor (directionalRate accFrom.Currency accTo.Currency) →
      (Exchange S req w).1 = .error .ErrRateMismatch)
    ∧ (∀ quoteID, req.QuoteID = some quoteID →
      ∃ quote, (S.QuoteGetByID quoteID w.db).1 = .ok quote
        ∧ pre.expectedConverted = quote.ConvertedMinor
        ∧ Decimal.NewFromString quote.Rate = some pre.rate)
    ∧ (req.QuoteID = none →
      pre.expectedConverted = 0
        ∧ ∃ text, req.QuotedRate = some text ∧ Decimal.NewFromString text = some pre.rate)
    ∧ ∀ a b : Decimal, a.Equal b = true ↔
        a.value * 10 ^ (a.exp - min a.exp b.exp).toNat
          = b.value * 10 ^ (b.exp - min a.exp b.exp).toNat := by
  obtain ⟨hq1, hq2⟩ := exchangeCommitment_ok S req w pre hc
  rcases hcr : exchangeCommitment S req w with ⟨rc, w1⟩
  rw [hcr] at hc hb hlock
  simp only at hc hb hlock
  subst hc
  rcases hbr : BeginTxx S (⟨w1.db, w1.log, pre⟩ : World σ ExchangeVars) with ⟨rb, w2⟩
  rw [hbr] at hb hlock
  simp only at hb hlock
  subst hb
  rcases hlr : lockTwoAccounts S req.FromAccountID req.ToAccountID w2 with ⟨rl, w3⟩
  rw [hlr] at hlock
  simp only at hlock
  subst hlock
  obtain ⟨k1, k2⟩ := exchangeWork_rate_checks S req pre.rate pre.quoteID pre.expectedConverted
    hlr hown hne hpair
  refine ⟨fun h => ?_, fun h0 h1 => ?_, hq1, hq2, Decimal.Equal_iff⟩
  · obtain ⟨wx, hx⟩ := k1 h
    exact Exchange_of_work_error S req w hpos hcr hbr hx rfl
  · obtain ⟨wx, hx⟩ := k2 h0 h1
    exact Exchange_of_work_error S req w hpos hcr hbr hx rfl

end RateChecks

set_option maxRecDepth 100000 in
/-- C20, a stored converted amount of zero: the quote `q-1` holds converted amount 0 for 1000
USD at 0.92, whose converted amount is 920; the exchange is not rejected, it succeeds and
consumes the quote. -/
theorem exchange_accepts_zero_stored_conversion :
    zeroQuoteDB.committed.quotes.map (fun row => (row.ID, row.ConvertedMinor)) = [("q-1", 0)]
    ∧ convertMinor quotedExchangeRequest.AmountMinor (directionalRate "USD" "EUR") = 920
    ∧ (Exchange MemDB.stores quotedExchangeRequest zeroQuoteDB.world).1 = .ok "id-0"
    ∧ (Exchange MemDB.stores quotedExchangeRequest zeroQuoteDB.world).2.db.balanceOf "to"
        = some 1920 := by
  decide

set_option maxRecDepth 100000 in
/-- C20 on the exchange scenario with a quote whose stored converted amount is 919, not 920,
and with the inline rate 0.93: both give `ErrRateMismatch`. -/
theorem exchange_rate_mismatch_witness :
    (Exchange MemDB.stores quotedExchangeRequest staleQuoteDB.world).1
      = .error .ErrRateMismatch
    ∧ (Exchange MemDB.stores { exchangeRequest with QuotedRate := some "0.93" }
        exchangeDB.world).1 = .error .ErrRateMismatch :=
  ⟨(exchange_rate_mismatch MemDB.stores quotedExchangeRequest staleQuoteDB.world
      { rate := ⟨920000, -6⟩, quoteID := "q-1", expectedConverted := 919,
        fromCurrency := "USD", toCurrency := "EUR" }
      { ID := "from", UserID := some "user-1", Currency := "USD", Balance := 10000 }
      { ID := "to", UserID := some "user-1", Currency := "EUR", Balance := 1000 }
      (by decide) (by decide) (by decide) (by decide) (by decide) (by decide)
      (by decide)).2.1 (by decide) (by decide),
   (exchange_rate_mismatch MemDB.stores { exchangeRequest with QuotedRate := some "0.93" }
      exchangeDB.world { rate := ⟨93, -2⟩ }
      { ID := "from", UserID := some "user-1", Currency := "USD", Balance := 10000 }
      { ID := "to", UserID := some "user-1", Currency := "EUR", Balance := 1000 }
      (by decide) (by decide) (by decide) (by decide) (by decide) (by decide)
      (by decide)).1 (by decide)⟩

/-! ### Amounts beyond the `int64` range -/

set_option maxRecDepth 100000 in
/-- C28, failing input: `184467440737095517.00` is well formed and its exact value in minor
units, 18446744073709551700, is above the largest `int64`; the integer part fits, so it
passes the range check of `strconv.ParseInt`, and `whole * 100` wraps: `ParseMinor` returns
84, which the handlers' `parseAmountMinor` accepts as a positive amount. Likewise
`92233720368547758.08` gives the smallest `int64`. Only an integer part that is itself out
of range is rejected. -/
theorem parseMinor_wraps_large_amount :
    ParseMinor "184467440737095517.00" = .ok 84
    ∧ (184467440737095517 : Int) * 100 + 0 = 18446744073709551700
    ∧ ¬ isInt64 18446744073709551700
    ∧ parseAmountMinor "184467440737095517.00" = .ok 84
    ∧ ParseMinor "92233720368547758.08" = .ok (-9223372036854775808)
    ∧ ParseMinor "92233720368547758.07" = .ok 9223372036854775807
    ∧ ParseMinor "9223372036854775808" = .error .ErrInvalidAmount := by
  decide

/-! ### Round trip of formatting and parsing -/

theorem digitChar_toNat (k : Nat) (hk : k < 10) : (Nat.digitChar k).toNat = 48 + k := by
  interval_cases k <;> rfl

theorem ofNat_digit_toNat (k : Nat) (hk : k < 10) : (Char.ofNat (48 + k)).toNat = 48 + k := by
  interval_cases k <;> rfl

theorem toDigitsCore_spec : ∀ (fuel n : Nat) (ds : List Char), n < fuel →
    ∃ pre, Nat.toDigitsCore 10 fuel n ds = pre ++ ds ∧ pre ≠ []
      ∧ (∀ c ∈ pre, isDigit c)
      ∧ ∀ acc : Nat, pre.foldl (fun acc c => acc * 10 + (c.toNat - 48)) acc
          = acc * 10 ^ pre.length + n := by
  intro fuel
  induction fuel with
  | zero => intro n ds h; omega
  | succ fuel ih =>
    intro n ds hn
    have hd := digitChar_toNat (n % 10) (Nat.mod_lt _ (by decide))
    have hdig : isDigit (Nat.digitChar (n % 10)) := by
      unfold isDigit
      omega
    unfold Nat.toDigitsCore
    simp only
    by_cases h0 : n / 10 = 0
    · rw [if_pos h0]
      refine ⟨[Nat.digitChar (n % 10)], rfl, by simp, ?_, ?_⟩
      · intro c hc
        simp only [List.mem_singleton] at hc
        rw [hc]
        exact hdig
      · intro acc
        simp only [List.foldl_cons, List.foldl_nil, List.length_singleton, pow_one, hd]
        omega
    · rw [if_neg h0]
      obtain ⟨pre, h1, _, h3, h4⟩ := ih (n / 10) (Nat.digitChar (n % 10) :: ds) (by omega)
      refine ⟨pre ++ [Nat.digitChar (n % 10)], ?_, by simp, ?_, ?_⟩
      · rw [h1]
        simp
      · intro c hc
        rcases List.mem_append.mp hc with hc | hc
        · exact h3 c hc
        · simp only [List.mem_singleton] at hc
          rw [hc]
          exact hdig
      · intro acc
        rw [List.foldl_append, h4 acc]
        simp only [List.foldl_cons, List.foldl_nil, List.length_append, List.length_singleton,
          hd, pow_succ]
        have := Nat.div_add_mod n 10
        have e : 48 + n % 10 - 48 = n % 10 := by omega
        rw [e]
        nlinarith [Nat.div_add_mod n 10]

theorem natStr_spec (n : Nat) :
    (Decimal.natStr n).data ≠ [] ∧ (∀ c ∈ (Decimal.natStr n).data, isDigit c)
      ∧ digitsValue (Decimal.natStr n).data = n := by
  obtain ⟨pre, h1, h2, h3, h4⟩ := toDigitsCore_spec (n + 1) n [] (by omega)
  have hd : (Decimal.natStr n).data = pre := by
    show (Nat.toDigits 10 n) = pre
    unfold Nat.toDigits
    rw [h1, List.append_nil]
  rw [hd]
  refine ⟨h2, h3, ?_⟩
  unfold digitsValue
  rw [h4 0]
  simp

theorem isSpace_of_digit (c : Char) (h : isDigit c) : isSpace c = false := by
  unfold isDigit at h
  unfold isSpace
  simp only [Bool.or_eq_false_iff, beq_eq_false_iff_ne, Bool.and_eq_false_iff,
    decide_eq_false_iff_not]
  omega

theorem dropWhile_of_head (p : Char → Bool) (s : List Char)
    (h : ∀ c, s.head? = some c → p c = false) : s.dropWhile p = s := by
  cases s with
  | nil => rfl
  | cons c rest =>
    have := h c rfl
    simp [List.dropWhile, this]

theorem TrimSpace_id (s : List Char) (h1 : ∀ c, s.head? = some c → isSpace c = false)
    (h2 : ∀ c, s.getLast? = some c → isSpace c = false) : TrimSpace s = s := by
  unfold TrimSpace
  rw [dropWhile_of_head isSpace s h1]
  rw [dropWhile_of_head isSpace s.reverse (by rw [List.head?_reverse]; exact h2)]
  exact List.reverse_reverse s

theorem FormatMinor_eq (v : Int) (hv : isInt64 v) (hmin : v ≠ -2 ^ 63) :
    FormatMinor v = (if v < 0 then "-" else "")
      ++ (Decimal.natStr (v.natAbs / 100) ++ "." ++ twoDigits (v.natAbs % 100)) := by
  unfold isInt64 at hv
  unfold FormatMinor
  by_cases hneg : v < 0
  · have hn : neg64 v = (v.natAbs : Int) := by
      unfold neg64
      rw [wrapInt64_of_isInt64 (by unfold isInt64; omega)]
      omega
    simp only [hneg, decide_True, if_true, hn]
    rw [formatMinor_nonneg]
  · have hn : v = (v.natAbs : Int) := by omega
    simp only [hneg, decide_False, if_false, Bool.false_eq_true]
    rw [String.empty_append]
    conv_lhs => rw [hn]
    rw [formatMinor_nonneg]

theorem twoDigits_spec (F : Nat) (hF : F < 100) :
    ∃ d1 d2, (twoDigits F).data = [d1, d2] ∧ isDigit d1 ∧ isDigit d2
      ∧ hundredths [d1, d2] = (F : Int) := by
  have h1 := ofNat_digit_toNat (F / 10) (by omega)
  have h2 := ofNat_digit_toNat (F % 10) (Nat.mod_lt _ (by decide))
  refine ⟨Char.ofNat (48 + F / 10), Char.ofNat (48 + F % 10), rfl, ?_, ?_, ?_⟩
  · unfold isDigit
    omega
  · unfold isDigit
    omega
  · show 10 * (((Char.ofNat (48 + F / 10)).toNat : Int) - 48)
      + (((Char.ofNat (48 + F % 10)).toNat : Int) - 48) = (F : Int)
    rw [h1, h2]
    omega

/-- C29: for every `int64` value other than the smallest one, parsing the text that
`FormatMinor` gives succeeds and returns the value. -/
theorem parseMinor_formatMinor (v : Int) (hv : isInt64 v) (hmin : v ≠ -2 ^ 63) :
    ParseMinor (FormatMinor v) = .ok v := by
  rw [FormatMinor_eq v hv hmin]
  unfold isInt64 at hv
  obtain ⟨hne, hdig, hval⟩ := natStr_spec (v.natAbs / 100)
  obtain ⟨d1, d2, hd, hd1, hd2, hh⟩ := twoDigits_spec (v.natAbs % 100) (Nat.mod_lt _ (by decide))
  generalize hws : (Decimal.natStr (v.natAbs / 100)).data = ws at hne hdig hval
  have hdata : ((if v < 0 then "-" else "")
      ++ (Decimal.natStr (v.natAbs / 100) ++ "." ++ twoDigits (v.natAbs % 100))).data
      = (if v < 0 then ['-'] else []) ++ (ws ++ fractionText (some [d1, d2])) := by
    have e1 : ("-" : String).data = ['-'] := rfl
    have e2 : ("" : String).data = [] := rfl
    have e3 : (".": String).data = ['.'] := rfl
    split_ifs <;>
      simp only [String.data_append, hws, hd, fractionText, e1, e2, e3, List.append_assoc,
        List.singleton_append]
  have hdot : '.' ∉ ws := by
    intro h
    exact absurd (hdig _ h) (by decide)
  obtain ⟨c0, rest, hc0⟩ : ∃ c0 rest, ws = c0 :: rest := by
    cases ws with
    | nil => exact absurd rfl hne
    | cons c r => exact ⟨c, r, rfl⟩
  have hc0d : isDigit c0 := hdig c0 (by rw [hc0]; exact List.mem_cons_self _ _)
  have htrim : TrimSpace ((if v < 0 then ['-'] else []) ++ (ws ++ fractionText (some [d1, d2])))
      = (if v < 0 then ['-'] else []) ++ (ws ++ fractionText (some [d1, d2])) := by
    apply TrimSpace_id
    · intro c hc
      rw [hc0] at hc
      split_ifs at hc
      · simp only [List.cons_append, List.nil_append, List.head?_cons, Option.some.injEq] at hc
        rw [← hc]
        decide
      · simp only [List.cons_append, List.nil_append, List.head?_cons, Option.some.injEq] at hc
        rw [← hc]
        exact isSpace_of_digit _ hc0d
    · intro c hc
      have : ((if v < 0 then ['-'] else []) ++ (ws ++ fractionText (some [d1, d2])))
          = ((if v < 0 then ['-'] else []) ++ ws ++ ['.', d1]) ++ [d2] := by
        simp [fractionText]
      rw [this] at hc
      simp only [List.getLast?_append, List.getLast?_singleton, Option.or_some,
        Option.some.injEq] at hc
      rw [← hc]
      exact isSpace_of_digit _ hd2
  have hsplit : SplitsAs (TrimSpace ((if v < 0 then "-" else "")
      ++ (Decimal.natStr (v.natAbs / 100) ++ "." ++ twoDigits (v.natAbs % 100))).data)
      (if v < 0 then ['-'] else []) ws (some [d1, d2]) := by
    rw [hdata, htrim]
    refine ⟨rfl, ?_, hdot⟩
    by_cases hneg : v < 0
    · rw [if_pos hneg]
      exact Or.inr (Or.inl rfl)
    · rw [if_neg hneg, hc0]
      refine Or.inr (Or.inr ⟨rfl, by simp, ?_⟩)
      · intro r
        rw [List.nil_append, List.cons_append]
        constructor
        · intro h
          have := (List.cons.inj h).1
          rw [this] at hc0d
          exact absurd hc0d (by decide)
        · intro h
          have := (List.cons.inj h).1
          rw [this] at hc0d
          exact absurd hc0d (by decide)
  rw [ParseMinor_of_splitsAs _ _ _ _ hsplit]
  have hf : ∀ c ∈ (some [d1, d2] : Option (List Char)).getD [], isDigit c := by
    intro c hc
    simp only [Option.getD_some, List.mem_cons, List.mem_singleton, List.not_mem_nil,
      or_false] at hc
    rcases hc with rfl | rfl
    · exact hd1
    · exact hd2
  rw [parseAfterSign_digits _ ws (some [d1, d2]) hdot hdig hf (by simp)]
  have hW : ((v.natAbs / 100 : Nat) : Int) * 100 + ((v.natAbs % 100 : Nat) : Int)
      = (v.natAbs : Int) := by omega
  have hlt : (digitsValue ws : Int) < 2 ^ 63 := by
    rw [hval]
    omega
  rw [if_pos hlt, hval]
  simp only [Option.getD_some, hh]
  have h1 : mul64 ((v.natAbs / 100 : Nat) : Int) 100 = ((v.natAbs / 100 : Nat) : Int) * 100 := by
    unfold mul64
    exact wrapInt64_of_isInt64 (by unfold isInt64; omega)
  have h2 : add64 (((v.natAbs / 100 : Nat) : Int) * 100) ((v.natAbs % 100 : Nat) : Int)
      = (v.natAbs : Int) := by
    unfold add64
    rw [wrapInt64_of_isInt64 (by unfold isInt64; omega)]
    exact hW
  rw [h1, h2]
  refine congrArg Except.ok ?_
  unfold mul64 signValue
  by_cases hneg : v < 0
  · simp only [if_pos hneg, if_true]
    rw [wrapInt64_of_isInt64 (by unfold isInt64; omega)]
    omega
  · have hs : ¬ (([] : List Char) = ['-']) := by simp
    simp only [if_neg hneg, if_neg hs]
    rw [wrapInt64_of_isInt64 (by unfold isInt64; omega)]
    omega

set_option maxRecDepth 100000 in
/-- C29 on `-550`, whose text is `-5.50`, and on the largest `int64`. -/
theorem parseMinor_formatMinor_witness :
    FormatMinor (-550) = "-5.50" ∧ ParseMinor (FormatMinor (-550)) = .ok (-550)
    ∧ ParseMinor (FormatMinor 9223372036854775807) = .ok 9223372036854775807 :=
  ⟨by decide, parseMinor_formatMinor (-550) (by decide) (by decide), by decide⟩

/-! ### Notification hub -/

theorem Hub.foldl_sendTo (payload : String) : ∀ (l : List Nat) (h : Hub), l.Nodup →
    (l.foldl (Hub.sendTo payload) h).clients = h.clients
    ∧ ∀ c, (l.foldl (Hub.sendTo payload) h).send c
        = if c ∈ l then trySend (h.send c) payload else h.send c := by
  intro l
  induction l with
  | nil => intro h _; exact ⟨rfl, fun c => by simp⟩
  | cons a l ih =>
    intro h hnd
    obtain ⟨ha, hl⟩ := List.nodup_cons.mp hnd
    obtain ⟨h1, h2⟩ := ih (Hub.sendTo payload h a) hl
    rw [List.foldl_cons]
    refine ⟨h1, fun c => ?_⟩
    rw [h2 c]
    by_cases hca : c = a
    · subst hca
      simp [ha, Hub.sendTo]
    · by_cases hcl : c ∈ l
      · simp [hcl, hca, Hub.sendTo]
      · simp [hcl, hca, Hub.sendTo]

theorem Hub.WellFormed_new : NewHub.WellFormed := fun _ => List.nodup_nil

theorem Hub.WellFormed_register (h : Hub) (userID : String) (client : Nat)
    (hw : h.WellFormed) : (h.Register userID client).WellFormed := by
  intro u
  unfold Hub.Register
  simp only
  split_ifs with h1 h2
  · exact hw u
  · exact List.Nodup.append (hw u) (List.nodup_singleton _) (by simpa using h2)
  · exact hw u

theorem Hub.WellFormed_unregister (h : Hub) (userID : String) (client : Nat)
    (hw : h.WellFormed) : (h.Unregister userID client).WellFormed := by
  intro u
  unfold Hub.Unregister
  simp only
  split_ifs
  · exact (hw u).filter _
  · exact hw u

/-- C26: `BroadcastBalance` serializes the update once and, for each client registered under
the user, queues that payload at the end of the client's buffer when the buffer is not full
and leaves a full buffer as it is; the buffer of a client not registered under the user and
the registry are unchanged. The function is total: every send is a `select` with a
`default`. Hubs built from `NewHub` by `Register` and `Unregister` hold each client once. -/
theorem hub_broadcastBalance (marshal : BalanceUpdate → String) (h : Hub) (userID : String)
    (update : BalanceUpdate) (hw : h.WellFormed) :
    (h.BroadcastBalance marshal userID update).clients = h.clients
    ∧ (∀ c ∈ h.clients userID, (h.send c).queue.length < (h.send c).cap →
        (h.BroadcastBalance marshal userID update).send c
          = { queue := (h.send c).queue ++ [marshal update], cap := (h.send c).cap })
    ∧ (∀ c ∈ h.clients userID, ¬ (h.send c).queue.length < (h.send c).cap →
        (h.BroadcastBalance marshal userID update).send c = h.send c)
    ∧ (∀ c, c ∉ h.clients userID →
        (h.BroadcastBalance marshal userID update).send c = h.send c)
    ∧ NewHub.WellFormed
    ∧ (∀ u c, (h.Register u c).WellFormed)
    ∧ (∀ u c, (h.Unregister u c).WellFormed) := by
  obtain ⟨h1, h2⟩ := Hub.foldl_sendTo (marshal update) (h.clients userID) h (hw userID)
  refine ⟨h1, fun c hc hlt => ?_, fun c hc hfull => ?_, fun c hc => ?_, Hub.WellFormed_new,
    fun u c => Hub.WellFormed_register h u c hw, fun u c => Hub.WellFormed_unregister h u c hw⟩
  · show ((h.clients userID).foldl (Hub.sendTo (marshal update)) h).send c = _
    rw [h2 c, if_pos hc]
    unfold trySend
    rw [if_pos hlt]
  · show ((h.clients userID).foldl (Hub.sendTo (marshal update)) h).send c = _
    rw [h2 c, if_pos hc]
    unfold trySend
    rw [if_neg hfull]
  · show ((h.clients userID).foldl (Hub.sendTo (marshal update)) h).send c = _
    rw [h2 c, if_neg hc]

/-- C26 on a hub where user `u1` has client 1 with room and client 2 with a full buffer, and
user `u2` has client 3: only client 1 receives the payload. -/
theorem hub_broadcastBalance_witness :
    sampleHub.WellFormed
    ∧ ((sampleHub.BroadcastBalance sampleMarshal "u1"
        { AccountID := "a", Balance := "1.00", Currency := "USD" }).send 1).queue
        = ["a:1.00:USD"]
    ∧ ((sampleHub.BroadcastBalance sampleMarshal "u1"
        { AccountID := "a", Balance := "1.00", Currency := "USD" }).send 2).queue = ["old"]
    ∧ ((sampleHub.BroadcastBalance sampleMarshal "u1"
        { AccountID := "a", Balance := "1.00", Currency := "USD" }).send 3).queue = []
    ∧ (sampleHub.BroadcastBalance sampleMarshal "u1"
        { AccountID := "a", Balance := "1.00", Currency := "USD" }).clients
        = sampleHub.clients := by
  have hw : sampleHub.WellFormed := by
    intro u
    unfold sampleHub
    simp only
    split_ifs <;> decide
  exact ⟨hw, by decide, by decide, by decide,
    (hub_broadcastBalance sampleMarshal sampleHub "u1"
      { AccountID := "a", Balance := "1.00", Currency := "USD" } hw).1⟩

set_option maxRecDepth 100000 in
/-- C24, failing input: `user-1` exchanges 1000 USD from the own account `from` into the EUR
account `to`, which belongs to `user-2`. The exchange succeeds, credits 920 to the account of
`user-2`, and both balance notifications, also the one carrying the new balance of the
account of `user-2`, are sent to `user-1`. `Transfer` on the same kind of input notifies the
owner of the destination account. -/
theorem exchange_into_foreign_account :
    foreignAccountDB.ownerOf "from" = some "user-1"
    ∧ foreignAccountDB.ownerOf "to" = some "user-2"
    ∧ exchangeRequest.UserID = "user-1"
    ∧ (Exchange MemDB.stores exchangeRequest foreignAccountDB.world).1 = .ok "id-0"
    ∧ (Exchange MemDB.stores exchangeRequest foreignAccountDB.world).2.db.balanceOf "to"
        = some 1920
    ∧ (Exchange MemDB.stores exchangeRequest foreignAccountDB.world).2.db.sent
        = [("user-1", { AccountID := "from", Balance := "90.00", Currency := "USD" }),
           ("user-1", { AccountID := "to", Balance := "19.20", Currency := "EUR" })]
    ∧ (Transfer MemDB.stores transferRequest transferDB.world).2.db.sent
        = [("user-1", { AccountID := "from", Balance := "90.00", Currency := "USD" }),
           ("user-2", { AccountID := "to", Balance := "60.00", Currency := "USD" })] := by
  decide

set_option maxRecDepth 100000 in
/-- C25, a repeated request: after a first transfer with client request id `req-1`
committed, the same request is rejected by the transaction store with the driver's
uniqueness error, and `Transfer` returns exactly that driver error, code `23505`, which is
none of the service's sentinels. -/
theorem transfer_duplicate_returns_driver_error :
    (Transfer MemDB.stores repeatedRequest transferDB.world).1 = .ok "id-0"
    ∧ (Transfer MemDB.stores repeatedRequest afterFirstRequestDB.world).1
        = .error (.pq "23505")
    ∧ Error.isSentinel (.pq "23505") = false
    ∧ (Transfer MemDB.stores repeatedRequest afterFirstRequestDB.world).2.log.getLast?
        = some (Call.Rollback (.ok ())) := by
  decide

namespace Op

variable {σ ν α β : Type}

theorem step_call {f : σ → Except Error α × σ} {ev : Except Error α → Call}
    {g : α → Op σ ν β} {d : σ} {log : List Call} {vars : ν} {a : α} (ha : (f d).1 = .ok a) :
    (Op.call f ev >>= g) ⟨d, log, vars⟩ = g a ⟨(f d).2, log ++ [ev (.ok a)], vars⟩ := by
  rw [bind_apply]
  simp only [Op.call, ha]

theorem step_call_error {f : σ → Except Error α × σ} {ev : Except Error α → Call}
    {g : α → Op σ ν β} {d : σ} {log : List Call} {vars : ν} {e : Error}
    (ha : (f d).1 = .error e) :
    (Op.call f ev >>= g) ⟨d, log, vars⟩
      = (.error e, ⟨(f d).2, log ++ [ev (.error e)], vars⟩) := by
  rw [bind_apply]
  simp only [Op.call, ha]

theorem call_of_ok {f : σ → Except Error α × σ} {ev : Except Error α → Call}
    {d : σ} {log : List Call} {vars : ν} {a : α} (ha : (f d).1 = .ok a) :
    (Op.call f ev : Op σ ν α) ⟨d, log, vars⟩
      = (.ok a, ⟨(f d).2, log ++ [ev (.ok a)], vars⟩) := by
  simp only [Op.call, ha]

theorem step_failIf_false {c : Prop} [Decidable c] {e : Error} {g : Unit → Op σ ν β}
    {w : World σ ν} (hc : ¬ c) : (Op.failIf c e >>= g) w = g () w := by
  rw [bind_of_ok (failIf_of_false e w hc)]

theorem step_failIf_true {c : Prop} [Decidable c] {e : Error} {g : Unit → Op σ ν β}
    {w : World σ ν} (hc : c) : (Op.failIf c e >>= g) w = (.error e, w) := by
  rw [bind_of_error (failIf_of_true e w hc)]

theorem step_modifyVars {f : ν → ν} {g : Unit → Op σ ν β} {d : σ} {log : List Call}
    {vars : ν} : (Op.modifyVars f >>= g) ⟨d, log, vars⟩ = g () ⟨d, log, f vars⟩ := rfl

theorem step_ambient {f : σ → α × σ} {g : α → Op σ ν β} {d : σ} {log : List Call}
    {vars : ν} : (Op.ambient f >>= g) ⟨d, log, vars⟩ = g (f d).1 ⟨(f d).2, log, vars⟩ := rfl

theorem step_ofExcept_ok {r : Except Error α} {g : α → Op σ ν β} {w : World σ ν} {a : α}
    (h : r = .ok a) : (Op.ofExcept r >>= g) w = g a w := by
  subst h
  rfl

end Op

section Duplicate

variable {σ : Type} (S : Stores σ)

theorem transferWork_create_rejected (req : TransferRequest) {w1 w2 : World σ TransferVars}
    {p : Account × Account} {e : Error}
    (hlock : lockTwoAccounts S req.FromAccountID req.ToAccountID w1 = (.ok p, w2))
    (hown : notOwnedBy p.1.UserID req.UserID = false)
    (hcur : p.1.Currency = p.2.Currency)
    (hfunds : req.AmountMinor ≤ p.1.Balance)
    (hU : ∀ accountID balance d, (S.UpdateBalance accountID balance d).1 = .ok ())
    (hdup : ∀ input d, input.ClientRequestID = req.ClientRequestID →
      (S.TxCreate input d).1 = .error e) :
    ∃ input wx, transferWork S req w1 = (.error e, wx)
      ∧ input.ClientRequestID = req.ClientRequestID
      ∧ wx.log = w2.log ++ [
          Call.UpdateBalance req.FromAccountID (sub64 p.1.Balance req.AmountMinor) (.ok ()),
          Call.UpdateBalance req.ToAccountID (add64 p.2.Balance req.AmountMinor) (.ok ()),
          Call.TxCreate input (.error e)] := by
  unfold transferWork
  rw [Op.bind_of_ok hlock]
  obtain ⟨d, log, vars⟩ := w2
  rw [Op.step_failIf_false (by rw [hown]; simp), Op.step_failIf_false (by simpa using hcur),
    Op.step_modifyVars, Op.step_modifyVars, Op.step_failIf_false (not_lt.mpr hfunds),
    Op.step_modifyVars]
  unfold UpdateBalance NewString TxCreate
  rw [Op.step_call (hU _ _ _), Op.step_call (hU _ _ _), Op.step_ambient, Op.step_modifyVars,
    Op.step_call_error (hdup _ _ rfl)]
  refine ⟨_, _, rfl, ?_, by
    simp only [List.append_assoc, List.cons_append, List.nil_append]
    rfl⟩
  rfl

theorem Transfer_of_work_error_log (req : TransferRequest) (w : World σ Unit)
    (hpos : 0 < req.AmountMinor) (hne : req.FromAccountID ≠ req.ToAccountID)
    {w1 wx : World σ TransferVars} {u : Unit} {e : Error}
    (hb : BeginTxx S { db := w.db, log := w.log, vars := ({} : TransferVars) } = (.ok u, w1))
    (hf : transferWork S req w1 = (.error e, wx)) (hterm : isRetryablePGError e = false) :
    (Transfer S req w).2.log = wx.log ++ [Call.Rollback (S.Rollback wx.db).1] := by
  unfold Transfer
  rw [Op.bind_of_ok (Op.failIf_of_false _ _ (not_le.mpr hpos)),
    Op.bind_of_ok (Op.failIf_of_false _ _ hne)]
  have hw : Op.withVars ({} : TransferVars) (WithTx S (transferWork S req)) w
      = (.error e, { db := (Rollback S wx).2.db, log := (Rollback S wx).2.log, vars := w.vars }) := by
    unfold Op.withVars
    rw [WithTx_of_terminal S _ hb hf hterm]
  rw [Op.bind_of_error hw]
  rfl

/-- C25: when the transaction store rejects the row of a transfer that passed the
checks under lock with the driver's uniqueness error (code `23505`), `Transfer` returns that
driver error itself, which is none of the service's sentinels, and no transaction id. The
calls made are the begin, the two locked reads, the two balance writes, the rejected
`Create` and the rollback: no ledger entry is inserted, nothing is committed and nothing is
broadcast. -/
theorem transfer_duplicate_request (req : TransferRequest) (w : World σ Unit)
    (accFrom accTo : Account)
    (hpos : 0 < req.AmountMinor) (hne : req.FromAccountID ≠ req.ToAccountID)
    (hb : (S.BeginTxx w.db).1 = .ok ())
    (hlock : (lockTwoAccounts S req.FromAccountID req.ToAccountID
      (BeginTxx S { db := w.db, log := w.log, vars := ({} : TransferVars) }).2).1
        = .ok (accFrom, accTo))
    (hown : notOwnedBy accFrom.UserID req.UserID = false)
    (hcur : accFrom.Currency = accTo.Currency)
    (hfunds : req.AmountMinor ≤ accFrom.Balance)
    (hU : ∀ accountID balance d, (S.UpdateBalance accountID balance d).1 = .ok ())
    (hdup : ∀ input d, input.ClientRequestID = req.ClientRequestID →
      (S.TxCreate input d).1 = .error (.pq "23505")) :
    (Transfer S req w).1 = .error (.pq "23505")
    ∧ Error.isSentinel (.pq "23505") = false
    ∧ ∃ input r, input.ClientRequestID = req.ClientRequestID
      ∧ (Transfer S req w).2.log = w.log ++ [
          Call.BeginTxx (.ok ()),
          Call.GetForUpdate (orderedIDs req.FromAccountID req.ToAccountID).1
            (.ok (if req.FromAccountID = (orderedIDs req.FromAccountID req.ToAccountID).1
              then accFrom else accTo)),
          Call.GetForUpdate (orderedIDs req.FromAccountID req.ToAccountID).2
            (.ok (if req.FromAccountID = (orderedIDs req.FromAccountID req.ToAccountID).1
              then accTo else accFrom)),
          Call.UpdateBalance req.FromAccountID (sub64 accFrom.Balance req.AmountMinor) (.ok ()),
          Call.UpdateBalance req.ToAccountID (add64 accTo.Balance req.AmountMinor) (.ok ()),
          Call.TxCreate input (.error (.pq "23505")),
          Call.Rollback r] := by
  have hbr : BeginTxx S { db := w.db, log := w.log, vars := ({} : TransferVars) }
      = (.ok (), (BeginTxx S { db := w.db, log := w.log, vars := ({} : TransferVars) }).2) := by
    unfold BeginTxx Op.call
    simp only [hb]
  rcases hl : lockTwoAccounts S req.FromAccountID req.ToAccountID
    (BeginTxx S { db := w.db, log := w.log, vars := ({} : TransferVars) }).2 with ⟨r, w2⟩
  rw [hl] at hlock
  simp only at hlock
  subst hlock
  obtain ⟨input, wx, hf, hin, hlx⟩ :=
    transferWork_create_rejected S req hl hown hcur hfunds hU hdup
  obtain ⟨hl2, -⟩ := lockTwoAccounts_log S hl
  refine ⟨Transfer_of_work_error S req w hpos hne hbr hf rfl, rfl, input,
    (S.Rollback wx.db).1, hin, ?_⟩
  rw [Transfer_of_work_error_log S req w hpos hne hbr hf rfl, hlx, hl2]
  simp [BeginTxx, Op.call, hb]

end Duplicate

set_option maxRecDepth 100000 in
/-- C25 on the stub whose transaction store rejects the client request id `req-1`. -/
theorem transfer_duplicate_request_witness :
    (Transfer rejectingStores repeatedRequest { db := 0, log := [], vars := () }).1
      = .error (.pq "23505") :=
  (transfer_duplicate_request rejectingStores repeatedRequest { db := 0, log := [], vars := () }
    (stubAccount "from") (stubAccount "to") (by decide) (by decide) (by decide) (by decide)
    (by decide) (by decide) (by decide) (fun _ _ _ => rfl)
    (fun input d h => by
      show (if input.ClientRequestID = some "req-1" then _ else _ : Except Error Unit × Nat).1 = _
      rw [if_pos (show input.ClientRequestID = some "req-1" from h)])).1

namespace Op

variable {σ ν α β : Type}

theorem failIf_apply (c : Prop) [Decidable c] (e : Error) (w : World σ ν) :
    Op.failIf c e w = (if c then Except.error e else Except.ok (), w) := by
  unfold Op.failIf
  split <;> rfl

theorem onlyIf_of_false {c : Prop} [Decidable c] (m : Op σ ν Unit) (w : World σ ν)
    (hc : ¬ c) : Op.onlyIf c m w = (.ok (), w) := by
  unfold Op.onlyIf
  rw [if_neg hc]
  rfl

theorem onlyIf_of_true {c : Prop} [Decidable c] (m : Op σ ν Unit) (w : World σ ν)
    (hc : c) : Op.onlyIf c m w = m w := by
  unfold Op.onlyIf
  rw [if_pos hc]

end Op

section ExchangeRun

variable {σ ν : Type} (S : Stores σ)

theorem lockTwoAccounts_of_reads {a b : String} {d : σ} {log : List Call} {vars : ν}
    {x y : Account}
    (hl : (S.GetForUpdate (orderedIDs a b).1 d).1
      = .ok (if a = (orderedIDs a b).1 then x else y))
    (hr : (S.GetForUpdate (orderedIDs a b).2 (S.GetForUpdate (orderedIDs a b).1 d).2).1
      = .ok (if a = (orderedIDs a b).1 then y else x)) :
    lockTwoAccounts S a b (⟨d, log, vars⟩ : World σ ν)
      = (.ok (x, y),
          ⟨(S.GetForUpdate (orderedIDs a b).2 (S.GetForUpdate (orderedIDs a b).1 d).2).2,
            log ++ [Call.GetForUpdate (orderedIDs a b).1
                (.ok (if a = (orderedIDs a b).1 then x else y)),
              Call.GetForUpdate (orderedIDs a b).2
                (.ok (if a = (orderedIDs a b).1 then y else x))], vars⟩) := by
  unfold lockTwoAccounts GetForUpdate
  rw [Op.step_call hl, Op.step_call hr]
  by_cases h : a = (orderedIDs a b).1
  · simp only [if_pos h, Op.pure_apply, List.append_assoc, List.cons_append, List.nil_append]
  · simp only [if_neg h, Op.pure_apply, List.append_assoc, List.cons_append, List.nil_append]

theorem exchangeWork_short (req : ExchangeRequest) (rate : Decimal) (quoteID : String)
    (expectedConverted : Int) {w1 w2 : World σ ExchangeVars} {p : Account × Account}
    (hlock : lockTwoAccounts S req.FromAccountID req.ToAccountID w1 = (.ok p, w2))
    (hown : notOwnedBy p.1.UserID req.UserID = false)
    (hne : p.1.Currency ≠ p.2.Currency)
    (hpair : isExchangePairAllowed p.1.Currency p.2.Currency = true)
    (hrate : rate.Equal (directionalRate p.1.Currency p.2.Currency) = true)
    (hconv : expectedConverted = 0 ∨ expectedConverted
      = convertMinor req.AmountMinor (directionalRate p.1.Currency p.2.Currency))
    (hshort : p.1.Balance < req.AmountMinor) :
    ∃ wx, exchangeWork S req rate quoteID expectedConverted w1
        = (.error .ErrInsufficientFunds, wx) ∧ wx.log = w2.log := by
  unfold exchangeWork
  rw [Op.bind_of_ok hlock]
  obtain ⟨d, log, vars⟩ := w2
  have hp : ¬ (p.1.Currency = p.2.Currency
      ∨ isExchangePairAllowed p.1.Currency p.2.Currency = false) := by
    rintro (h | h)
    · exact hne h
    · rw [hpair] at h
      cases h
  have hcv : ¬ (expectedConverted ≠ 0 ∧ expectedConverted
      ≠ convertMinor req.AmountMinor (directionalRate p.1.Currency p.2.Currency)) := by
    rintro ⟨h0, h1⟩
    rcases hconv with h | h
    · exact h0 h
    · exact h1 h
  rw [Op.step_failIf_false (by rw [hown]; simp), Op.step_modifyVars, Op.step_failIf_false hp,
    Op.step_failIf_false (by rw [hrate]; simp), Op.step_failIf_false hcv,
    Op.step_failIf_true hshort]
  exact ⟨_, rfl, rfl⟩

theorem exchangeWork_run (hR : Reliable S)
    (hQ : ∀ quoteID d, ∃ n, (S.QuoteConsume quoteID d).1 = .ok n)
    (req : ExchangeRequest) (rate : Decimal) (quoteID : String)
    (expectedConverted : Int) {w1 w2 : World σ ExchangeVars} {p : Account × Account}
    (hlock : lockTwoAccounts S req.FromAccountID req.ToAccountID w1 = (.ok p, w2))
    (hown : notOwnedBy p.1.UserID req.UserID = false)
    (hne : p.1.Currency ≠ p.2.Currency)
    (hpair : isExchangePairAllowed p.1.Currency p.2.Currency = true)
    (hrate : rate.Equal (directionalRate p.1.Currency p.2.Currency) = true)
    (hconv : expectedConverted = 0 ∨ expectedConverted
      = convertMinor req.AmountMinor (directionalRate p.1.Currency p.2.Currency))
    (hfunds : req.AmountMinor ≤ p.1.Balance)
    {sf st : String} {sysFrom sysTo : Account}
    (hsf : (S.GetSystemAccount p.1.Currency w2.db).1 = .ok sf)
    (hst : (S.GetSystemAccount p.2.Currency (S.GetSystemAccount p.1.Currency w2.db).2).1
      = .ok st)
    (hl : (S.GetForUpdate (orderedIDs sf st).1
        (S.GetSystemAccount p.2.Currency (S.GetSystemAccount p.1.Currency w2.db).2).2).1
      = .ok (if sf = (orderedIDs sf st).1 then sysFrom else sysTo))
    (hr : (S.GetForUpdate (orderedIDs sf st).2 (S.GetForUpdate (orderedIDs sf st).1
        (S.GetSystemAccount p.2.Currency (S.GetSystemAccount p.1.Currency w2.db).2).2).2).1
      = .ok (if sf = (orderedIDs sf st).1 then sysTo else sysFrom)) :
    (sub64 sysTo.Balance
        (convertMinor req.AmountMinor (directionalRate p.1.Currency p.2.Currency)) < 0 →
      ∃ wx, exchangeWork S req rate quoteID expectedConverted w1
          = (.error .ErrInsufficientFunds, wx)
        ∧ wx.log = w2.log ++ [
            Call.GetSystemAccount p.1.Currency (.ok sf),
            Call.GetSystemAccount p.2.Currency (.ok st),
            Call.GetForUpdate (orderedIDs sf st).1
              (.ok (if sf = (orderedIDs sf st).1 then sysFrom else sysTo)),
            Call.GetForUpdate (orderedIDs sf st).2
              (.ok (if sf = (orderedIDs sf st).1 then sysTo else sysFrom))])
    ∧ (0 ≤ sub64 sysTo.Balance
        (convertMinor req.AmountMinor (directionalRate p.1.Currency p.2.Currency)) →
      (quoteID = "" → ∃ tid i1 i2 i3 i4 wx,
        exchangeWork S req rate quoteID expectedConverted w1 = (.ok (), wx)
        ∧ wx.log = w1.log ++ (exchangeCalls req p.1 p.2 sysFrom sysTo sf st tid i1 i2 i3 i4
            quoteID []).tail.dropLast
        ∧ wx.vars.transactionID = tid)
      ∧ (quoteID ≠ "" → ∃ tid i1 i2 i3 i4 n wx,
        exchangeWork S req rate quoteID expectedConverted w1
          = (if n = 0 then Except.error .ErrQuoteConsumed else Except.ok (), wx)
        ∧ wx.log = w1.log ++ (exchangeCalls req p.1 p.2 sysFrom sysTo sf st tid i1 i2 i3 i4
            quoteID [Call.QuoteConsume quoteID (.ok n)]).tail.dropLast
        ∧ wx.vars.transactionID = tid
        ∧ ∃ d, (S.QuoteConsume quoteID d).1 = .ok n)) := by
  choose cons hcons using hQ
  obtain ⟨hlog2, -⟩ := lockTwoAccounts_log S hlock
  unfold exchangeWork
  rw [Op.bind_of_ok hlock]
  obtain ⟨d, log, vars⟩ := w2
  simp only at hsf hst hl hr hlog2
  have hp : ¬ (p.1.Currency = p.2.Currency
      ∨ isExchangePairAllowed p.1.Currency p.2.Currency = false) := by
    rintro (h | h)
    · exact hne h
    · rw [hpair] at h
      cases h
  have hcv : ¬ (expectedConverted ≠ 0 ∧ expectedConverted
      ≠ convertMinor req.AmountMinor (directionalRate p.1.Currency p.2.Currency)) := by
    rintro ⟨h0, h1⟩
    rcases hconv with h | h
    · exact h0 h
    · exact h1 h
  rw [Op.step_failIf_false (by rw [hown]; simp), Op.step_modifyVars, Op.step_failIf_false hp,
    Op.step_failIf_false (by rw [hrate]; simp), Op.step_failIf_false hcv,
    Op.step_failIf_false (not_lt.mpr hfunds), Op.step_modifyVars]
  unfold GetSystemAccount
  rw [Op.step_call hsf, Op.step_call hst, Op.bind_of_ok (lockTwoAccounts_of_reads S hl hr)]
  refine ⟨fun hneg => ?_, fun hok => ?_⟩
  · rw [Op.step_failIf_true hneg]
    refine ⟨_, rfl, ?_⟩
    simp only [List.append_assoc, List.cons_append, List.nil_append]
  · rw [Op.step_failIf_false (not_lt.mpr hok)]
    unfold UpdateBalance NewString TxCreate InsertEntries AuditLog QuoteConsume
    rw [Op.step_call (hR.2.2.2.1 _ _ _), Op.step_call (hR.2.2.2.1 _ _ _),
      Op.step_call (hR.2.2.2.1 _ _ _), Op.step_call (hR.2.2.2.1 _ _ _), Op.step_ambient,
      Op.step_modifyVars, Op.step_call (hR.2.2.2.2.1 _ _), Op.step_ambient, Op.step_ambient,
      Op.step_ambient, Op.step_ambient,
      Op.step_ofExcept_ok (ensureBalancedByCurrency_exchangeEntries _ _ _ _ _ _ _ _ _ _ _),
      Op.step_call (hR.2.2.2.2.2.1 _ _), Op.step_call (hR.2.2.2.2.2.2 _ _ _ _ _ _)]
    constructor
    · intro hq
      rw [Op.onlyIf_of_false _ _ (not_not.mpr hq)]
      refine ⟨_, _, _, _, _, _, rfl, by
        rw [hlog2]
        simp only [exchangeCalls, tail_dropLast_calls, List.append_assoc, List.cons_append,
          List.nil_append, List.append_nil, exchangeEntries]
        rfl, ?_⟩
      rfl
    · intro hq
      rw [Op.onlyIf_of_true _ _ hq, Op.step_call (hcons _ _), Op.failIf_apply]
      refine ⟨_, _, _, _, _, _, _, rfl, by
        rw [hlog2]
        simp only [exchangeCalls, tail_dropLast_calls, List.append_assoc, List.cons_append,
          List.nil_append, List.append_nil, exchangeEntries]
        rfl, ?_, ⟨_, hcons _ _⟩⟩
      rfl

end ExchangeRun


section ExchangeLift

variable {σ : Type} (S : Stores σ)

theorem exchangeCommitment_pre (req : ExchangeRequest) (w : World σ Unit) (pre : ExchangeVars)
    (h : (exchangeCommitment S req w).1 = .ok pre) :
    (∀ quoteID, req.QuoteID = some quoteID →
      pre.quoteID = quoteID
      ∧ ∃ quote, (exchangeCommitment S req w).2.log
          = w.log ++ [Call.QuoteGetByID quoteID (.ok quote)])
    ∧ (req.QuoteID = none →
      pre.quoteID = "" ∧ (exchangeCommitment S req w).2.log = w.log) := by
  constructor
  · intro quoteID hq
    obtain ⟨quote, hlk, -, -⟩ := (exchangeCommitment_ok S req w pre h).1 quoteID hq
    refine ⟨?_, quote, ((exchangeCommitment_quote S req quoteID w hq).2 quote hlk).1⟩
    rcases hrun : exchangeCommitment S req w with ⟨res, w'⟩
    rw [hrun] at h
    simp only at h
    subst h
    unfold exchangeCommitment at hrun
    simp only [hq] at hrun
    obtain ⟨quote', w1, s1, h1⟩ := bind_ok_elim hrun
    obtain ⟨_, w2, s2, h2⟩ := bind_ok_elim h1
    obtain ⟨now, w3, s3, h3⟩ := bind_ok_elim h2
    obtain ⟨_, w4, s4, h4⟩ := bind_ok_elim h3
    obtain ⟨_, w5, s5, h5⟩ := bind_ok_elim h4
    obtain ⟨_, w6, s6, h6⟩ := bind_ok_elim h5
    cases hr : Decimal.NewFromString quote'.Rate with
    | none =>
      rw [hr] at h6
      simp [Op.fail] at h6
    | some rate =>
      rw [hr] at h6
      obtain ⟨hp, _⟩ := Op.pure_ok_iff.mp h6
      rw [hp]
  · intro hq
    rcases hrun : exchangeCommitment S req w with ⟨res, w'⟩
    rw [hrun] at h
    simp only at h
    subst h
    unfold exchangeCommitment at hrun
    simp only [hq] at hrun
    cases hqr : req.QuotedRate with
    | none =>
      rw [hqr] at hrun
      simp [Op.fail] at hrun
    | some text =>
      rw [hqr] at hrun
      simp only at hrun
      cases hr : Decimal.NewFromString text with
      | none =>
        rw [hr] at hrun
        simp [Op.fail] at hrun
      | some rate =>
        rw [hr] at hrun
        obtain ⟨hp, hw⟩ := Op.pure_ok_iff.mp hrun
        rw [hp, hw]
        exact ⟨rfl, rfl⟩

theorem Exchange_of_work_error_log (req : ExchangeRequest) (w : World σ Unit)
    (hpos : 0 < req.AmountMinor) {pre : ExchangeVars} {w1 : World σ Unit}
    (hc : exchangeCommitment S req w = (.ok pre, w1))
    {w2 wx : World σ ExchangeVars} {u : Unit} {e : Error}
    (hb : BeginTxx S { db := w1.db, log := w1.log, vars := pre } = (.ok u, w2))
    (hf : exchangeWork S req pre.rate pre.quoteID pre.expectedConverted w2 = (.error e, wx))
    (hterm : isRetryablePGError e = false) :
    (Exchange S req w).2.log = wx.log ++ [Call.Rollback (S.Rollback wx.db).1] := by
  unfold Exchange
  rw [Op.bind_of_ok (Op.failIf_of_false _ _ (not_le.mpr hpos)), Op.bind_of_ok hc]
  have hw : Op.withVars pre
      (WithTx S (exchangeWork S req pre.rate pre.quoteID pre.expectedConverted)) w1
      = (.error e, { db := (Rollback S wx).2.db, log := (Rollback S wx).2.log, vars := w1.vars }) := by
    unfold Op.withVars
    rw [WithTx_of_terminal S _ hb hf hterm]
  rw [Op.bind_of_error hw]
  rfl

theorem Exchange_of_work_ok (req : ExchangeRequest) (w : World σ Unit)
    (hpos : 0 < req.AmountMinor) {pre : ExchangeVars} {w1 : World σ Unit}
    (hc : exchangeCommitment S req w = (.ok pre, w1))
    {w2 w3 w4 : World σ ExchangeVars} {u1 u2 u3 : Unit}
    (hb : BeginTxx S { db := w1.db, log := w1.log, vars := pre } = (.ok u1, w2))
    (hf : exchangeWork S req pre.rate pre.quoteID pre.expectedConverted w2 = (.ok u2, w3))
    (hcm : Commit S w3 = (.ok u3, w4)) :
    (Exchange S req w).1 = .ok w4.vars.transactionID
    ∧ ∃ b1 b2, (Exchange S req w).2.log = w4.log ++ [Call.BroadcastBalance req.UserID b1,
        Call.BroadcastBalance req.UserID b2] := by
  unfold Exchange
  rw [Op.bind_of_ok (Op.failIf_of_false _ _ (not_le.mpr hpos)), Op.bind_of_ok hc]
  have hw : Op.withVars pre
      (WithTx S (exchangeWork S req pre.rate pre.quoteID pre.expectedConverted)) w1
      = (.ok ((), w4.vars), { db := w4.db, log := w4.log, vars := w1.vars }) := by
    unfold Op.withVars
    rw [WithTx_of_ok S _ hb hf hcm]
  rw [Op.bind_of_ok hw]
  refine ⟨rfl, _, _, by
    simp only [BroadcastBalance, Op.bind_apply, Op.pure_apply, List.append_assoc,
      List.cons_append, List.nil_append]
    rfl⟩

theorem exchangeCalls_split (req : ExchangeRequest) (accFrom accTo sysFrom sysTo : Account)
    (sf st tid i1 i2 i3 i4 quoteID : String) (consume : List Call) :
    exchangeCalls req accFrom accTo sysFrom sysTo sf st tid i1 i2 i3 i4 quoteID consume
      = Call.BeginTxx (.ok ())
        :: ((exchangeCalls req accFrom accTo sysFrom sysTo sf st tid i1 i2 i3 i4 quoteID
              consume).tail.dropLast ++ [Call.Commit (.ok ())]) := by
  unfold exchangeCalls
  simp only []
  rw [tail_dropLast_calls]
  simp only [List.cons_append, List.append_assoc]

theorem exchangeCalls_dropLast (req : ExchangeRequest) (accFrom accTo sysFrom sysTo : Account)
    (sf st tid i1 i2 i3 i4 quoteID : String) (consume : List Call) :
    (exchangeCalls req accFrom accTo sysFrom sysTo sf st tid i1 i2 i3 i4 quoteID
        consume).dropLast
      = Call.BeginTxx (.ok ())
        :: (exchangeCalls req accFrom accTo sysFrom sysTo sf st tid i1 i2 i3 i4 quoteID
              consume).tail.dropLast := by
  rw [exchangeCalls_split]
  simp only [List.tail_cons, List.dropLast_concat]
  rw [← List.cons_append, List.dropLast_concat]

end ExchangeLift


section ExchangeOutcome

variable {σ : Type} (S : Stores σ)

theorem exchangeCalls_reads (req : ExchangeRequest) (accFrom accTo sysFrom sysTo : Account)
    (sf st tid i1 i2 i3 i4 quoteID : String) (consume : List Call) :
    ∃ rest, exchangeCalls req accFrom accTo sysFrom sysTo sf st tid i1 i2 i3 i4 quoteID consume
      = exchangeReads req accFrom accTo sysFrom sysTo sf st ++ rest := by
  unfold exchangeCalls exchangeReads
  exact ⟨_, rfl⟩

theorem Exchange_run (hR : Reliable S)
    (hG : ∀ currency d, ∃ id, (S.GetSystemAccount currency d).1 = .ok id)
    (hQ : ∀ quoteID d, ∃ n, (S.QuoteConsume quoteID d).1 = .ok n)
    (req : ExchangeRequest) (w : World σ Unit) (pre : ExchangeVars)
    (accFrom accTo : Account) (hpos : 0 < req.AmountMinor)
    (hc : (exchangeCommitment S req w).1 = .ok pre)
    (hlock : (lockTwoAccounts S req.FromAccountID req.ToAccountID
        (BeginTxx S (⟨(exchangeCommitment S req w).2.db,
          (exchangeCommitment S req w).2.log, pre⟩ : World σ ExchangeVars)).2).1
        = .ok (accFrom, accTo))
    (hown : notOwnedBy accFrom.UserID req.UserID = false)
    (hne : accFrom.Currency ≠ accTo.Currency)
    (hpair : isExchangePairAllowed accFrom.Currency accTo.Currency = true)
    (hrate : pre.rate.Equal (directionalRate accFrom.Currency accTo.Currency) = true)
    (hconv : pre.expectedConverted = 0 ∨ pre.expectedConverted
      = convertMinor req.AmountMinor (directionalRate accFrom.Currency accTo.Currency))
    (hfunds : req.AmountMinor ≤ accFrom.Balance) :
    ∃ (sysFrom sysTo : Account) (sf st : String),
      (sub64 sysTo.Balance
          (convertMinor req.AmountMinor (directionalRate accFrom.Currency accTo.Currency)) < 0 →
        (Exchange S req w).1 = .error .ErrInsufficientFunds
        ∧ ∃ r, (Exchange S req w).2.log = (exchangeCommitment S req w).2.log
            ++ exchangeReads req accFrom accTo sysFrom sysTo sf st ++ [Call.Rollback r])
      ∧ (0 ≤ sub64 sysTo.Balance
          (convertMinor req.AmountMinor (directionalRate accFrom.Currency accTo.Currency)) →
        (pre.quoteID = "" → ∃ tid i1 i2 i3 i4 b1 b2,
          (Exchange S req w).1 = .ok tid
          ∧ (Exchange S req w).2.log = (exchangeCommitment S req w).2.log
            ++ exchangeCalls req accFrom accTo sysFrom sysTo sf st tid i1 i2 i3 i4 pre.quoteID []
            ++ [Call.BroadcastBalance req.UserID b1, Call.BroadcastBalance req.UserID b2])
        ∧ (pre.quoteID ≠ "" → ∃ tid i1 i2 i3 i4 n d,
          (S.QuoteConsume pre.quoteID d).1 = .ok n
          ∧ (n = 0 → (Exchange S req w).1 = .error .ErrQuoteConsumed
            ∧ ∃ r, (Exchange S req w).2.log = (exchangeCommitment S req w).2.log
              ++ (exchangeCalls req accFrom accTo sysFrom sysTo sf st tid i1 i2 i3 i4
                  pre.quoteID [Call.QuoteConsume pre.quoteID (.ok n)]).dropLast
              ++ [Call.Rollback r])
          ∧ (n ≠ 0 → (Exchange S req w).1 = .ok tid
            ∧ ∃ b1 b2, (Exchange S req w).2.log = (exchangeCommitment S req w).2.log
              ++ exchangeCalls req accFrom accTo sysFrom sysTo sf st tid i1 i2 i3 i4
                  pre.quoteID [Call.QuoteConsume pre.quoteID (.ok n)]
              ++ [Call.BroadcastBalance req.UserID b1, Call.BroadcastBalance req.UserID b2]))) := by
  rcases hcr : exchangeCommitment S req w with ⟨rc, wc⟩
  rw [hcr] at hc hlock
  simp only at hc hlock
  subst hc
  have hb := BeginTxx_of_reliable S hR (⟨wc.db, wc.log, pre⟩ : World σ ExchangeVars)
  have hlb : (BeginTxx S (⟨wc.db, wc.log, pre⟩ : World σ ExchangeVars)).2.log
      = wc.log ++ [Call.BeginTxx (.ok ())] := (call_ok_elim hb).2.2.1
  rcases hlr : lockTwoAccounts S req.FromAccountID req.ToAccountID
    (BeginTxx S (⟨wc.db, wc.log, pre⟩ : World σ ExchangeVars)).2 with ⟨rl, w2⟩
  rw [hlr] at hlock
  simp only at hlock
  subst hlock
  obtain ⟨hl2, -⟩ := lockTwoAccounts_log S hlr
  obtain ⟨sf, hsf⟩ := hG accFrom.Currency w2.db
  obtain ⟨st, hst⟩ := hG accTo.Currency (S.GetSystemAccount accFrom.Currency w2.db).2
  obtain ⟨l, hl⟩ := hR.2.2.1 (orderedIDs sf st).1
    (S.GetSystemAccount accTo.Currency (S.GetSystemAccount accFrom.Currency w2.db).2).2
  obtain ⟨r, hr⟩ := hR.2.2.1 (orderedIDs sf st).2 (S.GetForUpdate (orderedIDs sf st).1
    (S.GetSystemAccount accTo.Currency (S.GetSystemAccount accFrom.Currency w2.db).2).2).2
  have hl' : (S.GetForUpdate (orderedIDs sf st).1
      (S.GetSystemAccount accTo.Currency (S.GetSystemAccount accFrom.Currency w2.db).2).2).1
      = .ok (if sf = (orderedIDs sf st).1
          then (if sf = (orderedIDs sf st).1 then l else r)
          else (if sf = (orderedIDs sf st).1 then r else l)) := by
    rw [hl]
    by_cases h : sf = (orderedIDs sf st).1
    · simp only [if_pos h]
    · simp only [if_neg h]
  have hr' : (S.GetForUpdate (orderedIDs sf st).2 (S.GetForUpdate (orderedIDs sf st).1
      (S.GetSystemAccount accTo.Currency (S.GetSystemAccount accFrom.Currency w2.db).2).2).2).1
      = .ok (if sf = (orderedIDs sf st).1
          then (if sf = (orderedIDs sf st).1 then r else l)
          else (if sf = (orderedIDs sf st).1 then l else r)) := by
    rw [hr]
    by_cases h : sf = (orderedIDs sf st).1
    · simp only [if_pos h]
    · simp only [if_neg h]
  obtain ⟨k1, k2⟩ := exchangeWork_run S hR hQ req pre.rate pre.quoteID pre.expectedConverted
    hlr hown hne hpair hrate hconv hfunds hsf hst hl' hr'
  refine ⟨if sf = (orderedIDs sf st).1 then l else r,
    if sf = (orderedIDs sf st).1 then r else l, sf, st, fun hneg => ?_, fun hok => ⟨fun hq => ?_,
      fun hq => ?_⟩⟩
  · obtain ⟨wx, hx, hlx⟩ := k1 hneg
    refine ⟨Exchange_of_work_error S req w hpos hcr hb hx rfl, (S.Rollback wx.db).1, ?_⟩
    rw [Exchange_of_work_error_log S req w hpos hcr hb hx rfl, hlx, hl2, hlb]
    simp only [exchangeReads, List.append_assoc, List.cons_append, List.nil_append]
  · obtain ⟨tid, i1, i2, i3, i4, wx, hx, hlx, hv⟩ := (k2 hok).1 hq
    have hcm := Commit_of_reliable S hR wx
    obtain ⟨hres, b1, b2, hlog⟩ := Exchange_of_work_ok S req w hpos hcr hb hx hcm
    obtain ⟨-, -, hlc, hvc⟩ := call_ok_elim hcm
    refine ⟨tid, i1, i2, i3, i4, b1, b2, ?_, ?_⟩
    · rw [hres, hvc, hv]
    · rw [hlog, hlc, hlx, hlb, exchangeCalls_split req accFrom accTo _ _ sf st tid i1 i2 i3 i4
        pre.quoteID []]
      simp only [List.tail_cons, List.dropLast_concat, List.append_assoc, List.cons_append,
        List.nil_append]
  · obtain ⟨tid, i1, i2, i3, i4, n, wx, hx, hlx, hv, d, hd⟩ := (k2 hok).2 hq
    refine ⟨tid, i1, i2, i3, i4, n, d, hd, fun hn => ?_, fun hn => ?_⟩
    · rw [if_pos hn] at hx
      refine ⟨Exchange_of_work_error S req w hpos hcr hb hx rfl, (S.Rollback wx.db).1, ?_⟩
      rw [Exchange_of_work_error_log S req w hpos hcr hb hx rfl, hlx, hlb, exchangeCalls_dropLast]
      simp only [List.append_assoc, List.cons_append, List.nil_append]
    · rw [if_neg hn] at hx
      have hcm := Commit_of_reliable S hR wx
      obtain ⟨hres, b1, b2, hlog⟩ := Exchange_of_work_ok S req w hpos hcr hb hx hcm
      obtain ⟨-, -, hlc, hvc⟩ := call_ok_elim hcm
      refine ⟨?_, b1, b2, ?_⟩
      · rw [hres, hvc, hv]
      · rw [hlog, hlc, hlx, hlb, exchangeCalls_split req accFrom accTo _ _ sf st tid i1 i2 i3 i4
          pre.quoteID [Call.QuoteConsume pre.quoteID (.ok n)]]
        simp only [List.tail_cons, List.dropLast_concat, List.append_assoc, List.cons_append,
          List.nil_append]

end ExchangeOutcome


namespace Op

variable {σ ν α β : Type} {Q : Call → Prop}

theorem Emits.bind_of {m : Op σ ν α} {f : α → Op σ ν β} (hm : Emits Q m)
    (hf : ∀ a, (∃ w w1, m w = (.ok a, w1)) → Emits Q (f a)) : Emits Q (m >>= f) := by
  intro w
  obtain ⟨evs1, h1, hq1⟩ := hm w
  rw [bind_apply]
  rcases hmw : m w with ⟨r, w1⟩
  rw [hmw] at h1
  cases r with
  | error e => exact ⟨evs1, h1, hq1⟩
  | ok a =>
    obtain ⟨evs2, h2, hq2⟩ := hf a ⟨w, w1, hmw⟩ w1
    refine ⟨evs1 ++ evs2, ?_, ?_⟩
    · simp only [h2]
      rw [h1, List.append_assoc]
    · intro e he
      rcases List.mem_append.mp he with h | h
      · exact hq1 e h
      · exact hq2 e h

theorem Emits.countP_eq {m : Op σ ν α} {p : Call → Bool} (hm : Emits (fun e => p e = false) m)
    (w : World σ ν) : (m w).2.log.countP p = w.log.countP p := by
  obtain ⟨evs, h, hq⟩ := hm w
  rw [h, List.countP_append]
  have : evs.countP p = 0 := by
    rw [List.countP_eq_zero]
    intro e he
    rw [hq e he]
    simp
  omega

end Op

section Kinds

variable {σ ν : Type} (S : Stores σ) {Q : Call → Prop}

theorem WithTxLoop_emits_of (fn : Op σ ν Unit) (hfn : Op.Emits Q fn)
    (hBegin : ∀ r, Q (Call.BeginTxx r)) (hCommit : ∀ r, Q (Call.Commit r))
    (hRollback : ∀ r, Q (Call.Rollback r)) (hSleep : ∀ k, Q (Call.Sleep k)) :
    ∀ remaining attempt, Op.Emits Q (WithTxLoop S fn remaining attempt) := by
  intro remaining
  induction remaining with
  | zero => intro attempt; exact Op.Emits.fail _
  | succ n ih =>
    intro attempt w
    have hB : Op.Emits Q (BeginTxx S : Op σ ν Unit) := Op.Emits.call _ _ hBegin
    have hC : Op.Emits Q (Commit S : Op σ ν Unit) := Op.Emits.call _ _ hCommit
    have hR : Op.Emits Q (Rollback S : Op σ ν Unit) := Rollback_emits S hRollback
    have hS : Op.Emits Q (sleepWithBackoff attempt : Op σ ν Unit) :=
      sleepWithBackoff_emits attempt (hSleep _)
    rw [WithTxLoop_succ]
    obtain ⟨e1, h1, q1⟩ := hB w
    rcases hb : BeginTxx S w with ⟨rb, w1⟩
    rw [hb] at h1
    cases rb with
    | error e => exact ⟨e1, h1, q1⟩
    | ok u =>
      simp only at h1 ⊢
      obtain ⟨e2, h2, q2⟩ := hfn w1
      rcases hw : fn w1 with ⟨rf, w2⟩
      rw [hw] at h2
      simp only at h2
      cases rf with
      | error e =>
        simp only
        obtain ⟨e3, h3, q3⟩ := hR w2
        split
        · obtain ⟨e4, h4, q4⟩ := hS (Rollback S w2).2
          obtain ⟨e5, h5, q5⟩ := ih (attempt + 1) (sleepWithBackoff attempt (Rollback S w2).2).2
          refine ⟨e1 ++ e2 ++ e3 ++ e4 ++ e5, ?_, ?_⟩
          · rw [h5, h4, h3, h2, h1]; simp only [List.append_assoc]
          · intro e he
            simp only [List.mem_append] at he
            rcases he with (((h | h) | h) | h) | h
            exacts [q1 e h, q2 e h, q3 e h, q4 e h, q5 e h]
        · refine ⟨e1 ++ e2 ++ e3, ?_, ?_⟩
          · simp only [h3, h2, h1, List.append_assoc]
          · intro e he
            simp only [List.mem_append] at he
            rcases he with (h | h) | h
            exacts [q1 e h, q2 e h, q3 e h]
      | ok u2 =>
        simp only
        obtain ⟨e3, h3, q3⟩ := hC w2
        rcases hc : Commit S w2 with ⟨rc, w3⟩
        rw [hc] at h3
        simp only at h3
        cases rc with
        | error e =>
          simp only
          split
          · obtain ⟨e4, h4, q4⟩ := hS w3
            obtain ⟨e5, h5, q5⟩ := ih (attempt + 1) (sleepWithBackoff attempt w3).2
            refine ⟨e1 ++ e2 ++ e3 ++ e4 ++ e5, ?_, ?_⟩
            · rw [h5, h4, h3, h2, h1]; simp only [List.append_assoc]
            · intro e he
              simp only [List.mem_append] at he
              rcases he with (((h | h) | h) | h) | h
              exacts [q1 e h, q2 e h, q3 e h, q4 e h, q5 e h]
          · refine ⟨e1 ++ e2 ++ e3, ?_, ?_⟩
            · simp only [h3, h2, h1, List.append_assoc]
            · intro e he
              simp only [List.mem_append] at he
              rcases he with (h | h) | h
              exacts [q1 e h, q2 e h, q3 e h]
        | ok u3 =>
          refine ⟨e1 ++ e2 ++ e3, ?_, ?_⟩
          · simp only [h3, h2, h1, List.append_assoc]
          · intro e he
            simp only [List.mem_append] at he
            rcases he with (h | h) | h
            exacts [q1 e h, q2 e h, q3 e h]

theorem transferWork_work (req : TransferRequest) :
    Op.Emits (fun e => e.isWork = true ∧ e.isConsume = false) (transferWork S req) := by
  unfold transferWork UpdateBalance TxCreate InsertEntries AuditLog NewString
  refine Op.Emits.bind (lockTwoAccounts_emits S _ _ fun _ _ => ⟨rfl, rfl⟩) fun _ => ?_
  refine Op.Emits.bind (Op.Emits.failIf _ _) fun _ => ?_
  refine Op.Emits.bind (Op.Emits.failIf _ _) fun _ => ?_
  refine Op.Emits.bind (Op.Emits.modifyVars _) fun _ => ?_
  refine Op.Emits.bind (Op.Emits.modifyVars _) fun _ => ?_
  refine Op.Emits.bind (Op.Emits.failIf _ _) fun _ => ?_
  refine Op.Emits.bind (Op.Emits.modifyVars _) fun _ => ?_
  refine Op.Emits.bind (Op.Emits.call _ _ fun _ => ⟨rfl, rfl⟩) fun _ => ?_
  refine Op.Emits.bind (Op.Emits.call _ _ fun _ => ⟨rfl, rfl⟩) fun _ => ?_
  refine Op.Emits.bind (Op.Emits.ambient _) fun _ => ?_
  refine Op.Emits.bind (Op.Emits.modifyVars _) fun _ => ?_
  refine Op.Emits.bind (Op.Emits.call _ _ fun _ => ⟨rfl, rfl⟩) fun _ => ?_
  refine Op.Emits.bind (Op.Emits.ambient _) fun _ => ?_
  refine Op.Emits.bind (Op.Emits.ambient _) fun _ => ?_
  refine Op.Emits.bind (Op.Emits.ofExcept _) fun _ => ?_
  refine Op.Emits.bind (Op.Emits.call _ _ fun _ => ⟨rfl, rfl⟩) fun _ => ?_
  exact Op.Emits.call _ _ fun _ => ⟨rfl, rfl⟩

theorem exchangeWork_work (req : ExchangeRequest) (rate : Decimal) (quoteID : String)
    (expectedConverted : Int) :
    Op.Emits (fun e => e.isWork = true ∧ (quoteID = "" → e.isConsume = false))
      (exchangeWork S req rate quoteID expectedConverted) := by
  unfold exchangeWork UpdateBalance TxCreate InsertEntries AuditLog NewString GetSystemAccount
    QuoteConsume
  refine Op.Emits.bind (lockTwoAccounts_emits S _ _ fun _ _ => ⟨rfl, fun _ => rfl⟩) fun _ => ?_
  refine Op.Emits.bind (Op.Emits.failIf _ _) fun _ => ?_
  refine Op.Emits.bind (Op.Emits.modifyVars _) fun _ => ?_
  refine Op.Emits.bind (Op.Emits.failIf _ _) fun _ => ?_
  refine Op.Emits.bind (Op.Emits.failIf _ _) fun _ => ?_
  refine Op.Emits.bind (Op.Emits.failIf _ _) fun _ => ?_
  refine Op.Emits.bind (Op.Emits.failIf _ _) fun _ => ?_
  refine Op.Emits.bind (Op.Emits.modifyVars _) fun _ => ?_
  refine Op.Emits.bind (Op.Emits.call _ _ fun _ => ⟨rfl, fun _ => rfl⟩) fun _ => ?_
  refine Op.Emits.bind (Op.Emits.call _ _ fun _ => ⟨rfl, fun _ => rfl⟩) fun _ => ?_
  refine Op.Emits.bind (lockTwoAccounts_emits S _ _ fun _ _ => ⟨rfl, fun _ => rfl⟩) fun _ => ?_
  refine Op.Emits.bind (Op.Emits.failIf _ _) fun _ => ?_
  refine Op.Emits.bind (Op.Emits.call _ _ fun _ => ⟨rfl, fun _ => rfl⟩) fun _ => ?_
  refine Op.Emits.bind (Op.Emits.call _ _ fun _ => ⟨rfl, fun _ => rfl⟩) fun _ => ?_
  refine Op.Emits.bind (Op.Emits.call _ _ fun _ => ⟨rfl, fun _ => rfl⟩) fun _ => ?_
  refine Op.Emits.bind (Op.Emits.call _ _ fun _ => ⟨rfl, fun _ => rfl⟩) fun _ => ?_
  refine Op.Emits.bind (Op.Emits.ambient _) fun _ => ?_
  refine Op.Emits.bind (Op.Emits.modifyVars _) fun _ => ?_
  refine Op.Emits.bind (Op.Emits.call _ _ fun _ => ⟨rfl, fun _ => rfl⟩) fun _ => ?_
  refine Op.Emits.bind (Op.Emits.ambient _) fun _ => ?_
  refine Op.Emits.bind (Op.Emits.ambient _) fun _ => ?_
  refine Op.Emits.bind (Op.Emits.ambient _) fun _ => ?_
  refine Op.Emits.bind (Op.Emits.ambient _) fun _ => ?_
  refine Op.Emits.bind (Op.Emits.ofExcept _) fun _ => ?_
  refine Op.Emits.bind (Op.Emits.call _ _ fun _ => ⟨rfl, fun _ => rfl⟩) fun _ => ?_
  refine Op.Emits.bind (Op.Emits.call _ _ fun _ => ⟨rfl, fun _ => rfl⟩) fun _ => ?_
  by_cases hq : quoteID = ""
  · unfold Op.onlyIf
    rw [if_neg (not_not.mpr hq)]
    exact Op.Emits.ret ()
  · refine Op.Emits.onlyIf _ ?_
    refine Op.Emits.bind (Op.Emits.call _ _ fun _ => ⟨rfl, fun h => absurd h hq⟩) fun _ => ?_
    exact Op.Emits.failIf _ _

theorem exchangeCommitment_lookup (req : ExchangeRequest) :
    Op.Emits (fun e => ∃ quoteID r, e = Call.QuoteGetByID quoteID r)
      (exchangeCommitment S req : Op σ ν ExchangeVars) := by
  unfold exchangeCommitment QuoteGetByID Now
  split
  · refine Op.Emits.bind (Op.Emits.replaceError _
      (Op.Emits.call _ _ fun _ => ⟨_, _, rfl⟩)) fun _ => ?_
    refine Op.Emits.bind (Op.Emits.failIf _ _) fun _ => ?_
    refine Op.Emits.bind (Op.Emits.ambient _) fun _ => ?_
    refine Op.Emits.bind (Op.Emits.failIf _ _) fun _ => ?_
    refine Op.Emits.bind (Op.Emits.failIf _ _) fun _ => ?_
    refine Op.Emits.bind (Op.Emits.failIf _ _) fun _ => ?_
    split
    · exact Op.Emits.fail _
    · exact Op.Emits.pure _
  · split
    · split
      · exact Op.Emits.fail _
      · exact Op.Emits.pure _
    · exact Op.Emits.fail _

end Kinds


section ExchangeClaims

variable {σ : Type} (S : Stores σ)

theorem consumedQuoteStores_reliable : Reliable consumedQuoteStores :=
  ⟨fun _ => rfl, fun _ => rfl, fun _ _ => ⟨_, rfl⟩, fun _ _ _ => rfl, fun _ _ => rfl,
    fun _ _ => rfl, fun _ _ _ _ _ _ => rfl⟩

/-- C21: with stores that do not fail, an `Exchange` that passed the ownership, pair and
rate checks on the rows `accFrom`, `accTo` read under lock fails with `ErrInsufficientFunds`
when the source balance is below the amount; otherwise it goes on to read the two system
rows under lock (`exchangeReads`), and fails with `ErrInsufficientFunds` exactly when the
balance of the destination currency's system row minus the converted amount (int64
subtraction, exact whenever the exact difference is an int64) is negative, and returns a
transaction id otherwise. A system balance equal to the converted amount succeeds, and so
does a source balance equal to the amount. -/
theorem exchange_funds_decision (hR : Reliable S)
    (hG : ∀ currency d, ∃ id, (S.GetSystemAccount currency d).1 = .ok id)
    (hQ : ∀ quoteID d, ∃ n, (S.QuoteConsume quoteID d).1 = .ok n ∧ n ≠ 0)
    (req : ExchangeRequest) (w : World σ Unit) (pre : ExchangeVars)
    (accFrom accTo : Account) (hpos : 0 < req.AmountMinor)
    (hc : (exchangeCommitment S req w).1 = .ok pre)
    (hlock : (lockTwoAccounts S req.FromAccountID req.ToAccountID
        (BeginTxx S (⟨(exchangeCommitment S req w).2.db,
          (exchangeCommitment S req w).2.log, pre⟩ : World σ ExchangeVars)).2).1
        = .ok (accFrom, accTo))
    (hown : notOwnedBy accFrom.UserID req.UserID = false)
    (hne : accFrom.Currency ≠ accTo.Currency)
    (hpair : isExchangePairAllowed accFrom.Currency accTo.Currency = true)
    (hrate : pre.rate.Equal (directionalRate accFrom.Currency accTo.Currency) = true)
    (hconv : pre.expectedConverted = 0 ∨ pre.expectedConverted
      = convertMinor req.AmountMinor (directionalRate accFrom.Currency accTo.Currency)) :
    (accFrom.Balance < req.AmountMinor →
      (Exchange S req w).1 = .error .ErrInsufficientFunds)
    ∧ (req.AmountMinor ≤ accFrom.Balance →
      ∃ (sysFrom sysTo : Account) (sf st : String) (rest : List Call),
        (Exchange S req w).2.log = (exchangeCommitment S req w).2.log
          ++ exchangeReads req accFrom accTo sysFrom sysTo sf st ++ rest
        ∧ ((Exchange S req w).1 = .error .ErrInsufficientFunds ↔
            sub64 sysTo.Balance (convertMinor req.AmountMinor
              (directionalRate accFrom.Currency accTo.Currency)) < 0)
        ∧ (0 ≤ sub64 sysTo.Balance (convertMinor req.AmountMinor
              (directionalRate accFrom.Currency accTo.Currency)) →
            ∃ tid, (Exchange S req w).1 = .ok tid)
        ∧ (sysTo.Balance = convertMinor req.AmountMinor
              (directionalRate accFrom.Currency accTo.Currency) →
            ∃ tid, (Exchange S req w).1 = .ok tid)
        ∧ (isInt64 (sysTo.Balance - convertMinor req.AmountMinor
              (directionalRate accFrom.Currency accTo.Currency)) →
            sub64 sysTo.Balance (convertMinor req.AmountMinor
              (directionalRate accFrom.Currency accTo.Currency))
            = sysTo.Balance - convertMinor req.AmountMinor
              (directionalRate accFrom.Currency accTo.Currency))) := by
  refine ⟨fun hshort => ?_, fun hfunds => ?_⟩
  · rcases hcr : exchangeCommitment S req w with ⟨rc, wc⟩
    rw [hcr] at hc hlock
    simp only at hc hlock
    subst hc
    have hb := BeginTxx_of_reliable S hR (⟨wc.db, wc.log, pre⟩ : World σ ExchangeVars)
    rcases hlr : lockTwoAccounts S req.FromAccountID req.ToAccountID
      (BeginTxx S (⟨wc.db, wc.log, pre⟩ : World σ ExchangeVars)).2 with ⟨rl, w2⟩
    rw [hlr] at hlock
    simp only at hlock
    subst hlock
    obtain ⟨wx, hx, -⟩ := exchangeWork_short S req pre.rate pre.quoteID pre.expectedConverted
      hlr hown hne hpair hrate hconv hshort
    exact Exchange_of_work_error S req w hpos hcr hb hx rfl
  · obtain ⟨sysFrom, sysTo, sf, st, k1, k2⟩ := Exchange_run S hR hG
      (fun q d => (hQ q d).imp fun _ h => h.1) req w pre accFrom accTo hpos hc hlock hown hne
      hpair hrate hconv hfunds
    have hsuccess : 0 ≤ sub64 sysTo.Balance (convertMinor req.AmountMinor
          (directionalRate accFrom.Currency accTo.Currency)) →
        ∃ tid rest, (Exchange S req w).1 = .ok tid
          ∧ (Exchange S req w).2.log = (exchangeCommitment S req w).2.log
            ++ exchangeReads req accFrom accTo sysFrom sysTo sf st ++ rest := by
      intro hok
      by_cases hq : pre.quoteID = ""
      · obtain ⟨tid, i1, i2, i3, i4, b1, b2, hres, hlog⟩ := (k2 hok).1 hq
        obtain ⟨rest, hrest⟩ := exchangeCalls_reads req accFrom accTo sysFrom sysTo sf st tid
          i1 i2 i3 i4 pre.quoteID []
        refine ⟨tid, rest ++ [Call.BroadcastBalance req.UserID b1,
          Call.BroadcastBalance req.UserID b2], hres, ?_⟩
        rw [hlog, hrest]
        simp only [List.append_assoc]
      · obtain ⟨tid, i1, i2, i3, i4, n, d, hd, -, kn⟩ := (k2 hok).2 hq
        obtain ⟨n', hn', hne'⟩ := hQ pre.quoteID d
        rw [hd] at hn'
        simp only [Except.ok.injEq] at hn'
        subst hn'
        obtain ⟨hres, b1, b2, hlog⟩ := kn hne'
        obtain ⟨rest, hrest⟩ := exchangeCalls_reads req accFrom accTo sysFrom sysTo sf st tid
          i1 i2 i3 i4 pre.quoteID [Call.QuoteConsume pre.quoteID (.ok n)]
        refine ⟨tid, rest ++ [Call.BroadcastBalance req.UserID b1,
          Call.BroadcastBalance req.UserID b2], hres, ?_⟩
        rw [hlog, hrest]
        simp only [List.append_assoc]
    by_cases hneg : sub64 sysTo.Balance (convertMinor req.AmountMinor
        (directionalRate accFrom.Currency accTo.Currency)) < 0
    · obtain ⟨hres, r, hlog⟩ := k1 hneg
      refine ⟨sysFrom, sysTo, sf, st, [Call.Rollback r], hlog, ⟨fun _ => hneg, fun _ => hres⟩,
        fun h => absurd hneg (not_lt.mpr h), fun heq => ?_,
        fun hex => wrapInt64_of_isInt64 hex⟩
      rw [heq, sub64_self] at hneg
      exact absurd hneg (by decide)
    · obtain ⟨tid, rest, hres, hlog⟩ := hsuccess (not_lt.mp hneg)
      refine ⟨sysFrom, sysTo, sf, st, rest, hlog, ⟨fun h => ?_, fun h => absurd h hneg⟩,
        fun _ => ⟨tid, hres⟩, fun _ => ⟨tid, hres⟩, fun hex => wrapInt64_of_isInt64 hex⟩
      rw [hres] at h
      cases h

theorem consumesIn_append (a b : List Call) :
    consumesIn (a ++ b) = consumesIn a + consumesIn b := List.countP_append _ _ _

theorem broadcastsIn_append (a b : List Call) :
    broadcastsIn (a ++ b) = broadcastsIn a + broadcastsIn b := List.countP_append _ _ _

end ExchangeClaims


set_option maxRecDepth 100000 in
/-- C21 on the stub of the exchange scenario, where the source account holds exactly 1000 and
the EUR system account exactly 920: an exchange of 2000 fails with `ErrInsufficientFunds`,
and the exchange of 1000, converted to 920, succeeds. -/
theorem exchange_funds_decision_witness :
    (Exchange (stubStores exchangeStubAccount stubSystemAccount)
        { exchangeRequest with AmountMinor := 2000 } { db := 0, log := [], vars := () }).1
      = .error .ErrInsufficientFunds
    ∧ (Exchange (stubStores exchangeStubAccount stubSystemAccount) exchangeRequest
        { db := 0, log := [], vars := () }).1 = .ok "id-0" :=
  ⟨(exchange_funds_decision (stubStores exchangeStubAccount stubSystemAccount)
      (stubStores_reliable _ _) (fun _ _ => ⟨_, rfl⟩) (fun _ _ => ⟨1, rfl, by decide⟩)
      { exchangeRequest with AmountMinor := 2000 } { db := 0, log := [], vars := () }
      { rate := ⟨92, -2⟩ } (exchangeStubAccount "from") (exchangeStubAccount "to")
      (by decide) (by decide) (by decide) (by decide) (by decide) (by decide) (by decide)
      (Or.inl rfl)).1 (by decide),
   by decide⟩

namespace Op

variable {σ ν μ α β : Type} {L : Error → Prop}

theorem Avoids.avoids_pure (a : α) : Avoids L (Pure.pure a : Op σ ν α) := by
  intro w e h
  cases h

theorem Avoids.avoids_ret (a : α) : Avoids L (Op.ret a : Op σ ν α) := by
  intro w e h
  cases h

theorem Avoids.avoids_fail {e : Error} (h : ¬ L e) : Avoids L (Op.fail e : Op σ ν α) := by
  intro w e' h'
  simp only [Op.fail, Except.error.injEq] at h'
  subst h'
  exact h

theorem Avoids.avoids_failIf {c : Prop} [Decidable c] {e : Error} (h : c → ¬ L e) :
    Avoids L (Op.failIf c e : Op σ ν Unit) := by
  intro w e' h'
  rw [failIf_apply] at h'
  by_cases hc : c
  · simp only [if_pos hc, Except.error.injEq] at h'
    subst h'
    exact h hc
  · simp only [if_neg hc] at h'
    cases h'

theorem Avoids.avoids_modifyVars (f : ν → ν) : Avoids L (Op.modifyVars f : Op σ ν Unit) := by
  intro w e h
  cases h

theorem Avoids.avoids_ambient (f : σ → α × σ) : Avoids L (Op.ambient f : Op σ ν α) := by
  intro w e h
  cases h

theorem Avoids.avoids_call {f : σ → Except Error α × σ} {ev : Except Error α → Call}
    (h : ∀ d e, (f d).1 = .error e → ¬ L e) : Avoids L (Op.call f ev : Op σ ν α) :=
  fun w e he => h w.db e he

theorem Avoids.avoids_ofExcept {r : Except Error α} (h : ∀ e, r = .error e → ¬ L e) :
    Avoids L (Op.ofExcept r : Op σ ν α) :=
  fun _ e he => h e he

theorem Avoids.avoids_bind_of {m : Op σ ν α} {f : α → Op σ ν β} (hm : Avoids L m)
    (hf : ∀ a, (∃ w w1, m w = (.ok a, w1)) → Avoids L (f a)) : Avoids L (m >>= f) := by
  intro w e h
  rw [bind_apply] at h
  rcases hmw : m w with ⟨r, w1⟩
  rw [hmw] at h
  cases r with
  | error e1 =>
    simp only [Except.error.injEq] at h
    subst h
    exact hm w e1 (by rw [hmw])
  | ok a => exact hf a ⟨w, w1, hmw⟩ w1 e h

theorem Avoids.avoids_bind {m : Op σ ν α} {f : α → Op σ ν β} (hm : Avoids L m)
    (hf : ∀ a, Avoids L (f a)) : Avoids L (m >>= f) :=
  Avoids.avoids_bind_of hm fun a _ => hf a

theorem Avoids.avoids_onlyIf (c : Prop) [Decidable c] {m : Op σ ν Unit} (hm : Avoids L m) :
    Avoids L (Op.onlyIf c m) := by
  unfold Op.onlyIf
  split
  · exact hm
  · exact Avoids.avoids_ret ()

theorem Avoids.avoids_replaceError {m : Op σ ν α} {e : Error} (h : ¬ L e) :
    Avoids L (Op.replaceError m e) := by
  intro w e' h'
  unfold Op.replaceError at h'
  rcases hmw : m w with ⟨r, w1⟩
  rw [hmw] at h'
  cases r with
  | error e1 =>
    simp only [Except.error.injEq] at h'
    subst h'
    exact h
  | ok a => cases h'

theorem Avoids.avoids_withVars (init : ν) {m : Op σ ν α} (hm : Avoids L m) :
    Avoids L (Op.withVars init m : Op σ μ (α × ν)) := by
  intro w e h
  unfold Op.withVars at h
  rcases hmw : m { db := w.db, log := w.log, vars := init } with ⟨r, w1⟩
  rw [hmw] at h
  cases r with
  | error e1 =>
    simp only [Except.error.injEq] at h
    subst h
    exact hm _ e1 (by rw [hmw])
  | ok a => cases h

end Op

section AvoidsCalls

variable {σ ν : Type} (S : Stores σ) {L : Error → Prop}

theorem lockTwoAccounts_avoids (a b : String)
    (h : ∀ accountID d e, (S.GetForUpdate accountID d).1 = .error e → ¬ L e) :
    Op.Avoids L (lockTwoAccounts S a b : Op σ ν (Account × Account)) := by
  unfold lockTwoAccounts GetForUpdate
  refine Op.Avoids.avoids_bind (Op.Avoids.avoids_call (h _)) fun l => ?_
  refine Op.Avoids.avoids_bind (Op.Avoids.avoids_call (h _)) fun r => ?_
  split <;> exact Op.Avoids.avoids_pure _

theorem lockTwoAccounts_rows {a b : String} {w w' : World σ ν} {p : Account × Account}
    (h : lockTwoAccounts S a b w = (.ok p, w')) :
    (∃ d, (S.GetForUpdate a d).1 = .ok p.1) ∧ (∃ d, (S.GetForUpdate b d).1 = .ok p.2) := by
  simp only [lockTwoAccounts, GetForUpdate, Op.bind_ok_iff, Op.call_ok_iff] at h
  obtain ⟨l, w1, ⟨hl, rfl⟩, r, w2, ⟨hr, rfl⟩, h⟩ := h
  rcases orderedIDs_cases a b with ⟨h1, h2⟩ | ⟨h1, h2, h3⟩
  · rw [if_pos h1] at h
    obtain ⟨hp, -⟩ := Op.pure_ok_iff.mp h
    subst hp
    rw [← h1] at hl
    rw [← h2] at hr
    exact ⟨⟨_, hl⟩, ⟨_, hr⟩⟩
  · rw [if_neg h1] at h
    obtain ⟨hp, -⟩ := Op.pure_ok_iff.mp h
    subst hp
    rw [← h3] at hl
    rw [← h2] at hr
    exact ⟨⟨_, hr⟩, ⟨_, hl⟩⟩

theorem WithTxLoop_avoids (fn : Op σ ν Unit) (hfn : Op.Avoids L fn)
    (hBegin : ∀ d e, (S.BeginTxx d).1 = .error e → ¬ L e)
    (hCommit : ∀ d e, (S.Commit d).1 = .error e → ¬ L e)
    (hLimit : ¬ L (.other "transaction retry limit exceeded")) :
    ∀ remaining attempt, Op.Avoids L (WithTxLoop S fn remaining attempt) := by
  intro remaining
  induction remaining with
  | zero => intro attempt; exact Op.Avoids.avoids_fail hLimit
  | succ n ih =>
    intro attempt w e h
    rw [WithTxLoop_succ] at h
    rcases hb : BeginTxx S w with ⟨rb, w1⟩
    rw [hb] at h
    cases rb with
    | error e1 =>
      simp only [Except.error.injEq] at h
      subst h
      have : (S.BeginTxx w.db).1 = .error e1 := by
        have := congrArg Prod.fst hb
        exact this
      exact hBegin _ _ this
    | ok u =>
      simp only at h
      rcases hw : fn w1 with ⟨rf, w2⟩
      rw [hw] at h
      cases rf with
      | error e1 =>
        simp only at h
        split at h
        · exact ih _ _ _ h
        · simp only [Except.error.injEq] at h
          subst h
          exact hfn w1 e1 (by rw [hw])
      | ok u2 =>
        simp only at h
        rcases hc : Commit S w2 with ⟨rc, w3⟩
        rw [hc] at h
        cases rc with
        | error e1 =>
          simp only at h
          split at h
          · exact ih _ _ _ h
          · simp only [Except.error.injEq] at h
            subst h
            have : (S.Commit w2.db).1 = .error e1 := by
              have := congrArg Prod.fst hc
              exact this
            exact hCommit _ _ this
        | ok u3 => cases h

theorem exchangeCommitment_avoids (req : ExchangeRequest)
    (h1 : ¬ L .ErrQuoteNotFound) (h2 : ¬ L .ErrQuoteConsumed) (h3 : ¬ L .ErrQuoteExpired)
    (h4 : ¬ L .ErrInvalidExchangeRequest) :
    Op.Avoids L (exchangeCommitment S req : Op σ ν ExchangeVars) := by
  unfold exchangeCommitment Now
  split
  · refine Op.Avoids.avoids_bind (Op.Avoids.avoids_replaceError h1) fun _ => ?_
    refine Op.Avoids.avoids_bind (Op.Avoids.avoids_failIf fun _ => h2) fun _ => ?_
    refine Op.Avoids.avoids_bind (Op.Avoids.avoids_ambient _) fun _ => ?_
    refine Op.Avoids.avoids_bind (Op.Avoids.avoids_failIf fun _ => h3) fun _ => ?_
    refine Op.Avoids.avoids_bind (Op.Avoids.avoids_failIf fun _ => h4) fun _ => ?_
    refine Op.Avoids.avoids_bind (Op.Avoids.avoids_failIf fun _ => h4) fun _ => ?_
    split
    · exact Op.Avoids.avoids_fail h4
    · exact Op.Avoids.avoids_pure _
  · split
    · split
      · exact Op.Avoids.avoids_fail h4
      · exact Op.Avoids.avoids_pure _
    · exact Op.Avoids.avoids_fail h4

theorem BroadcastBalance_avoids (userID : String) (update : BalanceUpdate) :
    Op.Avoids L (BroadcastBalance S userID update : Op σ ν Unit) := by
  intro w e h
  cases h

end AvoidsCalls


section FreshQuote

variable {σ ν : Type} (S : Stores σ)

theorem rate_text_reads_back {fromCurrency toCurrency : String}
    (h : isExchangePairAllowed fromCurrency toCurrency = true) :
    ∃ rate, Decimal.NewFromString ((directionalRate fromCurrency toCurrency).StringFixedBank 6)
        = some rate
      ∧ rate.Equal (directionalRate fromCurrency toCurrency) = true := by
  rcases allowed_pair_cases h with ⟨rfl, rfl⟩ | ⟨rfl, rfl⟩
  · exact ⟨⟨920000, -6⟩, by decide, by decide⟩
  · exact ⟨⟨1086957, -6⟩, by decide, by decide⟩

theorem QuoteExchange_ok (req : ExchangeQuoteRequest) (w : World σ ν)
    (q : services.ExchangeQuote) (h : (QuoteExchange S req w).1 = .ok q) :
    ∃ (fromAccount toAccount : Account) (d d' : σ),
      (S.GetByID req.FromAccountID d).1 = .ok fromAccount
      ∧ (S.GetByID req.ToAccountID d').1 = .ok toAccount
      ∧ isExchangePairAllowed fromAccount.Currency toAccount.Currency = true
      ∧ q.Rate = (directionalRate fromAccount.Currency toAccount.Currency).StringFixedBank 6
      ∧ q.ConvertedMinor = convertMinor req.AmountMinor
          (directionalRate fromAccount.Currency toAccount.Currency) := by
  rcases hrun : QuoteExchange S req w with ⟨res, w'⟩
  rw [hrun] at h
  simp only at h
  subst h
  unfold QuoteExchange GetByID NewString Now QuoteCreate at hrun
  obtain ⟨_, w1, s1, h1⟩ := bind_ok_elim hrun
  obtain ⟨_, w2, s2, h2⟩ := bind_ok_elim h1
  obtain ⟨fa, w3, s3, h3⟩ := bind_ok_elim h2
  obtain ⟨hfa, -, -, -⟩ := call_ok_elim s3
  obtain ⟨ta, w4, s4, h4⟩ := bind_ok_elim h3
  obtain ⟨hta, -, -, -⟩ := call_ok_elim s4
  obtain ⟨_, w5, s5, h5⟩ := bind_ok_elim h4
  obtain ⟨_, w6, s6, h6⟩ := bind_ok_elim h5
  obtain ⟨hpair, -, -, -⟩ := failIf_ok_elim s6
  obtain ⟨qid, w7, s7, h7⟩ := bind_ok_elim h6
  obtain ⟨now, w8, s8, h8⟩ := bind_ok_elim h7
  obtain ⟨_, w9, s9, h9⟩ := bind_ok_elim h8
  obtain ⟨hq, -⟩ := Op.pure_ok_iff.mp h9
  have hpair2 : isExchangePairAllowed fa.Currency ta.Currency = true := by
    by_contra hc
    exact hpair (Or.inr (by simpa using hc))
  refine ⟨fa, ta, _, _, hfa, hta, hpair2, ?_, ?_⟩
  · rw [hq]
  · rw [hq]

theorem exchangeWork_keeps_rate (hN : NoSentinel S) (req : ExchangeRequest) (rate : Decimal)
    (quoteID : String) (expectedConverted : Int) (fromCurrency toCurrency : String)
    (hF : ∀ d a, (S.GetForUpdate req.FromAccountID d).1 = .ok a → a.Currency = fromCurrency)
    (hT : ∀ d a, (S.GetForUpdate req.ToAccountID d).1 = .ok a → a.Currency = toCurrency)
    (hrate : rate.Equal (directionalRate fromCurrency toCurrency) = true)
    (hconv : expectedConverted
      = convertMinor req.AmountMinor (directionalRate fromCurrency toCurrency)) :
    Op.Avoids (fun e => e = .ErrRateMismatch)
      (exchangeWork S req rate quoteID expectedConverted) := by
  have hS : ∀ e : Error, e.isSentinel = false → ¬ e = .ErrRateMismatch := by
    intro e h he
    subst he
    cases h
  obtain ⟨-, -, n3, n4, n5, n6, n7, n8, n9⟩ := hN
  unfold exchangeWork UpdateBalance TxCreate InsertEntries AuditLog NewString GetSystemAccount
    QuoteConsume
  refine Op.Avoids.avoids_bind_of (lockTwoAccounts_avoids S _ _ fun i d e h => hS e (n3 i d e h))
    fun p hp => ?_
  obtain ⟨w, w1, hw⟩ := hp
  obtain ⟨⟨d1, hd1⟩, ⟨d2, hd2⟩⟩ := lockTwoAccounts_rows S hw
  have hc1 : p.1.Currency = fromCurrency := hF d1 _ hd1
  have hc2 : p.2.Currency = toCurrency := hT d2 _ hd2
  refine Op.Avoids.avoids_bind (Op.Avoids.avoids_failIf fun _ => by decide) fun _ => ?_
  refine Op.Avoids.avoids_bind (Op.Avoids.avoids_modifyVars _) fun _ => ?_
  refine Op.Avoids.avoids_bind (Op.Avoids.avoids_failIf fun _ => by decide) fun _ => ?_
  refine Op.Avoids.avoids_bind (Op.Avoids.avoids_failIf fun hc => ?_) fun _ => ?_
  · rw [hc1, hc2, hrate] at hc
    cases hc
  refine Op.Avoids.avoids_bind (Op.Avoids.avoids_failIf fun hc => ?_) fun _ => ?_
  · rw [hc1, hc2] at hc
    exact absurd hconv hc.2
  refine Op.Avoids.avoids_bind (Op.Avoids.avoids_failIf fun _ => by decide) fun _ => ?_
  refine Op.Avoids.avoids_bind (Op.Avoids.avoids_modifyVars _) fun _ => ?_
  refine Op.Avoids.avoids_bind (Op.Avoids.avoids_call fun d e h => hS e (n5 _ d e h)) fun _ => ?_
  refine Op.Avoids.avoids_bind (Op.Avoids.avoids_call fun d e h => hS e (n5 _ d e h)) fun _ => ?_
  refine Op.Avoids.avoids_bind (lockTwoAccounts_avoids S _ _ fun i d e h => hS e (n3 i d e h))
    fun _ => ?_
  refine Op.Avoids.avoids_bind (Op.Avoids.avoids_failIf fun _ => by decide) fun _ => ?_
  refine Op.Avoids.avoids_bind (Op.Avoids.avoids_call fun d e h => hS e (n4 _ _ d e h)) fun _ => ?_
  refine Op.Avoids.avoids_bind (Op.Avoids.avoids_call fun d e h => hS e (n4 _ _ d e h)) fun _ => ?_
  refine Op.Avoids.avoids_bind (Op.Avoids.avoids_call fun d e h => hS e (n4 _ _ d e h)) fun _ => ?_
  refine Op.Avoids.avoids_bind (Op.Avoids.avoids_call fun d e h => hS e (n4 _ _ d e h)) fun _ => ?_
  refine Op.Avoids.avoids_bind (Op.Avoids.avoids_ambient _) fun _ => ?_
  refine Op.Avoids.avoids_bind (Op.Avoids.avoids_modifyVars _) fun _ => ?_
  refine Op.Avoids.avoids_bind (Op.Avoids.avoids_call fun d e h => hS e (n7 _ d e h)) fun _ => ?_
  refine Op.Avoids.avoids_bind (Op.Avoids.avoids_ambient _) fun _ => ?_
  refine Op.Avoids.avoids_bind (Op.Avoids.avoids_ambient _) fun _ => ?_
  refine Op.Avoids.avoids_bind (Op.Avoids.avoids_ambient _) fun _ => ?_
  refine Op.Avoids.avoids_bind (Op.Avoids.avoids_ambient _) fun _ => ?_
  refine Op.Avoids.avoids_bind (Op.Avoids.avoids_ofExcept fun e h => ?_) fun _ => ?_
  · rw [ensureBalancedByCurrency_exchangeEntries] at h
    cases h
  refine Op.Avoids.avoids_bind (Op.Avoids.avoids_call fun d e h => hS e (n6 _ d e h)) fun _ => ?_
  refine Op.Avoids.avoids_bind (Op.Avoids.avoids_call fun d e h => hS e (n9 _ _ _ _ _ d e h)) fun _ => ?_
  refine Op.Avoids.avoids_onlyIf _ ?_
  refine Op.Avoids.avoids_bind (Op.Avoids.avoids_call fun d e h => hS e (n8 _ d e h)) fun _ => ?_
  exact Op.Avoids.avoids_failIf fun _ => by decide

/-- C23: let `QuoteExchange` return the quote `q`, and let `Exchange` be called with the same
user, accounts and amount and with the id of `q`. Assume that the stores return no sentinel,
that a lookup of the quote finds a row carrying the rate text and the converted amount of
`q`, and that locked reads of an account report the currency its plain reads report. Then
`Exchange` does not return `ErrRateMismatch`, from any state: the rate text of `q` is the
6-decimal text of the rate of the accounts' pair, it parses to a decimal equal to the rate
`Exchange` recomputes under lock, and the converted amount of `q` is the amount `Exchange`
recomputes. -/
theorem fresh_quote_never_rate_mismatch (hN : NoSentinel S) (quoted : ExchangeQuoteRequest)
    (w0 : World σ Unit) (q : services.ExchangeQuote)
    (hq : (QuoteExchange S quoted w0).1 = .ok q) (req : ExchangeRequest)
    (hfrom : req.FromAccountID = quoted.FromAccountID)
    (hto : req.ToAccountID = quoted.ToAccountID)
    (hamount : req.AmountMinor = quoted.AmountMinor)
    (hid : req.QuoteID = some q.ID)
    (hrow : ∀ d row, (S.QuoteGetByID q.ID d).1 = .ok row →
      row.Rate = q.Rate ∧ row.ConvertedMinor = q.ConvertedMinor)
    (hcur : ∀ accountID d d' a a', (S.GetByID accountID d).1 = .ok a →
      (S.GetForUpdate accountID d').1 = .ok a' → a'.Currency = a.Currency) :
    (∀ w, (Exchange S req w).1 ≠ .error .ErrRateMismatch)
    ∧ ∃ (fromCurrency toCurrency : String) (rate : Decimal),
      isExchangePairAllowed fromCurrency toCurrency = true
      ∧ (∀ d a, (S.GetForUpdate req.FromAccountID d).1 = .ok a → a.Currency = fromCurrency)
      ∧ (∀ d a, (S.GetForUpdate req.ToAccountID d).1 = .ok a → a.Currency = toCurrency)
      ∧ q.Rate = (directionalRate fromCurrency toCurrency).StringFixedBank 6
      ∧ Decimal.NewFromString q.Rate = some rate
      ∧ rate.Equal (directionalRate fromCurrency toCurrency) = true
      ∧ q.ConvertedMinor
          = convertMinor req.AmountMinor (directionalRate fromCurrency toCurrency) := by
  obtain ⟨fa, ta, d, d', hfa, hta, hpair, hqr, hqc⟩ := QuoteExchange_ok S quoted w0 q hq
  obtain ⟨rate, hparse, hequal⟩ := rate_text_reads_back hpair
  have hF : ∀ d a, (S.GetForUpdate req.FromAccountID d).1 = .ok a → a.Currency = fa.Currency := by
    intro d1 a ha
    rw [hfrom] at ha
    exact hcur _ _ _ _ _ hfa ha
  have hT : ∀ d a, (S.GetForUpdate req.ToAccountID d).1 = .ok a → a.Currency = ta.Currency := by
    intro d1 a ha
    rw [hto] at ha
    exact hcur _ _ _ _ _ hta ha
  refine ⟨?_, fa.Currency, ta.Currency, rate, hpair, hF, hT, hqr, by rw [hqr]; exact hparse,
    hequal, by rw [hqc, hamount]⟩
  have hS : ∀ e : Error, e.isSentinel = false → ¬ e = .ErrRateMismatch := by
    intro e h he
    subst he
    cases h
  have key : Op.Avoids (fun e => e = .ErrRateMismatch) (Exchange S req) := by
    unfold Exchange WithTx
    refine Op.Avoids.avoids_bind (Op.Avoids.avoids_failIf fun _ => by decide) fun _ => ?_
    refine Op.Avoids.avoids_bind_of (exchangeCommitment_avoids S req (by decide) (by decide)
      (by decide) (by decide)) fun pre hpre => ?_
    obtain ⟨w, w1, hw⟩ := hpre
    obtain ⟨quote, hlk, hpc, hpr⟩ := (exchangeCommitment_ok S req w pre (by rw [hw])).1 q.ID hid
    obtain ⟨hr1, hr2⟩ := hrow _ _ hlk
    have hrate : pre.rate.Equal (directionalRate fa.Currency ta.Currency) = true := by
      rw [hr1, hqr, hparse] at hpr
      simp only [Option.some.injEq] at hpr
      rw [← hpr]
      exact hequal
    have hconv : pre.expectedConverted
        = convertMinor req.AmountMinor (directionalRate fa.Currency ta.Currency) := by
      rw [hpc, hr2, hqc, hamount]
    refine Op.Avoids.avoids_bind (Op.Avoids.avoids_withVars _ (WithTxLoop_avoids S _
      (exchangeWork_keeps_rate S hN req _ _ _ _ _ hF hT hrate hconv)
      (fun d e h => hS e (hN.1 d e h)) (fun d e h => hS e (hN.2.1 d e h)) (by decide) _ _))
      fun _ => ?_
    refine Op.Avoids.avoids_bind (BroadcastBalance_avoids S _ _) fun _ => ?_
    refine Op.Avoids.avoids_bind (BroadcastBalance_avoids S _ _) fun _ => ?_
    exact Op.Avoids.avoids_pure _
  intro w h
  exact key w _ h rfl

end FreshQuote


theorem openQuoteStores_noSentinel : NoSentinel openQuoteStores :=
  ⟨fun _ _ h => (by cases h), fun _ _ h => (by cases h), fun _ _ _ h => (by cases h),
    fun _ _ _ _ h => (by cases h), fun _ _ _ h => (by cases h), fun _ _ _ h => (by cases h),
    fun _ _ _ h => (by cases h), fun _ _ _ h => (by cases h),
    fun _ _ _ _ _ _ _ h => (by cases h)⟩

set_option maxRecDepth 100000 in
/-- C23 on the stub of the exchange scenario: the quote for 1000 USD is `0.920000` with
converted amount 920, and the exchange that names it is not rejected with `ErrRateMismatch`;
it succeeds. -/
theorem fresh_quote_never_rate_mismatch_witness :
    (QuoteExchange openQuoteStores quoteRequest { db := 0, log := [], vars := () }).1
      = .ok { ID := "id-0", Rate := "0.920000", ConvertedMinor := 920,
              ExpiresAt := 120000000000 }
    ∧ (Exchange openQuoteStores { quotedExchangeRequest with QuoteID := some "id-0" }
        { db := 1, log := [], vars := () }).1 ≠ .error .ErrRateMismatch
    ∧ (Exchange openQuoteStores { quotedExchangeRequest with QuoteID := some "id-0" }
        { db := 1, log := [], vars := () }).1 = .ok "id-1" :=
  ⟨by decide,
   (fresh_quote_never_rate_mismatch openQuoteStores openQuoteStores_noSentinel quoteRequest
      { db := 0, log := [], vars := () }
      { ID := "id-0", Rate := "0.920000", ConvertedMinor := 920, ExpiresAt := 120000000000 }
      (by decide) { quotedExchangeRequest with QuoteID := some "id-0" } rfl rfl rfl rfl
      (fun _ _ h => (by cases h; exact ⟨rfl, rfl⟩))
      (fun _ _ _ _ _ h1 h2 => (by cases h1; cases h2; rfl))).1 { db := 1, log := [], vars := () },
   by decide⟩

namespace Op

variable {σ ν μ α β : Type} {L : Error → Prop}

theorem CleanOn.of_avoids {m : Op σ ν α} (h : Avoids L m) : CleanOn L m :=
  fun w e he hL => absurd hL (h w e he)

theorem CleanOn.of_emits {m : Op σ ν α} (h : Emits (fun ev => ev.isEffect = false) m) :
    CleanOn L m :=
  fun w _ _ _ => h w

theorem CleanOn.bind_emits {m : Op σ ν α} {f : α → Op σ ν β}
    (hm : Emits (fun ev => ev.isEffect = false) m) (hf : ∀ a, CleanOn L (f a)) :
    CleanOn L (m >>= f) := by
  intro w e he hL
  obtain ⟨evs1, h1, hq1⟩ := hm w
  rw [bind_apply] at he ⊢
  rcases hmw : m w with ⟨r, w1⟩
  rw [hmw] at h1 he
  cases r with
  | error e1 => exact ⟨evs1, h1, hq1⟩
  | ok a =>
    obtain ⟨evs2, h2, hq2⟩ := hf a w1 e he hL
    refine ⟨evs1 ++ evs2, ?_, ?_⟩
    · simp only [h2]
      rw [h1, List.append_assoc]
    · intro ev hev
      rcases List.mem_append.mp hev with h | h
      · exact hq1 ev h
      · exact hq2 ev h

end Op

section Clean

variable {σ ν : Type} (S : Stores σ) {L : Error → Prop}

theorem transferWork_cleanOn (hN : NoSentinel S) (hL : ∀ e, L e → e.isSentinel = true)
    (req : TransferRequest) : Op.CleanOn L (transferWork S req) := by
  have hS : ∀ e : Error, e.isSentinel = false → ¬ L e := by
    intro e h he
    rw [hL e he] at h
    cases h
  obtain ⟨-, -, n3, n4, n5, n6, n7, n8, n9⟩ := hN
  unfold transferWork UpdateBalance TxCreate InsertEntries AuditLog NewString
  refine Op.CleanOn.bind_emits (lockTwoAccounts_emits S _ _ fun _ _ => rfl) fun _ => ?_
  refine Op.CleanOn.bind_emits (Op.Emits.failIf _ _) fun _ => ?_
  refine Op.CleanOn.bind_emits (Op.Emits.failIf _ _) fun _ => ?_
  refine Op.CleanOn.bind_emits (Op.Emits.modifyVars _) fun _ => ?_
  refine Op.CleanOn.bind_emits (Op.Emits.modifyVars _) fun _ => ?_
  refine Op.CleanOn.bind_emits (Op.Emits.failIf _ _) fun _ => ?_
  refine Op.CleanOn.of_avoids ?_
  refine Op.Avoids.avoids_bind (Op.Avoids.avoids_modifyVars _) fun _ => ?_
  refine Op.Avoids.avoids_bind (Op.Avoids.avoids_call fun d e h => hS e (n4 _ _ d e h)) fun _ => ?_
  refine Op.Avoids.avoids_bind (Op.Avoids.avoids_call fun d e h => hS e (n4 _ _ d e h)) fun _ => ?_
  refine Op.Avoids.avoids_bind (Op.Avoids.avoids_ambient _) fun _ => ?_
  refine Op.Avoids.avoids_bind (Op.Avoids.avoids_modifyVars _) fun _ => ?_
  refine Op.Avoids.avoids_bind (Op.Avoids.avoids_call fun d e h => hS e (n7 _ d e h)) fun _ => ?_
  refine Op.Avoids.avoids_bind (Op.Avoids.avoids_ambient _) fun _ => ?_
  refine Op.Avoids.avoids_bind (Op.Avoids.avoids_ambient _) fun _ => ?_
  refine Op.Avoids.avoids_bind (Op.Avoids.avoids_ofExcept fun e h => ?_) fun _ => ?_
  · rw [ensureBalanced_transferEntries] at h
    cases h
  refine Op.Avoids.avoids_bind (Op.Avoids.avoids_call fun d e h => hS e (n6 _ d e h)) fun _ => ?_
  exact Op.Avoids.avoids_call fun d e h => hS e (n9 _ _ _ _ _ d e h)

theorem exchangeWork_cleanOn (hN : NoSentinel S) (hL : ∀ e, L e → e.isSentinel = true)
    (hC : ¬ L .ErrQuoteConsumed) (req : ExchangeRequest) (rate : Decimal) (quoteID : String)
    (expectedConverted : Int) :
    Op.CleanOn L (exchangeWork S req rate quoteID expectedConverted) := by
  have hS : ∀ e : Error, e.isSentinel = false → ¬ L e := by
    intro e h he
    rw [hL e he] at h
    cases h
  obtain ⟨-, -, n3, n4, n5, n6, n7, n8, n9⟩ := hN
  unfold exchangeWork UpdateBalance TxCreate InsertEntries AuditLog NewString GetSystemAccount
    QuoteConsume
  refine Op.CleanOn.bind_emits (lockTwoAccounts_emits S _ _ fun _ _ => rfl) fun _ => ?_
  refine Op.CleanOn.bind_emits (Op.Emits.failIf _ _) fun _ => ?_
  refine Op.CleanOn.bind_emits (Op.Emits.modifyVars _) fun _ => ?_
  refine Op.CleanOn.bind_emits (Op.Emits.failIf _ _) fun _ => ?_
  refine Op.CleanOn.bind_emits (Op.Emits.failIf _ _) fun _ => ?_
  refine Op.CleanOn.bind_emits (Op.Emits.failIf _ _) fun _ => ?_
  refine Op.CleanOn.bind_emits (Op.Emits.failIf _ _) fun _ => ?_
  refine Op.CleanOn.bind_emits (Op.Emits.modifyVars _) fun _ => ?_
  refine Op.CleanOn.bind_emits (Op.Emits.call _ _ fun _ => rfl) fun _ => ?_
  refine Op.CleanOn.bind_emits (Op.Emits.call _ _ fun _ => rfl) fun _ => ?_
  refine Op.CleanOn.bind_emits (lockTwoAccounts_emits S _ _ fun _ _ => rfl) fun _ => ?_
  refine Op.CleanOn.bind_emits (Op.Emits.failIf _ _) fun _ => ?_
  refine Op.CleanOn.of_avoids ?_
  refine Op.Avoids.avoids_bind (Op.Avoids.avoids_call fun d e h => hS e (n4 _ _ d e h)) fun _ => ?_
  refine Op.Avoids.avoids_bind (Op.Avoids.avoids_call fun d e h => hS e (n4 _ _ d e h)) fun _ => ?_
  refine Op.Avoids.avoids_bind (Op.Avoids.avoids_call fun d e h => hS e (n4 _ _ d e h)) fun _ => ?_
  refine Op.Avoids.avoids_bind (Op.Avoids.avoids_call fun d e h => hS e (n4 _ _ d e h)) fun _ => ?_
  refine Op.Avoids.avoids_bind (Op.Avoids.avoids_ambient _) fun _ => ?_
  refine Op.Avoids.avoids_bind (Op.Avoids.avoids_modifyVars _) fun _ => ?_
  refine Op.Avoids.avoids_bind (Op.Avoids.avoids_call fun d e h => hS e (n7 _ d e h)) fun _ => ?_
  refine Op.Avoids.avoids_bind (Op.Avoids.avoids_ambient _) fun _ => ?_
  refine Op.Avoids.avoids_bind (Op.Avoids.avoids_ambient _) fun _ => ?_
  refine Op.Avoids.avoids_bind (Op.Avoids.avoids_ambient _) fun _ => ?_
  refine Op.Avoids.avoids_bind (Op.Avoids.avoids_ambient _) fun _ => ?_
  refine Op.Avoids.avoids_bind (Op.Avoids.avoids_ofExcept fun e h => ?_) fun _ => ?_
  · rw [ensureBalancedByCurrency_exchangeEntries] at h
    cases h
  refine Op.Avoids.avoids_bind (Op.Avoids.avoids_call fun d e h => hS e (n6 _ d e h)) fun _ => ?_
  refine Op.Avoids.avoids_bind (Op.Avoids.avoids_call fun d e h => hS e (n9 _ _ _ _ _ d e h)) fun _ => ?_
  refine Op.Avoids.avoids_onlyIf _ ?_
  refine Op.Avoids.avoids_bind (Op.Avoids.avoids_call fun d e h => hS e (n8 _ d e h)) fun _ => ?_
  exact Op.Avoids.avoids_failIf fun _ => hC

theorem WithTxLoop_error {Q : Call → Prop} (fn : Op σ ν Unit) (hfn : Op.Emits Q fn)
    (hBegin : ∀ r, Q (Call.BeginTxx r)) (hCommit : ∀ e, Q (Call.Commit (.error e)))
    (hRollback : ∀ r, Q (Call.Rollback r)) (hSleep : ∀ k, Q (Call.Sleep k)) :
    ∀ (n attempt : Nat) (w w' : World σ ν) (e : Error),
      WithTxLoop S fn n attempt w = (.error e, w') →
      ∃ (w0 : World σ ν) (retried : List Call),
        w0.log = w.log ++ retried
        ∧ (retried = [] ∨ ∃ p k, retried = p ++ [Call.Sleep k])
        ∧ (∀ ev ∈ retried, Q ev)
        ∧ ((S.BeginTxx w0.db).1 = .error e
          ∨ (∃ w1 w2, BeginTxx S w0 = (.ok (), w1) ∧ fn w1 = (.error e, w2)
              ∧ w'.log = w2.log ++ [Call.Rollback (S.Rollback w2.db).1])
          ∨ (∃ d, (S.Commit d).1 = .error e)
          ∨ e = .other "transaction retry limit exceeded") := by
  intro n
  induction n with
  | zero =>
    intro attempt w w' e h
    simp only [WithTxLoop, Op.fail, Prod.mk.injEq, Except.error.injEq] at h
    exact ⟨w, [], by simp, Or.inl rfl, by simp, Or.inr (Or.inr (Or.inr h.1.symm))⟩
  | succ n ih =>
    intro attempt w w' e h
    rw [WithTxLoop_succ] at h
    have hbl := BeginTxx_log S w
    rcases hb : BeginTxx S w with ⟨rb, w1⟩
    rw [hb] at h hbl
    cases rb with
    | error e1 =>
      simp only [Prod.mk.injEq, Except.error.injEq] at h
      obtain ⟨rfl, -⟩ := h
      refine ⟨w, [], by simp, Or.inl rfl, by simp, Or.inl ?_⟩
      exact congrArg Prod.fst hb
    | ok ub =>
      simp only at h hbl
      obtain ⟨evs, hevs, hq⟩ := hfn w1
      rcases hw : fn w1 with ⟨rf, w2⟩
      rw [hw] at h hevs
      simp only at hevs
      cases rf with
      | error e1 =>
        simp only at h
        split at h
        · obtain ⟨w0, retried, hpre, hshape, hQ, hrest⟩ := ih _ _ _ _ h
          refine ⟨w0, [Call.BeginTxx (.ok ub)] ++ evs
            ++ [Call.Rollback (S.Rollback w2.db).1] ++ [Call.Sleep attempt] ++ retried,
            ?_, ?_, ?_, hrest⟩
          · rw [hpre, sleepWithBackoff_log, Rollback_log, hevs, hbl]
            simp only [List.append_assoc]
          · right
            rcases hshape with rfl | ⟨p, k, rfl⟩
            · exact ⟨[Call.BeginTxx (.ok ub)] ++ evs ++ [Call.Rollback (S.Rollback w2.db).1],
                attempt, by simp only [List.append_nil]⟩
            · exact ⟨[Call.BeginTxx (.ok ub)] ++ evs ++ [Call.Rollback (S.Rollback w2.db).1]
                ++ [Call.Sleep attempt] ++ p, k, by simp only [List.append_assoc]⟩
          · intro ev hev
            simp only [List.mem_append, List.mem_singleton] at hev
            rcases hev with (((rfl | h1) | rfl) | rfl) | h1
            · exact hBegin _
            · exact hq ev h1
            · exact hRollback _
            · exact hSleep _
            · exact hQ ev h1
        · simp only [Prod.mk.injEq, Except.error.injEq] at h
          obtain ⟨rfl, rfl⟩ := h
          refine ⟨w, [], by simp, Or.inl rfl, by simp, Or.inr (Or.inl ⟨w1, w2, ?_, hw, ?_⟩)⟩
          · rw [hb]
          · rfl
      | ok uf =>
        simp only at h
        have hcl := Commit_log S w2
        rcases hc : Commit S w2 with ⟨rc, w3⟩
        rw [hc] at h hcl
        simp only at hcl
        cases rc with
        | error e1 =>
          simp only at h
          split at h
          · obtain ⟨w0, retried, hpre, hshape, hQ, hrest⟩ := ih _ _ _ _ h
            refine ⟨w0, [Call.BeginTxx (.ok ub)] ++ evs
              ++ [Call.Commit (.error e1)] ++ [Call.Sleep attempt] ++ retried, ?_, ?_, ?_, hrest⟩
            · rw [hpre, sleepWithBackoff_log, hcl, hevs, hbl]
              simp only [List.append_assoc]
            · right
              rcases hshape with rfl | ⟨p, k, rfl⟩
              · exact ⟨[Call.BeginTxx (.ok ub)] ++ evs ++ [Call.Commit (.error e1)],
                  attempt, by simp only [List.append_nil]⟩
              · exact ⟨[Call.BeginTxx (.ok ub)] ++ evs ++ [Call.Commit (.error e1)]
                  ++ [Call.Sleep attempt] ++ p, k, by simp only [List.append_assoc]⟩
            · intro ev hev
              simp only [List.mem_append, List.mem_singleton] at hev
              rcases hev with (((rfl | h1) | rfl) | rfl) | h1
              · exact hBegin _
              · exact hq ev h1
              · exact hCommit _
              · exact hSleep _
              · exact hQ ev h1
          · simp only [Prod.mk.injEq, Except.error.injEq] at h
            obtain ⟨rfl, -⟩ := h
            refine ⟨w, [], by simp, Or.inl rfl, by simp, Or.inr (Or.inr (Or.inl ⟨w2.db, ?_⟩))⟩
            exact congrArg Prod.fst hc
        | ok uc => simp at h

end Clean


section Sentinels

variable {σ : Type} (S : Stores σ) {L : Error → Prop}

theorem isWork_not_commit (ev : Call) (h : ev.isWork = true) :
    isCommitOK ev = false ∧ ev.isBroadcast = false := by
  cases ev <;> first | exact ⟨rfl, rfl⟩ | cases h

theorem WithTx_failedBeforeWrites {ν : Type} (hN : NoSentinel S)
    (hL : ∀ e, L e → e.isSentinel = true) (fn : Op σ ν Unit) (hclean : Op.CleanOn L fn)
    (hwork : Op.Emits (fun ev => ev.isWork = true) fn) {w w' : World σ ν} {e : Error}
    (h : WithTx S fn w = (.error e, w')) (he : L e) :
    ∃ retried last : List Call,
      w'.log = w.log ++ retried ++ last
      ∧ (retried = [] ∨ ∃ p k, retried = p ++ [Call.Sleep k])
      ∧ (∀ ev ∈ last, ev.isEffect = false)
      ∧ (∀ ev ∈ retried ++ last, isCommitOK ev = false ∧ ev.isBroadcast = false) := by
  have hS := hL e he
  obtain ⟨w0, retried, hpre, hshape, hQ, hcase⟩ := WithTxLoop_error S fn
    (hwork.mono isWork_not_commit) (fun _ => ⟨rfl, rfl⟩) (fun _ => ⟨rfl, rfl⟩)
    (fun _ => ⟨rfl, rfl⟩) (fun _ => ⟨rfl, rfl⟩) _ _ _ _ _ h
  rcases hcase with hb | ⟨w1, w2, hb, hw, hlog⟩ | ⟨d, hc⟩ | hlim
  · rw [hN.1 _ _ hb] at hS
    cases hS
  · obtain ⟨evs, hevs, hq⟩ := hclean w1 e (by rw [hw]) he
    obtain ⟨evs', hevs', hq'⟩ := hwork w1
    rw [hw] at hevs hevs'
    simp only at hevs hevs'
    have heq : evs = evs' := List.append_cancel_left (hevs.symm.trans hevs')
    subst heq
    have hbl : w1.log = w0.log ++ [Call.BeginTxx (.ok ())] := (call_ok_elim hb).2.2.1
    refine ⟨retried, [Call.BeginTxx (.ok ())] ++ evs ++ [Call.Rollback (S.Rollback w2.db).1],
      ?_, hshape, ?_, ?_⟩
    · rw [hlog, hevs, hbl, hpre]
      simp only [List.append_assoc]
    · intro ev hev
      simp only [List.mem_append, List.mem_singleton] at hev
      rcases hev with (rfl | h1) | rfl
      · rfl
      · exact hq ev h1
      · rfl
    · intro ev hev
      simp only [List.mem_append, List.mem_singleton] at hev
      rcases hev with h1 | (rfl | h1) | rfl
      · exact hQ ev h1
      · exact ⟨rfl, rfl⟩
      · exact isWork_not_commit ev (hq' ev h1)
      · exact ⟨rfl, rfl⟩
  · rw [hN.2.1 _ _ hc] at hS
    cases hS
  · rw [hlim] at hS
    cases hS

theorem Transfer_failedBeforeWrites (hN : NoSentinel S) (req : TransferRequest)
    (w : World σ Unit) (e : Error) (h : (Transfer S req w).1 = .error e)
    (he : e.isSentinel = true) :
    FailedBeforeWrites w.log (Transfer S req w).2.log := by
  unfold Transfer at h ⊢
  by_cases hpos : req.AmountMinor ≤ 0
  · rw [Op.step_failIf_true hpos]
    exact ⟨[], [], [], by simp, by simp, Or.inl rfl, by simp, by simp⟩
  rw [Op.step_failIf_false hpos] at h ⊢
  by_cases hsame : req.FromAccountID = req.ToAccountID
  · rw [Op.step_failIf_true hsame]
    exact ⟨[], [], [], by simp, by simp, Or.inl rfl, by simp, by simp⟩
  rw [Op.step_failIf_false hsame] at h ⊢
  rcases hwv : Op.withVars ({} : TransferVars) (WithTx S (transferWork S req)) w with ⟨r, w'⟩
  cases r with
  | ok a =>
    rw [Op.bind_of_ok hwv] at h
    have hrest : Op.Avoids (fun _ => True) (do
        BroadcastBalance S req.UserID {
          AccountID := req.FromAccountID
          Balance := FormatMinor a.2.fromBalanceAfter
          Currency := a.2.currency }
        Op.onlyIf (a.2.toUserID ≠ "") (BroadcastBalance S a.2.toUserID {
          AccountID := req.ToAccountID
          Balance := FormatMinor a.2.toBalanceAfter
          Currency := a.2.currency })
        return a.2.transactionID : Op σ Unit String) := by
      refine Op.Avoids.avoids_bind (BroadcastBalance_avoids S _ _) fun _ => ?_
      refine Op.Avoids.avoids_bind (Op.Avoids.avoids_onlyIf _ (BroadcastBalance_avoids S _ _)) fun _ => ?_
      exact Op.Avoids.avoids_pure _
    exact absurd trivial (hrest w' e h)
  | error e1 =>
    rw [Op.bind_of_error hwv] at h ⊢
    simp only [Except.error.injEq] at h
    subst h
    unfold Op.withVars at hwv
    rcases hwt : WithTx S (transferWork S req)
      ({ db := w.db, log := w.log, vars := {} } : World σ TransferVars) with ⟨r2, wi⟩
    rw [hwt] at hwv
    cases r2 with
    | ok u => simp at hwv
    | error e2 =>
      simp only [Prod.mk.injEq, Except.error.injEq] at hwv
      obtain ⟨rfl, rfl⟩ := hwv
      obtain ⟨retried, last, hlog, hshape, hclean, hnone⟩ :=
        WithTx_failedBeforeWrites S hN (fun e (h : e.isSentinel = true) => h) _
          (transferWork_cleanOn S hN (fun e (h : e.isSentinel = true) => h) req)
          ((transferWork_work S req).mono fun _ h => h.1) hwt he
      refine ⟨[], retried, last, ?_, by simp, hshape, hclean, hnone⟩
      simp only at hlog ⊢
      rw [hlog, List.append_nil]

end Sentinels


section SentinelClaims

variable {σ : Type} (S : Stores σ)

theorem Exchange_failedBeforeWrites (hN : NoSentinel S) (req : ExchangeRequest)
    (w : World σ Unit) (e : Error) (h : (Exchange S req w).1 = .error e)
    (he : e.isSentinel = true) (hne : e ≠ .ErrQuoteConsumed) :
    FailedBeforeWrites w.log (Exchange S req w).2.log := by
  unfold Exchange at h ⊢
  by_cases hpos : req.AmountMinor ≤ 0
  · rw [Op.step_failIf_true hpos]
    exact ⟨[], [], [], by simp, by simp, Or.inl rfl, by simp, by simp⟩
  rw [Op.step_failIf_false hpos] at h ⊢
  obtain ⟨before, hbefore, hlookup⟩ := exchangeCommitment_lookup S req w
  rcases hc : exchangeCommitment S req w with ⟨rc, wc⟩
  rw [hc] at hbefore
  simp only at hbefore
  cases rc with
  | error e1 =>
    rw [Op.bind_of_error hc]
    refine ⟨before, [], [], ?_, hlookup, Or.inl rfl, by simp, by simp⟩
    simp only [List.append_nil]
    exact hbefore
  | ok pre =>
    rw [Op.bind_of_ok hc] at h ⊢
    rcases hwv : Op.withVars pre
      (WithTx S (exchangeWork S req pre.rate pre.quoteID pre.expectedConverted)) wc
      with ⟨r, w'⟩
    cases r with
    | ok a =>
      rw [Op.bind_of_ok hwv] at h
      have hrest : Op.Avoids (fun _ => True) (do
          BroadcastBalance S req.UserID {
            AccountID := req.FromAccountID
            Balance := FormatMinor a.2.fromBalanceAfter
            Currency := a.2.fromCurrency }
          BroadcastBalance S req.UserID {
            AccountID := req.ToAccountID
            Balance := FormatMinor a.2.toBalanceAfter
            Currency := a.2.toCurrency }
          return a.2.transactionID : Op σ Unit String) := by
        refine Op.Avoids.avoids_bind (BroadcastBalance_avoids S _ _) fun _ => ?_
        refine Op.Avoids.avoids_bind (BroadcastBalance_avoids S _ _) fun _ => ?_
        exact Op.Avoids.avoids_pure _
      exact absurd trivial (hrest w' e h)
    | error e1 =>
      rw [Op.bind_of_error hwv] at h ⊢
      simp only [Except.error.injEq] at h
      subst h
      unfold Op.withVars at hwv
      rcases hwt : WithTx S (exchangeWork S req pre.rate pre.quoteID pre.expectedConverted)
        ({ db := wc.db, log := wc.log, vars := pre } : World σ ExchangeVars) with ⟨r2, wi⟩
      rw [hwt] at hwv
      cases r2 with
      | ok u => simp at hwv
      | error e2 =>
        simp only [Prod.mk.injEq, Except.error.injEq] at hwv
        obtain ⟨rfl, rfl⟩ := hwv
        obtain ⟨retried, last, hlog, hshape, hclean, hnone⟩ :=
          WithTx_failedBeforeWrites S hN
            (fun e (h : e.isSentinel = true ∧ e ≠ .ErrQuoteConsumed) => h.1) _
            (exchangeWork_cleanOn S hN
              (fun e (h : e.isSentinel = true ∧ e ≠ .ErrQuoteConsumed) => h.1)
              (fun h => h.2 rfl) req _ _ _)
            ((exchangeWork_work S req _ _ _).mono fun _ h => h.1) hwt ⟨he, hne⟩
        refine ⟨before, retried, last, ?_, hlookup, hshape, hclean, hnone⟩
        simp only at hlog ⊢
        rw [hlog, hbefore]

/-- C30: assume the stores return no sentinel. Whenever `Transfer` returns
`ErrInvalidAmount`, `ErrSameAccountTransfer`, `ErrUnauthorizedAccount`, `ErrCurrencyMismatch`
or `ErrInsufficientFunds`, or `Exchange` returns `ErrInvalidAmount`,
`ErrInvalidExchangeRequest`, `ErrQuoteNotFound`, `ErrQuoteExpired`, `ErrUnauthorizedAccount`,
`ErrRateMismatch` or `ErrInsufficientFunds`, the calls made have the shape
`FailedBeforeWrites`: the checks or the attempt that returned the error made no
`UpdateBalance`, `Create`, `InsertEntries`, audit `Log`, `Consume` or `BroadcastBalance` call;
such calls were made only by earlier attempts that ended in a retried conflict, and no
commit succeeded and nothing was broadcast at all. -/
theorem sentinel_attempt_makes_no_write (hN : NoSentinel S) :
    (∀ (req : TransferRequest) (w : World σ Unit) (e : Error),
      (Transfer S req w).1 = .error e → e ∈ transferSentinels →
        FailedBeforeWrites w.log (Transfer S req w).2.log)
    ∧ (∀ (req : ExchangeRequest) (w : World σ Unit) (e : Error),
      (Exchange S req w).1 = .error e → e ∈ exchangeSentinels →
        FailedBeforeWrites w.log (Exchange S req w).2.log) := by
  have h1 : ∀ e ∈ transferSentinels, e.isSentinel = true := by decide
  have h2 : ∀ e ∈ exchangeSentinels, e.isSentinel = true ∧ e ≠ .ErrQuoteConsumed := by decide
  exact ⟨fun req w e h he => Transfer_failedBeforeWrites S hN req w e h (h1 e he),
    fun req w e h he => Exchange_failedBeforeWrites S hN req w e h (h2 e he).1 (h2 e he).2⟩

end SentinelClaims

theorem stubStores_noSentinel (f : String → Account) (g : String → String) :
    NoSentinel (stubStores f g) :=
  ⟨fun _ _ h => (by cases h), fun _ _ h => (by cases h), fun _ _ _ h => (by cases h),
    fun _ _ _ _ h => (by cases h), fun _ _ _ h => (by cases h), fun _ _ _ h => (by cases h),
    fun _ _ _ h => (by cases h), fun _ _ _ h => (by cases h),
    fun _ _ _ _ _ _ _ h => (by cases h)⟩

set_option maxRecDepth 100000 in
/-- C30 on the stub of the service's tests: a transfer of 20000 from an account holding 1000
returns `ErrInsufficientFunds` after the begin, the two locked reads and the rollback. -/
theorem sentinel_attempt_makes_no_write_witness :
    (Transfer (stubStores stubAccount stubSystemAccount) overdraftRequest
        { db := 0, log := [], vars := () }).1 = .error .ErrInsufficientFunds
    ∧ FailedBeforeWrites []
        (Transfer (stubStores stubAccount stubSystemAccount) overdraftRequest
          { db := 0, log := [], vars := () }).2.log
    ∧ effectsIn (Transfer (stubStores stubAccount stubSystemAccount) overdraftRequest
          { db := 0, log := [], vars := () }).2.log = 0 :=
  ⟨by decide,
   (sentinel_attempt_makes_no_write (stubStores stubAccount stubSystemAccount)
      (stubStores_noSentinel _ _)).1 overdraftRequest { db := 0, log := [], vars := () }
      .ErrInsufficientFunds (by decide) (by decide),
   by decide⟩


section Contention

variable {σ ν : Type} (S : Stores σ)

theorem WithTxLoop_of_conflict (fn : Op σ ν Unit) (n attempt : Nat) (w : World σ ν)
    {e : Error} (hb : (BeginTxx S w).1 = .ok ())
    (he : (attemptOnce S fn w).1 = .error e) (hr : isRetryablePGError e = true)
    (hlt : attempt < maxAttempts) :
    WithTxLoop S fn (n + 1) attempt w
      = WithTxLoop S fn n (attempt + 1) (sleepWithBackoff attempt (attemptOnce S fn w).2).2 := by
  rw [WithTxLoop_succ]
  unfold attemptOnce at he ⊢
  rcases hbr : BeginTxx S w with ⟨rb, w1⟩
  rw [hbr] at hb he
  simp only at hb
  subst hb
  simp only at he ⊢
  rcases hw : fn w1 with ⟨rf, w2⟩
  rw [hw] at he
  cases rf with
  | error e1 =>
    simp only [Except.error.injEq] at he
    subst he
    simp only [hr, hlt, decide_True, Bool.and_self, if_true]
  | ok u =>
    simp only at he ⊢
    rcases hc : Commit S w2 with ⟨rc, w3⟩
    rw [hc] at he
    simp only at he
    subst he
    simp only [hr, hlt, decide_True, Bool.and_self, if_true]

theorem Transfer_of_withTx_error (req : TransferRequest) (d : σ) (log : List Call)
    (hpos : 0 < req.AmountMinor) (hne : req.FromAccountID ≠ req.ToAccountID) {e : Error}
    (h : (WithTx S (transferWork S req)
      (⟨d, log, {}⟩ : World σ TransferVars)).1 = .error e) :
    (Transfer S req ⟨d, log, ()⟩).1 = .error e
    ∧ (Transfer S req ⟨d, log, ()⟩).2.log = (WithTx S (transferWork S req)
        (⟨d, log, {}⟩ : World σ TransferVars)).2.log := by
  unfold Transfer
  rw [Op.step_failIf_false (not_le.mpr hpos), Op.step_failIf_false hne]
  rcases hwt : WithTx S (transferWork S req)
    (⟨d, log, {}⟩ : World σ TransferVars) with ⟨r, wi⟩
  rw [hwt] at h
  simp only at h
  subst h
  have hw : Op.withVars ({} : TransferVars) (WithTx S (transferWork S req))
      (⟨d, log, ()⟩ : World σ Unit)
      = (.error e, { db := wi.db, log := wi.log, vars := () }) := by
    unfold Op.withVars
    simp only []
    rw [hwt]
  rw [Op.bind_of_error hw]
  exact ⟨rfl, rfl⟩

end Contention

theorem contended_second_attempt (w : World Nat TransferVars) (hd : w.db = 3) :
    (WithTxLoop contendedStores (transferWork contendedStores transferRequest) 4 2 w).1
      = .error .ErrInsufficientFunds
    ∧ (WithTxLoop contendedStores (transferWork contendedStores transferRequest) 4 2 w).2.log
      = w.log ++ [Call.BeginTxx (.ok ())]
        ++ [Call.GetForUpdate "from" (.ok { stubAccount "from" with Balance := 0 })]
        ++ [Call.GetForUpdate "to" (.ok { stubAccount "to" with Balance := 0 })]
        ++ [Call.Rollback (.ok ())] := by
  obtain ⟨d, log, vars⟩ := w
  simp only at hd
  subst hd
  exact ⟨rfl, rfl⟩


theorem effectsIn_append (a b : List Call) :
    effectsIn (a ++ b) = effectsIn a + effectsIn b := List.countP_append _ _ _

theorem contendedStores_noSentinel : NoSentinel contendedStores := by
  refine ⟨fun _ _ h => (by cases h), fun d e h => ?_, fun _ _ _ h => (by cases h),
    fun _ _ _ _ h => (by cases h), fun _ _ _ h => (by cases h), fun _ _ _ h => (by cases h),
    fun _ _ _ h => (by cases h), fun _ _ _ h => (by cases h),
    fun _ _ _ _ _ _ _ h => (by cases h)⟩
  have h' : (if d ≤ 3 then ((Except.error (.pq "40001") : Except Error Unit), d)
      else (.ok (), d)).1 = .error e := h
  by_cases hd : d ≤ 3
  · rw [if_pos hd] at h'
    simp only [Except.error.injEq] at h'
    subst h'
    rfl
  · rw [if_neg hd] at h'
    cases h'

set_option maxRecDepth 100000 in
theorem contended_transfer_run :
    (Transfer contendedStores transferRequest { db := 0, log := [], vars := () }).1
      = .error .ErrInsufficientFunds
    ∧ (Transfer contendedStores transferRequest { db := 0, log := [], vars := () }).2.log
      = (attemptOnce contendedStores (transferWork contendedStores transferRequest)
          { db := 0, log := [], vars := {} }).2.log ++ [Call.Sleep 1]
        ++ [Call.BeginTxx (.ok ())]
        ++ [Call.GetForUpdate "from" (.ok { stubAccount "from" with Balance := 0 })]
        ++ [Call.GetForUpdate "to" (.ok { stubAccount "to" with Balance := 0 })]
        ++ [Call.Rollback (.ok ())] := by
  have hb : (BeginTxx contendedStores
      ({ db := 0, log := [], vars := {} } : World Nat TransferVars)).1 = .ok () := by decide
  have he : (attemptOnce contendedStores (transferWork contendedStores transferRequest)
      { db := 0, log := [], vars := {} }).1 = .error (.pq "40001") := by decide
  have hd : (sleepWithBackoff 1 (attemptOnce contendedStores
      (transferWork contendedStores transferRequest)
      { db := 0, log := [], vars := {} }).2).2.db = 3 := by decide
  have hstep := WithTxLoop_of_conflict contendedStores
    (transferWork contendedStores transferRequest) 4 1
    { db := 0, log := [], vars := {} } hb he (by decide) (by decide)
  obtain ⟨h1, h2⟩ := contended_second_attempt _ hd
  have hW : WithTx contendedStores (transferWork contendedStores transferRequest)
      ({ db := 0, log := [], vars := {} } : World Nat TransferVars)
      = WithTxLoop contendedStores (transferWork contendedStores transferRequest) 4 2
        (sleepWithBackoff 1 (attemptOnce contendedStores
          (transferWork contendedStores transferRequest)
          { db := 0, log := [], vars := {} }).2).2 := hstep
  have hres : (WithTx contendedStores (transferWork contendedStores transferRequest)
      ({ db := 0, log := [], vars := {} } : World Nat TransferVars)).1
      = .error .ErrInsufficientFunds := by
    rw [hW]
    exact h1
  obtain ⟨k1, k2⟩ := Transfer_of_withTx_error contendedStores transferRequest 0 []
    (by decide) (by decide) hres
  refine ⟨k1, ?_⟩
  rw [k2, hW, h2, sleepWithBackoff_log]

set_option maxRecDepth 100000 in
/-- C30, a retried attempt: under contention the first attempt of the transfer of 1000
passes its checks, writes both balances, the transaction row, the ledger entries and the
audit row, and fails to commit with the serialization failure `40001`; the retry reads the
source account emptied by the concurrent winner and returns `ErrInsufficientFunds`. The call
has made five writes, in the attempt that failed to commit; the stores return no sentinel. -/
theorem transfer_sentinel_after_retried_writes :
    NoSentinel contendedStores
    ∧ (Transfer contendedStores transferRequest { db := 0, log := [], vars := () }).1
      = .error .ErrInsufficientFunds
    ∧ effectsIn (Transfer contendedStores transferRequest
        { db := 0, log := [], vars := () }).2.log = 5
    ∧ attemptsIn (Transfer contendedStores transferRequest
        { db := 0, log := [], vars := () }).2.log = 2
    ∧ commitsIn (Transfer contendedStores transferRequest
        { db := 0, log := [], vars := () }).2.log = 0
    ∧ broadcastsIn (Transfer contendedStores transferRequest
        { db := 0, log := [], vars := () }).2.log = 0 := by
  obtain ⟨h1, h2⟩ := contended_transfer_run
  have e1 : effectsIn (attemptOnce contendedStores
      (transferWork contendedStores transferRequest)
      { db := 0, log := [], vars := {} }).2.log = 5 := by decide
  have e2 : attemptsIn (attemptOnce contendedStores
      (transferWork contendedStores transferRequest)
      { db := 0, log := [], vars := {} }).2.log = 1 := by decide
  have e3 : commitsIn (attemptOnce contendedStores
      (transferWork contendedStores transferRequest)
      { db := 0, log := [], vars := {} }).2.log = 0 := by decide
  have e4 : broadcastsIn (attemptOnce contendedStores
      (transferWork contendedStores transferRequest)
      { db := 0, log := [], vars := {} }).2.log = 0 := by decide
  refine ⟨contendedStores_noSentinel, h1, ?_, ?_, ?_, ?_⟩
  · rw [h2]
    simp only [effectsIn_append, e1]
    rfl
  · rw [h2]
    simp only [attemptsIn_append, e2]
    rfl
  · rw [h2]
    simp only [commitsIn_append, e3]
    rfl
  · rw [h2]
    simp only [broadcastsIn_append, e4]
    rfl

/-! ### Attempts of the executor in the call log -/

namespace Op

variable {σ ν μ α β : Type}

theorem Runs.runs_mono {P P' : Except Error α → List Call → Prop} {m : Op σ ν α}
    (h : Runs P m) (hP : ∀ r evs, P r evs → P' r evs) : Runs P' m := by
  intro w
  obtain ⟨evs, h1, h2⟩ := h w
  exact ⟨evs, h1, hP _ _ h2⟩

theorem Runs.runs_and {P P' : Except Error α → List Call → Prop} {m : Op σ ν α}
    (h : Runs P m) (h' : Runs P' m) : Runs (fun r evs => P r evs ∧ P' r evs) m := by
  intro w
  obtain ⟨evs, h1, h2⟩ := h w
  obtain ⟨evs', h1', h2'⟩ := h' w
  have heq : evs = evs' := List.append_cancel_left (h1.symm.trans h1')
  subst heq
  exact ⟨evs, h1, h2, h2'⟩

theorem Follows.follows_silent {m : Op σ ν α} (h : ∀ w, (m w).2.log = w.log) :
    Follows [] m :=
  fun w => ⟨[], by simp [h w], by simp, fun _ _ => rfl⟩

theorem Follows.follows_pure (a : α) : Follows [] (Pure.pure a : Op σ ν α) :=
  Follows.follows_silent fun _ => rfl

theorem Follows.follows_ret (a : α) : Follows [] (Op.ret a : Op σ ν α) :=
  Follows.follows_silent fun _ => rfl

theorem Follows.follows_failIf (c : Prop) [Decidable c] (e : Error) :
    Follows [] (Op.failIf c e : Op σ ν Unit) := by
  refine Follows.follows_silent fun w => ?_
  unfold Op.failIf
  split <;> rfl

theorem Follows.follows_ofExcept (r : Except Error α) :
    Follows [] (Op.ofExcept r : Op σ ν α) :=
  Follows.follows_silent fun _ => rfl

theorem Follows.follows_modifyVars (f : ν → ν) : Follows [] (Op.modifyVars f : Op σ ν Unit) :=
  Follows.follows_silent fun _ => rfl

theorem Follows.follows_ambient (f : σ → α × σ) : Follows [] (Op.ambient f : Op σ ν α) :=
  Follows.follows_silent fun _ => rfl

theorem Follows.follows_call (f : σ → Except Error α × σ) (ev : Except Error α → Call)
    (k : String) (h : ∀ r, (ev r).method = k) : Follows [k] (Op.call f ev : Op σ ν α) :=
  fun w => ⟨[ev (f w.db).1], rfl, by simp [h], fun _ _ => by simp [h]⟩

theorem Follows.follows_bind {ks1 ks2 : List String} {m : Op σ ν α} {f : α → Op σ ν β}
    (hm : Follows ks1 m) (hf : ∀ a, Follows ks2 (f a)) : Follows (ks1 ++ ks2) (m >>= f) := by
  intro w
  obtain ⟨evs1, h1, hp1, hfull1⟩ := hm w
  rw [bind_apply]
  rcases hmw : m w with ⟨r, w1⟩
  rw [hmw] at h1 hfull1
  cases r with
  | error e =>
    exact ⟨evs1, h1, hp1.trans (List.prefix_append _ _), fun a h => by cases h⟩
  | ok a =>
    have hk := hfull1 a rfl
    obtain ⟨evs2, h2, hp2, hfull2⟩ := hf a w1
    refine ⟨evs1 ++ evs2, ?_, ?_, ?_⟩
    · simp only [h2]
      simp only at h1
      rw [h1, List.append_assoc]
    · rw [List.map_append, hk]
      exact (List.prefix_append_right_inj _).mpr hp2
    · intro b hb
      rw [List.map_append, hk, hfull2 b hb]

theorem Follows.follows_after {ks : List String} {m : Op σ ν α} {f : α → Op σ ν β}
    (hm : Follows [] m) (hf : ∀ a, Follows ks (f a)) : Follows ks (m >>= f) :=
  Follows.follows_bind hm hf

theorem Follows.follows_cons {k : String} {ks : List String} {m : Op σ ν α}
    {f : α → Op σ ν β} (hm : Follows [k] m) (hf : ∀ a, Follows ks (f a)) :
    Follows (k :: ks) (m >>= f) :=
  Follows.follows_bind hm hf

theorem Follows.follows_last {k : String} {m : Op σ ν α} {f : α → Op σ ν β}
    (hm : Follows [k] m) (hf : ∀ a, Follows [] (f a)) : Follows [k] (m >>= f) :=
  Follows.follows_bind hm hf

theorem Follows.follows_cons_cons {k1 k2 : String} {ks : List String} {m : Op σ ν α}
    {f : α → Op σ ν β} (hm : Follows [k1, k2] m) (hf : ∀ a, Follows ks (f a)) :
    Follows (k1 :: k2 :: ks) (m >>= f) :=
  Follows.follows_bind hm hf

end Op

section FollowsWork

variable {σ ν : Type} (S : Stores σ)

theorem lockTwoAccounts_follows (a b : String) :
    Op.Follows ["GetForUpdate", "GetForUpdate"]
      (lockTwoAccounts S a b : Op σ ν (Account × Account)) := by
  unfold lockTwoAccounts GetForUpdate
  refine Op.Follows.follows_cons (Op.Follows.follows_call _ _ _ fun _ => rfl) fun l => ?_
  refine Op.Follows.follows_last (Op.Follows.follows_call _ _ _ fun _ => rfl) fun r => ?_
  split <;> exact Op.Follows.follows_pure _

theorem transferWork_follows (req : TransferRequest) :
    Op.Follows transferMethods (transferWork S req) := by
  unfold transferWork UpdateBalance TxCreate InsertEntries AuditLog NewString transferMethods
  refine Op.Follows.follows_cons_cons (lockTwoAccounts_follows S _ _) fun _ => ?_
  refine Op.Follows.follows_after (Op.Follows.follows_failIf _ _) fun _ => ?_
  refine Op.Follows.follows_after (Op.Follows.follows_failIf _ _) fun _ => ?_
  refine Op.Follows.follows_after (Op.Follows.follows_modifyVars _) fun _ => ?_
  refine Op.Follows.follows_after (Op.Follows.follows_modifyVars _) fun _ => ?_
  refine Op.Follows.follows_after (Op.Follows.follows_failIf _ _) fun _ => ?_
  refine Op.Follows.follows_after (Op.Follows.follows_modifyVars _) fun _ => ?_
  refine Op.Follows.follows_cons (Op.Follows.follows_call _ _ _ fun _ => rfl) fun _ => ?_
  refine Op.Follows.follows_cons (Op.Follows.follows_call _ _ _ fun _ => rfl) fun _ => ?_
  refine Op.Follows.follows_after (Op.Follows.follows_ambient _) fun _ => ?_
  refine Op.Follows.follows_after (Op.Follows.follows_modifyVars _) fun _ => ?_
  refine Op.Follows.follows_cons (Op.Follows.follows_call _ _ _ fun _ => rfl) fun _ => ?_
  refine Op.Follows.follows_after (Op.Follows.follows_ambient _) fun _ => ?_
  refine Op.Follows.follows_after (Op.Follows.follows_ambient _) fun _ => ?_
  refine Op.Follows.follows_after (Op.Follows.follows_ofExcept _) fun _ => ?_
  refine Op.Follows.follows_cons (Op.Follows.follows_call _ _ _ fun _ => rfl) fun _ => ?_
  exact Op.Follows.follows_call _ _ _ fun _ => rfl

theorem exchangeWork_follows (req : ExchangeRequest) (rate : Decimal) (quoteID : String)
    (expectedConverted : Int) :
    Op.Follows (exchangeMethods quoteID)
      (exchangeWork S req rate quoteID expectedConverted) := by
  unfold exchangeWork UpdateBalance TxCreate InsertEntries AuditLog NewString GetSystemAccount
    QuoteConsume exchangeMethods
  refine Op.Follows.follows_cons_cons (lockTwoAccounts_follows S _ _) fun _ => ?_
  refine Op.Follows.follows_after (Op.Follows.follows_failIf _ _) fun _ => ?_
  refine Op.Follows.follows_after (Op.Follows.follows_modifyVars _) fun _ => ?_
  refine Op.Follows.follows_after (Op.Follows.follows_failIf _ _) fun _ => ?_
  refine Op.Follows.follows_after (Op.Follows.follows_failIf _ _) fun _ => ?_
  refine Op.Follows.follows_after (Op.Follows.follows_failIf _ _) fun _ => ?_
  refine Op.Follows.follows_after (Op.Follows.follows_failIf _ _) fun _ => ?_
  refine Op.Follows.follows_after (Op.Follows.follows_modifyVars _) fun _ => ?_
  refine Op.Follows.follows_cons (Op.Follows.follows_call _ _ _ fun _ => rfl) fun _ => ?_
  refine Op.Follows.follows_cons (Op.Follows.follows_call _ _ _ fun _ => rfl) fun _ => ?_
  refine Op.Follows.follows_cons_cons (lockTwoAccounts_follows S _ _) fun _ => ?_
  refine Op.Follows.follows_after (Op.Follows.follows_failIf _ _) fun _ => ?_
  refine Op.Follows.follows_cons (Op.Follows.follows_call _ _ _ fun _ => rfl) fun _ => ?_
  refine Op.Follows.follows_cons (Op.Follows.follows_call _ _ _ fun _ => rfl) fun _ => ?_
  refine Op.Follows.follows_cons (Op.Follows.follows_call _ _ _ fun _ => rfl) fun _ => ?_
  refine Op.Follows.follows_cons (Op.Follows.follows_call _ _ _ fun _ => rfl) fun _ => ?_
  refine Op.Follows.follows_after (Op.Follows.follows_ambient _) fun _ => ?_
  refine Op.Follows.follows_after (Op.Follows.follows_modifyVars _) fun _ => ?_
  refine Op.Follows.follows_cons (Op.Follows.follows_call _ _ _ fun _ => rfl) fun _ => ?_
  refine Op.Follows.follows_after (Op.Follows.follows_ambient _) fun _ => ?_
  refine Op.Follows.follows_after (Op.Follows.follows_ambient _) fun _ => ?_
  refine Op.Follows.follows_after (Op.Follows.follows_ambient _) fun _ => ?_
  refine Op.Follows.follows_after (Op.Follows.follows_ambient _) fun _ => ?_
  refine Op.Follows.follows_after (Op.Follows.follows_ofExcept _) fun _ => ?_
  refine Op.Follows.follows_cons (Op.Follows.follows_call _ _ _ fun _ => rfl) fun _ => ?_
  refine Op.Follows.follows_cons (Op.Follows.follows_call _ _ _ fun _ => rfl) fun _ => ?_
  unfold Op.onlyIf
  by_cases hq : quoteID = ""
  · rw [if_neg (not_not.mpr hq), if_pos hq]
    exact Op.Follows.follows_ret ()
  · rw [if_pos hq, if_neg hq]
    refine Op.Follows.follows_last (Op.Follows.follows_call _ _ _ fun _ => rfl) fun _ => ?_
    exact Op.Follows.follows_failIf _ _

end FollowsWork

/-! ### Runs of a unit of work and attempts of the executor -/

theorem callsOf_append (k : String) (a b : List Call) :
    callsOf k (a ++ b) = callsOf k a + callsOf k b := List.countP_append _ _ _

theorem callsOf_eq_count (k : String) (evs : List Call) :
    callsOf k evs = (evs.map Call.method).count k := by
  unfold callsOf List.count
  rw [List.countP_map]
  rfl

theorem callsOf_le_of_prefix {k : String} {evs : List Call} {ks : List String}
    (h : evs.map Call.method <+: ks) : callsOf k evs ≤ ks.count k := by
  rw [callsOf_eq_count]
  exact h.sublist.count_le k

theorem attemptsIn_eq_callsOf (evs : List Call) : attemptsIn evs = callsOf "BeginTxx" evs := by
  unfold attemptsIn callsOf
  congr 1
  funext ev
  cases ev <;> rfl

theorem commitsIn_le_callsOf (evs : List Call) : commitsIn evs ≤ callsOf "Commit" evs := by
  unfold commitsIn callsOf
  refine List.countP_mono_left fun ev _ h => ?_
  cases ev <;> first | rfl | cases h

theorem broadcastsIn_eq_callsOf (evs : List Call) :
    broadcastsIn evs = callsOf "BroadcastBalance" evs := by
  unfold broadcastsIn callsOf
  congr 1
  funext ev
  cases ev <;> rfl

theorem consumesIn_eq_callsOf (evs : List Call) :
    consumesIn evs = callsOf "QuoteConsume" evs := by
  unfold consumesIn callsOf
  congr 1
  funext ev
  cases ev <;> rfl

namespace Op

variable {σ ν μ α β : Type}

theorem Runs.zero_after {m : Op σ ν α} {f : α → Op σ ν β}
    (hm : Emits (fun ev => ev.isConsume = false) m)
    (hf : ∀ a, Runs (fun r evs =>
      ∀ q, Call.QuoteConsume q (.ok 0) ∈ evs → r = .error .ErrQuoteConsumed) (f a)) :
    Runs (fun r evs =>
      ∀ q, Call.QuoteConsume q (.ok 0) ∈ evs → r = .error .ErrQuoteConsumed) (m >>= f) := by
  intro w
  obtain ⟨evs1, h1, hq1⟩ := hm w
  rw [bind_apply]
  rcases hmw : m w with ⟨r, w1⟩
  rw [hmw] at h1
  cases r with
  | error e =>
    refine ⟨evs1, h1, fun q hq => ?_⟩
    have := hq1 _ hq
    cases this
  | ok a =>
    obtain ⟨evs2, h2, hq2⟩ := hf a w1
    refine ⟨evs1 ++ evs2, ?_, fun q hq => ?_⟩
    · simp only [h2]
      simp only at h1
      rw [h1, List.append_assoc]
    · rcases List.mem_append.mp hq with h | h
      · have := hq1 _ h
        cases this
      · exact hq2 q h

end Op

section ZeroConsume

variable {σ ν : Type} (S : Stores σ)

theorem consume_zero (quoteID : String) :
    Op.Runs (fun r evs =>
      ∀ q, Call.QuoteConsume q (.ok 0) ∈ evs → r = .error .ErrQuoteConsumed)
      (Op.onlyIf (quoteID ≠ "") (do
        let consumed ← QuoteConsume S quoteID
        Op.failIf (consumed = 0) .ErrQuoteConsumed) : Op σ ν Unit) := by
  intro w
  unfold Op.onlyIf
  split
  · rw [Op.bind_apply]
    unfold QuoteConsume Op.call
    cases hc : (S.QuoteConsume quoteID w.db).1 with
    | error e =>
      refine ⟨[Call.QuoteConsume quoteID (.error e)], rfl, fun q hq => ?_⟩
      simp at hq
    | ok n =>
      by_cases hn : n = 0
      · subst hn
        exact ⟨[Call.QuoteConsume quoteID (.ok 0)], rfl, fun _ _ => rfl⟩
      · refine ⟨[Call.QuoteConsume quoteID (.ok n)], ?_, fun q hq => ?_⟩
        · simp only [Op.failIf, if_neg hn]
          rfl
        · simp only [List.mem_singleton, Call.QuoteConsume.injEq, Except.ok.injEq] at hq
          exact absurd hq.2.symm hn
  · exact ⟨[], by simp [Op.ret], fun q hq => by simp at hq⟩

theorem exchangeWork_zero (req : ExchangeRequest) (rate : Decimal) (quoteID : String)
    (expectedConverted : Int) :
    Op.Runs (fun r evs =>
      ∀ q, Call.QuoteConsume q (.ok 0) ∈ evs → r = .error .ErrQuoteConsumed)
      (exchangeWork S req rate quoteID expectedConverted) := by
  unfold exchangeWork UpdateBalance TxCreate InsertEntries AuditLog NewString GetSystemAccount
  refine Op.Runs.zero_after (lockTwoAccounts_emits S _ _ fun _ _ => rfl) fun _ => ?_
  refine Op.Runs.zero_after (Op.Emits.failIf _ _) fun _ => ?_
  refine Op.Runs.zero_after (Op.Emits.modifyVars _) fun _ => ?_
  refine Op.Runs.zero_after (Op.Emits.failIf _ _) fun _ => ?_
  refine Op.Runs.zero_after (Op.Emits.failIf _ _) fun _ => ?_
  refine Op.Runs.zero_after (Op.Emits.failIf _ _) fun _ => ?_
  refine Op.Runs.zero_after (Op.Emits.failIf _ _) fun _ => ?_
  refine Op.Runs.zero_after (Op.Emits.modifyVars _) fun _ => ?_
  refine Op.Runs.zero_after (Op.Emits.call _ _ fun _ => rfl) fun _ => ?_
  refine Op.Runs.zero_after (Op.Emits.call _ _ fun _ => rfl) fun _ => ?_
  refine Op.Runs.zero_after (lockTwoAccounts_emits S _ _ fun _ _ => rfl) fun _ => ?_
  refine Op.Runs.zero_after (Op.Emits.failIf _ _) fun _ => ?_
  refine Op.Runs.zero_after (Op.Emits.call _ _ fun _ => rfl) fun _ => ?_
  refine Op.Runs.zero_after (Op.Emits.call _ _ fun _ => rfl) fun _ => ?_
  refine Op.Runs.zero_after (Op.Emits.call _ _ fun _ => rfl) fun _ => ?_
  refine Op.Runs.zero_after (Op.Emits.call _ _ fun _ => rfl) fun _ => ?_
  refine Op.Runs.zero_after (Op.Emits.ambient _) fun _ => ?_
  refine Op.Runs.zero_after (Op.Emits.modifyVars _) fun _ => ?_
  refine Op.Runs.zero_after (Op.Emits.call _ _ fun _ => rfl) fun _ => ?_
  refine Op.Runs.zero_after (Op.Emits.ambient _) fun _ => ?_
  refine Op.Runs.zero_after (Op.Emits.ambient _) fun _ => ?_
  refine Op.Runs.zero_after (Op.Emits.ambient _) fun _ => ?_
  refine Op.Runs.zero_after (Op.Emits.ambient _) fun _ => ?_
  refine Op.Runs.zero_after (Op.Emits.ofExcept _) fun _ => ?_
  refine Op.Runs.zero_after (Op.Emits.call _ _ fun _ => rfl) fun _ => ?_
  refine Op.Runs.zero_after (Op.Emits.call _ _ fun _ => rfl) fun _ => ?_
  exact consume_zero S quoteID

theorem transferWork_attempt (req : TransferRequest) :
    Op.Runs transferAttempt (transferWork S req) :=
  (transferWork_follows S req).runs_mono fun r evs h =>
    ⟨h.1, fun hr => h.2 () hr⟩

theorem exchangeWork_attempt (req : ExchangeRequest) (rate : Decimal) (quoteID : String)
    (expectedConverted : Int) :
    Op.Runs (exchangeAttempt quoteID) (exchangeWork S req rate quoteID expectedConverted) :=
  ((exchangeWork_follows S req rate quoteID expectedConverted).runs_and
    (exchangeWork_zero S req rate quoteID expectedConverted)).runs_mono fun r evs h =>
    ⟨h.1.1, fun hr => h.1.2 () hr, h.2⟩

end ZeroConsume

section Attempts

variable {σ ν : Type} (S : Stores σ) {P : Except Error Unit → List Call → Prop}

theorem WithTxLoop_run (fn : Op σ ν Unit) (hfn : Op.Runs P fn) :
    ∀ (n attempt : Nat) (w : World σ ν), attempt + n = maxAttempts + 1 → 1 ≤ n →
      ∃ pre last : List Call,
        (WithTxLoop S fn n attempt w).2.log = w.log ++ pre ++ last
        ∧ Retried P attempt pre
        ∧ LastAttempt P (WithTxLoop S fn n attempt w).1 last
        ∧ (∀ u w', WithTxLoop S fn n attempt w = (.ok u, w') →
            ∃ w0 w1 w2, w0.log = w.log ++ pre ∧ (pre = [] → w0 = w)
              ∧ BeginTxx S w0 = (.ok (), w1) ∧ fn w1 = (.ok (), w2)
              ∧ Commit S w2 = (.ok (), w')) := by
  intro n
  induction n with
  | zero => intro attempt w _ h; exact absurd h (by decide)
  | succ n ih =>
    intro attempt w hn _
    rw [WithTxLoop_succ]
    have hbl := BeginTxx_log S w
    rcases hb : BeginTxx S w with ⟨rb, w1⟩
    rw [hb] at hbl
    cases rb with
    | error e =>
      simp only at hbl ⊢
      refine ⟨[], [Call.BeginTxx (.error e)], ?_, Retried.none _, Or.inl rfl, ?_⟩
      · rw [hbl, List.append_nil]
      · intro u w' h
        cases h
    | ok ub =>
      simp only at hbl ⊢
      obtain ⟨evs, hevs, hP⟩ := hfn w1
      rcases hw : fn w1 with ⟨rf, w2⟩
      rw [hw] at hevs hP
      simp only at hevs hP
      cases rf with
      | error e =>
        simp only
        by_cases hretry : (isRetryablePGError e && decide (attempt < maxAttempts)) = true
        · rw [if_pos hretry]
          simp only [Bool.and_eq_true, decide_eq_true_eq] at hretry
          obtain ⟨hre, hlt⟩ := hretry
          obtain ⟨pre, last, hlog, hret, hlast, hok⟩ :=
            ih (attempt + 1) (sleepWithBackoff attempt (Rollback S w2).2).2
              (by omega) (by unfold maxAttempts at hn hlt; omega)
          refine ⟨Call.BeginTxx (.ok ()) :: evs
            ++ [Call.Rollback (S.Rollback w2.db).1, Call.Sleep attempt] ++ pre, last, ?_,
            Retried.rolledBack attempt evs pre e _ hlt hre hP hret, hlast, ?_⟩
          · rw [hlog, sleepWithBackoff_log, Rollback_log, hevs, hbl]
            simp only [List.append_assoc, List.cons_append, List.nil_append]
          · intro u w' h
            obtain ⟨w0, w1', w2', h0, -, hb', hf', hc'⟩ := hok u w' h
            refine ⟨w0, w1', w2', ?_, fun hnil => ?_, hb', hf', hc'⟩
            · rw [h0, sleepWithBackoff_log, Rollback_log, hevs, hbl]
              simp only [List.append_assoc, List.cons_append, List.nil_append]
            · simp at hnil
        · rw [if_neg hretry]
          refine ⟨[], Call.BeginTxx (.ok ()) :: evs ++ [Call.Rollback (S.Rollback w2.db).1],
            ?_, Retried.none _, Or.inr (Or.inl ⟨evs, _, hP, rfl⟩), ?_⟩
          · rw [Rollback_log, hevs, hbl]
            simp only [List.append_assoc, List.cons_append, List.nil_append, List.append_nil]
          · intro u w' h
            cases h
      | ok uf =>
        simp only
        have hcl := Commit_log S w2
        rcases hc : Commit S w2 with ⟨rc, w3⟩
        rw [hc] at hcl
        simp only at hcl
        cases rc with
        | error e =>
          simp only
          by_cases hretry : (isRetryablePGError e && decide (attempt < maxAttempts)) = true
          · rw [if_pos hretry]
            simp only [Bool.and_eq_true, decide_eq_true_eq] at hretry
            obtain ⟨hre, hlt⟩ := hretry
            obtain ⟨pre, last, hlog, hret, hlast, hok⟩ :=
              ih (attempt + 1) (sleepWithBackoff attempt w3).2
                (by omega) (by unfold maxAttempts at hn hlt; omega)
            refine ⟨Call.BeginTxx (.ok ()) :: evs
              ++ [Call.Commit (.error e), Call.Sleep attempt] ++ pre, last, ?_,
              Retried.commitFailed attempt evs pre e hlt hre hP hret, hlast, ?_⟩
            · rw [hlog, sleepWithBackoff_log, hcl, hevs, hbl]
              simp only [List.append_assoc, List.cons_append, List.nil_append]
            · intro u w' h
              obtain ⟨w0, w1', w2', h0, -, hb', hf', hc'⟩ := hok u w' h
              refine ⟨w0, w1', w2', ?_, fun hnil => ?_, hb', hf', hc'⟩
              · rw [h0, sleepWithBackoff_log, hcl, hevs, hbl]
                simp only [List.append_assoc, List.cons_append, List.nil_append]
              · simp at hnil
          · rw [if_neg hretry]
            refine ⟨[], Call.BeginTxx (.ok ()) :: evs ++ [Call.Commit (.error e)],
              ?_, Retried.none _, Or.inr (Or.inr ⟨evs, hP, rfl⟩), ?_⟩
            · rw [hcl, hevs, hbl]
              simp only [List.append_assoc, List.cons_append, List.nil_append, List.append_nil]
            · intro u w' h
              cases h
        | ok uc =>
          simp only
          refine ⟨[], Call.BeginTxx (.ok ()) :: evs ++ [Call.Commit (.ok ())],
            ?_, Retried.none _, ⟨evs, hP, rfl⟩, ?_⟩
          · rw [hcl, hevs, hbl]
            simp only [List.append_assoc, List.cons_append, List.nil_append, List.append_nil]
          · intro u w' h
            simp only [Prod.mk.injEq] at h
            obtain ⟨-, rfl⟩ := h
            exact ⟨w, w1, w2, by simp, fun _ => rfl, hb, hw, hc⟩

theorem WithTx_run (fn : Op σ ν Unit) (hfn : Op.Runs P fn) (w : World σ ν) :
    ∃ pre last : List Call,
      (WithTx S fn w).2.log = w.log ++ pre ++ last
      ∧ Retried P 1 pre
      ∧ LastAttempt P (WithTx S fn w).1 last
      ∧ (∀ u w', WithTx S fn w = (.ok u, w') →
          ∃ w0 w1 w2, w0.log = w.log ++ pre ∧ (pre = [] → w0 = w)
            ∧ BeginTxx S w0 = (.ok (), w1) ∧ fn w1 = (.ok (), w2)
            ∧ Commit S w2 = (.ok (), w')) :=
  WithTxLoop_run S fn hfn maxAttempts 1 w rfl (by decide)

end Attempts

section RetriedFacts

variable {P : Except Error Unit → List Call → Prop}

theorem Retried.forall_cases {Q : Call → Prop}
    (hE : ∀ e evs, isRetryablePGError e = true → P (.error e) evs → ∀ ev ∈ evs, Q ev)
    (hO : ∀ evs, P (.ok ()) evs → ∀ ev ∈ evs, Q ev)
    (hB : Q (Call.BeginTxx (.ok ()))) (hR : ∀ r, Q (Call.Rollback r))
    (hC : ∀ e, Q (Call.Commit (.error e))) (hS : ∀ k, Q (Call.Sleep k))
    {attempt : Nat} {pre : List Call} (h : Retried P attempt pre) : ∀ ev ∈ pre, Q ev := by
  induction h with
  | none => intro ev hev; cases hev
  | rolledBack attempt evs rest e r _ hre hp _ ih =>
    intro ev hev
    simp only [List.cons_append, List.mem_cons, List.mem_append, List.not_mem_nil,
      or_false] at hev
    rcases hev with rfl | (h1 | rfl | rfl) | h1
    · exact hB
    · exact hE _ _ hre hp ev h1
    · exact hR _
    · exact hS _
    · exact ih ev h1
  | commitFailed attempt evs rest e _ _ hp _ ih =>
    intro ev hev
    simp only [List.cons_append, List.mem_cons, List.mem_append, List.not_mem_nil,
      or_false] at hev
    rcases hev with rfl | (h1 | rfl | rfl) | h1
    · exact hB
    · exact hO _ hp ev h1
    · exact hC _
    · exact hS _
    · exact ih ev h1

theorem Retried.forall_of {Q : Call → Prop} (hP : ∀ r evs, P r evs → ∀ ev ∈ evs, Q ev)
    (hB : Q (Call.BeginTxx (.ok ()))) (hR : ∀ r, Q (Call.Rollback r))
    (hC : ∀ e, Q (Call.Commit (.error e))) (hS : ∀ k, Q (Call.Sleep k))
    {attempt : Nat} {pre : List Call} (h : Retried P attempt pre) : ∀ ev ∈ pre, Q ev :=
  Retried.forall_cases (fun _ _ _ hp => hP _ _ hp) (fun _ hp => hP _ _ hp) hB hR hC hS h

theorem Retried.ends_paused {attempt : Nat} {pre : List Call} (h : Retried P attempt pre) :
    pre = [] ∨ ∃ p k, pre = p ++ [Call.Sleep k] := by
  induction h with
  | none => exact Or.inl rfl
  | rolledBack attempt evs rest e r _ _ _ _ ih =>
    right
    rcases ih with rfl | ⟨p, k, rfl⟩
    · exact ⟨Call.BeginTxx (.ok ()) :: evs ++ [Call.Rollback r], attempt, by simp⟩
    · exact ⟨Call.BeginTxx (.ok ()) :: evs ++ [Call.Rollback r, Call.Sleep attempt] ++ p, k,
        by simp⟩
  | commitFailed attempt evs rest e _ _ _ _ ih =>
    right
    rcases ih with rfl | ⟨p, k, rfl⟩
    · exact ⟨Call.BeginTxx (.ok ()) :: evs ++ [Call.Commit (.error e)], attempt, by simp⟩
    · exact ⟨Call.BeginTxx (.ok ()) :: evs ++ [Call.Commit (.error e), Call.Sleep attempt]
        ++ p, k, by simp⟩

theorem attemptsIn_begin_cons (xs : List Call) :
    attemptsIn (Call.BeginTxx (.ok ()) :: xs) = attemptsIn xs + 1 := by
  unfold attemptsIn
  rw [List.countP_cons_of_pos _ _ (show isBegin (Call.BeginTxx (.ok ())) = true from rfl)]

theorem Retried.attempts_pos {attempt : Nat} {pre : List Call} (h : Retried P attempt pre)
    (hne : pre ≠ []) : 1 ≤ attemptsIn pre := by
  cases h with
  | none => exact absurd rfl hne
  | rolledBack attempt evs rest e r _ _ _ _ =>
    simp only [List.cons_append, attemptsIn_begin_cons]
    omega
  | commitFailed attempt evs rest e _ _ _ _ =>
    simp only [List.cons_append, attemptsIn_begin_cons]
    omega

theorem Retried.attempts_le (hP : ∀ r evs, P r evs → attemptsIn evs = 0)
    {attempt : Nat} {pre : List Call} (h : Retried P attempt pre) :
    attemptsIn pre + attempt ≤ maxAttempts ∨ pre = [] := by
  induction h with
  | none => exact Or.inr rfl
  | rolledBack attempt evs rest e r hlt _ hp _ ih =>
    left
    have h0 := hP _ _ hp
    have hb : attemptsIn [Call.BeginTxx (.ok ())] = 1 := rfl
    have hm : attemptsIn [Call.Rollback r, Call.Sleep attempt] = 0 := rfl
    have hsplit : Call.BeginTxx (.ok ()) :: evs ++ [Call.Rollback r, Call.Sleep attempt] ++ rest
        = [Call.BeginTxx (.ok ())] ++ evs ++ [Call.Rollback r, Call.Sleep attempt] ++ rest := rfl
    rw [hsplit, attemptsIn_append, attemptsIn_append, attemptsIn_append, hb, h0, hm]
    rcases ih with h1 | rfl
    · omega
    · have : attemptsIn [] = 0 := rfl
      omega
  | commitFailed attempt evs rest e hlt _ hp _ ih =>
    left
    have h0 := hP _ _ hp
    have hb : attemptsIn [Call.BeginTxx (.ok ())] = 1 := rfl
    have hm : attemptsIn [Call.Commit (.error e), Call.Sleep attempt] = 0 := rfl
    have hsplit : Call.BeginTxx (.ok ()) :: evs ++ [Call.Commit (.error e), Call.Sleep attempt]
          ++ rest
        = [Call.BeginTxx (.ok ())] ++ evs ++ [Call.Commit (.error e), Call.Sleep attempt]
          ++ rest := rfl
    rw [hsplit, attemptsIn_append, attemptsIn_append, attemptsIn_append, hb, h0, hm]
    rcases ih with h1 | rfl
    · omega
    · have : attemptsIn [] = 0 := rfl
      omega

theorem Retried.calls_le {k : String} {c : Nat}
    (hP : ∀ r evs, P r evs → callsOf k evs ≤ c)
    (hk : k ≠ "BeginTxx" ∧ k ≠ "Commit" ∧ k ≠ "Rollback" ∧ k ≠ "Sleep")
    {attempt : Nat} {pre : List Call} (h : Retried P attempt pre) :
    callsOf k pre ≤ c * attemptsIn pre := by
  obtain ⟨k1, k2, k3, k4⟩ := hk
  have hb : callsOf k [Call.BeginTxx (.ok ())] = 0 := by
    simp [callsOf, Call.method, Ne.symm k1]
  induction h with
  | none => simp [callsOf]
  | rolledBack attempt evs rest e r _ _ hp _ ih =>
    have h0 := hP _ _ hp
    have hm : callsOf k [Call.Rollback r, Call.Sleep attempt] = 0 := by
      simp [callsOf, Call.method, Ne.symm k3, Ne.symm k4]
    have hsplit : Call.BeginTxx (.ok ()) :: evs ++ [Call.Rollback r, Call.Sleep attempt] ++ rest
        = [Call.BeginTxx (.ok ())] ++ evs ++ [Call.Rollback r, Call.Sleep attempt] ++ rest := rfl
    have ha : 1 ≤ attemptsIn ([Call.BeginTxx (.ok ())] ++ evs
        ++ [Call.Rollback r, Call.Sleep attempt]) := by
      simp only [List.cons_append, List.nil_append, attemptsIn_begin_cons]
      omega
    rw [hsplit, callsOf_append, callsOf_append, callsOf_append, hb, hm,
      attemptsIn_append, Nat.mul_add]
    have := Nat.mul_le_mul_left c ha
    omega
  | commitFailed attempt evs rest e _ _ hp _ ih =>
    have h0 := hP _ _ hp
    have hm : callsOf k [Call.Commit (.error e), Call.Sleep attempt] = 0 := by
      simp [callsOf, Call.method, Ne.symm k2, Ne.symm k4]
    have hsplit : Call.BeginTxx (.ok ()) :: evs ++ [Call.Commit (.error e), Call.Sleep attempt]
          ++ rest
        = [Call.BeginTxx (.ok ())] ++ evs ++ [Call.Commit (.error e), Call.Sleep attempt]
          ++ rest := rfl
    have ha : 1 ≤ attemptsIn ([Call.BeginTxx (.ok ())] ++ evs
        ++ [Call.Commit (.error e), Call.Sleep attempt]) := by
      simp only [List.cons_append, List.nil_append, attemptsIn_begin_cons]
      omega
    rw [hsplit, callsOf_append, callsOf_append, callsOf_append, hb, hm,
      attemptsIn_append, Nat.mul_add]
    have := Nat.mul_le_mul_left c ha
    omega

end RetriedFacts

section RetriedWork

variable {P : Except Error Unit → List Call → Prop}

theorem isWork_of_method {ev : Call} {ks : List String} (h : ev.method ∈ ks)
    (hks : ∀ k ∈ ks, k ∈ ["GetForUpdate", "GetSystemAccount", "UpdateBalance", "TxCreate",
      "InsertEntries", "AuditLog", "QuoteConsume"]) : ev.isWork = true := by
  have := hks _ h
  cases ev <;> first | rfl | (simp [Call.method] at this)

theorem isWork_of_prefix {evs : List Call} {ks : List String}
    (h : evs.map Call.method <+: ks)
    (hks : ∀ k ∈ ks, k ∈ ["GetForUpdate", "GetSystemAccount", "UpdateBalance", "TxCreate",
      "InsertEntries", "AuditLog", "QuoteConsume"]) : ∀ ev ∈ evs, ev.isWork = true :=
  fun ev hev => isWork_of_method (h.subset (List.mem_map_of_mem _ hev)) hks

theorem isWork_not_begin (ev : Call) (h : ev.isWork = true) : isBegin ev = false := by
  cases ev <;> first | rfl | cases h

theorem attemptsIn_of_work {evs : List Call} (h : ∀ ev ∈ evs, ev.isWork = true) :
    attemptsIn evs = 0 :=
  List.countP_eq_zero.mpr fun ev hev => by simp [isWork_not_begin ev (h ev hev)]

/-- What the retried attempts of a unit of work, whose calls are calls on the stores, leave
in the log: no commit that succeeded, no broadcast, at most four attempts. -/
theorem Retried.retried_of_work (hP : ∀ r evs, P r evs → ∀ ev ∈ evs, ev.isWork = true)
    {pre : List Call} (h : Retried P 1 pre) :
    commitsIn pre = 0 ∧ broadcastsIn pre = 0 ∧ attemptsIn pre ≤ 4
      ∧ (attemptsIn pre = 0 → pre = []) := by
  have hall : ∀ ev ∈ pre, isCommitOK ev = false ∧ ev.isBroadcast = false :=
    Retried.forall_of (fun r evs hp ev hev => isWork_not_commit ev (hP r evs hp ev hev))
      ⟨rfl, rfl⟩ (fun _ => ⟨rfl, rfl⟩) (fun _ => ⟨rfl, rfl⟩) (fun _ => ⟨rfl, rfl⟩) h
  refine ⟨List.countP_eq_zero.mpr fun ev hev => by simp [(hall ev hev).1],
    List.countP_eq_zero.mpr fun ev hev => by simp [(hall ev hev).2], ?_, fun h0 => ?_⟩
  · rcases Retried.attempts_le (fun r evs hp => attemptsIn_of_work (hP r evs hp)) h with h1 | rfl
    · unfold maxAttempts at h1
      omega
    · exact Nat.zero_le _
  · by_contra hne
    have := Retried.attempts_pos h hne
    omega

end RetriedWork

theorem transferAttempt_work (r : Except Error Unit) (evs : List Call)
    (h : transferAttempt r evs) : ∀ ev ∈ evs, ev.isWork = true :=
  isWork_of_prefix h.1 (by decide)

theorem exchangeAttempt_work (quoteID : String) (r : Except Error Unit) (evs : List Call)
    (h : exchangeAttempt quoteID r evs) : ∀ ev ∈ evs, ev.isWork = true := by
  refine isWork_of_prefix h.1 ?_
  unfold exchangeMethods
  by_cases hq : quoteID = ""
  · rw [if_pos hq]; decide
  · rw [if_neg hq]; decide

section CommittedTransfer

variable {σ : Type} (S : Stores σ)

/-- C3: a `Transfer` that returns a transaction id passed the static checks and the three
checks under lock, and the attempt that committed made exactly the calls `transferCalls`:
two `UpdateBalance` calls, writing `F - a` to the source and `T + a` to the destination
account (int64 subtraction and addition on the balances `F`, `T` read under lock; exact
whenever the exact result is an int64), one `Create` of a row of type `transfer`, status
`completed` and amount `a`, and one `InsertEntries` of the two entries `(from, -a)` then
`(to, +a)` in the common currency, both carrying the returned transaction id. The calls made
before that attempt are those of at most four retried attempts, each rolled back or failed
at its commit after at most two `UpdateBalance`, one `Create` and one `InsertEntries` call;
a call that began a single transaction made none. -/
theorem transfer_committed (req : TransferRequest) (w : World σ Unit) (tid : String)
    (h : (Transfer S req w).1 = .ok tid) : TransferCommitted S req w tid := by
  rcases hrun : Transfer S req w with ⟨res, w'⟩
  rw [hrun] at h
  simp only at h
  subst h
  unfold TransferCommitted
  rw [hrun]
  unfold Transfer at hrun
  obtain ⟨_, w1, s1, h1⟩ := bind_ok_elim hrun
  obtain ⟨hpos, -, hl1, -⟩ := failIf_ok_elim s1
  obtain ⟨_, w2, s2, h2⟩ := bind_ok_elim h1
  obtain ⟨hne, -, hl2, -⟩ := failIf_ok_elim s2
  obtain ⟨done, w3, s3, h3⟩ := bind_ok_elim h2
  obtain ⟨wi, hwi, hv, -, hl3, -⟩ := withVars_ok_elim s3
  obtain ⟨_, w4, s4, h4⟩ := bind_ok_elim h3
  obtain ⟨hl4, -⟩ := BroadcastBalance_elim S s4
  obtain ⟨_, w5, s5, h5⟩ := bind_ok_elim h4
  obtain ⟨htid, hw5⟩ := Op.pure_ok_iff.mp h5
  obtain ⟨pre, last, -, hret, -, hok⟩ := WithTx_run S _ (transferWork_attempt S req)
    ({ db := w2.db, log := w2.log, vars := {} } : World σ TransferVars)
  obtain ⟨w0, wb, wf, hpre, -, hb, hf, hc⟩ := hok _ _ hwi
  simp only at hpre
  obtain ⟨accFrom, accTo, tid', d, c, -, hown, hcur, hbal, hlf, hvf⟩ := transferWork_ok S hf
  obtain ⟨-, -, hlb, -⟩ := call_ok_elim hb
  obtain ⟨-, -, hlc, hvc⟩ := call_ok_elim hc
  have hpos' : 0 < req.AmountMinor := not_le.mp hpos
  have hlogi : wi.log = w.log ++ pre ++ transferCalls req accFrom accTo tid' d c := by
    rw [hlc, hlf, hlb, hpre]
    simp only [hl2, hl1, transferCalls, List.tail_cons, List.dropLast, List.append_assoc,
      List.cons_append, List.nil_append]
  have htid' : tid = tid' := by
    rw [htid, hv, hvc, hvf]
  subst htid'
  have hpost : ∃ post, w'.log = wi.log ++ post
      ∧ ∀ e ∈ post, ∃ userID update, e = Call.BroadcastBalance userID update := by
    subst hw5
    unfold Op.onlyIf at s5
    split at s5
    · obtain ⟨hl5, -⟩ := BroadcastBalance_elim S s5
      refine ⟨[Call.BroadcastBalance req.UserID {
            AccountID := req.FromAccountID
            Balance := FormatMinor done.2.fromBalanceAfter
            Currency := done.2.currency },
          Call.BroadcastBalance done.2.toUserID {
            AccountID := req.ToAccountID
            Balance := FormatMinor done.2.toBalanceAfter
            Currency := done.2.currency }], ?_, ?_⟩
      · rw [hl5, hl4, hl3, List.append_assoc]; rfl
      · intro e he
        simp only [List.mem_cons, List.mem_singleton, List.not_mem_nil, or_false] at he
        rcases he with rfl | rfl <;> exact ⟨_, _, rfl⟩
    · simp only [Op.ret, Prod.mk.injEq] at s5
      obtain ⟨-, rfl⟩ := s5
      refine ⟨[Call.BroadcastBalance req.UserID {
            AccountID := req.FromAccountID
            Balance := FormatMinor done.2.fromBalanceAfter
            Currency := done.2.currency }], ?_, ?_⟩
      · rw [hl4, hl3]
      · intro e he
        simp only [List.mem_singleton] at he
        exact ⟨_, _, he⟩
  obtain ⟨post, hlpost, hpostq⟩ := hpost
  obtain ⟨hcommits, hbroadcasts, hfour, hzero⟩ := Retried.retried_of_work transferAttempt_work hret
  have hk : ∀ k, k ≠ "BeginTxx" ∧ k ≠ "Commit" ∧ k ≠ "Rollback" ∧ k ≠ "Sleep" →
      callsOf k pre ≤ transferMethods.count k * attemptsIn pre := fun k hk =>
    Retried.calls_le (fun r evs hp => callsOf_le_of_prefix hp.1) hk hret
  have hlog : w'.log = w.log ++ pre ++ transferCalls req accFrom accTo tid d c ++ post := by
    rw [hlpost, hlogi]
  refine ⟨pre, post, accFrom, accTo, d, c, hpos', hne, hown, hcur, hbal, hlog,
    Retried.ends_paused hret, hret, hcommits, hbroadcasts, hfour, ?_, ?_, ?_, ?_, hpostq,
    ?_, ?_⟩
  · exact hk "UpdateBalance" (by decide)
  · have h1 := hk "TxCreate" (by decide)
    rwa [show transferMethods.count "TxCreate" = 1 from by decide, Nat.one_mul] at h1
  · have h1 := hk "InsertEntries" (by decide)
    rwa [show transferMethods.count "InsertEntries" = 1 from by decide, Nat.one_mul] at h1
  · intro hone
    apply hzero
    have hpost0 : attemptsIn post = 0 := List.countP_eq_zero.mpr fun ev hev => by
      obtain ⟨_, _, rfl⟩ := hpostq ev hev
      simp [isBegin]
    have hcalls : attemptsIn (transferCalls req accFrom accTo tid d c) = 1 := rfl
    rw [hlog, attemptsIn_append, attemptsIn_append, attemptsIn_append, hcalls, hpost0] at hone
    omega
  · intro hF ha
    unfold isInt64 at hF ha
    refine ⟨wrapInt64_of_isInt64 ?_, wrapInt64_of_isInt64 ?_⟩
    · unfold isInt64; omega
    · unfold isInt64; omega
  · intro hT
    exact wrapInt64_of_isInt64 hT

end CommittedTransfer

set_option maxRecDepth 100000 in
/-- C3 on the transfer scenario: balances 10000 and 5000 and amount 1000 give a committed
transfer; the database then holds 9000 and 6000, one transaction row, the two ledger entries
of -1000 and +1000 and one audit row, and the call made two `UpdateBalance`, one `Create` and
one `InsertEntries` call. -/
theorem transfer_committed_witness :
    (Transfer MemDB.stores transferRequest transferDB.world).1 = .ok "id-0"
    ∧ TransferCommitted MemDB.stores transferRequest transferDB.world "id-0"
    ∧ (Transfer MemDB.stores transferRequest transferDB.world).2.db = transferredDB
    ∧ callsOf "UpdateBalance" (Transfer MemDB.stores transferRequest transferDB.world).2.log = 2
    ∧ callsOf "TxCreate" (Transfer MemDB.stores transferRequest transferDB.world).2.log = 1
    ∧ callsOf "InsertEntries" (Transfer MemDB.stores transferRequest transferDB.world).2.log = 1
    ∧ (Transfer MemDB.stores transferRequest transferDB.world).2.db.balanceOf "from" = some 9000
    ∧ (Transfer MemDB.stores transferRequest transferDB.world).2.db.balanceOf "to" = some 6000 :=
  ⟨by decide, transfer_committed MemDB.stores transferRequest transferDB.world "id-0" (by decide),
    by decide, by decide, by decide, by decide, by decide, by decide⟩

set_option maxRecDepth 100000 in
/-- C3, a retried transfer: the first commit of the transfer of 1000 fails with the
serialization failure `40001` and the second attempt commits. The call returns a transaction
id after four `UpdateBalance` calls, two `Create` calls and two `InsertEntries` calls, each
of two entries; the committed tables hold the balances 9000 and 6000, one transaction row
and two ledger entries. -/
theorem transfer_retried_calls_twice :
    (Transfer MemDB.stores transferRequest conflictOnceDB.world).1 = .ok "id-3"
    ∧ attemptsIn (Transfer MemDB.stores transferRequest conflictOnceDB.world).2.log = 2
    ∧ commitsIn (Transfer MemDB.stores transferRequest conflictOnceDB.world).2.log = 1
    ∧ callsOf "UpdateBalance"
        (Transfer MemDB.stores transferRequest conflictOnceDB.world).2.log = 4
    ∧ callsOf "TxCreate" (Transfer MemDB.stores transferRequest conflictOnceDB.world).2.log = 2
    ∧ callsOf "InsertEntries"
        (Transfer MemDB.stores transferRequest conflictOnceDB.world).2.log = 2
    ∧ (Transfer MemDB.stores transferRequest conflictOnceDB.world).2.db.balanceOf "from"
        = some 9000
    ∧ (Transfer MemDB.stores transferRequest conflictOnceDB.world).2.db.balanceOf "to"
        = some 6000
    ∧ (Transfer MemDB.stores transferRequest
        conflictOnceDB.world).2.db.committed.transactions.length = 1
    ∧ (Transfer MemDB.stores transferRequest
        conflictOnceDB.world).2.db.committed.ledger.length = 2 := by
  decide!

section CommittedExchange

variable {σ : Type} (S : Stores σ)

theorem exchangeCommitment_quoteID (req : ExchangeRequest) (w : World σ Unit)
    (pre : ExchangeVars) (h : (exchangeCommitment S req w).1 = .ok pre) :
    pre.quoteID = req.QuoteID.getD ""
    ∧ ((req.QuoteID = none ∧ (exchangeCommitment S req w).2.log = w.log)
      ∨ ∃ quote, req.QuoteID = some pre.quoteID ∧ (exchangeCommitment S req w).2.log
          = w.log ++ [Call.QuoteGetByID pre.quoteID (.ok quote)]) := by
  have hp := exchangeCommitment_pre S req w pre h
  cases hq : req.QuoteID with
  | none =>
    obtain ⟨h1, h2⟩ := hp.2 hq
    exact ⟨h1, Or.inl ⟨rfl, h2⟩⟩
  | some q =>
    obtain ⟨h1, quote, h2⟩ := hp.1 q hq
    refine ⟨h1, Or.inr ⟨quote, by rw [h1], ?_⟩⟩
    rw [h1, h2]

theorem Exchange_ok_shape (req : ExchangeRequest) (w : World σ Unit) (tid : String)
    (h : (Exchange S req w).1 = .ok tid) : ExchangeCommitted S req w tid := by
  rcases hrun : Exchange S req w with ⟨res, w'⟩
  rw [hrun] at h
  simp only at h
  subst h
  unfold ExchangeCommitted
  rw [hrun]
  unfold Exchange at hrun
  obtain ⟨_, w1, s1, h1⟩ := bind_ok_elim hrun
  obtain ⟨hpos, hw1⟩ := Op.failIf_ok_iff.mp s1
  rw [hw1] at h1
  obtain ⟨pre, w2, s2, h2⟩ := bind_ok_elim h1
  obtain ⟨hqid, hlook⟩ := exchangeCommitment_quoteID S req w pre (by rw [s2])
  rw [s2] at hlook
  simp only at hlook
  obtain ⟨done, w3, s3, h3⟩ := bind_ok_elim h2
  obtain ⟨wi, hwi, hv, -, hl3, -⟩ := withVars_ok_elim s3
  obtain ⟨_, w4, s4, h4⟩ := bind_ok_elim h3
  obtain ⟨hl4, -⟩ := BroadcastBalance_elim S s4
  obtain ⟨_, w5, s5, h5⟩ := bind_ok_elim h4
  obtain ⟨hl5, -⟩ := BroadcastBalance_elim S s5
  obtain ⟨htid, hw5⟩ := Op.pure_ok_iff.mp h5
  obtain ⟨retried, last, -, hret, -, hok⟩ := WithTx_run S _
    (exchangeWork_attempt S req pre.rate pre.quoteID pre.expectedConverted)
    ({ db := w2.db, log := w2.log, vars := pre } : World σ ExchangeVars)
  obtain ⟨w0, wb, wf, hpre, -, hb, hf, hc⟩ := hok _ _ hwi
  simp only at hpre
  obtain ⟨accFrom, accTo, sysFrom, sysTo, sf, st, tid', i1, i2, i3, i4, consume, hown, hcur,
    hallowed, -, -, hbal, hsys, hcons, hlf, hvf⟩ := exchangeWork_ok S hf
  obtain ⟨-, -, hlb, -⟩ := call_ok_elim hb
  obtain ⟨-, -, hlc, hvc⟩ := call_ok_elim hc
  have htid' : tid = tid' := by
    rw [htid, hv, hvc, hvf]
  subst htid'
  obtain ⟨hcommits, hbroadcasts, hfour, hzero⟩ :=
    Retried.retried_of_work (exchangeAttempt_work pre.quoteID) hret
  have hk : ∀ k, k ≠ "BeginTxx" ∧ k ≠ "Commit" ∧ k ≠ "Rollback" ∧ k ≠ "Sleep" →
      callsOf k retried ≤ (exchangeMethods pre.quoteID).count k * attemptsIn retried :=
    fun k hk => Retried.calls_le (fun r evs hp => callsOf_le_of_prefix hp.1) hk hret
  have hcount : (exchangeMethods pre.quoteID).count "UpdateBalance" = 4
      ∧ (exchangeMethods pre.quoteID).count "InsertEntries" = 1
      ∧ (exchangeMethods pre.quoteID).count "QuoteConsume" ≤ 1 := by
    unfold exchangeMethods
    by_cases hq : pre.quoteID = ""
    · rw [if_pos hq]; decide
    · rw [if_neg hq]; decide
  have hlogi : wi.log = w2.log ++ retried ++ exchangeCalls req accFrom accTo sysFrom
      sysTo sf st tid i1 i2 i3 i4 pre.quoteID consume := by
    rw [hlc, hlf, hlb, hpre]
    simp only [exchangeCalls, tail_dropLast_calls]
    simp only [List.append_assoc, List.cons_append, List.nil_append]
  obtain ⟨post, hpost, hpb⟩ : ∃ post : List Call, w'.log = wi.log ++ post
      ∧ ∃ b1 b2, post = [Call.BroadcastBalance req.UserID b1,
          Call.BroadcastBalance req.UserID b2] := by
    refine ⟨[Call.BroadcastBalance req.UserID {
              AccountID := req.FromAccountID
              Balance := FormatMinor done.2.fromBalanceAfter
              Currency := done.2.fromCurrency },
            Call.BroadcastBalance req.UserID {
              AccountID := req.ToAccountID
              Balance := FormatMinor done.2.toBalanceAfter
              Currency := done.2.toCurrency }], ?_, _, _, rfl⟩
    rw [hw5, hl5, hl4, hl3]
    simp only [List.append_assoc, List.cons_append, List.nil_append]
  have hpost0 : attemptsIn post = 0 := by
    obtain ⟨b1, b2, rfl⟩ := hpb
    rfl
  have hlog : ∀ lookup, w2.log = w.log ++ lookup →
      w'.log = w.log ++ lookup ++ retried ++ exchangeCalls req accFrom accTo sysFrom
        sysTo sf st tid i1 i2 i3 i4 pre.quoteID consume ++ post := by
    intro lookup hl
    rw [hpost, hlogi, hl]
  have hsingle : ∀ lookup, w2.log = w.log ++ lookup →
      (∀ ev ∈ lookup, isBegin ev = false) →
      attemptsIn w'.log = attemptsIn w.log + 1 → retried = [] := by
    intro lookup hl hlk hone
    apply hzero
    have hlk0 : attemptsIn lookup = 0 := List.countP_eq_zero.mpr fun ev hev => by
      simp [hlk ev hev]
    have hcalls : attemptsIn (exchangeCalls req accFrom accTo sysFrom sysTo sf st tid i1 i2 i3
        i4 pre.quoteID consume) = 1 := by
      rcases hcons with ⟨-, rfl⟩ | ⟨-, n, -, rfl⟩ <;> rfl
    rw [hlog lookup hl, attemptsIn_append, attemptsIn_append, attemptsIn_append,
      attemptsIn_append, hcalls, hlk0, hpost0] at hone
    omega
  have hlast : req.FromAccountID ≠ req.ToAccountID → req.FromAccountID ≠ sf →
      req.FromAccountID ≠ st → req.ToAccountID ≠ sf → req.ToAccountID ≠ st → sf ≠ st →
      lastWrite req.FromAccountID (exchangeCalls req accFrom accTo sysFrom sysTo sf st tid
          i1 i2 i3 i4 pre.quoteID consume) = some (sub64 accFrom.Balance req.AmountMinor)
      ∧ lastWrite sf (exchangeCalls req accFrom accTo sysFrom sysTo sf st tid
          i1 i2 i3 i4 pre.quoteID consume) = some (add64 sysFrom.Balance req.AmountMinor)
      ∧ lastWrite st (exchangeCalls req accFrom accTo sysFrom sysTo sf st tid
          i1 i2 i3 i4 pre.quoteID consume) = some (sub64 sysTo.Balance
            (convertMinor req.AmountMinor (directionalRate accFrom.Currency accTo.Currency)))
      ∧ lastWrite req.ToAccountID (exchangeCalls req accFrom accTo sysFrom sysTo sf st tid
          i1 i2 i3 i4 pre.quoteID consume) = some (add64 accTo.Balance
            (convertMinor req.AmountMinor
              (directionalRate accFrom.Currency accTo.Currency))) := by
    intro d1 d2 d3 d4 d5 d6
    refine lastWrite_exchangeCalls req accFrom accTo sysFrom sysTo sf st tid i1 i2 i3 i4
      pre.quoteID consume ?_ d1 d2 d3 d4 d5 d6
    rcases hcons with ⟨-, hc0⟩ | ⟨-, n, -, hcn⟩
    · exact Or.inl hc0
    · exact Or.inr ⟨n, hcn⟩
  have hu := hk "UpdateBalance" (by decide)
  have hi := hk "InsertEntries" (by decide)
  have hq := hk "QuoteConsume" (by decide)
  rw [hcount.1] at hu
  rw [hcount.2.1, Nat.one_mul] at hi
  have hq' : callsOf "QuoteConsume" retried ≤ attemptsIn retried :=
    hq.trans (by simpa using Nat.mul_le_mul_right (attemptsIn retried) hcount.2.2)
  rcases hlook with ⟨hnone, hl⟩ | ⟨quote, hsome, hl⟩
  · refine ⟨[], retried, post, consume, accFrom, accTo, sysFrom, sysTo, sf, st, i1, i2, i3, i4,
      pre.quoteID, not_le.mp hpos, hown, hcur, hallowed, hbal, hsys, ?_, hqid,
      Or.inl ⟨hnone, rfl⟩, hcons, hret, hcommits, hbroadcasts, hfour, hu, hi, hq', ?_,
      hpb, hlast⟩
    · exact hlog [] (by rw [hl, List.append_nil])
    · exact hsingle [] (by rw [hl, List.append_nil]) (fun _ h => by cases h)
  · refine ⟨[Call.QuoteGetByID pre.quoteID (.ok quote)], retried, post, consume, accFrom, accTo,
      sysFrom, sysTo, sf, st, i1, i2, i3, i4, pre.quoteID, not_le.mp hpos, hown, hcur,
      hallowed, hbal, hsys, ?_, hqid, Or.inr ⟨quote, hsome, rfl⟩, hcons, hret, hcommits,
      hbroadcasts, hfour, hu, hi, hq', ?_, hpb, hlast⟩
    · exact hlog _ hl
    · refine hsingle _ hl (fun ev hev => ?_)
      simp only [List.mem_singleton] at hev
      subst hev
      rfl

/-- C4: an `Exchange` that returns a transaction id passed the checks under lock, and the
attempt that committed made exactly the calls `exchangeCalls`: with `c` the converted amount
`convertMinor a (directional rate)`, four `UpdateBalance` calls writing `F - a` to the user's
source account, `T + c` to the user's destination account, `SF + a` to the source currency's
system account and `ST - c` to the destination currency's system account (int64 arithmetic
on the balances read under lock), which are the balances left written when the four ids are
pairwise distinct; and one `InsertEntries` of the four entries `(from, -a)`, `(system-from,
+a)` in the source currency and `(system-to, -c)`, `(to, +c)` in the destination currency.
The calls made before that attempt are the quote lookup and those of at most four retried
attempts, each rolled back or failed at its commit after at most four `UpdateBalance` calls
and one `InsertEntries` call; a call that began a single transaction made none. -/
theorem exchange_committed (req : ExchangeRequest) (w : World σ Unit) (tid : String)
    (h : (Exchange S req w).1 = .ok tid) : ExchangeCommitted S req w tid :=
  Exchange_ok_shape S req w tid h

end CommittedExchange

set_option maxRecDepth 100000 in
/-- C4 on the exchange scenario: 1000 USD at 0.92 give a committed exchange that converts to
920; the database then holds 9000 and 1920 on the user's accounts and 101000 and 99080 on the
system accounts, one transaction row, the four ledger entries of -1000 and +1000 USD and
-920 and +920 EUR, and one audit row; the call made four `UpdateBalance` calls and one
`InsertEntries` call. -/
theorem exchange_committed_witness :
    (Exchange MemDB.stores exchangeRequest exchangeDB.world).1 = .ok "id-0"
    ∧ ExchangeCommitted MemDB.stores exchangeRequest exchangeDB.world "id-0"
    ∧ convertMinor 1000 (directionalRate "USD" "EUR") = 920
    ∧ (Exchange MemDB.stores exchangeRequest exchangeDB.world).2.db = exchangedDB
    ∧ callsOf "UpdateBalance" (Exchange MemDB.stores exchangeRequest exchangeDB.world).2.log = 4
    ∧ callsOf "InsertEntries" (Exchange MemDB.stores exchangeRequest exchangeDB.world).2.log = 1
    ∧ (entriesInserted (Exchange MemDB.stores exchangeRequest exchangeDB.world).2.log).length
        = 4
    ∧ (Exchange MemDB.stores exchangeRequest exchangeDB.world).2.db.balanceOf "from" = some 9000
    ∧ (Exchange MemDB.stores exchangeRequest exchangeDB.world).2.db.balanceOf "to" = some 1920
    ∧ (Exchange MemDB.stores exchangeRequest exchangeDB.world).2.db.balanceOf "sys-usd"
        = some 101000
    ∧ (Exchange MemDB.stores exchangeRequest exchangeDB.world).2.db.balanceOf "sys-eur"
        = some 99080 :=
  ⟨by decide, exchange_committed MemDB.stores exchangeRequest exchangeDB.world "id-0"
      (by decide),
    by decide, by decide, by decide, by decide, by decide, by decide, by decide, by decide,
    by decide⟩

set_option maxRecDepth 100000 in
/-- C4, a retried exchange: the first commit of the exchange of 1000 USD fails with the
serialization failure `40001` and the second attempt commits. The call returns a transaction
id after eight `UpdateBalance` calls and two `InsertEntries` calls that insert eight ledger
entries in all; the committed tables hold the four balances of one exchange, one transaction
row and four ledger entries. -/
theorem exchange_retried_inserts_twice :
    (Exchange MemDB.stores exchangeRequest exchangeConflictDB.world).1 = .ok "id-5"
    ∧ attemptsIn (Exchange MemDB.stores exchangeRequest exchangeConflictDB.world).2.log = 2
    ∧ commitsIn (Exchange MemDB.stores exchangeRequest exchangeConflictDB.world).2.log = 1
    ∧ callsOf "UpdateBalance"
        (Exchange MemDB.stores exchangeRequest exchangeConflictDB.world).2.log = 8
    ∧ callsOf "InsertEntries"
        (Exchange MemDB.stores exchangeRequest exchangeConflictDB.world).2.log = 2
    ∧ (entriesInserted
        (Exchange MemDB.stores exchangeRequest exchangeConflictDB.world).2.log).length = 8
    ∧ (Exchange MemDB.stores exchangeRequest exchangeConflictDB.world).2.db.balanceOf "from"
        = some 9000
    ∧ (Exchange MemDB.stores exchangeRequest exchangeConflictDB.world).2.db.balanceOf "to"
        = some 1920
    ∧ (Exchange MemDB.stores exchangeRequest exchangeConflictDB.world).2.db.balanceOf "sys-usd"
        = some 101000
    ∧ (Exchange MemDB.stores exchangeRequest exchangeConflictDB.world).2.db.balanceOf "sys-eur"
        = some 99080
    ∧ (Exchange MemDB.stores exchangeRequest
        exchangeConflictDB.world).2.db.committed.transactions.length = 1
    ∧ (Exchange MemDB.stores exchangeRequest
        exchangeConflictDB.world).2.db.committed.ledger.length = 4 := by
  decide!

theorem pair_of_fst {α β : Type} {p : α × β} {a : α} (h : p.1 = a) : p = (a, p.2) := by
  cases p
  cases h
  rfl

section Terminal

variable {σ ν : Type} (S : Stores σ)

/-- C9: when the transaction begins and the work returns an error that is not a retryable
conflict, `WithTx` returns that same error and leaves the world the single run of the work
left, rolled back: the backing state is the one `Rollback` returns from the state the work
left, and the only call added to the log of the work is `Rollback`. The call began one
transaction, ran the work once and committed nothing: the log holds one `BeginTxx` and no
`Commit` beyond the calls of the work itself. Errors that are not driver errors, which
include every business rejection of the service, are never retryable. -/
theorem withTx_terminal_error (fn : Op σ ν Unit) (w w1 w2 : World σ ν) (e : Error)
    (hbegin : BeginTxx S w = (.ok (), w1)) (hwork : fn w1 = (.error e, w2))
    (hterm : isRetryablePGError e = false) :
    WithTx S fn w = (.error e, {
        db := (S.Rollback w2.db).2
        log := w2.log ++ [Call.Rollback (S.Rollback w2.db).1]
        vars := w2.vars })
    ∧ w1 = (⟨(S.BeginTxx w.db).2, w.log ++ [Call.BeginTxx (.ok ())], w.vars⟩ : World σ ν)
    ∧ attemptsIn w1.log = attemptsIn w.log + 1
    ∧ commitsIn w1.log = commitsIn w.log
    ∧ attemptsIn (WithTx S fn w).2.log = attemptsIn w2.log
    ∧ commitsIn (WithTx S fn w).2.log = commitsIn w2.log
    ∧ (∀ e' : Error, (∀ code, e' ≠ .pq code) → isRetryablePGError e' = false) := by
  have hrun : WithTx S fn w = (.error e, {
      db := (S.Rollback w2.db).2
      log := w2.log ++ [Call.Rollback (S.Rollback w2.db).1]
      vars := w2.vars }) := by
    unfold WithTx maxAttempts
    rw [WithTxLoop_succ, hbegin]
    simp only [hwork, hterm, Bool.false_and]
    rfl
  have hw1 : w1 = (⟨(S.BeginTxx w.db).2, w.log ++ [Call.BeginTxx (.ok ())], w.vars⟩ :
      World σ ν) := by
    simp only [BeginTxx, Op.call_ok_iff] at hbegin
    exact hbegin.2
  refine ⟨hrun, hw1, ?_, ?_, ?_, ?_, ?_⟩
  · rw [hw1, attemptsIn_append]
    rfl
  · rw [hw1, commitsIn_append]
    rfl
  · rw [hrun, attemptsIn_append]
    rfl
  · rw [hrun, commitsIn_append]
    rfl
  · intro e' he'
    cases e' <;> first | rfl | exact absurd rfl (he' _)

end Terminal

set_option maxRecDepth 100000 in
/-- C9 on the in-memory stores. The unit of work of an overdrawing transfer fails with
`ErrInsufficientFunds`: `WithTx` returns it after one attempt and no commit, and leaves the
database as it was, with no open transaction. The unit of work of a repeated request fails
with the driver error `23505` after writing both balances: `WithTx` returns it, and the
rollback drops the open transaction with its two balance writes, so the committed tables are
those before the call. -/
theorem withTx_terminal_error_witness :
    (WithTx MemDB.stores (transferWork MemDB.stores overdraftRequest)
        { db := transferDB, log := [], vars := {} }).1 = .error .ErrInsufficientFunds
    ∧ attemptsIn (WithTx MemDB.stores (transferWork MemDB.stores overdraftRequest)
        { db := transferDB, log := [], vars := {} }).2.log = 1
    ∧ commitsIn (WithTx MemDB.stores (transferWork MemDB.stores overdraftRequest)
        { db := transferDB, log := [], vars := {} }).2.log = 0
    ∧ (WithTx MemDB.stores (transferWork MemDB.stores overdraftRequest)
        { db := transferDB, log := [], vars := {} }).2.db = transferDB
    ∧ (WithTx MemDB.stores (transferWork MemDB.stores repeatedRequest)
        { db := afterFirstRequestDB, log := [], vars := {} }).1 = .error (.pq "23505")
    ∧ callsOf "UpdateBalance" (WithTx MemDB.stores (transferWork MemDB.stores repeatedRequest)
        { db := afterFirstRequestDB, log := [], vars := {} }).2.log = 2
    ∧ rejectedDuplicateDB.working.isSome = true
    ∧ rejectedDuplicateDB.current.accounts ≠ afterFirstRequestDB.committed.accounts
    ∧ (WithTx MemDB.stores (transferWork MemDB.stores repeatedRequest)
        { db := afterFirstRequestDB, log := [], vars := {} }).2.db
        = { afterFirstRequestDB with nextID := afterFirstRequestDB.nextID + 1 } := by
  have h := withTx_terminal_error MemDB.stores (transferWork MemDB.stores overdraftRequest)
    { db := transferDB, log := [], vars := {} } _ _ .ErrInsufficientFunds
    (pair_of_fst (by decide)) (pair_of_fst (by decide)) (by decide)
  have h' := withTx_terminal_error MemDB.stores (transferWork MemDB.stores repeatedRequest)
    { db := afterFirstRequestDB, log := [], vars := {} } _ _ (.pq "23505")
    (pair_of_fst (by decide)) (pair_of_fst (by decide)) (by decide)
  exact ⟨congrArg Prod.fst h.1, by decide, by decide, by decide, congrArg Prod.fst h'.1,
    by decide, by decide, by decide, by decide⟩

section AllOutcomes

variable {P : Except Error Unit → List Call → Prop}

theorem countP_work_attempt (p : Call → Bool) (a x : Call) (evs : List Call) :
    (a :: evs ++ [x]).countP p = [a].countP p + evs.countP p + [x].countP p := by
  rw [show a :: evs ++ [x] = [a] ++ evs ++ [x] from rfl, List.countP_append,
    List.countP_append]

/-- What the attempt that was not retried leaves in the log, for a unit of work whose calls
are calls on the stores: one `BeginTxx`, no broadcast, and a successful commit only when
`WithTx` returned no error. -/
theorem LastAttempt.last_of_work (hP : ∀ r evs, P r evs → ∀ ev ∈ evs, ev.isWork = true)
    {r : Except Error Unit} {last : List Call} (h : LastAttempt P r last) :
    attemptsIn last = 1 ∧ broadcastsIn last = 0
      ∧ (∀ e, r = .error e → commitsIn last = 0) := by
  have hzero : ∀ r' evs, P r' evs →
      attemptsIn evs = 0 ∧ broadcastsIn evs = 0 ∧ commitsIn evs = 0 := by
    intro r' evs hp
    have hw := hP r' evs hp
    refine ⟨attemptsIn_of_work hw, ?_, ?_⟩
    · exact List.countP_eq_zero.mpr fun ev hev => by
        simp [(isWork_not_commit ev (hw ev hev)).2]
    · exact List.countP_eq_zero.mpr fun ev hev => by
        simp [(isWork_not_commit ev (hw ev hev)).1]
  cases r with
  | ok u =>
    obtain ⟨evs, hp, rfl⟩ := h
    obtain ⟨z1, z2, z3⟩ := hzero _ _ hp
    refine ⟨?_, ?_, fun e he => (by cases he)⟩
    · unfold attemptsIn at z1 ⊢
      rw [countP_work_attempt, z1]
      rfl
    · unfold broadcastsIn at z2 ⊢
      rw [countP_work_attempt, z2]
      rfl
  | error e =>
    rcases h with rfl | ⟨evs, rb, hp, rfl⟩ | ⟨evs, hp, rfl⟩
    · exact ⟨rfl, rfl, fun _ _ => rfl⟩
    · obtain ⟨z1, z2, z3⟩ := hzero _ _ hp
      refine ⟨?_, ?_, fun _ _ => ?_⟩
      · unfold attemptsIn at z1 ⊢
        rw [countP_work_attempt, z1]
        rfl
      · unfold broadcastsIn at z2 ⊢
        rw [countP_work_attempt, z2]
        rfl
      · unfold commitsIn at z3 ⊢
        rw [countP_work_attempt, z3]
        rfl
    · obtain ⟨z1, z2, z3⟩ := hzero _ _ hp
      refine ⟨?_, ?_, fun _ _ => ?_⟩
      · unfold attemptsIn at z1 ⊢
        rw [countP_work_attempt, z1]
        rfl
      · unfold broadcastsIn at z2 ⊢
        rw [countP_work_attempt, z2]
        rfl
      · unfold commitsIn at z3 ⊢
        rw [countP_work_attempt, z3]
        rfl

theorem LastAttempt.countP_le (p : Call → Bool) (hp : ∀ ev, ev.isWork = false → p ev = false)
    (c : Nat) (hP : ∀ r evs, P r evs → evs.countP p ≤ c)
    {r : Except Error Unit} {last : List Call} (h : LastAttempt P r last) :
    last.countP p ≤ c := by
  cases r with
  | ok u =>
    obtain ⟨evs, hq, rfl⟩ := h
    have := hP _ _ hq
    rw [countP_work_attempt, List.countP_singleton, List.countP_singleton,
      hp _ (show (Call.BeginTxx (.ok ())).isWork = false from rfl),
      hp _ (show (Call.Commit (.ok ())).isWork = false from rfl)]
    simpa using this
  | error e =>
    rcases h with rfl | ⟨evs, rb, hq, rfl⟩ | ⟨evs, hq, rfl⟩
    · rw [List.countP_singleton,
        hp _ (show (Call.BeginTxx (.error e)).isWork = false from rfl)]
      simp
    · have := hP _ _ hq
      rw [countP_work_attempt, List.countP_singleton, List.countP_singleton,
        hp _ (show (Call.BeginTxx (.ok ())).isWork = false from rfl),
        hp _ (show (Call.Rollback rb).isWork = false from rfl)]
      simpa using this
    · have := hP _ _ hq
      rw [countP_work_attempt, List.countP_singleton, List.countP_singleton,
        hp _ (show (Call.BeginTxx (.ok ())).isWork = false from rfl),
        hp _ (show (Call.Commit (.error e)).isWork = false from rfl)]
      simpa using this

theorem LastAttempt.of_mem {B : Call → Prop} {e0 : Error}
    (hB : ∀ ev, B ev → ev.isWork = true)
    (hP : ∀ r evs, P r evs → ∀ ev ∈ evs, B ev → r = .error e0)
    {r : Except Error Unit} {last : List Call} (h : LastAttempt P r last) :
    ∀ ev ∈ last, B ev → r = .error e0 := by
  intro ev hev hb
  have hw := hB ev hb
  cases r with
  | ok u =>
    obtain ⟨evs, hq, rfl⟩ := h
    simp only [List.cons_append, List.mem_cons, List.mem_append, List.mem_singleton,
      List.not_mem_nil, or_false] at hev
    rcases hev with rfl | h1 | rfl
    · cases hw
    · exact hP _ _ hq ev h1 hb
    · cases hw
  | error e =>
    rcases h with rfl | ⟨evs, rb, hq, rfl⟩ | ⟨evs, hq, rfl⟩
    · simp only [List.mem_singleton] at hev
      subst hev
      cases hw
    · simp only [List.cons_append, List.mem_cons, List.mem_append, List.mem_singleton,
      List.not_mem_nil, or_false] at hev
      rcases hev with rfl | h1 | rfl
      · cases hw
      · exact hP _ _ hq ev h1 hb
      · cases hw
    · simp only [List.cons_append, List.mem_cons, List.mem_append, List.mem_singleton,
      List.not_mem_nil, or_false] at hev
      rcases hev with rfl | h1 | rfl
      · cases hw
      · have := hP _ _ hq ev h1 hb
        cases this
      · cases hw

end AllOutcomes

section ExchangeOutcomes

variable {σ : Type} (S : Stores σ)

theorem Exchange_attempts (req : ExchangeRequest) (w : World σ Unit) :
    ∃ (lookup retried last post : List Call),
      (Exchange S req w).2.log = w.log ++ lookup ++ retried ++ last ++ post
      ∧ (∀ ev ∈ lookup, ∃ q r, ev = Call.QuoteGetByID q r)
      ∧ Retried (exchangeAttempt (req.QuoteID.getD "")) 1 retried
      ∧ ((retried = [] ∧ last = [] ∧ post = [] ∧ ∃ e, (Exchange S req w).1 = .error e)
        ∨ (∃ r, LastAttempt (exchangeAttempt (req.QuoteID.getD "")) r last
            ∧ ((∃ e, r = .error e ∧ (Exchange S req w).1 = .error e ∧ post = [])
              ∨ (∃ tid b1 b2, r = .ok () ∧ (Exchange S req w).1 = .ok tid
                  ∧ post = [Call.BroadcastBalance req.UserID b1,
                      Call.BroadcastBalance req.UserID b2])))) := by
  unfold Exchange
  by_cases hpos : req.AmountMinor ≤ 0
  · rw [Op.step_failIf_true hpos]
    exact ⟨[], [], [], [], by simp, by simp, Retried.none _, Or.inl ⟨rfl, rfl, rfl, _, rfl⟩⟩
  rw [Op.step_failIf_false hpos]
  obtain ⟨before, hbefore, hlookup⟩ := exchangeCommitment_lookup S req w
  rcases hc : exchangeCommitment S req w with ⟨rc, wc⟩
  rw [hc] at hbefore
  simp only at hbefore
  cases rc with
  | error e1 =>
    rw [Op.bind_of_error hc]
    refine ⟨before, [], [], [], ?_, hlookup, Retried.none _, Or.inl ⟨rfl, rfl, rfl, e1, rfl⟩⟩
    simp only [List.append_nil]
    exact hbefore
  | ok pre =>
    rw [Op.bind_of_ok hc]
    have hqid := (exchangeCommitment_quoteID S req w pre (by rw [hc])).1
    obtain ⟨retried, last, hlog, hret, hlast, -⟩ := WithTx_run S _
      (exchangeWork_attempt S req pre.rate pre.quoteID pre.expectedConverted)
      ({ db := wc.db, log := wc.log, vars := pre } : World σ ExchangeVars)
    rcases hwt : WithTx S (exchangeWork S req pre.rate pre.quoteID pre.expectedConverted)
      ({ db := wc.db, log := wc.log, vars := pre } : World σ ExchangeVars) with ⟨r2, wi⟩
    rw [hwt] at hlog hlast
    simp only at hlog hlast
    rw [hqid] at hret hlast
    cases r2 with
    | error e2 =>
      have hwv : Op.withVars pre
          (WithTx S (exchangeWork S req pre.rate pre.quoteID pre.expectedConverted)) wc
          = (.error e2, { db := wi.db, log := wi.log, vars := wc.vars }) := by
        unfold Op.withVars
        rw [hwt]
      rw [Op.bind_of_error hwv]
      refine ⟨before, retried, last, [], ?_, hlookup, hret,
        Or.inr ⟨.error e2, hlast, Or.inl ⟨e2, rfl, rfl, rfl⟩⟩⟩
      simp only [List.append_nil]
      rw [hlog, hbefore]
    | ok u =>
      have hwv : Op.withVars pre
          (WithTx S (exchangeWork S req pre.rate pre.quoteID pre.expectedConverted)) wc
          = (.ok (u, wi.vars), { db := wi.db, log := wi.log, vars := wc.vars }) := by
        unfold Op.withVars
        rw [hwt]
      rw [Op.bind_of_ok hwv]
      refine ⟨before, retried, last, [Call.BroadcastBalance req.UserID {
            AccountID := req.FromAccountID
            Balance := FormatMinor wi.vars.fromBalanceAfter
            Currency := wi.vars.fromCurrency },
          Call.BroadcastBalance req.UserID {
            AccountID := req.ToAccountID
            Balance := FormatMinor wi.vars.toBalanceAfter
            Currency := wi.vars.toCurrency }], ?_, hlookup, hret,
        Or.inr ⟨.ok (), hlast, Or.inr ⟨_, _, _, rfl, rfl, rfl⟩⟩⟩
      show (wi.log ++ _) ++ _ = _
      rw [hlog, hbefore]
      simp only [List.append_assoc, List.cons_append, List.nil_append]

theorem exchangeAttempt_consumes (quoteID : String) (r : Except Error Unit) (evs : List Call)
    (h : exchangeAttempt quoteID r evs) : evs.countP Call.isConsume ≤ 1 := by
  have h1 : callsOf "QuoteConsume" evs ≤ (exchangeMethods quoteID).count "QuoteConsume" :=
    callsOf_le_of_prefix h.1
  have h2 : (exchangeMethods quoteID).count "QuoteConsume" ≤ 1 := by
    unfold exchangeMethods
    by_cases hq : quoteID = ""
    · rw [if_pos hq]; decide
    · rw [if_neg hq]; decide
  have h3 := consumesIn_eq_callsOf evs
  unfold consumesIn at h3
  omega

theorem Exchange_no_consume (req : ExchangeRequest) (hq : req.QuoteID.getD "" = "") :
    Op.Emits (fun e => e.isConsume = false) (Exchange S req) := by
  unfold Exchange WithTx
  refine Op.Emits.bind (Op.Emits.failIf _ _) fun _ => ?_
  refine Op.Emits.bind_of ((exchangeCommitment_lookup S req).mono ?_) fun pre hpre => ?_
  · rintro e ⟨_, _, rfl⟩
    rfl
  obtain ⟨w, w1, hw⟩ := hpre
  have hpq : pre.quoteID = "" := by
    rw [(exchangeCommitment_quoteID S req w pre (by rw [hw])).1, hq]
  refine Op.Emits.bind (Op.Emits.withVars _ (WithTxLoop_emits_of S _
    ((exchangeWork_work S req _ _ _).mono fun e he => he.2 hpq)
    (fun _ => rfl) (fun _ => rfl) (fun _ => rfl) (fun _ => rfl) _ _)) fun _ => ?_
  refine Op.Emits.bind (BroadcastBalance_emits S _ _ rfl) fun _ => ?_
  refine Op.Emits.bind (BroadcastBalance_emits S _ _ rfl) fun _ => ?_
  exact Op.Emits.pure _

theorem Exchange_consumes (req : ExchangeRequest) (w : World σ Unit) :
    ∃ evs, (Exchange S req w).2.log = w.log ++ evs
      ∧ consumesIn evs ≤ attemptsIn evs
      ∧ ((∃ q, Call.QuoteConsume q (.ok 0) ∈ evs) →
          (Exchange S req w).1 = .error .ErrQuoteConsumed
          ∧ broadcastsIn evs = 0 ∧ commitsIn evs = 0)
      ∧ (req.QuoteID = none ∨ req.QuoteID = some "" → consumesIn evs = 0) := by
  obtain ⟨lookup, retried, last, post, hlog, hlookup, hret, hcase⟩ := Exchange_attempts S req w
  have hwork := exchangeAttempt_work (req.QuoteID.getD "")
  obtain ⟨rc, rb, -, -⟩ := Retried.retried_of_work hwork hret
  have hrcons : consumesIn retried ≤ attemptsIn retried := by
    have hle : callsOf "QuoteConsume" retried ≤ 1 * attemptsIn retried :=
      Retried.calls_le (fun r evs hp => by
        have := exchangeAttempt_consumes _ r evs hp
        have h3 := consumesIn_eq_callsOf evs
        unfold consumesIn at h3
        omega) (by decide) hret
    rw [consumesIn_eq_callsOf]
    omega
  have hrzero : ∀ ev ∈ retried, ∀ q, ev ≠ Call.QuoteConsume q (.ok 0) := by
    refine Retried.forall_cases (fun e evs hre hp ev hev q hq => ?_)
      (fun evs hp ev hev q hq => ?_) (fun _ h => by cases h) (fun _ _ h => by cases h)
      (fun _ _ h => by cases h) (fun _ _ h => by cases h) hret
    · subst hq
      have := hp.2.2 q hev
      simp only [Except.error.injEq] at this
      subst this
      cases hre
    · subst hq
      have := hp.2.2 q hev
      cases this
  have hl0 : consumesIn lookup = 0 ∧ attemptsIn lookup = 0 ∧ broadcastsIn lookup = 0
      ∧ commitsIn lookup = 0 := by
    refine ⟨List.countP_eq_zero.mpr fun ev hev => ?_, List.countP_eq_zero.mpr fun ev hev => ?_,
      List.countP_eq_zero.mpr fun ev hev => ?_, List.countP_eq_zero.mpr fun ev hev => ?_⟩ <;>
    · obtain ⟨q, r, rfl⟩ := hlookup ev hev
      simp [Call.isConsume, isBegin, Call.isBroadcast, isCommitOK]
  have hlz : ∀ ev ∈ lookup, ∀ q, ev ≠ Call.QuoteConsume q (.ok 0) := by
    intro ev hev q hq
    obtain ⟨q', r, rfl⟩ := hlookup ev hev
    cases hq
  have hnoc : req.QuoteID = none ∨ req.QuoteID = some "" →
      consumesIn (lookup ++ retried ++ last ++ post) = 0 := by
    intro hq
    have hq' : req.QuoteID.getD "" = "" := by
      rcases hq with h | h <;> rw [h] <;> rfl
    have := Op.Emits.countP_eq (Exchange_no_consume S req hq') w
    rw [hlog] at this
    unfold consumesIn
    simp only [List.append_assoc, List.countP_append] at this ⊢
    omega
  refine ⟨lookup ++ retried ++ last ++ post, ?_, ?_, ?_, hnoc⟩
  · rw [hlog]
    simp only [List.append_assoc]
  · rcases hcase with ⟨rfl, rfl, rfl, -⟩ | ⟨r, hlast, hpost⟩
    · simp only [List.append_nil, hl0.1]
      exact Nat.zero_le _
    · obtain ⟨la, lb, lc⟩ := LastAttempt.last_of_work hwork hlast
      have lcons : consumesIn last ≤ 1 :=
        LastAttempt.countP_le Call.isConsume (fun ev h => by cases ev <;> first | rfl | cases h)
          1 (exchangeAttempt_consumes _) hlast
      have hp0 : consumesIn post = 0 := by
        rcases hpost with ⟨e, -, -, rfl⟩ | ⟨tid, b1, b2, -, -, rfl⟩ <;> rfl
      rw [consumesIn_append, consumesIn_append, consumesIn_append, attemptsIn_append,
        attemptsIn_append, attemptsIn_append, hl0.1, hl0.2.1, la, hp0]
      omega
  · rintro ⟨q, hq⟩
    rcases hcase with ⟨rfl, rfl, rfl, -⟩ | ⟨r, hlast, hpost⟩
    · simp only [List.append_nil] at hq
      exact absurd rfl (hlz _ hq q)
    · obtain ⟨la, lb, lc⟩ := LastAttempt.last_of_work hwork hlast
      have hmem : Call.QuoteConsume q (.ok 0) ∈ last := by
        simp only [List.mem_append] at hq
        rcases hq with ((h | h) | h) | h
        · exact absurd rfl (hlz _ h q)
        · exact absurd rfl (hrzero _ h q)
        · exact h
        · rcases hpost with ⟨e, -, -, rfl⟩ | ⟨tid, b1, b2, -, -, rfl⟩
          · cases h
          · simp at h
      have hr : r = .error .ErrQuoteConsumed :=
        LastAttempt.of_mem (B := fun ev => ∃ q, ev = Call.QuoteConsume q (.ok 0))
          (fun ev ⟨q, h⟩ => by subst h; rfl)
          (fun r evs hp ev hev ⟨q, h⟩ => by subst h; exact hp.2.2 q hev)
          hlast _ hmem ⟨q, rfl⟩
      rcases hpost with ⟨e, he, hres, rfl⟩ | ⟨tid, b1, b2, hok, -, -⟩
      · rw [hr] at he
        simp only [Except.error.injEq] at he
        subst he
        refine ⟨hres, ?_, ?_⟩
        · rw [broadcastsIn_append, broadcastsIn_append, broadcastsIn_append, hl0.2.2.1, rb,
            lb]
          rfl
        · rw [commitsIn_append, commitsIn_append, commitsIn_append, hl0.2.2.2, rc,
            lc _ hr]
          rfl
      · rw [hr] at hok
        cases hok

end ExchangeOutcomes

section ConsumeClaim

variable {σ : Type} (S : Stores σ)

/-- C22: for every `Exchange`, whatever the stores do. A call that returns a transaction id
has the shape `ExchangeCommitted`: the attempt that committed consumed the quote exactly
once, after the audit row and before the commit, when the request names a quote with a
non-empty id, and made no `Consume` call otherwise. Over the whole call `Consume` is invoked
at most once per transaction begun, at least once by a successful call that names a
non-empty quote id, and never by a call that names no quote or the quote with the empty id.
When a `Consume` call reports `0` rows, `Exchange` returns `ErrQuoteConsumed`, nothing was
committed and nothing is broadcast. With stores that do not fail, an `Exchange` that names
the quote `quoteID` and passed the checks on the rows read under lock either fails the check
of the system account's funds, or makes exactly the calls `exchangeCalls`: with one
`Consume` call for a non-empty `quoteID`, rolled back with `ErrQuoteConsumed` when it reports
`0` rows and committed otherwise; with no `Consume` call, and committed, for the empty
`quoteID`. -/
theorem exchange_consumes_quote_once :
    (∀ (req : ExchangeRequest) (w : World σ Unit) (tid : String),
      (Exchange S req w).1 = .ok tid → ExchangeCommitted S req w tid)
    ∧ (∀ (req : ExchangeRequest) (w : World σ Unit), ∃ evs,
        (Exchange S req w).2.log = w.log ++ evs
        ∧ consumesIn evs ≤ attemptsIn evs
        ∧ (∀ tid quoteID, (Exchange S req w).1 = .ok tid → req.QuoteID = some quoteID →
            quoteID ≠ "" → 1 ≤ consumesIn evs)
        ∧ ((∃ q, Call.QuoteConsume q (.ok 0) ∈ evs) →
            (Exchange S req w).1 = .error .ErrQuoteConsumed
            ∧ broadcastsIn evs = 0 ∧ commitsIn evs = 0)
        ∧ (req.QuoteID = none ∨ req.QuoteID = some "" → consumesIn evs = 0))
    ∧ (Reliable S → (∀ currency d, ∃ id, (S.GetSystemAccount currency d).1 = .ok id) →
        (∀ quoteID d, ∃ n, (S.QuoteConsume quoteID d).1 = .ok n) →
        ∀ (req : ExchangeRequest) (w : World σ Unit) (pre : ExchangeVars)
          (accFrom accTo : Account) (quoteID : String),
        0 < req.AmountMinor → req.QuoteID = some quoteID →
        (exchangeCommitment S req w).1 = .ok pre →
        (lockTwoAccounts S req.FromAccountID req.ToAccountID
          (BeginTxx S (⟨(exchangeCommitment S req w).2.db,
            (exchangeCommitment S req w).2.log, pre⟩ : World σ ExchangeVars)).2).1
          = .ok (accFrom, accTo) →
        notOwnedBy accFrom.UserID req.UserID = false →
        accFrom.Currency ≠ accTo.Currency →
        isExchangePairAllowed accFrom.Currency accTo.Currency = true →
        pre.rate.Equal (directionalRate accFrom.Currency accTo.Currency) = true →
        (pre.expectedConverted = 0 ∨ pre.expectedConverted
          = convertMinor req.AmountMinor (directionalRate accFrom.Currency accTo.Currency)) →
        req.AmountMinor ≤ accFrom.Balance →
        ∃ (sysFrom sysTo : Account) (sf st : String) (quote : ExchangeQuote),
          (sub64 sysTo.Balance
              (convertMinor req.AmountMinor (directionalRate accFrom.Currency accTo.Currency))
              < 0 →
            (Exchange S req w).1 = .error .ErrInsufficientFunds
            ∧ ∃ r, (Exchange S req w).2.log = w.log ++ [Call.QuoteGetByID quoteID (.ok quote)]
                ++ exchangeReads req accFrom accTo sysFrom sysTo sf st ++ [Call.Rollback r])
          ∧ (0 ≤ sub64 sysTo.Balance
              (convertMinor req.AmountMinor (directionalRate accFrom.Currency accTo.Currency)) →
            (quoteID = "" → ∃ tid i1 i2 i3 i4 b1 b2,
              (Exchange S req w).1 = .ok tid
              ∧ consumesIn (Exchange S req w).2.log = consumesIn w.log
              ∧ (Exchange S req w).2.log = w.log ++ [Call.QuoteGetByID quoteID (.ok quote)]
                ++ exchangeCalls req accFrom accTo sysFrom sysTo sf st tid i1 i2 i3 i4
                    quoteID []
                ++ [Call.BroadcastBalance req.UserID b1, Call.BroadcastBalance req.UserID b2])
            ∧ (quoteID ≠ "" → ∃ tid i1 i2 i3 i4 n d,
              (S.QuoteConsume quoteID d).1 = .ok n
              ∧ consumesIn (Exchange S req w).2.log = consumesIn w.log + 1
              ∧ (n = 0 → (Exchange S req w).1 = .error .ErrQuoteConsumed
                ∧ broadcastsIn (Exchange S req w).2.log = broadcastsIn w.log
                ∧ ∃ r, (Exchange S req w).2.log
                  = w.log ++ [Call.QuoteGetByID quoteID (.ok quote)]
                  ++ (exchangeCalls req accFrom accTo sysFrom sysTo sf st tid i1 i2 i3 i4
                      quoteID [Call.QuoteConsume quoteID (.ok n)]).dropLast
                  ++ [Call.Rollback r])
              ∧ (n ≠ 0 → (Exchange S req w).1 = .ok tid
                ∧ ∃ b1 b2, (Exchange S req w).2.log
                  = w.log ++ [Call.QuoteGetByID quoteID (.ok quote)]
                  ++ exchangeCalls req accFrom accTo sysFrom sysTo sf st tid i1 i2 i3 i4
                      quoteID [Call.QuoteConsume quoteID (.ok n)]
                  ++ [Call.BroadcastBalance req.UserID b1,
                      Call.BroadcastBalance req.UserID b2])))) := by
  refine ⟨Exchange_ok_shape S, fun req w => ?_, ?_⟩
  · obtain ⟨evs, hlog, hle, hzero, hnone⟩ := Exchange_consumes S req w
    refine ⟨evs, hlog, hle, fun tid quoteID hres hq hqne => ?_, hzero, hnone⟩
    obtain ⟨lookup, retried, post, consume, accFrom, accTo, sysFrom, sysTo, sf, st, i1, i2, i3,
      i4, qid, -, -, -, -, -, -, hl, hqid, -, hcons, -⟩ := Exchange_ok_shape S req w tid hres
    rw [hq] at hqid
    simp only [Option.getD_some] at hqid
    subst hqid
    rcases hcons with ⟨h0, -⟩ | ⟨-, n, -, rfl⟩
    · exact absurd h0 hqne
    · have hevs : evs = lookup ++ retried ++ exchangeCalls req accFrom accTo sysFrom sysTo sf st
          tid i1 i2 i3 i4 qid [Call.QuoteConsume qid (.ok n)] ++ post := by
        have hboth : w.log ++ evs = w.log ++ (lookup ++ retried ++ exchangeCalls req accFrom
            accTo sysFrom sysTo sf st tid i1 i2 i3 i4 qid [Call.QuoteConsume qid (.ok n)]
            ++ post) := by
          rw [← hlog, hl]
          simp only [List.append_assoc]
        exact List.append_cancel_left hboth
      have hone : consumesIn (exchangeCalls req accFrom accTo sysFrom sysTo sf st tid i1 i2 i3
          i4 qid [Call.QuoteConsume qid (.ok n)]) = 1 := rfl
      rw [hevs, consumesIn_append, consumesIn_append, consumesIn_append, hone]
      omega
  · intro hR hG hQ req w pre accFrom accTo quoteID hpos hq hc hlock hown hne hpair hrate hconv
      hfunds
    obtain ⟨hpq, quote, hcl⟩ := (exchangeCommitment_pre S req w pre hc).1 quoteID hq
    obtain ⟨sysFrom, sysTo, sf, st, k1, k2⟩ := Exchange_run S hR hG hQ req w pre accFrom accTo
      hpos hc hlock hown hne hpair hrate hconv hfunds
    rw [hpq] at k2
    rw [hcl] at k1 k2
    refine ⟨sysFrom, sysTo, sf, st, quote, k1, fun hok => ⟨fun hq0 => ?_, fun hqne => ?_⟩⟩
    · obtain ⟨tid, i1, i2, i3, i4, b1, b2, hres, hlog⟩ := (k2 hok).1 hq0
      refine ⟨tid, i1, i2, i3, i4, b1, b2, hres, ?_, hlog⟩
      have hcount : consumesIn (exchangeCalls req accFrom accTo sysFrom sysTo sf st tid i1 i2 i3
          i4 quoteID []) = 0 := rfl
      rw [hlog, consumesIn_append, consumesIn_append, consumesIn_append, hcount]
      rfl
    · obtain ⟨tid, i1, i2, i3, i4, n, d, hd, k0, kn⟩ := (k2 hok).2 hqne
      have hcount : consumesIn (exchangeCalls req accFrom accTo sysFrom sysTo sf st tid i1 i2 i3
          i4 quoteID [Call.QuoteConsume quoteID (.ok n)]) = 1 := rfl
      have hcountd : consumesIn (exchangeCalls req accFrom accTo sysFrom sysTo sf st tid i1 i2
          i3 i4 quoteID [Call.QuoteConsume quoteID (.ok n)]).dropLast = 1 := rfl
      have hbd : broadcastsIn (exchangeCalls req accFrom accTo sysFrom sysTo sf st tid i1 i2 i3
          i4 quoteID [Call.QuoteConsume quoteID (.ok n)]).dropLast = 0 := rfl
      refine ⟨tid, i1, i2, i3, i4, n, d, hd, ?_, fun hn => ?_, kn⟩
      · by_cases hn : n = 0
        · obtain ⟨-, r, hlog⟩ := k0 hn
          rw [hlog, consumesIn_append, consumesIn_append, consumesIn_append, hcountd]
          rfl
        · obtain ⟨-, b1, b2, hlog⟩ := kn hn
          rw [hlog, consumesIn_append, consumesIn_append, consumesIn_append, hcount]
          rfl
      · obtain ⟨hres, r, hlog⟩ := k0 hn
        refine ⟨hres, ?_, r, hlog⟩
        rw [hlog, broadcastsIn_append, broadcastsIn_append, broadcastsIn_append, hbd]
        rfl

end ConsumeClaim

set_option maxRecDepth 100000 in
/-- C22 on the stub whose `Consume` reports no affected row: the exchange that names the
quote `q-1` passes every check, makes one `Consume` call, and returns `ErrQuoteConsumed`
without a `BroadcastBalance` call. On the in-memory stores the exchange that names the open
quote `q-1` commits after one `Consume` call, which marks the quote consumed, and the same
request made again returns `ErrQuoteConsumed`. -/
theorem exchange_consumes_quote_once_witness :
    (Exchange consumedQuoteStores quotedExchangeRequest { db := 0, log := [], vars := () }).1
      = .error .ErrQuoteConsumed
    ∧ consumesIn (Exchange consumedQuoteStores quotedExchangeRequest
        { db := 0, log := [], vars := () }).2.log = 1
    ∧ broadcastsIn (Exchange consumedQuoteStores quotedExchangeRequest
        { db := 0, log := [], vars := () }).2.log = 0
    ∧ (Exchange MemDB.stores quotedExchangeRequest (quotedDB "q-1").world).1 = .ok "id-0"
    ∧ consumesIn (Exchange MemDB.stores quotedExchangeRequest (quotedDB "q-1").world).2.log = 1
    ∧ (Exchange MemDB.stores quotedExchangeRequest
        (quotedDB "q-1").world).2.db.committed.quotes.map (fun q => q.ConsumedAt) = [some 0]
    ∧ (Exchange MemDB.stores quotedExchangeRequest
        (Exchange MemDB.stores quotedExchangeRequest (quotedDB "q-1").world).2).1
        = .error .ErrQuoteConsumed := by
  obtain ⟨sysFrom, sysTo, sf, st, quote, k1, k2⟩ :=
    (exchange_consumes_quote_once consumedQuoteStores).2.2 consumedQuoteStores_reliable
      (fun _ _ => ⟨_, rfl⟩) (fun _ _ => ⟨0, rfl⟩) quotedExchangeRequest
      { db := 0, log := [], vars := () }
      { rate := ⟨920000, -6⟩, quoteID := "q-1", expectedConverted := 920,
        fromCurrency := "USD", toCurrency := "EUR" }
      (exchangeStubAccount "from") (exchangeStubAccount "to") "q-1"
      (by decide) rfl (by decide) (by decide) (by decide) (by decide) (by decide) (by decide)
      (Or.inr (by decide)) (by decide)
  have hstub : (Exchange consumedQuoteStores quotedExchangeRequest
        { db := 0, log := [], vars := () }).1 = .error .ErrQuoteConsumed
      ∧ consumesIn (Exchange consumedQuoteStores quotedExchangeRequest
        { db := 0, log := [], vars := () }).2.log = 1
      ∧ broadcastsIn (Exchange consumedQuoteStores quotedExchangeRequest
        { db := 0, log := [], vars := () }).2.log = 0 := by
    rcases lt_or_le (sub64 sysTo.Balance (convertMinor quotedExchangeRequest.AmountMinor
        (directionalRate (exchangeStubAccount "from").Currency
          (exchangeStubAccount "to").Currency))) 0 with hneg | hok
    · have h1 := (k1 hneg).1
      have h2 : (Exchange consumedQuoteStores quotedExchangeRequest
          { db := 0, log := [], vars := () }).1 = .error .ErrQuoteConsumed := by decide
      rw [h2] at h1
      cases h1
    · obtain ⟨tid, i1, i2, i3, i4, n, d, hd, hcount, k0, -⟩ := (k2 hok).2 (by decide)
      have hn : n = 0 := by
        cases hd
        rfl
      obtain ⟨hres, hb, -⟩ := k0 hn
      exact ⟨hres, hcount, hb⟩
  exact ⟨hstub.1, hstub.2.1, hstub.2.2, by decide, by decide, by decide, by decide⟩

set_option maxRecDepth 100000 in
/-- C22, two exchanges that pass all checks and do not consume their quote exactly once. The
exchange that names the open quote whose id is the empty string commits without a `Consume`
call and leaves the quote open. The exchange that names the open quote `q-1` and whose first
commit fails with the serialization failure `40001` commits at its second attempt after two
`Consume` calls, one in each transaction. -/
theorem exchange_consume_skipped_or_repeated :
    (Exchange MemDB.stores emptyQuoteRequest (quotedDB "").world).1 = .ok "id-0"
    ∧ consumesIn (Exchange MemDB.stores emptyQuoteRequest (quotedDB "").world).2.log = 0
    ∧ (Exchange MemDB.stores emptyQuoteRequest
        (quotedDB "").world).2.db.committed.quotes.map (fun q => q.ConsumedAt) = [none]
    ∧ (Exchange MemDB.stores quotedExchangeRequest quotedConflictDB.world).1 = .ok "id-5"
    ∧ attemptsIn (Exchange MemDB.stores quotedExchangeRequest quotedConflictDB.world).2.log = 2
    ∧ commitsIn (Exchange MemDB.stores quotedExchangeRequest quotedConflictDB.world).2.log = 1
    ∧ consumesIn (Exchange MemDB.stores quotedExchangeRequest quotedConflictDB.world).2.log
        = 2 := by
  decide!

end Banking
